import Mathlib

/-! # AT command parser: frame scanner, dispatcher and response encoder

A shallow embedding of `source/at_command_parser.c` (with the constants of
`include/at_command_parser_private.h` and the types of
`include/at_command_parser.h`), followed by theorems about it.

Conventions of the embedding.

* A byte (`uint8_t`, `char`) is a `Nat`; text is a list of character codes.
  A C string argument is represented by the list of its bytes before the
  terminating NUL.
* `uint32_t` arithmetic that can wrap is written with an explicit reduction
  modulo `2 ^ 32` (`u32`, `u32sub`).
* The singleton `g_cmd_parser` of the source is a value of `at_cmd_parser_t` passed from
  call to call.  Its two fixed arrays are lists of `AT_CMD_PARSER_BUFFER_SIZE`
  bytes; a store is made with `List.set` under an explicit bounds test, and a
  store outside the array sets the ghost flag `fault`.
* The external collaborators (transport write, command callbacks, message
  queue, output mutex) are the fields of `Env`; every call made to one of them
  is appended, with its arguments, to the ghost field `trace`.
* A C loop over `chars[i]`, `i < count`, is a structural recursion over the
  bytes still to be read.
-/

namespace AtCmdParser

/-! ## Constants (`at_command_parser_private.h`) -/

/-- Size of the command buffer and of the output buffer: `(6*1024+40)`. -/
def AT_CMD_PARSER_BUFFER_SIZE : Nat := 6 * 1024 + 40

/-- The command prefix `"AT+"`. -/
def AT_CMD_PREFIX : List Nat := [65, 84, 43]

/-- Number of prefix characters. -/
abbrev AT_CMD_PREFIX_CHARS : Nat := 3

/-- Number of digits of the size field. -/
abbrev AT_CMD_SIZE_CHARS : Nat := 4

/-- Smallest header: prefix, size field and one more character. -/
abbrev AT_CMD_MIN_HEADER_SIZE : Nat := AT_CMD_PREFIX_CHARS + AT_CMD_SIZE_CHARS + 1

/-- The terminator character `';'`. -/
abbrev AT_CMD_TERMINATOR_CHAR : Nat := 59

/-- Largest value accepted in the size field by `at_cmd_process_command_buffer`. -/
def AT_CMD_MAX_SIZE : Nat := 6000

/-! ## Machine arithmetic and character classes -/

/-- Reduction of a value to `uint32_t`. -/
def u32 (n : Nat) : Nat := n % 4294967296

/-- Subtraction `a - b` of two `uint32_t` values, wrapping below zero. -/
def u32sub (a b : Nat) : Nat := (a % 4294967296 + 4294967296 - b % 4294967296) % 4294967296

/-- The C library `isdigit` in the C locale. -/
def isdigit (c : Nat) : Bool := decide (48 ≤ c) && decide (c ≤ 57)

/-- The C library `isspace` in the C locale: space, `\t`, `\n`, `\v`, `\f`, `\r`. -/
def isspace (c : Nat) : Bool := c == 32 || (decide (9 ≤ c) && decide (c ≤ 13))

/-- The character codes of a string literal. -/
def bytes (s : String) : List Nat := s.toList.map Char.toNat

/-- The output of `snprintf` with format `"%" PRIu32`: the decimal digits of `n`. -/
def decimal (n : Nat) : List Nat := (Nat.toDigits 10 n).map Char.toNat

/-! ## Types (`at_command_parser.h`, `at_command_parser_private.h`) -/

/-- Status values (`cy_rslt_t`): success, the four codes of this library, and any
other code an external collaborator may return. -/
inductive cy_rslt_t where
  | CY_RSLT_SUCCESS
  | CY_AT_CMD_PARSER_ERROR
  | CY_AT_CMD_PARSER_BAD_PARAM
  | CY_AT_CMD_PARSER_NO_MEMORY
  | CY_AT_CMD_PARSER_BUFFER_OVERFLOW
  | external (code : Nat)
  deriving DecidableEq, Repr

/-- Command message base structure. -/
structure at_cmd_msg_base_t where
  cmd_id : Nat
  serial : Nat
  deriving DecidableEq, Repr

/-- Command table entry; `cmd_name` is `none` for a NULL name and `cmd_parser_fn`
names the callback function. -/
structure at_cmd_def_t where
  cmd_name : Option (List Nat)
  cmd_id : Nat
  cmd_parser_fn : Nat
  deriving DecidableEq, Repr

/-- Node of the list of registered command tables (`next` is the list tail). -/
structure at_cmd_table_t where
  cmd_table : List at_cmd_def_t
  num_cmds : Nat
  deriving DecidableEq, Repr

/-- Calls made to the external collaborators, and the hand-over to the dispatcher. -/
inductive Event where
  /-- A call `write_data(buffer, length, opaque)` with the bytes it carries. -/
  | write (data : List Nat)
  /-- A call `at_cmd_parse_cmd(parser, serial, cmd_len, cmd_buf)` with the
  `cmd_len` bytes found at `cmd_buf`. -/
  | dispatch (serial cmd_len : Nat) (cmd : List Nat)
  /-- A call of a command callback with the string found at `cmd_args`. -/
  | callback (cmd_parser_fn cmd_id serial cmd_args_len : Nat) (cmd_args : List Nat)
  /-- A call `cy_rtos_queue_put` for a message. -/
  | queue_put (msg : at_cmd_msg_base_t)
  /-- A call `free(msg)`. -/
  | free (msg : at_cmd_msg_base_t)
  deriving DecidableEq, Repr

/-- The parser structure; `trace` and `fault` are ghost fields. -/
structure at_cmd_parser_t where
  cmd_tables : List at_cmd_table_t
  echo_cmd : Bool
  reading_cmd : Bool
  cmd_header : Bool
  at_cmd_prefix_idx : Nat
  command_buffer : List Nat
  cmd_widx : Nat
  cmd_size : Nat
  output_buffer : List Nat
  trace : List Event
  fault : Bool
  deriving DecidableEq, Repr

/-- The external collaborators. -/
structure Env where
  /-- Status of `cy_rtos_mutex_get` on the output mutex. -/
  mutex_get : cy_rslt_t
  /-- Status returned by the transport for a write of the given bytes. -/
  write_data : List Nat → cy_rslt_t
  /-- Result of callback `cmd_parser_fn` on `(cmd_id, serial, cmd_args_len, cmd_args)`. -/
  callback : Nat → Nat → Nat → Nat → List Nat → Option at_cmd_msg_base_t
  /-- Status of `cy_rtos_queue_put` for a message. -/
  queue_put : at_cmd_msg_base_t → cy_rslt_t

/-- The parser as it is before any input: zeroed static storage. -/
def g_cmd_parser_0 (tables : List at_cmd_table_t) (echo : Bool) : at_cmd_parser_t :=
  { cmd_tables := tables, echo_cmd := echo, reading_cmd := false, cmd_header := false,
    at_cmd_prefix_idx := 0, command_buffer := List.replicate AT_CMD_PARSER_BUFFER_SIZE 0,
    cmd_widx := 0, cmd_size := 0,
    output_buffer := List.replicate AT_CMD_PARSER_BUFFER_SIZE 0, trace := [], fault := false }

/-- Append an event to the trace. -/
def emit (st : at_cmd_parser_t) (e : Event) : at_cmd_parser_t :=
  { st with trace := st.trace ++ [e] }

/-! ## Response encoder -/

/-- The store `output_buffer[ptr] = c`. -/
def out_put (st : at_cmd_parser_t) (ptr c : Nat) : at_cmd_parser_t :=
  if ptr < AT_CMD_PARSER_BUFFER_SIZE then
    { st with output_buffer := st.output_buffer.set ptr c }
  else { st with fault := true }

/-- Consecutive stores of the bytes `s` from `ptr` on. -/
def out_puts : at_cmd_parser_t → Nat → List Nat → at_cmd_parser_t
  | st, _, [] => st
  | st, ptr, c :: cs => out_puts (out_put st ptr c) (ptr + 1) cs

/-- The stores of `snprintf(ptr, room, ...)` for the formatted text `s`: at most
`room - 1` bytes of it and a NUL, nothing when `room` is 0.  (Its return value is
`s.length`.) -/
def out_snprintf (st : at_cmd_parser_t) (ptr room : Nat) (s : List Nat) : at_cmd_parser_t :=
  if room = 0 then st else out_puts st ptr (s.take (room - 1) ++ [0])

/-- The loop writing the size digits backwards from `size`:
`*size-- = (data_bytes % 10) + '0'; data_bytes /= 10;`, `n` times. -/
def out_size : Nat → at_cmd_parser_t → Nat → Nat → at_cmd_parser_t
  | 0, st, _, _ => st
  | n + 1, st, size, data_bytes =>
    out_size n (out_put st size (data_bytes % 10 + 48)) (size - 1) (data_bytes / 10)

/-- The function `at_cmd_send_host_message`. -/
def at_cmd_send_host_message (env : Env) (st : at_cmd_parser_t) (async_msg : Bool)
    (serial status : Nat) (text : Option (List Nat)) : at_cmd_parser_t × cy_rslt_t :=
  if env.mutex_get ≠ cy_rslt_t.CY_RSLT_SUCCESS then (st, cy_rslt_t.CY_AT_CMD_PARSER_ERROR)
  else
    let buflen := AT_CMD_PARSER_BUFFER_SIZE
    let st := out_put st 0 43
    let st := out_put st 1 (if async_msg then 72 else 83)
    let size := 2
    let st := out_puts st size (List.replicate AT_CMD_SIZE_CHARS 48)
    let ptr := size + AT_CMD_SIZE_CHARS
    let st := out_put st ptr 44
    let ptr := ptr + 1
    let st := out_snprintf st ptr (u32sub buflen ptr) (decimal serial)
    let ptr := ptr + (decimal serial).length
    let st := out_put st ptr 59
    let ptr := ptr + 1
    let data := ptr
    let r : at_cmd_parser_t × Nat :=
      if !async_msg then
        let st := out_snprintf st ptr (u32sub buflen ptr) (decimal status)
        let ptr := ptr + (decimal status).length
        match text with
        | some (c :: cs) =>
          (out_snprintf st ptr (u32sub buflen ptr) (44 :: c :: cs), ptr + (44 :: c :: cs).length)
        | _ => (st, ptr)
      else
        match text with
        | some t => (out_snprintf st ptr (u32sub buflen ptr) t, ptr + t.length)
        | none => ({ st with fault := true }, ptr)
    let st := r.1
    let ptr := r.2
    let data_bytes := u32sub ptr data
    let st := out_size AT_CMD_SIZE_CHARS st (size + (AT_CMD_SIZE_CHARS - 1)) data_bytes
    let st := out_put st ptr 59
    let st := out_put st (ptr + 1) 13
    let st := out_put st (ptr + 2) 10
    let ptr := ptr + 3
    let st := out_put st ptr 0
    let result := env.write_data (st.output_buffer.take ptr)
    (emit st (Event.write (st.output_buffer.take ptr)), result)

/-- The function `at_cmd_parser_send_cmd_response`. -/
def at_cmd_parser_send_cmd_response (env : Env) (st : at_cmd_parser_t)
    (serial status : Nat) (text : Option (List Nat)) : at_cmd_parser_t × cy_rslt_t :=
  at_cmd_send_host_message env st false serial status text

/-- The function `at_cmd_parser_send_cmd_async_response`. -/
def at_cmd_parser_send_cmd_async_response (env : Env) (st : at_cmd_parser_t)
    (serial : Nat) (text : Option (List Nat)) : at_cmd_parser_t × cy_rslt_t :=
  at_cmd_send_host_message env st true serial 0 text

/-! ## Frame scanner and dispatcher -/

/-- The function `at_cmd_reset_command_buffer`. -/
def at_cmd_reset_command_buffer (st : at_cmd_parser_t) : at_cmd_parser_t :=
  { st with reading_cmd := false, cmd_header := false, cmd_widx := 0, cmd_size := 0,
            at_cmd_prefix_idx := 0 }

/-- The store `command_buffer[i] = c`. -/
def buf_set (st : at_cmd_parser_t) (i c : Nat) : at_cmd_parser_t :=
  if i < AT_CMD_PARSER_BUFFER_SIZE then
    { st with command_buffer := st.command_buffer.set i c }
  else { st with fault := true }

/-- The read `command_buffer[i]`. -/
def buf_get (st : at_cmd_parser_t) (i : Nat) : Nat := st.command_buffer.getD i 0

/-- The store `command_buffer[cmd_widx++] = c`. -/
def buf_push (st : at_cmd_parser_t) (c : Nat) : at_cmd_parser_t :=
  { buf_set st st.cmd_widx c with cmd_widx := st.cmd_widx + 1 }

/-- The NUL-terminated string found at `command_buffer + p`. -/
def cstr (st : at_cmd_parser_t) (p : Nat) : List Nat :=
  (st.command_buffer.drop p).takeWhile (fun c => c != 0)

/-- The search of the registered tables made by `at_cmd_parse_cmd`: tables in list
order, entries `0 .. num_cmds - 1` of a table in index order, the first entry with
a non-NULL name of length `len` whose first `len` bytes equal those of `name`. -/
def find_cmd (tables : List at_cmd_table_t) (name : List Nat) : Option at_cmd_def_t :=
  tables.findSome? fun table =>
    (table.cmd_table.take table.num_cmds).find? fun cmd =>
      match cmd.cmd_name with
      | none => false
      | some n => n.length == name.length && name.take name.length == n.take name.length

/-- The function `at_cmd_parse_cmd`, called with `cmd_buf = command_buffer + cmd_buf`
(the field `cmd_parser` of a table entry is named `cmd_parser_fn` here). -/
def at_cmd_parse_cmd (env : Env) (st : at_cmd_parser_t) (serial cmd_len cmd_buf : Nat) :
    at_cmd_parser_t × Option at_cmd_msg_base_t :=
  let st := emit st (Event.dispatch serial cmd_len ((st.command_buffer.drop cmd_buf).take cmd_len))
  -- scan until a comma or a NUL
  let stop := ((st.command_buffer.drop cmd_buf).takeWhile (fun c => c != 0 && c != 44)).length
  let r : at_cmd_parser_t × Nat :=
    if buf_get st (cmd_buf + stop) = 44 then (buf_set st (cmd_buf + stop) 0, cmd_buf + stop + 1)
    else (st, cmd_buf + stop)
  let st := r.1
  let ptr := r.2
  let name := cstr st cmd_buf
  match find_cmd st.cmd_tables name with
  | none => (st, none)
  | some cmd =>
    let cmd_args_len := u32sub cmd_len (u32sub ptr cmd_buf)
    let cmd_args := cstr st ptr
    (emit st (Event.callback cmd.cmd_parser_fn cmd.cmd_id serial cmd_args_len cmd_args),
     env.callback cmd.cmd_parser_fn cmd.cmd_id serial cmd_args_len cmd_args)

/-- The loop of `at_cmd_process_command_buffer` reading the size digits
`buffer[AT_CMD_PREFIX_CHARS + i]`; `none` when one of them is not a digit. -/
def process_size (st : at_cmd_parser_t) : Nat → Nat → Nat → Option Nat
  | 0, _, size => some size
  | n + 1, i, size =>
    if !isdigit (buf_get st (AT_CMD_PREFIX_CHARS + i)) then none
    else process_size st n (i + 1) (u32 (size * 10 + buf_get st (AT_CMD_PREFIX_CHARS + i) - 48))

/-- The last part of `at_cmd_process_command_buffer`, from the stripping of the
trailing `;` on: `serial` is the parsed serial number, `ptr` the index of the byte
after the header terminator, `count` the argument of the call. -/
def process_dispatch (env : Env) (st : at_cmd_parser_t) (serial ptr count : Nat) :
    at_cmd_parser_t × cy_rslt_t :=
  -- strip off the trailing ;
  let end_ := count - 1
  let r : at_cmd_parser_t × Nat :=
    if buf_get st end_ = AT_CMD_TERMINATOR_CHAR then (buf_set st end_ 0, count - 1)
    else (st, count)
  let st := r.1
  let count := r.2
  -- send the command to the command parser
  let p := at_cmd_parse_cmd env st serial (u32sub count ptr) ptr
  match p.2 with
  | none =>
    ((at_cmd_parser_send_cmd_response env p.1 0 1 (some (bytes "Invalid cmd"))).1,
     cy_rslt_t.CY_AT_CMD_PARSER_ERROR)
  | some msg =>
    -- and send it off
    let result := env.queue_put msg
    let st := emit p.1 (Event.queue_put msg)
    if result ≠ cy_rslt_t.CY_RSLT_SUCCESS then
      (emit (at_cmd_parser_send_cmd_response env st 0 1 (some (bytes "queue error"))).1
         (Event.free msg), result)
    else (st, result)

/-- The first part of `at_cmd_process_command_buffer`: when `echo_cmd` is set, the
writes of the `count` bytes of the buffer and of `"\n\r"`. -/
def echoed (st : at_cmd_parser_t) (count : Nat) : at_cmd_parser_t :=
  if st.echo_cmd then
    emit (emit st (Event.write (st.command_buffer.take count))) (Event.write [10, 13])
  else st

/-- The function `at_cmd_process_command_buffer`, called with
`buffer = command_buffer`. -/
def at_cmd_process_command_buffer (env : Env) (st : at_cmd_parser_t) (count : Nat) :
    at_cmd_parser_t × cy_rslt_t :=
  let st := echoed st count
  if count < AT_CMD_MIN_HEADER_SIZE ∨ st.command_buffer.take AT_CMD_PREFIX_CHARS ≠ AT_CMD_PREFIX then
    ((at_cmd_parser_send_cmd_response env st 0 1 (some (bytes "Invalid command"))).1,
     cy_rslt_t.CY_AT_CMD_PARSER_ERROR)
  else
    match process_size st AT_CMD_SIZE_CHARS 0 0 with
    | none =>
      ((at_cmd_parser_send_cmd_response env st 0 1 (some (bytes "Invalid size digit"))).1,
       cy_rslt_t.CY_AT_CMD_PARSER_ERROR)
    | some size =>
      if size > AT_CMD_MAX_SIZE then
        ((at_cmd_parser_send_cmd_response env st 0 1 (some (bytes "Invalid size"))).1,
         cy_rslt_t.CY_AT_CMD_PARSER_ERROR)
      else
        -- there must be a serial number specified
        let digits := (st.command_buffer.drop (AT_CMD_PREFIX_CHARS + AT_CMD_SIZE_CHARS)).takeWhile isdigit
        let serial := digits.foldl (fun serial c => u32 (serial * 10 + c - 48)) 0
        let ptr := AT_CMD_PREFIX_CHARS + AT_CMD_SIZE_CHARS + digits.length
        if buf_get st ptr ≠ AT_CMD_TERMINATOR_CHAR then
          ((at_cmd_parser_send_cmd_response env st 0 1 (some (bytes "Invalid format"))).1,
           cy_rslt_t.CY_AT_CMD_PARSER_ERROR)
        else process_dispatch env st serial (ptr + 1) count

/-- The function `at_cmd_scan_cmd_header` on the bytes `chars[i ..]` still to be
read, `count` being the argument of the call; returns the state and the returned
value. -/
def at_cmd_scan_cmd_header (env : Env) (count : Nat) :
    at_cmd_parser_t → List Nat → Nat → at_cmd_parser_t × Nat
  | st, [], i => (st, i)
  | st, c :: cs, i =>
    if st.cmd_widx < AT_CMD_PREFIX_CHARS + AT_CMD_SIZE_CHARS then
      -- extracting the command length field
      if !isdigit c then
        (at_cmd_reset_command_buffer
           (at_cmd_parser_send_cmd_response env st 0 1 (some (bytes "Invalid size digit"))).1,
         count)
      else
        at_cmd_scan_cmd_header env count
          (buf_push { st with cmd_size := u32 (st.cmd_size * 10 + c - 48) } c) cs (i + 1)
    else if st.cmd_widx = AT_CMD_PREFIX_CHARS + AT_CMD_SIZE_CHARS ∧ !isdigit c then
      (at_cmd_reset_command_buffer
         (at_cmd_parser_send_cmd_response env st 0 1 (some (bytes "Invalid serial digit"))).1,
       count)
    else if !isdigit c ∧ c ≠ AT_CMD_TERMINATOR_CHAR then
      (at_cmd_reset_command_buffer
         (at_cmd_parser_send_cmd_response env st 0 1 (some (bytes "Invalid format"))).1,
       count)
    else if c = AT_CMD_TERMINATOR_CHAR then
      let st := { buf_push st c with cmd_header := false }
      if st.cmd_size > 0 then
        -- the specified size is the number of characters between the ';' characters
        let st := { st with cmd_size := u32 (st.cmd_size + (st.cmd_widx + 1)) }
        if st.cmd_size > AT_CMD_PARSER_BUFFER_SIZE then
          (at_cmd_reset_command_buffer
             (at_cmd_parser_send_cmd_response env st 0 1
               (some (bytes "Input buffer size exceeded"))).1,
           count)
        else (st, i)
      else (st, i)
    else
      at_cmd_scan_cmd_header env count (buf_push st c) cs (i + 1)

/-- The function `at_cmd_scan_for_prefix` on the bytes `chars[i ..]` still to be
read; returns the state and the returned value. -/
def at_cmd_scan_for_prefix : at_cmd_parser_t → List Nat → Nat → at_cmd_parser_t × Nat
  | st, [], i => (st, i)
  | st, c :: cs, i =>
    if c = AT_CMD_PREFIX.getD st.at_cmd_prefix_idx 0 then
      let st := buf_push st c
      let st := { st with at_cmd_prefix_idx := st.at_cmd_prefix_idx + 1 }
      if st.at_cmd_prefix_idx = AT_CMD_PREFIX_CHARS then
        ({ st with at_cmd_prefix_idx := 0, reading_cmd := true, cmd_header := true }, i + 1)
      else at_cmd_scan_for_prefix st cs (i + 1)
    else if st.at_cmd_prefix_idx > 0 ∧ c = AT_CMD_PREFIX.getD 0 0 then
      -- the bad character may start a new command start sequence: keep it
      at_cmd_scan_for_prefix
        { buf_set st 0 c with at_cmd_prefix_idx := 1, cmd_widx := 1 } cs (i + 1)
    else
      at_cmd_scan_for_prefix { st with at_cmd_prefix_idx := 0, cmd_widx := 0 } cs (i + 1)

/-- The main loop `for (i = bytes_used; i < count; i++)` of
`at_cmd_add_command_chars` on the bytes `chars[i ..]` still to be read.  `skip`
is the number of those bytes the index has already been moved over (by
`i += bytes_used` after the header scan, or by the skipping of white space), and
`result` the current value of the variable `result`. -/
def add_chars_loop (env : Env) :
    at_cmd_parser_t → List Nat → Nat → cy_rslt_t → at_cmd_parser_t × cy_rslt_t
  | st, [], _, result => (st, result)
  | st, _ :: cs, skip + 1, result => add_chars_loop env st cs skip result
  | st, c :: cs, 0, result =>
    if st.cmd_header then
      -- reading the command header information
      let r := at_cmd_scan_cmd_header env (c :: cs).length st (c :: cs) 0
      add_chars_loop env r.1 cs r.2 result
    else if c = 10 then
      -- line feed: ignore it if size is not specified
      add_chars_loop env (if st.cmd_size ≠ 0 then buf_push st c else st) cs 0 result
    else
      let st := buf_set st st.cmd_widx c
      if st.cmd_size = 0 ∧ buf_get st st.cmd_widx = 13 then
        let st := buf_set st st.cmd_widx 0
        let r := at_cmd_process_command_buffer env st st.cmd_widx
        add_chars_loop env (at_cmd_reset_command_buffer r.1) cs 0 r.2
      else if st.cmd_size ≠ 0 ∧ st.cmd_widx = st.cmd_size - 1 then
        let st := { st with cmd_widx := st.cmd_widx + 1 }
        let st := buf_set st st.cmd_widx 0
        let len := st.cmd_widx
        -- since a command size was specified, the command string must end with ;
        if buf_get st (len - 1) ≠ AT_CMD_TERMINATOR_CHAR then
          (at_cmd_reset_command_buffer
             (at_cmd_parser_send_cmd_response env st 0 1 (some (bytes "bad cmd trailer"))).1,
           cy_rslt_t.CY_AT_CMD_PARSER_ERROR)
        else
          let r := at_cmd_process_command_buffer env st len
          -- skip over any trailing whitespace in the buffer
          add_chars_loop env (at_cmd_reset_command_buffer r.1) cs
            (cs.takeWhile isspace).length r.2
      else
        add_chars_loop env { st with cmd_widx := st.cmd_widx + 1 } cs 0 result

/-- The function `at_cmd_add_command_chars`; `count` is the length of `chars`. -/
def at_cmd_add_command_chars (env : Env) (st : at_cmd_parser_t) (chars : List Nat) :
    at_cmd_parser_t × cy_rslt_t :=
  if chars.length = 0 then (st, cy_rslt_t.CY_AT_CMD_PARSER_BAD_PARAM)
  else if u32 (st.cmd_widx + chars.length) ≥ AT_CMD_PARSER_BUFFER_SIZE then
    (at_cmd_reset_command_buffer
       (at_cmd_parser_send_cmd_response env st 0 1 (some (bytes "Input buffer size exceeded"))).1,
     cy_rslt_t.CY_AT_CMD_PARSER_BUFFER_OVERFLOW)
  else
    -- are we scanning for the command prefix?
    let r : at_cmd_parser_t × Nat :=
      if !st.reading_cmd then at_cmd_scan_for_prefix st chars 0 else (st, 0)
    let st := r.1
    let bytes_used := r.2
    if !st.reading_cmd then (st, cy_rslt_t.CY_RSLT_SUCCESS)
    else add_chars_loop env st (chars.drop bytes_used) 0 cy_rslt_t.CY_RSLT_SUCCESS

/-- Successive calls of `at_cmd_add_command_chars`, one per chunk, as made by
`at_cmd_input_thread_func` for the successive non-empty reads of the transport;
returns the state and the status of the last call. -/
def feed (env : Env) : at_cmd_parser_t → List (List Nat) → at_cmd_parser_t × cy_rslt_t
  | st, [] => (st, cy_rslt_t.CY_RSLT_SUCCESS)
  | st, [chunk] => at_cmd_add_command_chars env st chunk
  | st, chunk :: rest => feed env (at_cmd_add_command_chars env st chunk).1 rest

/-- The function `at_cmd_parser_register_commands`; `cmd_table` is `none` for a
NULL pointer and `alloc_ok` tells whether `calloc` returns a node. -/
def at_cmd_parser_register_commands (st : at_cmd_parser_t) (alloc_ok : Bool)
    (cmd_table : Option (List at_cmd_def_t)) (num_cmds : Nat) :
    at_cmd_parser_t × cy_rslt_t :=
  match cmd_table with
  | none => (st, cy_rslt_t.CY_AT_CMD_PARSER_BAD_PARAM)
  | some table =>
    if num_cmds = 0 then (st, cy_rslt_t.CY_AT_CMD_PARSER_BAD_PARAM)
    else if !alloc_ok then (st, cy_rslt_t.CY_AT_CMD_PARSER_NO_MEMORY)
    else
      ({ st with cmd_tables := st.cmd_tables ++ [{ cmd_table := table, num_cmds := num_cmds }] },
       cy_rslt_t.CY_RSLT_SUCCESS)

/-- An environment in which every external call succeeds and every callback
returns a message carrying its command id and serial. -/
def env_ok : Env :=
  { mutex_get := cy_rslt_t.CY_RSLT_SUCCESS,
    write_data := fun _ => cy_rslt_t.CY_RSLT_SUCCESS,
    callback := fun _ cmd_id serial _ _ => some { cmd_id := cmd_id, serial := serial },
    queue_put := fun _ => cy_rslt_t.CY_RSLT_SUCCESS }

/-- A registry with one table holding the commands `ECHO` (id 1, callback 100) and
`PING` (id 2, callback 200). -/
def demo_tables : List at_cmd_table_t :=
  [{ cmd_table := [{ cmd_name := some (bytes "ECHO"), cmd_id := 1, cmd_parser_fn := 100 },
                   { cmd_name := some (bytes "PING"), cmd_id := 2, cmd_parser_fn := 200 }],
     num_cmds := 2 }]

/-- The parser before any input, with the registry `demo_tables` and echo off. -/
def demo_state : at_cmd_parser_t := g_cmd_parser_0 demo_tables false

/-! ## Definitions used in the statements -/

/-- The zero-padded 4-digit decimal of `n` (for `n < 10000`). -/
def pad4 (n : Nat) : List Nat :=
  [n / 1000 % 10 + 48, n / 100 % 10 + 48, n / 10 % 10 + 48, n % 10 + 48]

/-- The payload of a synchronous response: `status[,text]`. -/
def sync_payload (status : Nat) (text : Option (List Nat)) : List Nat :=
  match text with
  | some (c :: cs) => decimal status ++ 44 :: c :: cs
  | _ => decimal status

/-- The response frame `+` kind `SSSS , serial ; payload ; \r \n`. -/
def response_frame (kind : Nat) (serial : Nat) (payload : List Nat) : List Nat :=
  [43, kind] ++ pad4 payload.length ++ [44] ++ decimal serial ++ [59] ++ payload ++ [59, 13, 10]

/-- The first `pre.length` bytes of the output buffer are `pre`, the buffer has its
declared size and the scanner part of the state is that of `st0`. -/
structure OutIs (st0 st : at_cmd_parser_t) (pre : List Nat) : Prop where
  take_eq : st.output_buffer.take pre.length = pre
  len : st.output_buffer.length = AT_CMD_PARSER_BUFFER_SIZE
  rest : { st with output_buffer := st0.output_buffer } = st0

/-- The state after the one-byte call `at_cmd_add_command_chars(parser, &c, 1)`. -/
def step (env : Env) (st : at_cmd_parser_t) (c : Nat) : at_cmd_parser_t :=
  (at_cmd_add_command_chars env st [c]).1

/-- The state after feeding the bytes `cs` one per call. -/
def run (env : Env) (st : at_cmd_parser_t) (cs : List Nat) : at_cmd_parser_t :=
  cs.foldl (step env) st

/-- The byte `c` neither aborts nor completes a frame in state `st`: the tests
are those made by the scanner on its way through the byte. -/
def continuing (st : at_cmd_parser_t) (c : Nat) : Bool :=
  if !st.reading_cmd then true
  else if st.cmd_header then
    if st.cmd_widx < AT_CMD_PREFIX_CHARS + AT_CMD_SIZE_CHARS then isdigit c
    else if st.cmd_widx = AT_CMD_PREFIX_CHARS + AT_CMD_SIZE_CHARS ∧ !isdigit c then false
    else if !isdigit c ∧ c ≠ AT_CMD_TERMINATOR_CHAR then false
    else if c = AT_CMD_TERMINATOR_CHAR then
      decide (¬ (st.cmd_size > 0 ∧
        u32 (st.cmd_size + (st.cmd_widx + 1 + 1)) > AT_CMD_PARSER_BUFFER_SIZE))
    else true
  else if c = 10 then true
  else if (buf_set st st.cmd_widx c).cmd_size = 0 ∧
      buf_get (buf_set st st.cmd_widx c) (buf_set st st.cmd_widx c).cmd_widx = 13 then false
  else if (buf_set st st.cmd_widx c).cmd_size ≠ 0 ∧
      (buf_set st st.cmd_widx c).cmd_widx = (buf_set st st.cmd_widx c).cmd_size - 1 then false
  else true

/-- Every byte of `cs`, fed from `st` on, neither aborts nor completes a frame. -/
def all_continuing (env : Env) : at_cmd_parser_t → List Nat → Prop
  | _, [] => True
  | st, c :: cs => continuing st c = true ∧ all_continuing env (step env st c) cs

/-- The per-frame state is the reset one and the command buffer has its declared
size: the scanner state before any input and after every completed frame. -/
structure Fresh (st : at_cmd_parser_t) : Prop where
  reading : st.reading_cmd = false
  header : st.cmd_header = false
  widx : st.cmd_widx = 0
  size : st.cmd_size = 0
  pidx : st.at_cmd_prefix_idx = 0
  len : st.command_buffer.length = AT_CMD_PARSER_BUFFER_SIZE

/-- The state inside a frame begun in state `st0`, the bytes `p` being stored. -/
def mid (st0 : at_cmd_parser_t) (p : List Nat) (hdr : Bool) (size : Nat) : at_cmd_parser_t :=
  { st0 with reading_cmd := true, cmd_header := hdr, at_cmd_prefix_idx := 0,
             command_buffer := p ++ st0.command_buffer.drop p.length,
             cmd_widx := p.length, cmd_size := size }

/-- The state while scanning for the prefix, begun in state `st0`: `k` prefix bytes
are matched and the first three bytes of the command buffer are `a`, `b`, `x`. -/
def pre (st0 : at_cmd_parser_t) (k a b x : Nat) : at_cmd_parser_t :=
  { st0 with at_cmd_prefix_idx := k, cmd_widx := k,
             command_buffer := a :: b :: x :: st0.command_buffer.drop 3 }

/-- The number of prefix bytes matched after an input without a full prefix, from
the input read backwards: 2 after `AT`, 1 after `A`, 0 otherwise. -/
def prefix_progress (r : List Nat) : Nat :=
  if r.head? = some 65 then 1
  else if r.head? = some 84 ∧ r.tail.head? = some 65 then 2
  else 0

/-- The accumulation of decimal digits made by the scanner and the dispatcher:
`v = (v * 10) + c - '0'` in `uint32_t`, from the value `v`. -/
def digits_value (v : Nat) (ds : List Nat) : Nat :=
  ds.foldl (fun v c => u32 (v * 10 + c - 48)) v

/-- Every byte of `ds` is a decimal digit. -/
def all_digits (ds : List Nat) : Prop := ∀ c ∈ ds, isdigit c = true

instance (ds : List Nat) : Decidable (all_digits ds) := by
  unfold all_digits; infer_instance

/-- The state in which `at_cmd_process_command_buffer` is called on a frame begun
in state `st0`: the finalized frame `f` is in the buffer, followed by a NUL. -/
def full (st0 : at_cmd_parser_t) (f : List Nat) (size : Nat) : at_cmd_parser_t :=
  { st0 with reading_cmd := true, cmd_header := false, at_cmd_prefix_idx := 0,
             command_buffer := f ++ 0 :: st0.command_buffer.drop (f.length + 1),
             cmd_widx := f.length, cmd_size := size }

/-- The event is a hand-over to the dispatcher. -/
def is_dispatch : Event → Bool
  | Event.dispatch _ _ _ => true
  | _ => false

/-- The event is a call of a command callback. -/
def is_callback : Event → Bool
  | Event.callback _ _ _ _ _ => true
  | _ => false

/-- An explicit-size request frame as the scanner reads it: prefix, the number of
body bytes in four digits, serial digits, `;`, body, `;`. -/
def explicit_frame (s b : List Nat) : List Nat :=
  AT_CMD_PREFIX ++ pad4 b.length ++ s ++ [59] ++ b ++ [59]

/-- An implicit-mode request frame: prefix, `0000`, serial digits, `;`, body,
carriage return. -/
def implicit_frame (s b : List Nat) : List Nat :=
  AT_CMD_PREFIX ++ [48, 48, 48, 48] ++ s ++ [59] ++ b ++ [13]

/-- The valid request frames: the serial is a non-empty run of digits; in
explicit mode the body has 1 to `AT_CMD_MAX_SIZE` bytes, any bytes; in implicit
mode the body holds no carriage return. -/
inductive valid_frame : List Nat → Prop
  | explicit (s b : List Nat) : s ≠ [] → all_digits s → 1 ≤ b.length →
      b.length ≤ AT_CMD_MAX_SIZE → valid_frame (explicit_frame s b)
  | implicit (s b : List Nat) : s ≠ [] → all_digits s → 13 ∉ b →
      valid_frame (implicit_frame s b)

/-- The state and status in which `at_cmd_add_command_chars` returns when its
last byte completes the frame finalized as `f` (`count` bytes, begun in `st0`). -/
def completed (env : Env) (st0 : at_cmd_parser_t) (f : List Nat) (size : Nat) :
    at_cmd_parser_t × cy_rslt_t :=
  (at_cmd_reset_command_buffer
     (at_cmd_process_command_buffer env (full st0 f size) f.length).1,
   (at_cmd_process_command_buffer env (full st0 f size) f.length).2)

/-- The events of the echo of a finalized frame `f`, when `echo` is set. -/
def echo_events (echo : Bool) (f : List Nat) : List Event :=
  if echo then [Event.write f, Event.write [10, 13]] else []

/-- The number denoted by a run of decimal digits. -/
def decimal_value (ds : List Nat) : Nat :=
  ds.foldl (fun v c => v * 10 + (c - 48)) 0

/-- The state in which the scanner leaves a frame it rejects: the response with
serial 0, status 1 and the text `text` is sent in state `st`, then the per-frame
state is reset. -/
def rejected (env : Env) (st : at_cmd_parser_t) (text : List Nat) : at_cmd_parser_t :=
  at_cmd_reset_command_buffer (at_cmd_parser_send_cmd_response env st 0 1 (some text)).1

/-- The outcome of a rejection as seen from outside in state `st`, the frame
having begun in state `st0`: exactly one event since then, the write of the
synchronous response with serial 0, status 1 and the text `text`, and the five
per-frame fields at their reset values. -/
def rejection_outcome (st0 st : at_cmd_parser_t) (text : List Nat) : Prop :=
  st.trace = st0.trace ++ [Event.write (response_frame 83 0 (sync_payload 1 (some text)))]
  ∧ st.reading_cmd = false ∧ st.cmd_header = false ∧ st.cmd_widx = 0 ∧ st.cmd_size = 0
  ∧ st.at_cmd_prefix_idx = 0

/-- The command name the dispatcher finds in a body: the bytes before the first
comma or NUL. -/
def body_name (b : List Nat) : List Nat := b.takeWhile (fun c => c != 0 && c != 44)

/-- The name found in the body is ended by a comma. -/
def body_comma (b : List Nat) : Bool := b.getD (body_name b).length 0 == 44

/-- The argument string the dispatcher passes on: the bytes after the first comma,
up to the first NUL if there is one; empty when the name is not ended by a comma. -/
def body_args (b : List Nat) : List Nat :=
  if body_comma b then (b.drop ((body_name b).length + 1)).takeWhile (fun c => c != 0) else []

/-- The offset of the argument string in the body: past the name and its comma. -/
def body_args_offset (b : List Nat) : Nat :=
  (body_name b).length + (if body_comma b then 1 else 0)

/-- The call of a command callback made by the dispatcher for the body `b` of
`cmd_len` bytes: none when no registered command has the name found in the body. -/
def handler_call (tables : List at_cmd_table_t) (serial cmd_len : Nat) (b : List Nat) :
    List Event :=
  match find_cmd tables (body_name b) with
  | none => []
  | some cmd =>
    [Event.callback cmd.cmd_parser_fn cmd.cmd_id serial
      (u32sub cmd_len (body_args_offset b)) (body_args b)]

/-- The message returned to the dispatcher for the body `b`: none when no command
matches or when the callback returns NULL. -/
def handler_result (env : Env) (tables : List at_cmd_table_t) (serial cmd_len : Nat)
    (b : List Nat) : Option at_cmd_msg_base_t :=
  match find_cmd tables (body_name b) with
  | none => none
  | some cmd =>
    env.callback cmd.cmd_parser_fn cmd.cmd_id serial
      (u32sub cmd_len (body_args_offset b)) (body_args b)

/-- What `at_cmd_process_command_buffer` does with the result of the dispatcher,
the output mutex being obtained: the response `Invalid cmd` for no message; a
queue put for a message, followed when the put fails by the response
`queue error` and the release of the message. -/
def outcome_events (env : Env) (r : Option at_cmd_msg_base_t) : List Event :=
  match r with
  | none => [Event.write (response_frame 83 0 (sync_payload 1 (some (bytes "Invalid cmd"))))]
  | some msg =>
    if env.queue_put msg ≠ cy_rslt_t.CY_RSLT_SUCCESS then
      [Event.queue_put msg,
       Event.write (response_frame 83 0 (sync_payload 1 (some (bytes "queue error")))),
       Event.free msg]
    else [Event.queue_put msg]

/-- The status `at_cmd_process_command_buffer` returns for the result of the
dispatcher. -/
def outcome_status (env : Env) (r : Option at_cmd_msg_base_t) : cy_rslt_t :=
  match r with
  | none => cy_rslt_t.CY_AT_CMD_PARSER_ERROR
  | some msg => env.queue_put msg

/-- The last part of `at_cmd_process_command_buffer`, from the result of the
dispatcher on. -/
def dispatch_finish (env : Env) (p : at_cmd_parser_t × Option at_cmd_msg_base_t) :
    at_cmd_parser_t × cy_rslt_t :=
  match p.2 with
  | none =>
    ((at_cmd_parser_send_cmd_response env p.1 0 1 (some (bytes "Invalid cmd"))).1,
     cy_rslt_t.CY_AT_CMD_PARSER_ERROR)
  | some msg =>
    let result := env.queue_put msg
    let st := emit p.1 (Event.queue_put msg)
    if result ≠ cy_rslt_t.CY_RSLT_SUCCESS then
      (emit (at_cmd_parser_send_cmd_response env st 0 1 (some (bytes "queue error"))).1
         (Event.free msg), result)
    else (st, result)

/-- The body handed to the dispatcher for a finalized frame whose bytes after the
header are `t`: `t` without one trailing `;`. -/
def frame_body (t : List Nat) : List Nat :=
  if t.getLast? = some 59 then t.dropLast else t

/-- The length handed to the dispatcher with that body: its length, but
`2 ^ 32 - 1` when nothing follows the header, the `;` of the header being
stripped then (`count - (ptr - buffer)` in `uint32_t`). -/
def frame_cmd_len (t : List Nat) : Nat :=
  if t = [] then 4294967295 else (frame_body t).length

/-- The state `st` is ready for the next frame and carries on from `st0`: the
per-frame state is reset, the buffers have their size, and the registry, the echo
flag and the fault flag are those of `st0`. -/
structure Carried (st0 st : at_cmd_parser_t) : Prop where
  fresh : Fresh st
  tables : st.cmd_tables = st0.cmd_tables
  echo : st.echo_cmd = st0.echo_cmd
  out : st.output_buffer.length = AT_CMD_PARSER_BUFFER_SIZE
  fault : st.fault = st0.fault

/-- The events that follow the hand-over of the body `b` with serial `serial` and
length `cmd_len`: the call of the callback, if a command matches, and what
`at_cmd_process_command_buffer` does with the message returned. -/
def dispatch_events (env : Env) (tables : List at_cmd_table_t) (serial cmd_len : Nat)
    (b : List Nat) : List Event :=
  handler_call tables serial cmd_len b
    ++ outcome_events env (handler_result env tables serial cmd_len b)

/-- The buffers of the state have their declared size and no store outside a
buffer has been made. -/
structure Sound (st : at_cmd_parser_t) : Prop where
  cmd_len : st.command_buffer.length = AT_CMD_PARSER_BUFFER_SIZE
  out_len : st.output_buffer.length = AT_CMD_PARSER_BUFFER_SIZE
  no_fault : st.fault = false

/-- The test of one table entry in the search of `at_cmd_parse_cmd`, for the
command name `name` of `len = name.length` bytes:
`cmd_name != NULL && strlen(cmd_name) == len && !strncmp(cmd_buf, cmd_name, len)`. -/
def cmd_matches (name : List Nat) (cmd : at_cmd_def_t) : Bool :=
  match cmd.cmd_name with
  | none => false
  | some n => n.length == name.length && name.take name.length == n.take name.length

/-- The entries of the registry in the order of the search: the tables in list
order, the first `num_cmds` entries of each in index order. -/
def registry_entries (tables : List at_cmd_table_t) : List at_cmd_def_t :=
  (tables.map fun t => t.cmd_table.take t.num_cmds).flatten

/-- Successive calls of `at_cmd_parser_register_commands`, one per table of `ts`,
the allocation of the node succeeding. -/
def register_all (st : at_cmd_parser_t) (ts : List at_cmd_table_t) : at_cmd_parser_t :=
  ts.foldl
    (fun s t => (at_cmd_parser_register_commands s true (some t.cmd_table) t.num_cmds).1) st

/-- The upper-case letter for a lower-case ASCII letter, the byte itself otherwise. -/
def toupper (c : Nat) : Nat := if 97 ≤ c ∧ c ≤ 122 then c - 32 else c

/-- Two tables, each with one entry named `X`: id 1 and callback 100 in the first,
id 2 and callback 200 in the second. -/
def table_X1 : at_cmd_table_t :=
  { cmd_table := [{ cmd_name := some (bytes "X"), cmd_id := 1, cmd_parser_fn := 100 }],
    num_cmds := 1 }

/-- The second table with an entry named `X`. -/
def table_X2 : at_cmd_table_t :=
  { cmd_table := [{ cmd_name := some (bytes "X"), cmd_id := 2, cmd_parser_fn := 200 }],
    num_cmds := 1 }

/-- A registry with one table holding a command whose name is the empty string
(id 9, callback 900) and the command `ECHO` (id 1, callback 100). -/
def tables_empty_name : List at_cmd_table_t :=
  [{ cmd_table := [{ cmd_name := some [], cmd_id := 9, cmd_parser_fn := 900 },
                   { cmd_name := some (bytes "ECHO"), cmd_id := 1, cmd_parser_fn := 100 }],
     num_cmds := 2 }]

/-- An environment in which every external call succeeds and every callback
returns NULL. -/
def env_null : Env :=
  { mutex_get := cy_rslt_t.CY_RSLT_SUCCESS,
    write_data := fun _ => cy_rslt_t.CY_RSLT_SUCCESS,
    callback := fun _ _ _ _ _ => none,
    queue_put := fun _ => cy_rslt_t.CY_RSLT_SUCCESS }

/-- An environment in which the queue put fails with the status `external 7` (a
timeout or a full queue), every other external call succeeds and every callback
returns a message carrying its command id and serial. -/
def env_queue_full : Env :=
  { mutex_get := cy_rslt_t.CY_RSLT_SUCCESS,
    write_data := fun _ => cy_rslt_t.CY_RSLT_SUCCESS,
    callback := fun _ cmd_id serial _ _ => some { cmd_id := cmd_id, serial := serial },
    queue_put := fun _ => cy_rslt_t.external 7 }

/-- The five per-frame fields have the values `at_cmd_reset_command_buffer` gives
them. -/
def is_reset (st : at_cmd_parser_t) : Prop :=
  st.reading_cmd = false ∧ st.cmd_header = false ∧ st.cmd_widx = 0 ∧ st.cmd_size = 0
  ∧ st.at_cmd_prefix_idx = 0

/-- The event is a queue put. -/
def is_queue_put : Event → Bool
  | Event.queue_put _ => true
  | _ => false

/-- The event is a write to the transport. -/
def is_write : Event → Bool
  | Event.write _ => true
  | _ => false

/-- The events `evs` that follow the echo of a completed frame show exactly one
outcome: either one message is put on the queue, the put succeeding, and nothing is
written; or exactly one synchronous response with serial 0 and status 1 is written
and every queue put among the events has failed.  At most one callback is called. -/
def one_outcome (env : Env) (evs : List Event) : Prop :=
  ((∃ msg, evs.filter is_queue_put = [Event.queue_put msg]
      ∧ env.queue_put msg = cy_rslt_t.CY_RSLT_SUCCESS ∧ evs.filter is_write = [])
    ∨ (∃ text, evs.filter is_write
          = [Event.write (response_frame 83 0 (sync_payload 1 (some text)))]
        ∧ ∀ msg, Event.queue_put msg ∈ evs → env.queue_put msg ≠ cy_rslt_t.CY_RSLT_SUCCESS))
  ∧ (evs.filter is_callback).length ≤ 1

/-- A body of 6001 bytes `x`, one more than `AT_CMD_MAX_SIZE`. -/
def body_6001 : List Nat := List.replicate 6001 120

/-- The main loop of `at_cmd_add_command_chars` as in `add_chars_loop`, with the
function called on a finalized buffer as a parameter: `add_chars_loop` is the case
where `P` is `at_cmd_process_command_buffer` (see `add_chars_loop_with_eq`). -/
def add_chars_loop_with (env : Env)
    (P : at_cmd_parser_t → Nat → at_cmd_parser_t × cy_rslt_t) :
    at_cmd_parser_t → List Nat → Nat → cy_rslt_t → at_cmd_parser_t × cy_rslt_t
  | st, [], _, result => (st, result)
  | st, _ :: cs, skip + 1, result => add_chars_loop_with env P st cs skip result
  | st, c :: cs, 0, result =>
    if st.cmd_header then
      let r := at_cmd_scan_cmd_header env (c :: cs).length st (c :: cs) 0
      add_chars_loop_with env P r.1 cs r.2 result
    else if c = 10 then
      add_chars_loop_with env P (if st.cmd_size ≠ 0 then buf_push st c else st) cs 0 result
    else
      let st := buf_set st st.cmd_widx c
      if st.cmd_size = 0 ∧ buf_get st st.cmd_widx = 13 then
        let st := buf_set st st.cmd_widx 0
        let r := P st st.cmd_widx
        add_chars_loop_with env P (at_cmd_reset_command_buffer r.1) cs 0 r.2
      else if st.cmd_size ≠ 0 ∧ st.cmd_widx = st.cmd_size - 1 then
        let st := { st with cmd_widx := st.cmd_widx + 1 }
        let st := buf_set st st.cmd_widx 0
        let len := st.cmd_widx
        if buf_get st (len - 1) ≠ AT_CMD_TERMINATOR_CHAR then
          (at_cmd_reset_command_buffer
             (at_cmd_parser_send_cmd_response env st 0 1 (some (bytes "bad cmd trailer"))).1,
           cy_rslt_t.CY_AT_CMD_PARSER_ERROR)
        else
          let r := P st len
          add_chars_loop_with env P (at_cmd_reset_command_buffer r.1) cs
            (cs.takeWhile isspace).length r.2
      else
        add_chars_loop_with env P { st with cmd_widx := st.cmd_widx + 1 } cs 0 result

/-- The function `at_cmd_add_command_chars` with the function called on a
finalized buffer as a parameter. -/
def add_command_chars_with (env : Env)
    (P : at_cmd_parser_t → Nat → at_cmd_parser_t × cy_rslt_t)
    (st : at_cmd_parser_t) (chars : List Nat) : at_cmd_parser_t × cy_rslt_t :=
  if chars.length = 0 then (st, cy_rslt_t.CY_AT_CMD_PARSER_BAD_PARAM)
  else if u32 (st.cmd_widx + chars.length) ≥ AT_CMD_PARSER_BUFFER_SIZE then
    (at_cmd_reset_command_buffer
       (at_cmd_parser_send_cmd_response env st 0 1 (some (bytes "Input buffer size exceeded"))).1,
     cy_rslt_t.CY_AT_CMD_PARSER_BUFFER_OVERFLOW)
  else
    let r : at_cmd_parser_t × Nat :=
      if !st.reading_cmd then at_cmd_scan_for_prefix st chars 0 else (st, 0)
    let st := r.1
    let bytes_used := r.2
    if !st.reading_cmd then (st, cy_rslt_t.CY_RSLT_SUCCESS)
    else add_chars_loop_with env P st (chars.drop bytes_used) 0 cy_rslt_t.CY_RSLT_SUCCESS

/-- Successive calls as in `feed`, with the function called on a finalized buffer
as a parameter. -/
def feed_with (env : Env) (P : at_cmd_parser_t → Nat → at_cmd_parser_t × cy_rslt_t) :
    at_cmd_parser_t → List (List Nat) → at_cmd_parser_t × cy_rslt_t
  | st, [] => (st, cy_rslt_t.CY_RSLT_SUCCESS)
  | st, [chunk] => add_command_chars_with env P st chunk
  | st, chunk :: rest => feed_with env P (add_command_chars_with env P st chunk).1 rest

/-- The function `at_cmd_process_command_buffer` with a ghost check of its
argument: a call with `count` not below `AT_CMD_PARSER_BUFFER_SIZE` sets the flag
`fault`. -/
def process_checked (env : Env) (st : at_cmd_parser_t) (count : Nat) :
    at_cmd_parser_t × cy_rslt_t :=
  at_cmd_process_command_buffer env
    (if count < AT_CMD_PARSER_BUFFER_SIZE then st else { st with fault := true }) count

/-- A body of 6174 bytes `x`: with a one-digit serial the total of the frame is
exactly `AT_CMD_PARSER_BUFFER_SIZE`. -/
def body_6174 : List Nat := List.replicate 6174 120

/-- The header tests of `at_cmd_process_command_buffer` pass in the state `st`
(the state after the echo) for `count` bytes: the tests that guard the responses
`Invalid command`, `Invalid size digit` and `Invalid format` are false, `s` being
the run of digits read as the serial number. -/
def revalidates (st : at_cmd_parser_t) (count : Nat) (s : List Nat) : Prop :=
  ¬ (count < AT_CMD_MIN_HEADER_SIZE ∨ st.command_buffer.take AT_CMD_PREFIX_CHARS ≠ AT_CMD_PREFIX)
  ∧ process_size st AT_CMD_SIZE_CHARS 0 0 ≠ none
  ∧ (st.command_buffer.drop (AT_CMD_PREFIX_CHARS + AT_CMD_SIZE_CHARS)).takeWhile isdigit = s
  ∧ ¬ buf_get st (AT_CMD_PREFIX_CHARS + AT_CMD_SIZE_CHARS + s.length) ≠ AT_CMD_TERMINATOR_CHAR

/-- The texts of the responses sent by the header tests of
`at_cmd_process_command_buffer` that repeat tests of the scanner. -/
def revalidation_texts : List (List Nat) :=
  [bytes "Invalid command", bytes "Invalid size digit", bytes "Invalid format"]

/-- The state in which `at_cmd_process_command_buffer` makes its header tests on
the finalized frame `f` of a frame begun in state `st0`: the state `full` after
the echo. -/
def processed (st0 : at_cmd_parser_t) (f : List Nat) (size : Nat) : at_cmd_parser_t :=
  echoed (full st0 f size) f.length

/-! # Lemmas and theorems -/

/-! ## Facts about the response encoder -/

theorem OutIs.le {st0 st : at_cmd_parser_t} {pre : List Nat} (h : OutIs st0 st pre) :
    pre.length ≤ AT_CMD_PARSER_BUFFER_SIZE := by
  have h1 := congrArg List.length h.take_eq
  rw [List.length_take, h.len] at h1
  omega

theorem OutIs.put {st0 st : at_cmd_parser_t} {pre : List Nat} (h : OutIs st0 st pre)
    (ptr c : Nat) (hp : ptr = pre.length) (hlt : ptr < AT_CMD_PARSER_BUFFER_SIZE) :
    OutIs st0 (out_put st ptr c) (pre ++ [c]) := by
  subst hp
  have hl := h.len
  refine ⟨?_, ?_, ?_⟩
  · simp only [out_put, hlt, if_true, List.length_append, List.length_singleton]
    rw [List.set_eq_take_append_cons_drop, if_pos (by omega), h.take_eq,
      List.take_append_eq_append_take]
    simp [List.take_of_length_le]
  · simp [out_put, hlt, hl]
  · simpa [out_put, hlt] using h.rest

theorem OutIs.puts {st0 : at_cmd_parser_t} (s : List Nat) :
    ∀ {st : at_cmd_parser_t} {pre : List Nat}, OutIs st0 st pre → ∀ ptr : Nat,
      ptr = pre.length → ptr + s.length ≤ AT_CMD_PARSER_BUFFER_SIZE →
      OutIs st0 (out_puts st ptr s) (pre ++ s) := by
  induction s with
  | nil => intro st pre h ptr _ _; simpa [out_puts] using h
  | cons c cs ih =>
    intro st pre h ptr hp hle
    simp only [List.length_cons] at hle
    have h1 := h.put ptr c hp (by omega)
    have h2 := ih h1 (ptr + 1) (by simp [hp]) (by omega)
    simpa [out_puts] using h2

/-- A shorter prefix of a known prefix. -/
theorem OutIs.shrink {st0 st : at_cmd_parser_t} {pre : List Nat} (s : List Nat)
    (h : OutIs st0 st (pre ++ s)) : OutIs st0 st pre := by
  refine ⟨?_, h.len, h.rest⟩
  have := congrArg (List.take pre.length) h.take_eq
  simpa [List.take_take] using this

theorem OutIs.snprintf {st0 st : at_cmd_parser_t} {pre : List Nat} (h : OutIs st0 st pre)
    (ptr : Nat) (s : List Nat) (hp : ptr = pre.length)
    (hle : ptr + s.length + 1 ≤ AT_CMD_PARSER_BUFFER_SIZE) :
    OutIs st0 (out_snprintf st ptr (u32sub AT_CMD_PARSER_BUFFER_SIZE ptr) s) (pre ++ s) := by
  subst hp
  have hB : AT_CMD_PARSER_BUFFER_SIZE = 6184 := rfl
  have hroom : u32sub AT_CMD_PARSER_BUFFER_SIZE pre.length = 6184 - pre.length := by
    simp only [u32sub, hB]; omega
  have htake : s.take (6184 - pre.length - 1) = s := List.take_of_length_le (by omega)
  have hne : ¬ (6184 - pre.length = 0) := by omega
  simp only [out_snprintf, hroom, hne, if_false, htake]
  have := h.puts (s ++ [0]) pre.length rfl (by simp; omega)
  rw [← List.append_assoc] at this
  exact this.shrink [0]

/-- A store below the known prefix replaces one byte of it. -/
theorem OutIs.patch {st0 st : at_cmd_parser_t} {pre : List Nat} (h : OutIs st0 st pre)
    (i c : Nat) (hi : i < pre.length) : OutIs st0 (out_put st i c) (pre.set i c) := by
  have hle := h.le
  have hlt : i < AT_CMD_PARSER_BUFFER_SIZE := by omega
  refine ⟨?_, ?_, ?_⟩
  · simp only [out_put, hlt, if_true, List.length_set]
    rw [List.set_take, h.take_eq]
  · simp [out_put, hlt, h.len]
  · simpa [out_put, hlt] using h.rest

theorem pad4_eq (n : Nat) :
    pad4 n = [n / 10 / 10 / 10 % 10 + 48, n / 10 / 10 % 10 + 48, n / 10 % 10 + 48, n % 10 + 48] := by
  simp [pad4, Nat.div_div_eq_div_mul]

theorem pad4_length (n : Nat) : (pad4 n).length = 4 := rfl

theorem response_frame_length (kind serial : Nat) (payload : List Nat) :
    (response_frame kind serial payload).length
      = (decimal serial).length + payload.length + 11 := by
  simp [response_frame, pad4_length]; omega

/-- What `at_cmd_send_host_message` does once the header, the serial and the
payload `p` are in place: the size digits and the trailer. -/
theorem send_tail {st0 st : at_cmd_parser_t} (kind serial : Nat) (p : List Nat)
    (h : OutIs st0 st ([43, kind, 48, 48, 48, 48, 44] ++ decimal serial ++ [59] ++ p))
    (ptr : Nat) (hp : ptr = 7 + (decimal serial).length + 1 + p.length)
    (hfit : (response_frame kind serial p).length ≤ AT_CMD_PARSER_BUFFER_SIZE) :
    OutIs st0
      (out_put (out_put (out_put
        (out_size AT_CMD_SIZE_CHARS st (2 + (AT_CMD_SIZE_CHARS - 1)) p.length)
          ptr 59) (ptr + 1) 13) (ptr + 2) 10)
      (response_frame kind serial p) := by
  rw [response_frame_length] at hfit
  have hB : AT_CMD_PARSER_BUFFER_SIZE = 6184 := rfl
  have a1 := h.patch 5 (p.length % 10 + 48) (by simp)
  have a2 := a1.patch 4 (p.length / 10 % 10 + 48) (by simp)
  have a3 := a2.patch 3 (p.length / 10 / 10 % 10 + 48) (by simp)
  have a4 := a3.patch 2 (p.length / 10 / 10 / 10 % 10 + 48) (by simp)
  have a5 := a4.put ptr 59 (by simp [hp]; omega) (by omega)
  have a6 := a5.put (ptr + 1) 13 (by simp [hp]; omega) (by omega)
  have a7 := a6.put (ptr + 2) 10 (by simp [hp]; omega) (by omega)
  simpa [out_size, response_frame, pad4_eq] using a7

/-- The last store of `at_cmd_send_host_message`, `*ptr = 0`, leaves the bytes
before `ptr` as they are; it is inside the buffer when `ptr` is. -/
theorem out_put_final (s : at_cmd_parser_t) (ptr : Nat) :
    ∃ flt : Bool, out_put s ptr 0
        = { s with output_buffer := (out_put s ptr 0).output_buffer, fault := flt } ∧
      (out_put s ptr 0).output_buffer.take ptr = s.output_buffer.take ptr ∧
      (out_put s ptr 0).output_buffer.length = s.output_buffer.length ∧
      (ptr < AT_CMD_PARSER_BUFFER_SIZE → flt = s.fault) := by
  by_cases h : ptr < AT_CMD_PARSER_BUFFER_SIZE
  · refine ⟨s.fault, ?_, ?_, ?_, fun _ => rfl⟩
    · simp [out_put, h]
    · simp only [out_put, h, if_true]
      rw [List.set_take, List.set_eq_of_length_le (by simp)]
    · simp [out_put, h]
  · refine ⟨true, ?_, ?_, ?_, fun h' => absurd h' h⟩ <;> simp [out_put, h]

/-- The end of `at_cmd_send_host_message`, from the computation of `data_bytes` to
the write, once the header, the serial and the payload `p` are in place. -/
theorem send_finish (env : Env) {st s : at_cmd_parser_t} (kind serial : Nat) (p : List Nat)
    (ptr : Nat) (hp : ptr = 7 + (decimal serial).length + 1 + p.length)
    (hs : OutIs st s ([43, kind, 48, 48, 48, 48, 44] ++ decimal serial ++ [59] ++ p))
    (hfit : (response_frame kind serial p).length ≤ AT_CMD_PARSER_BUFFER_SIZE) :
    ∃ (out : List Nat) (flt : Bool), out.length = AT_CMD_PARSER_BUFFER_SIZE ∧
      ((response_frame kind serial p).length < AT_CMD_PARSER_BUFFER_SIZE → flt = st.fault) ∧
      (let s1 := out_put (out_put (out_put (out_put
          (out_size AT_CMD_SIZE_CHARS s (2 + (AT_CMD_SIZE_CHARS - 1))
            (u32sub ptr (2 + AT_CMD_SIZE_CHARS + 1 + (decimal serial).length + 1)))
            ptr 59) (ptr + 1) 13) (ptr + 2) 10) (ptr + 3) 0
       (emit s1 (Event.write (s1.output_buffer.take (ptr + 3))),
        env.write_data (s1.output_buffer.take (ptr + 3))))
      = ({ st with output_buffer := out,
                   trace := st.trace ++ [Event.write (response_frame kind serial p)],
                   fault := flt },
         env.write_data (response_frame kind serial p)) := by
  have hB : AT_CMD_PARSER_BUFFER_SIZE = 6184 := rfl
  have hS : AT_CMD_SIZE_CHARS = 4 := rfl
  have hfit' := hfit
  rw [response_frame_length] at hfit'
  have hsub : u32sub ptr (2 + AT_CMD_SIZE_CHARS + 1 + (decimal serial).length + 1)
      = p.length := by
    simp only [u32sub, hp]; omega
  rw [hsub]
  have ht := send_tail kind serial p hs ptr hp hfit
  have hl : ptr + 3 = (response_frame kind serial p).length := by
    rw [response_frame_length, hp]; omega
  obtain ⟨flt, e1, e2, e3, e4⟩ := out_put_final (out_put (out_put (out_put
          (out_size AT_CMD_SIZE_CHARS s (2 + (AT_CMD_SIZE_CHARS - 1)) p.length)
            ptr 59) (ptr + 1) 13) (ptr + 2) 10) (ptr + 3)
  refine ⟨_, flt, e3.trans ht.len, ?_, ?_⟩
  · intro hlt
    have hr := congrArg at_cmd_parser_t.fault ht.rest
    simp only at hr
    rw [e4 (by omega), hr]
  · have hr := ht.rest
    have ht' := ht.take_eq
    rw [← hl] at ht'
    simp only [e2, ht', emit]
    rw [e1, ← hr]

/-- The header and the serial as `at_cmd_send_host_message` stores them. -/
theorem send_head (st : at_cmd_parser_t) (kind serial : Nat)
    (hlen : st.output_buffer.length = AT_CMD_PARSER_BUFFER_SIZE)
    (hfit : (decimal serial).length + 11 ≤ AT_CMD_PARSER_BUFFER_SIZE) :
    OutIs st
      (out_put (out_snprintf (out_put (out_puts (out_put (out_put st 0 43) 1 kind) 2
          (List.replicate AT_CMD_SIZE_CHARS 48)) (2 + AT_CMD_SIZE_CHARS) 44)
          (2 + AT_CMD_SIZE_CHARS + 1) (u32sub AT_CMD_PARSER_BUFFER_SIZE (2 + AT_CMD_SIZE_CHARS + 1))
          (decimal serial)) (2 + AT_CMD_SIZE_CHARS + 1 + (decimal serial).length) 59)
      ([43, kind, 48, 48, 48, 48, 44] ++ decimal serial ++ [59]) := by
  have hB : AT_CMD_PARSER_BUFFER_SIZE = 6184 := rfl
  have hS : AT_CMD_SIZE_CHARS = 4 := rfl
  have h0 : OutIs st st [] := ⟨by simp, hlen, rfl⟩
  have h1 := h0.put 0 43 rfl (by omega)
  have h2 := h1.put 1 kind rfl (by omega)
  have h3 := h2.puts (List.replicate AT_CMD_SIZE_CHARS 48) 2 rfl (by simp; omega)
  have h4 := h3.put (2 + AT_CMD_SIZE_CHARS) 44 rfl (by omega)
  have h5 := h4.snprintf (2 + AT_CMD_SIZE_CHARS + 1) (decimal serial) rfl (by omega)
  exact h5.put (2 + AT_CMD_SIZE_CHARS + 1 + (decimal serial).length) 59
    (by simp; omega) (by omega)

/-- The synchronous response: the bytes written and the status returned. -/
theorem send_cmd_response_spec (env : Env) (st : at_cmd_parser_t) (serial status : Nat)
    (text : Option (List Nat))
    (hm : env.mutex_get = cy_rslt_t.CY_RSLT_SUCCESS)
    (hlen : st.output_buffer.length = AT_CMD_PARSER_BUFFER_SIZE)
    (hfit : (response_frame 83 serial (sync_payload status text)).length
              ≤ AT_CMD_PARSER_BUFFER_SIZE) :
    ∃ (out : List Nat) (flt : Bool), out.length = AT_CMD_PARSER_BUFFER_SIZE ∧
      ((response_frame 83 serial (sync_payload status text)).length
          < AT_CMD_PARSER_BUFFER_SIZE → flt = st.fault) ∧
      at_cmd_parser_send_cmd_response env st serial status text
        = ({ st with output_buffer := out,
                     trace := st.trace ++
                       [Event.write (response_frame 83 serial (sync_payload status text))],
                     fault := flt },
           env.write_data (response_frame 83 serial (sync_payload status text))) := by
  have hB : AT_CMD_PARSER_BUFFER_SIZE = 6184 := rfl
  have hS : AT_CMD_SIZE_CHARS = 4 := rfl
  have hfit' := hfit
  rw [response_frame_length] at hfit'
  have h6 := send_head st 83 serial hlen (by omega)
  have hfin := fun s ptr hp hs =>
    @send_finish env st s 83 serial (sync_payload status text) ptr hp hs hfit
  rcases text with _ | _ | ⟨c, cs⟩
  · unfold at_cmd_parser_send_cmd_response at_cmd_send_host_message
    rw [if_neg (by simp [hm])]
    simp only [Bool.not_false, if_true]
    simp only [sync_payload] at hfit' hfin
    have h7 := h6.snprintf (2 + AT_CMD_SIZE_CHARS + 1 + (decimal serial).length + 1)
      (decimal status) (by simp; omega) (by omega)
    exact hfin _ _ (by omega) (by simpa using h7)
  · unfold at_cmd_parser_send_cmd_response at_cmd_send_host_message
    rw [if_neg (by simp [hm])]
    simp only [Bool.not_false, if_true]
    simp only [sync_payload] at hfit' hfin
    have h7 := h6.snprintf (2 + AT_CMD_SIZE_CHARS + 1 + (decimal serial).length + 1)
      (decimal status) (by simp; omega) (by omega)
    exact hfin _ _ (by omega) (by simpa using h7)
  · unfold at_cmd_parser_send_cmd_response at_cmd_send_host_message
    rw [if_neg (by simp [hm])]
    simp only [Bool.not_false, if_true]
    simp only [sync_payload, List.length_append, List.length_cons] at hfit' hfin
    have h7 := h6.snprintf (2 + AT_CMD_SIZE_CHARS + 1 + (decimal serial).length + 1)
      (decimal status) (by simp; omega) (by omega)
    have h8 := h7.snprintf
      (2 + AT_CMD_SIZE_CHARS + 1 + (decimal serial).length + 1 + (decimal status).length)
      (44 :: c :: cs) (by simp; omega) (by simp; omega)
    exact hfin _ _ (by simp; omega) (by simpa [sync_payload] using h8)

/-- The asynchronous response: the bytes written and the status returned. -/
theorem send_cmd_async_response_spec (env : Env) (st : at_cmd_parser_t) (serial : Nat)
    (text : List Nat)
    (hm : env.mutex_get = cy_rslt_t.CY_RSLT_SUCCESS)
    (hlen : st.output_buffer.length = AT_CMD_PARSER_BUFFER_SIZE)
    (hfit : (response_frame 72 serial text).length ≤ AT_CMD_PARSER_BUFFER_SIZE) :
    ∃ (out : List Nat) (flt : Bool), out.length = AT_CMD_PARSER_BUFFER_SIZE ∧
      ((response_frame 72 serial text).length < AT_CMD_PARSER_BUFFER_SIZE → flt = st.fault) ∧
      at_cmd_parser_send_cmd_async_response env st serial (some text)
        = ({ st with output_buffer := out,
                     trace := st.trace ++ [Event.write (response_frame 72 serial text)],
                     fault := flt },
           env.write_data (response_frame 72 serial text)) := by
  have hB : AT_CMD_PARSER_BUFFER_SIZE = 6184 := rfl
  have hS : AT_CMD_SIZE_CHARS = 4 := rfl
  have hfit' := hfit
  rw [response_frame_length] at hfit'
  have h6 := send_head st 72 serial hlen (by omega)
  unfold at_cmd_parser_send_cmd_async_response at_cmd_send_host_message
  rw [if_neg (by simp [hm])]
  simp only [Bool.not_true, if_true, Bool.false_eq_true, if_false]
  have h7 := h6.snprintf (2 + AT_CMD_SIZE_CHARS + 1 + (decimal serial).length + 1)
    text (by simp; omega) (by omega)
  exact send_finish env 72 serial text _ (by omega) h7 hfit

/-! ## Elementary facts about the scanner state -/

theorem bufsize_eq : AT_CMD_PARSER_BUFFER_SIZE = 6184 := rfl

@[simp] theorem buf_set_reading (st : at_cmd_parser_t) (i c : Nat) :
    (buf_set st i c).reading_cmd = st.reading_cmd := by
  unfold buf_set; split <;> rfl

@[simp] theorem buf_set_header (st : at_cmd_parser_t) (i c : Nat) :
    (buf_set st i c).cmd_header = st.cmd_header := by
  unfold buf_set; split <;> rfl

@[simp] theorem buf_set_widx (st : at_cmd_parser_t) (i c : Nat) :
    (buf_set st i c).cmd_widx = st.cmd_widx := by
  unfold buf_set; split <;> rfl

@[simp] theorem buf_set_size (st : at_cmd_parser_t) (i c : Nat) :
    (buf_set st i c).cmd_size = st.cmd_size := by
  unfold buf_set; split <;> rfl

@[simp] theorem buf_set_prefix_idx (st : at_cmd_parser_t) (i c : Nat) :
    (buf_set st i c).at_cmd_prefix_idx = st.at_cmd_prefix_idx := by
  unfold buf_set; split <;> rfl

@[simp] theorem buf_set_trace (st : at_cmd_parser_t) (i c : Nat) :
    (buf_set st i c).trace = st.trace := by
  unfold buf_set; split <;> rfl

@[simp] theorem buf_push_reading (st : at_cmd_parser_t) (c : Nat) :
    (buf_push st c).reading_cmd = st.reading_cmd := by simp [buf_push]

@[simp] theorem buf_push_header (st : at_cmd_parser_t) (c : Nat) :
    (buf_push st c).cmd_header = st.cmd_header := by simp [buf_push]

@[simp] theorem buf_push_widx (st : at_cmd_parser_t) (c : Nat) :
    (buf_push st c).cmd_widx = st.cmd_widx + 1 := by simp [buf_push]

@[simp] theorem buf_push_size (st : at_cmd_parser_t) (c : Nat) :
    (buf_push st c).cmd_size = st.cmd_size := by simp [buf_push]

@[simp] theorem buf_push_trace (st : at_cmd_parser_t) (c : Nat) :
    (buf_push st c).trace = st.trace := by simp [buf_push]

/-- Moving the start index of the prefix scan moves its returned value. -/
theorem scan_for_prefix_shift (cs : List Nat) : ∀ (st : at_cmd_parser_t) (i : Nat),
    at_cmd_scan_for_prefix st cs (i + 1)
      = (( at_cmd_scan_for_prefix st cs i).1, ( at_cmd_scan_for_prefix st cs i).2 + 1) := by
  induction cs with
  | nil => intro st i; rfl
  | cons c cs ih =>
    intro st i
    simp only [ at_cmd_scan_for_prefix]
    split
    · split
      · rfl
      · exact ih _ _
    · split
      · exact ih _ _
      · exact ih _ _

/-- Moving the start index and the count of the header scan moves its returned value. -/
theorem scan_cmd_header_shift (env : Env) (cs : List Nat) :
    ∀ (st : at_cmd_parser_t) (count i : Nat),
    at_cmd_scan_cmd_header env (count + 1) st cs (i + 1)
      = ((at_cmd_scan_cmd_header env count st cs i).1,
         (at_cmd_scan_cmd_header env count st cs i).2 + 1) := by
  induction cs with
  | nil => intro st count i; rfl
  | cons c cs ih =>
    intro st count i
    simp only [at_cmd_scan_cmd_header]
    split
    · split
      · rfl
      · exact ih _ _ _
    · split
      · rfl
      · split
        · rfl
        · split
          · split
            · split
              · rfl
              · rfl
            · rfl
          · exact ih _ _ _

/-- Bytes the index has been moved over are not looked at. -/
theorem add_chars_loop_skip (env : Env) (cs : List Nat) :
    ∀ (st : at_cmd_parser_t) (k : Nat) (result : cy_rslt_t),
    add_chars_loop env st cs k result = add_chars_loop env st (cs.drop k) 0 result := by
  induction cs with
  | nil => intro st k result; simp [add_chars_loop]
  | cons c cs ih =>
    intro st k result
    cases k with
    | zero => rfl
    | succ k => simp only [add_chars_loop, List.drop_succ_cons]; exact ih _ _ _


/-- The call on a chunk that passes the capacity test, in prefix-scanning state. -/
theorem add_not_reading (env : Env) (st : at_cmd_parser_t) (cs : List Nat) (hne : cs ≠ [])
    (hcap : st.cmd_widx + cs.length < AT_CMD_PARSER_BUFFER_SIZE)
    (hr : st.reading_cmd = false) :
    at_cmd_add_command_chars env st cs
      = if ( at_cmd_scan_for_prefix st cs 0).1.reading_cmd = true then
          add_chars_loop env ( at_cmd_scan_for_prefix st cs 0).1
            (cs.drop ( at_cmd_scan_for_prefix st cs 0).2) 0 cy_rslt_t.CY_RSLT_SUCCESS
        else (( at_cmd_scan_for_prefix st cs 0).1, cy_rslt_t.CY_RSLT_SUCCESS) := by
  have h1 : ¬ cs.length = 0 := by simpa using hne
  have h2 : ¬ u32 (st.cmd_widx + cs.length) ≥ AT_CMD_PARSER_BUFFER_SIZE := by
    rw [bufsize_eq] at *; simp only [u32]; omega
  simp only [at_cmd_add_command_chars, h1, h2, hr, if_false, Bool.not_false, if_true]
  split <;> simp_all

/-- The call on a chunk that passes the capacity test, inside a frame. -/
theorem add_reading (env : Env) (st : at_cmd_parser_t) (cs : List Nat) (hne : cs ≠ [])
    (hcap : st.cmd_widx + cs.length < AT_CMD_PARSER_BUFFER_SIZE)
    (hr : st.reading_cmd = true) :
    at_cmd_add_command_chars env st cs
      = add_chars_loop env st cs 0 cy_rslt_t.CY_RSLT_SUCCESS := by
  have h1 : ¬ cs.length = 0 := by simpa using hne
  have h2 : ¬ u32 (st.cmd_widx + cs.length) ≥ AT_CMD_PARSER_BUFFER_SIZE := by
    rw [bufsize_eq] at *; simp only [u32]; omega
  simp [at_cmd_add_command_chars, h1, h2, hr]

/-- The prefix scan, one byte at a time. -/
theorem scan_for_prefix_cons (st : at_cmd_parser_t) (c : Nat) (cs : List Nat) (i : Nat)
    (hr : st.reading_cmd = false) :
    at_cmd_scan_for_prefix st (c :: cs) i
      = if ( at_cmd_scan_for_prefix st [c] 0).1.reading_cmd = true then
          (( at_cmd_scan_for_prefix st [c] 0).1, i + 1)
        else at_cmd_scan_for_prefix ( at_cmd_scan_for_prefix st [c] 0).1 cs (i + 1) := by
  simp only [ at_cmd_scan_for_prefix]
  split
  · split
    · simp
    · simp [hr]
  · split
    · simp [hr]
    · simp [hr]

/-- The prefix scan of one byte moves the write index by at most one. -/
theorem scan_for_prefix_single_widx (st : at_cmd_parser_t) (c : Nat) :
    ( at_cmd_scan_for_prefix st [c] 0).1.cmd_widx ≤ st.cmd_widx + 1 := by
  simp only [ at_cmd_scan_for_prefix]
  split
  · split <;> simp
  · split <;> simp


/-- The header scan, one byte at a time, on a byte that does not abort the frame. -/
theorem scan_cmd_header_cons (env : Env) (st : at_cmd_parser_t) (c : Nat) (cs : List Nat)
    (count i : Nat) (hr : st.reading_cmd = true) (hh : st.cmd_header = true)
    (hc : continuing st c = true) :
    at_cmd_scan_cmd_header env count st (c :: cs) i
      = if (at_cmd_scan_cmd_header env 1 st [c] 0).1.cmd_header = true then
          at_cmd_scan_cmd_header env count (at_cmd_scan_cmd_header env 1 st [c] 0).1 cs (i + 1)
        else ((at_cmd_scan_cmd_header env 1 st [c] 0).1, i) := by
  simp only [continuing, hr, hh, Bool.not_true, Bool.false_eq_true, if_false, if_true] at hc
  simp only [at_cmd_scan_cmd_header]
  split
  · rename_i h1
    simp only [h1, if_true] at hc
    simp [hc, hh]
  · rename_i h1
    simp only [h1, if_false] at hc
    split
    · rename_i h2; simp [h2] at hc
    · rename_i h2
      simp only [h2, if_false] at hc
      split
      · rename_i h3; simp [h3] at hc
      · rename_i h3
        simp only [h3, if_false] at hc
        split
        · rename_i h4
          simp only [h4, if_true, decide_eq_true_eq] at hc
          split
          · rename_i h5
            simp only [buf_push_size] at h5
            simp only [buf_push_size, buf_push_widx]
            have h6 : ¬ u32 (st.cmd_size + (st.cmd_widx + 1 + 1)) > AT_CMD_PARSER_BUFFER_SIZE :=
              fun h => hc ⟨h5, h⟩
            simp [h6]
          · simp
        · simp [hh]


/-- The header scan of one byte that does not abort the frame keeps the scanner
inside the frame and moves the write index by one. -/
theorem scan_cmd_header_single (env : Env) (st : at_cmd_parser_t) (c : Nat)
    (hr : st.reading_cmd = true) (hh : st.cmd_header = true) (hc : continuing st c = true) :
    (at_cmd_scan_cmd_header env 1 st [c] 0).1.reading_cmd = true ∧
    (at_cmd_scan_cmd_header env 1 st [c] 0).1.cmd_widx = st.cmd_widx + 1 ∧
    (at_cmd_scan_cmd_header env 1 st [c] 0).1.trace = st.trace := by
  simp only [continuing, hr, hh, Bool.not_true, Bool.false_eq_true, if_false, if_true] at hc
  simp only [at_cmd_scan_cmd_header]
  split
  · rename_i h1
    simp only [h1, if_true] at hc
    simp [hc, hr]
  · rename_i h1
    simp only [h1, if_false] at hc
    split
    · rename_i h2; simp [h2] at hc
    · rename_i h2
      simp only [h2, if_false] at hc
      split
      · rename_i h3; simp [h3] at hc
      · rename_i h3
        simp only [h3, if_false] at hc
        split
        · rename_i h4
          simp only [h4, if_true, decide_eq_true_eq] at hc
          split
          · rename_i h5
            simp only [buf_push_size] at h5
            simp only [buf_push_size, buf_push_widx]
            have h6 : ¬ u32 (st.cmd_size + (st.cmd_widx + 1 + 1)) > AT_CMD_PARSER_BUFFER_SIZE :=
              fun h => hc ⟨h5, h⟩
            simp [h6, hr]
          · simp [hr]
        · simp [hr]

/-- The main loop, one byte at a time, on a byte that neither aborts nor completes
a frame. -/
theorem add_chars_loop_cons (env : Env) (st : at_cmd_parser_t) (c : Nat) (cs : List Nat)
    (res : cy_rslt_t) (hr : st.reading_cmd = true) (hc : continuing st c = true) :
    add_chars_loop env st (c :: cs) 0 res
        = add_chars_loop env (add_chars_loop env st [c] 0 res).1 cs 0 res
    ∧ (add_chars_loop env st [c] 0 res).2 = res
    ∧ (add_chars_loop env st [c] 0 res).1.reading_cmd = true
    ∧ (add_chars_loop env st [c] 0 res).1.cmd_widx ≤ st.cmd_widx + 1
    ∧ (add_chars_loop env st [c] 0 res).1.trace = st.trace := by
  by_cases hh : st.cmd_header = true
  · have hs := scan_cmd_header_single env st c hr hh hc
    have e1 : add_chars_loop env st [c] 0 res
        = ((at_cmd_scan_cmd_header env 1 st [c] 0).1, res) := by
      simp [add_chars_loop, hh]
    rw [e1]
    refine ⟨?_, rfl, hs.1, le_of_eq hs.2.1, hs.2.2⟩
    simp only [add_chars_loop, hh, if_true, List.length_cons]
    rw [scan_cmd_header_cons env st c cs _ 0 hr hh hc]
    split
    · rename_i h1
      rw [scan_cmd_header_shift]
      cases cs with
      | nil => simp [add_chars_loop, at_cmd_scan_cmd_header]
      | cons c' cs' => simp [add_chars_loop, h1]
    · rfl
  · have hh' : st.cmd_header = false := by simpa using hh
    simp only [continuing, hr, hh', Bool.not_true, Bool.false_eq_true, if_false] at hc
    by_cases h10 : c = 10
    · by_cases hs : st.cmd_size = 0 <;> simp [add_chars_loop, hh', h10, hs, hr]
    · simp only [h10, if_false] at hc
      by_cases ha : (buf_set st st.cmd_widx c).cmd_size = 0 ∧
          buf_get (buf_set st st.cmd_widx c) (buf_set st st.cmd_widx c).cmd_widx = 13
      · rw [if_pos ha] at hc; exact absurd hc (by simp)
      · rw [if_neg ha] at hc
        by_cases hb : (buf_set st st.cmd_widx c).cmd_size ≠ 0 ∧
            (buf_set st st.cmd_widx c).cmd_widx = (buf_set st st.cmd_widx c).cmd_size - 1
        · rw [if_pos hb] at hc; exact absurd hc (by simp)
        · simp only [add_chars_loop, hh', Bool.false_eq_true, if_false, h10, ha, hb]
          simp [hr]

/-- The prefix scan of one byte returns 1. -/
theorem scan_for_prefix_single_used (st : at_cmd_parser_t) (c : Nat) :
    ( at_cmd_scan_for_prefix st [c] 0).2 = 1 := by
  simp only [ at_cmd_scan_for_prefix]
  split
  · split <;> rfl
  · split <;> rfl

/-- The prefix scan leaves the trace as it is. -/
theorem scan_for_prefix_single_trace (st : at_cmd_parser_t) (c : Nat) :
    ( at_cmd_scan_for_prefix st [c] 0).1.trace = st.trace := by
  simp only [ at_cmd_scan_for_prefix]
  split
  · split <;> simp
  · split <;> simp

/-- A chunk whose first byte neither aborts nor completes a frame: the call is
the one-byte call followed by the call on the rest. -/
theorem add_cons (env : Env) (st : at_cmd_parser_t) (c : Nat) (cs : List Nat) (hne : cs ≠ [])
    (hcap : st.cmd_widx + (c :: cs).length < AT_CMD_PARSER_BUFFER_SIZE)
    (hc : continuing st c = true) :
    at_cmd_add_command_chars env st (c :: cs)
      = at_cmd_add_command_chars env (step env st c) cs := by
  simp only [List.length_cons] at hcap
  by_cases hr : st.reading_cmd = true
  · have hl := add_chars_loop_cons env st c cs cy_rslt_t.CY_RSLT_SUCCESS hr hc
    have e1 : step env st c
        = (add_chars_loop env st [c] 0 cy_rslt_t.CY_RSLT_SUCCESS).1 := by
      simp only [step]
      rw [add_reading env st [c] (by simp) (by simp; omega) hr]
    rw [add_reading env st (c :: cs) (by simp) (by simp; omega) hr, e1,
      add_reading env _ cs hne (by omega) hl.2.2.1]
    exact hl.1
  · have hr' : st.reading_cmd = false := by simpa using hr
    have hw := scan_for_prefix_single_widx st c
    have e1 : step env st c = ( at_cmd_scan_for_prefix st [c] 0).1 := by
      simp only [step]
      rw [add_not_reading env st [c] (by simp) (by simp; omega) hr']
      split <;> simp [add_chars_loop, scan_for_prefix_single_used]
    rw [add_not_reading env st (c :: cs) (by simp) (by simp; omega) hr', e1,
      scan_for_prefix_cons st c cs 0 hr']
    by_cases hp : ( at_cmd_scan_for_prefix st [c] 0).1.reading_cmd = true
    · rw [add_reading env _ cs hne (by omega) hp]
      simp [hp]
    · have hp' : ( at_cmd_scan_for_prefix st [c] 0).1.reading_cmd = false := by simpa using hp
      rw [add_not_reading env _ cs hne (by omega) hp']
      simp only [hp, if_false]
      rw [scan_for_prefix_shift]
      simp

/-- The one-byte call on a byte that neither aborts nor completes a frame. -/
theorem add_single (env : Env) (st : at_cmd_parser_t) (c : Nat)
    (hcap : st.cmd_widx + 1 < AT_CMD_PARSER_BUFFER_SIZE) (hc : continuing st c = true) :
    at_cmd_add_command_chars env st [c] = (step env st c, cy_rslt_t.CY_RSLT_SUCCESS)
    ∧ (step env st c).cmd_widx ≤ st.cmd_widx + 1
    ∧ (step env st c).trace = st.trace := by
  by_cases hr : st.reading_cmd = true
  · have hl := add_chars_loop_cons env st c [] cy_rslt_t.CY_RSLT_SUCCESS hr hc
    have e1 : at_cmd_add_command_chars env st [c]
        = add_chars_loop env st [c] 0 cy_rslt_t.CY_RSLT_SUCCESS :=
      add_reading env st [c] (by simp) (by simp; omega) hr
    simp only [step, e1]
    exact ⟨Prod.ext rfl hl.2.1, hl.2.2.2.1, hl.2.2.2.2⟩
  · have hr' : st.reading_cmd = false := by simpa using hr
    have hw := scan_for_prefix_single_widx st c
    have e1 : at_cmd_add_command_chars env st [c]
        = (( at_cmd_scan_for_prefix st [c] 0).1, cy_rslt_t.CY_RSLT_SUCCESS) := by
      rw [add_not_reading env st [c] (by simp) (by simp; omega) hr']
      split
      · simp [scan_for_prefix_single_used, add_chars_loop]
      · rfl
    simp only [step, e1]
    exact ⟨trivial, hw, scan_for_prefix_single_trace st c⟩


/-! ## Feeding byte by byte and feeding in chunks -/

@[simp] theorem run_nil (env : Env) (st : at_cmd_parser_t) : run env st [] = st := rfl

@[simp] theorem run_cons (env : Env) (st : at_cmd_parser_t) (c : Nat) (cs : List Nat) :
    run env st (c :: cs) = run env (step env st c) cs := rfl

theorem run_append (env : Env) (st : at_cmd_parser_t) (xs ys : List Nat) :
    run env st (xs ++ ys) = run env (run env st xs) ys := by
  simp [run, List.foldl_append]

theorem all_continuing_append (env : Env) (xs ys : List Nat) : ∀ st : at_cmd_parser_t,
    all_continuing env st (xs ++ ys)
      ↔ all_continuing env st xs ∧ all_continuing env (run env st xs) ys := by
  induction xs with
  | nil => intro st; simp [all_continuing]
  | cons x xs ih => intro st; simp [all_continuing, ih, and_assoc]

/-- Bytes that neither abort nor complete a frame move the write index by at most
one each and leave the trace as it is. -/
theorem run_continuing (env : Env) (cs : List Nat) : ∀ st : at_cmd_parser_t,
    all_continuing env st cs → st.cmd_widx + cs.length < AT_CMD_PARSER_BUFFER_SIZE →
    (run env st cs).cmd_widx ≤ st.cmd_widx + cs.length ∧ (run env st cs).trace = st.trace := by
  induction cs with
  | nil => intro st _ _; simp
  | cons c cs ih =>
    intro st hall hcap
    simp only [List.length_cons] at hcap
    obtain ⟨_, h2, h3⟩ := add_single env st c (by omega) hall.1
    obtain ⟨h4, h5⟩ := ih (step env st c) hall.2 (by omega)
    simp only [run_cons, List.length_cons]
    exact ⟨by omega, h5.trans h3⟩

/-- A chunk of bytes that neither abort nor complete a frame: the call returns
success in the state reached byte by byte. -/
theorem add_eq_run (env : Env) (cs : List Nat) : ∀ st : at_cmd_parser_t, cs ≠ [] →
    st.cmd_widx + cs.length < AT_CMD_PARSER_BUFFER_SIZE → all_continuing env st cs →
    at_cmd_add_command_chars env st cs = (run env st cs, cy_rslt_t.CY_RSLT_SUCCESS) := by
  induction cs with
  | nil => intro st h; exact absurd rfl h
  | cons c cs ih =>
    intro st _ hcap hall
    simp only [List.length_cons] at hcap
    obtain ⟨h1, h2, _⟩ := add_single env st c (by omega) hall.1
    cases cs with
    | nil => simpa using h1
    | cons c' cs' =>
      rw [add_cons env st c (c' :: cs') (by simp) (by simpa using hcap) hall.1]
      simp only [List.length_cons] at hcap
      exact ih (step env st c) (by simp) (by simp; omega) hall.2

/-- A chunk all of whose bytes but the last neither abort nor complete a frame:
the call is the one-byte call on the last byte in the state reached byte by byte. -/
theorem add_snoc (env : Env) (xs : List Nat) (c : Nat) : ∀ st : at_cmd_parser_t,
    st.cmd_widx + (xs ++ [c]).length < AT_CMD_PARSER_BUFFER_SIZE → all_continuing env st xs →
    at_cmd_add_command_chars env st (xs ++ [c])
      = at_cmd_add_command_chars env (run env st xs) [c] := by
  induction xs with
  | nil => intro st _ _; rfl
  | cons x xs ih =>
    intro st hcap hall
    simp only [List.cons_append, List.length_cons, List.length_append,
      List.length_singleton] at hcap
    obtain ⟨_, h2, _⟩ := add_single env st x (by omega) hall.1
    rw [List.cons_append, add_cons env st x (xs ++ [c]) (by simp) (by simp; omega) hall.1]
    exact ih (step env st x) (by simp; omega) hall.2

/-- Chunking is immaterial for an input all of whose bytes but the last neither
abort nor complete a frame. -/
theorem feed_eq (env : Env) (chunks : List (List Nat)) :
    ∀ (st : at_cmd_parser_t) (xs : List Nat) (c : Nat),
    (∀ ch ∈ chunks, ch ≠ []) → chunks.flatten = xs ++ [c] →
    st.cmd_widx + (xs ++ [c]).length < AT_CMD_PARSER_BUFFER_SIZE → all_continuing env st xs →
    feed env st chunks = at_cmd_add_command_chars env (run env st xs) [c] := by
  induction chunks with
  | nil => intro st xs c _ hj; simp at hj
  | cons ch rest ih =>
    intro st xs c hne hj hcap hall
    cases rest with
    | nil =>
      simp only [List.flatten_cons, List.flatten_nil, List.append_nil] at hj
      subst hj
      exact add_snoc env xs c st hcap hall
    | cons ch2 rest2 =>
      have hch : ch ≠ [] := hne ch (by simp)
      have hch2 : ch2 ≠ [] := hne ch2 (by simp)
      have hj' : ch ++ (ch2 :: rest2).flatten = xs ++ [c] := by simpa using hj
      have hrest : (ch2 :: rest2).flatten ≠ [] := by
        cases ch2 with
        | nil => exact absurd rfl hch2
        | cons a l => simp
      obtain ⟨ys, hys⟩ : ∃ ys, (ch2 :: rest2).flatten = ys ++ [c] := by
        obtain ⟨ys, y, hy⟩ := (List.eq_nil_or_concat _).resolve_left hrest
        refine ⟨ys, ?_⟩
        rw [hy, List.concat_eq_append] at hj' ⊢
        rw [← List.append_assoc] at hj'
        have := List.append_inj_right' hj' rfl
        simpa using this
      have hxs : xs = ch ++ ys := by
        rw [hys, ← List.append_assoc] at hj'
        exact (List.append_inj_left' hj' rfl).symm
      subst hxs
      rw [all_continuing_append] at hall
      simp only [List.length_append, List.length_singleton] at hcap
      obtain ⟨hw, _⟩ := run_continuing env ch st hall.1 (by omega)
      have e1 := add_eq_run env ch st hch (by omega) hall.1
      show feed env (at_cmd_add_command_chars env st ch).1 (ch2 :: rest2) = _
      rw [e1, run_append]
      exact ih (run env st ch) ys c (fun x hx => hne x (by simp [hx])) hys
        (by simp; omega) hall.2


/-! ## The scanner inside a frame -/

theorem set_append_drop (p b : List Nat) (c : Nat) (h : p.length < b.length) :
    (p ++ b.drop p.length).set p.length c = (p ++ [c]) ++ b.drop (p.length + 1) := by
  rw [List.set_append_right _ _ (le_refl _), Nat.sub_self, List.drop_eq_getElem_cons h,
    List.set_cons_zero, List.append_assoc, List.singleton_append]

theorem getD_append_drop (p b : List Nat) (c : Nat) :
    ((p ++ [c]) ++ b).getD p.length 0 = c := by
  rw [List.getD_eq_getElem?_getD, List.append_assoc,
    List.getElem?_append_right (le_refl _), Nat.sub_self]
  simp

theorem getElem_append_cons_length (p b : List Nat) (c : Nat)
    (h : p.length < (p ++ c :: b).length) : (p ++ c :: b)[p.length] = c := by
  rw [List.getElem_append_right (le_refl _)]
  simp

theorem mid_push (st0 : at_cmd_parser_t) (p : List Nat) (hdr : Bool) (size c : Nat)
    (hl : st0.command_buffer.length = AT_CMD_PARSER_BUFFER_SIZE)
    (hp : p.length < AT_CMD_PARSER_BUFFER_SIZE) :
    buf_push (mid st0 p hdr size) c = mid st0 (p ++ [c]) hdr size := by
  have h := set_append_drop p st0.command_buffer c (by omega)
  simp [buf_push, buf_set, mid, hp, h]

theorem mid_set (st0 : at_cmd_parser_t) (p : List Nat) (hdr : Bool) (size c : Nat)
    (hl : st0.command_buffer.length = AT_CMD_PARSER_BUFFER_SIZE)
    (hp : p.length < AT_CMD_PARSER_BUFFER_SIZE) :
    { buf_set (mid st0 p hdr size) p.length c with cmd_widx := p.length + 1 }
      = mid st0 (p ++ [c]) hdr size := by
  have h := mid_push st0 p hdr size c hl hp
  simpa [buf_push, mid] using h

theorem mid_set_get (st0 : at_cmd_parser_t) (p : List Nat) (hdr : Bool) (size c : Nat)
    (hl : st0.command_buffer.length = AT_CMD_PARSER_BUFFER_SIZE)
    (hp : p.length < AT_CMD_PARSER_BUFFER_SIZE) :
    buf_get (buf_set (mid st0 p hdr size) p.length c) p.length = c := by
  have h := set_append_drop p st0.command_buffer c (by omega)
  simp only [buf_get, buf_set, mid, hp, if_true, h]
  exact getD_append_drop p _ c

/-- The one-byte call inside a frame is one turn of the main loop. -/
theorem step_reading (env : Env) (st : at_cmd_parser_t) (c : Nat)
    (hcap : st.cmd_widx + 1 < AT_CMD_PARSER_BUFFER_SIZE) (hr : st.reading_cmd = true) :
    step env st c = (add_chars_loop env st [c] 0 cy_rslt_t.CY_RSLT_SUCCESS).1 := by
  simp only [step]
  rw [add_reading env st [c] (by simp) (by simpa using hcap) hr]

/-- A digit of the size field. -/
theorem step_size_digit (env : Env) (st0 : at_cmd_parser_t) (p : List Nat) (size c : Nat)
    (hl : st0.command_buffer.length = AT_CMD_PARSER_BUFFER_SIZE)
    (hp : p.length < 7) (hd : isdigit c = true) :
    step env (mid st0 p true size) c = mid st0 (p ++ [c]) true (u32 (size * 10 + c - 48))
    ∧ continuing (mid st0 p true size) c = true := by
  have hB := bufsize_eq
  have hp' : p.length < AT_CMD_PARSER_BUFFER_SIZE := by omega
  constructor
  · rw [step_reading env _ c (by simp [mid]; omega) rfl]
    have h := set_append_drop p st0.command_buffer c (by omega)
    simp [add_chars_loop, at_cmd_scan_cmd_header, mid, buf_push, buf_set, hp, hp', hd, h,
      AT_CMD_PREFIX_CHARS, AT_CMD_SIZE_CHARS]
  · simp [continuing, mid, hp, hd, AT_CMD_PREFIX_CHARS, AT_CMD_SIZE_CHARS]

/-- A digit of the serial number. -/
theorem step_serial_digit (env : Env) (st0 : at_cmd_parser_t) (p : List Nat) (size c : Nat)
    (hl : st0.command_buffer.length = AT_CMD_PARSER_BUFFER_SIZE)
    (hp : 7 ≤ p.length) (hp' : p.length + 1 < AT_CMD_PARSER_BUFFER_SIZE)
    (hd : isdigit c = true) :
    step env (mid st0 p true size) c = mid st0 (p ++ [c]) true size
    ∧ continuing (mid st0 p true size) c = true := by
  have hB := bufsize_eq
  have hp2 : p.length < AT_CMD_PARSER_BUFFER_SIZE := by omega
  have hp3 : ¬ p.length < 7 := by omega
  have hc : c ≠ 59 := by
    intro h; subst h; simp [isdigit] at hd
  constructor
  · rw [step_reading env _ c (by simpa [mid] using hp') rfl]
    have h := set_append_drop p st0.command_buffer c (by omega)
    simp [add_chars_loop, at_cmd_scan_cmd_header, mid, buf_push, buf_set, hp2, hp3, hd, h, hc,
      AT_CMD_PREFIX_CHARS, AT_CMD_SIZE_CHARS, AT_CMD_TERMINATOR_CHAR]
  · simp [continuing, mid, hp3, hd, hc, AT_CMD_PREFIX_CHARS, AT_CMD_SIZE_CHARS,
      AT_CMD_TERMINATOR_CHAR]

/-- The terminator of the header, after at least one serial digit. -/
theorem step_header_end (env : Env) (st0 : at_cmd_parser_t) (p : List Nat) (size : Nat)
    (hl : st0.command_buffer.length = AT_CMD_PARSER_BUFFER_SIZE)
    (hp : 7 < p.length) (hp' : p.length + 1 < AT_CMD_PARSER_BUFFER_SIZE)
    (hs : size = 0 ∨ size + (p.length + 2) ≤ AT_CMD_PARSER_BUFFER_SIZE) :
    step env (mid st0 p true size) 59
      = mid st0 (p ++ [59]) false (if size = 0 then 0 else size + (p.length + 2))
    ∧ continuing (mid st0 p true size) 59 = true := by
  have hB := bufsize_eq
  have hp2 : p.length < AT_CMD_PARSER_BUFFER_SIZE := by omega
  have hp3 : ¬ p.length < 7 := by omega
  have hp4 : ¬ p.length = 7 := by omega
  have h := set_append_drop p st0.command_buffer 59 (by omega)
  by_cases h0 : size = 0
  · subst h0
    constructor
    · rw [step_reading env _ 59 (by simpa [mid] using hp') rfl]
      simp [add_chars_loop, at_cmd_scan_cmd_header, mid, buf_push, buf_set, hp2, hp3, hp4, h,
        isdigit, AT_CMD_PREFIX_CHARS, AT_CMD_SIZE_CHARS, AT_CMD_TERMINATOR_CHAR]
    · simp [continuing, mid, hp3, hp4, isdigit, AT_CMD_PREFIX_CHARS, AT_CMD_SIZE_CHARS,
        AT_CMD_TERMINATOR_CHAR]
  · have hs' : size + (p.length + 2) ≤ AT_CMD_PARSER_BUFFER_SIZE := hs.resolve_left h0
    have hu : u32 (size + (p.length + 1 + 1)) = size + (p.length + 2) := by
      simp only [u32]; omega
    have hpos : 0 < size := by omega
    have hle : ¬ AT_CMD_PARSER_BUFFER_SIZE < size + (p.length + 2) := by omega
    constructor
    · rw [step_reading env _ 59 (by simpa [mid] using hp') rfl]
      simp [add_chars_loop, at_cmd_scan_cmd_header, mid, buf_push, buf_set, hp2, hp3, hp4, h,
        isdigit, AT_CMD_PREFIX_CHARS, AT_CMD_SIZE_CHARS, AT_CMD_TERMINATOR_CHAR, hu, hpos, hle,
        h0]
    · simp [continuing, mid, hp3, hp4, isdigit, AT_CMD_PREFIX_CHARS, AT_CMD_SIZE_CHARS,
        AT_CMD_TERMINATOR_CHAR, hu, hle]

/-- A byte of the body in explicit mode, before the last position. -/
theorem step_body_explicit (env : Env) (st0 : at_cmd_parser_t) (p : List Nat) (size c : Nat)
    (hl : st0.command_buffer.length = AT_CMD_PARSER_BUFFER_SIZE)
    (hp' : p.length + 1 < AT_CMD_PARSER_BUFFER_SIZE)
    (hs : size ≠ 0) (hw : p.length ≠ size - 1) :
    step env (mid st0 p false size) c = mid st0 (p ++ [c]) false size
    ∧ continuing (mid st0 p false size) c = true := by
  have hB := bufsize_eq
  have hp2 : p.length < AT_CMD_PARSER_BUFFER_SIZE := by omega
  have h := set_append_drop p st0.command_buffer c (by omega)
  constructor
  · rw [step_reading env _ c (by simpa [mid] using hp') rfl]
    by_cases h10 : c = 10
    · simp [add_chars_loop, mid, buf_push, buf_set, hp2, h, hs, h10]
      simpa [h10] using h
    · simp [add_chars_loop, mid, buf_push, buf_set, buf_get, hp2, h, hs, hw, h10]
  · by_cases h10 : c = 10
    · simp [continuing, mid, h10]
    · simp [continuing, mid, buf_set, hp2, hs, hw, h10]

/-- A byte of the body in implicit mode other than the carriage return: a line
feed is dropped, any other byte is stored. -/
theorem step_body_implicit (env : Env) (st0 : at_cmd_parser_t) (p : List Nat) (c : Nat)
    (hl : st0.command_buffer.length = AT_CMD_PARSER_BUFFER_SIZE)
    (hp' : p.length + 1 < AT_CMD_PARSER_BUFFER_SIZE) (hc : c ≠ 13) :
    step env (mid st0 p false 0) c = mid st0 (if c = 10 then p else p ++ [c]) false 0
    ∧ continuing (mid st0 p false 0) c = true := by
  have hB := bufsize_eq
  have hp2 : p.length < AT_CMD_PARSER_BUFFER_SIZE := by omega
  have h := set_append_drop p st0.command_buffer c (by omega)
  have hg := getD_append_drop p (st0.command_buffer.drop (p.length + 1)) c
  constructor
  · rw [step_reading env _ c (by simpa [mid] using hp') rfl]
    by_cases h10 : c = 10
    · simp [add_chars_loop, mid, h10]
    · simp only [List.append_assoc, List.singleton_append] at h hg
      simp [add_chars_loop, mid, buf_push, buf_set, buf_get, hp2, h, hg, hc, h10,
        getElem_append_cons_length]
  · by_cases h10 : c = 10
    · simp [continuing, mid, h10]
    · simp only [List.append_assoc, List.singleton_append] at h hg
      simp [continuing, mid, buf_set, buf_get, hp2, h, hg, hc, h10,
        getElem_append_cons_length]


/-! ## The scanner looking for the prefix -/

/-- The one-byte call while scanning for the prefix. -/
theorem step_not_reading (env : Env) (st : at_cmd_parser_t) (c : Nat)
    (hcap : st.cmd_widx + 1 < AT_CMD_PARSER_BUFFER_SIZE) (hr : st.reading_cmd = false) :
    step env st c = ( at_cmd_scan_for_prefix st [c] 0).1 := by
  simp only [step]
  rw [add_not_reading env st [c] (by simp) (by simpa using hcap) hr]
  split <;> simp [add_chars_loop, scan_for_prefix_single_used]

theorem continuing_not_reading (st : at_cmd_parser_t) (c : Nat) (hr : st.reading_cmd = false) :
    continuing st c = true := by
  simp [continuing, hr]

/-- A fresh state is a prefix-scanning state with no byte matched. -/
theorem Fresh.eq_pre {st0 : at_cmd_parser_t} (h : Fresh st0) :
    ∃ a b x, st0 = pre st0 0 a b x := by
  have hB := bufsize_eq
  have hl := h.len
  rcases hb : st0.command_buffer with _ | ⟨a, _ | ⟨b, _ | ⟨x, rest⟩⟩⟩ <;>
    (rw [hb] at hl; simp at hl) <;> try omega
  refine ⟨a, b, x, ?_⟩
  have h1 := h.widx
  have h2 := h.pidx
  cases st0
  simp_all [pre]

/-- One byte while scanning for the prefix. -/
theorem step_pre (env : Env) (st0 : at_cmd_parser_t) (h : Fresh st0) (k a b x c : Nat)
    (hk : k ≤ 2) (ha : 1 ≤ k → a = 65) (hb : 2 ≤ k → b = 84) :
    step env (pre st0 k a b x) c
      = if k = 2 ∧ c = 43 then mid st0 AT_CMD_PREFIX true 0
        else if k = 0 ∧ c = 65 then pre st0 1 65 b x
        else if k = 1 ∧ c = 84 then pre st0 2 65 84 x
        else if 0 < k ∧ c = 65 then pre st0 1 65 b x
        else pre st0 0 a b x := by
  have hB := bufsize_eq
  have hr := h.reading
  have hs := h.size
  rw [step_not_reading env _ c (by simp [pre]; omega) (by simpa [pre] using hr)]
  have hk' : k = 0 ∨ k = 1 ∨ k = 2 := by omega
  rcases hk' with rfl | rfl | rfl
  · by_cases h1 : c = 65
    · subst h1
      simp [ at_cmd_scan_for_prefix, pre, AT_CMD_PREFIX, buf_push, buf_set, hB]
    · simp [ at_cmd_scan_for_prefix, pre, AT_CMD_PREFIX, h1]
  · have ha' := ha (le_refl _)
    subst ha'
    by_cases h1 : c = 84
    · subst h1
      simp [ at_cmd_scan_for_prefix, pre, AT_CMD_PREFIX, buf_push, buf_set, hB]
    · by_cases h2 : c = 65
      · subst h2
        simp [ at_cmd_scan_for_prefix, pre, AT_CMD_PREFIX, buf_push, buf_set, hB]
      · simp [ at_cmd_scan_for_prefix, pre, AT_CMD_PREFIX, h1, h2]
  · have ha' := ha (by omega)
    have hb' := hb (le_refl _)
    subst ha' hb'
    by_cases h1 : c = 43
    · subst h1
      simp [ at_cmd_scan_for_prefix, pre, mid, AT_CMD_PREFIX, buf_push, buf_set, hB, hs]
    · by_cases h2 : c = 65
      · subst h2
        simp [ at_cmd_scan_for_prefix, pre, AT_CMD_PREFIX, buf_push, buf_set, hB]
      · simp [ at_cmd_scan_for_prefix, pre, AT_CMD_PREFIX, h1, h2]


theorem prefix_progress_le (r : List Nat) : prefix_progress r ≤ 2 := by
  unfold prefix_progress; split_ifs <;> omega

theorem prefix_progress_cons (c : Nat) (r : List Nat) :
    prefix_progress (c :: r)
      = if c = 65 then 1 else if c = 84 ∧ prefix_progress r = 1 then 2 else 0 := by
  rcases r with _ | ⟨r1, t⟩
  · by_cases h1 : c = 65 <;> simp [prefix_progress, h1]
  · by_cases h1 : c = 65
    · simp [prefix_progress, h1]
    · by_cases h2 : r1 = 65
      · simp [prefix_progress, h1, h2]
      · by_cases h3 : r1 = 84 ∧ t.head? = some 65 <;> simp [prefix_progress, h1, h2, h3]

theorem prefix_progress_eq_two (r : List Nat) (h : prefix_progress r = 2) :
    ∃ t, r = 84 :: 65 :: t := by
  rcases r with _ | ⟨r1, _ | ⟨r2, t⟩⟩
  · simp [prefix_progress] at h
  · by_cases h1 : r1 = 65 <;> simp [prefix_progress, h1] at h
  · by_cases h1 : r1 = 65
    · simp [prefix_progress, h1] at h
    · by_cases h2 : r1 = 84 ∧ r2 = 65
      · exact ⟨t, by rw [h2.1, h2.2]⟩
      · simp [prefix_progress, h1, h2] at h

/-- The scanner on an input without a full prefix: it is still scanning, with as
many prefix bytes matched as the input ends with. -/
theorem run_noise (env : Env) (st0 : at_cmd_parser_t) (h : Fresh st0) (w : List Nat) :
    ¬ AT_CMD_PREFIX <:+: w →
    (∃ a b x, run env st0 w = pre st0 (prefix_progress w.reverse) a b x
      ∧ (1 ≤ prefix_progress w.reverse → a = 65) ∧ (2 ≤ prefix_progress w.reverse → b = 84))
    ∧ all_continuing env st0 w := by
  induction w using List.reverseRecOn with
  | nil =>
    intro _
    obtain ⟨a, b, x, e⟩ := h.eq_pre
    refine ⟨⟨a, b, x, ?_, ?_, ?_⟩, trivial⟩
    · simpa [prefix_progress] using e
    · simp [prefix_progress]
    · simp [prefix_progress]
  | append_singleton w c ih =>
    intro hno
    have hno' : ¬ AT_CMD_PREFIX <:+: w :=
      fun hi => hno (hi.trans (List.infix_append' [] w [c]))
    obtain ⟨⟨a, b, x, e, ha, hb⟩, hall⟩ := ih hno'
    have hk := prefix_progress_le w.reverse
    have hstep := step_pre env st0 h _ a b x c hk ha hb
    have hcont : continuing (run env st0 w) c = true :=
      continuing_not_reading _ _ (by rw [e]; simpa [pre] using h.reading)
    refine ⟨?_, (all_continuing_append env w [c] st0).2 ⟨hall, hcont, trivial⟩⟩
    -- the completion case contradicts the absence of a full prefix
    have hnc : ¬ (prefix_progress w.reverse = 2 ∧ c = 43) := by
      rintro ⟨h2, rfl⟩
      apply hno
      obtain ⟨t, ht⟩ := prefix_progress_eq_two _ h2
      have hw : w = t.reverse ++ [65, 84] := by
        have := congrArg List.reverse ht
        simpa using this
      exact ⟨t.reverse, [], by simp [hw, AT_CMD_PREFIX]⟩
    rw [if_neg hnc] at hstep
    rw [run_append, run_cons, run_nil, e, hstep]
    simp only [List.reverse_append, List.reverse_cons, List.reverse_nil, List.nil_append,
      List.singleton_append, prefix_progress_cons]
    clear hstep e hcont hall ih hno hno' hnc
    generalize prefix_progress w.reverse = k at *
    have hk' : k = 0 ∨ k = 1 ∨ k = 2 := by omega
    by_cases h1 : c = 65
    · refine ⟨65, b, x, ?_, by simp, by simp [h1]⟩
      rcases hk' with rfl | rfl | rfl <;> simp [h1]
    · by_cases h2 : c = 84
      · rcases hk' with rfl | rfl | rfl
        · exact ⟨a, b, x, by simp [h1, h2], by simp [h1, h2], by simp [h1, h2]⟩
        · exact ⟨65, 84, x, by simp [h1, h2], by simp, by simp⟩
        · exact ⟨a, b, x, by simp [h1, h2], by simp [h1, h2], by simp [h1, h2]⟩
      · refine ⟨a, b, x, ?_, by simp [h1, h2], by simp [h1, h2]⟩
        rcases hk' with rfl | rfl | rfl <;> simp [h1, h2]


/-- The scanner on noise without a full prefix followed by the prefix: the header
begins exactly on the last byte, with the prefix at the start of the buffer. -/
theorem run_resync (env : Env) (st0 : at_cmd_parser_t) (h : Fresh st0) (g : List Nat)
    (hg : ¬ AT_CMD_PREFIX <:+: g ++ [65, 84]) :
    run env st0 (g ++ AT_CMD_PREFIX) = mid st0 AT_CMD_PREFIX true 0
    ∧ all_continuing env st0 (g ++ AT_CMD_PREFIX) := by
  obtain ⟨⟨a, b, x, e, ha, hb⟩, hall⟩ := run_noise env st0 h (g ++ [65, 84]) hg
  have hk : prefix_progress (g ++ [65, 84]).reverse = 2 := by
    simp [prefix_progress]
  rw [hk] at e ha hb
  have hstep := step_pre env st0 h 2 a b x 43 (le_refl _) ha hb
  have e2 : g ++ AT_CMD_PREFIX = (g ++ [65, 84]) ++ [43] := by simp [AT_CMD_PREFIX]
  rw [e2]
  refine ⟨?_, (all_continuing_append env _ [43] st0).2 ⟨hall, ?_, trivial⟩⟩
  · rw [run_append, run_cons, run_nil, e, hstep]
    simp
  · exact continuing_not_reading _ _ (by rw [e]; simpa [pre] using h.reading)

/-! ## The scanner across a header and a body -/

/-- Digits of the size field. -/
theorem run_size_digits (env : Env) (st0 : at_cmd_parser_t)
    (hl : st0.command_buffer.length = AT_CMD_PARSER_BUFFER_SIZE) (ds : List Nat) :
    ∀ (p : List Nat) (size : Nat), p.length + ds.length ≤ 7 → all_digits ds →
    run env (mid st0 p true size) ds = mid st0 (p ++ ds) true (digits_value size ds)
    ∧ all_continuing env (mid st0 p true size) ds := by
  induction ds with
  | nil => intro p size _ _; simp [digits_value, all_continuing]
  | cons d ds ih =>
    intro p size hp hd
    simp only [List.length_cons] at hp
    obtain ⟨h1, h2⟩ := step_size_digit env st0 p size d hl (by omega) (hd d (by simp))
    obtain ⟨h3, h4⟩ := ih (p ++ [d]) (u32 (size * 10 + d - 48)) (by simp; omega)
      (fun c hc => hd c (by simp [hc]))
    simp only [run_cons, all_continuing, h1, h2, h3, h4, and_self, and_true]
    simp [digits_value]

/-- Digits of the serial number. -/
theorem run_serial_digits (env : Env) (st0 : at_cmd_parser_t)
    (hl : st0.command_buffer.length = AT_CMD_PARSER_BUFFER_SIZE) (ds : List Nat) :
    ∀ (p : List Nat) (size : Nat), 7 ≤ p.length →
    p.length + ds.length < AT_CMD_PARSER_BUFFER_SIZE → all_digits ds →
    run env (mid st0 p true size) ds = mid st0 (p ++ ds) true size
    ∧ all_continuing env (mid st0 p true size) ds := by
  induction ds with
  | nil => intro p size _ _ _; simp [all_continuing]
  | cons d ds ih =>
    intro p size hp hcap hd
    simp only [List.length_cons] at hcap
    obtain ⟨h1, h2⟩ := step_serial_digit env st0 p size d hl hp (by omega) (hd d (by simp))
    obtain ⟨h3, h4⟩ := ih (p ++ [d]) size (by simp; omega) (by simp; omega)
      (fun c hc => hd c (by simp [hc]))
    simp only [run_cons, all_continuing, h1, h2, h3, h4, and_self, and_true]
    simp

/-- Bytes of an explicit-mode body before the last position. -/
theorem run_body_explicit (env : Env) (st0 : at_cmd_parser_t)
    (hl : st0.command_buffer.length = AT_CMD_PARSER_BUFFER_SIZE) (size : Nat) (xs : List Nat) :
    ∀ (p : List Nat), p.length + xs.length < size → size ≤ AT_CMD_PARSER_BUFFER_SIZE →
    run env (mid st0 p false size) xs = mid st0 (p ++ xs) false size
    ∧ all_continuing env (mid st0 p false size) xs := by
  induction xs with
  | nil => intro p _ _; simp [all_continuing]
  | cons x xs ih =>
    intro p hp hs
    simp only [List.length_cons] at hp
    obtain ⟨h1, h2⟩ := step_body_explicit env st0 p size x hl (by omega) (by omega) (by omega)
    obtain ⟨h3, h4⟩ := ih (p ++ [x]) (by simp; omega) hs
    simp only [run_cons, all_continuing, h1, h2, h3, h4, and_self, and_true]
    simp

/-- Bytes of an implicit-mode body before the carriage return: the line feeds are
dropped, the other bytes stored. -/
theorem run_body_implicit (env : Env) (st0 : at_cmd_parser_t)
    (hl : st0.command_buffer.length = AT_CMD_PARSER_BUFFER_SIZE) (xs : List Nat) :
    ∀ (p : List Nat), p.length + xs.length < AT_CMD_PARSER_BUFFER_SIZE → 13 ∉ xs →
    run env (mid st0 p false 0) xs = mid st0 (p ++ xs.filter (fun c => c != 10)) false 0
    ∧ all_continuing env (mid st0 p false 0) xs := by
  induction xs with
  | nil => intro p _ _; simp [all_continuing]
  | cons x xs ih =>
    intro p hp hcr
    simp only [List.length_cons] at hp
    have hx : x ≠ 13 := fun hx => hcr (by simp [hx])
    obtain ⟨h1, h2⟩ := step_body_implicit env st0 p x hl (by omega) hx
    by_cases h10 : x = 10
    · subst h10
      simp only [if_true] at h1
      obtain ⟨h3, h4⟩ := ih p (by omega) (fun hm => hcr (by simp [hm]))
      simp only [run_cons, all_continuing, h1, h2, h3, h4, and_self, and_true]
      simp
    · simp only [h10, if_false] at h1
      obtain ⟨h3, h4⟩ := ih (p ++ [x]) (by simp; omega) (fun hm => hcr (by simp [hm]))
      simp only [run_cons, all_continuing, h1, h2, h3, h4, and_self, and_true]
      simp [h10]


/-! ## The byte that completes a frame -/

/-- The byte at the last position of an explicit-mode frame, when it is the
terminator: the frame is finalized and processed, then the state is reset. -/
theorem add_final_explicit (env : Env) (st0 : at_cmd_parser_t) (p : List Nat) (size : Nat)
    (hl : st0.command_buffer.length = AT_CMD_PARSER_BUFFER_SIZE)
    (hs : p.length + 1 = size) (hcap : size < AT_CMD_PARSER_BUFFER_SIZE) :
    at_cmd_add_command_chars env (mid st0 p false size) [59]
      = (at_cmd_reset_command_buffer
           (at_cmd_process_command_buffer env (full st0 (p ++ [59]) size) size).1,
         (at_cmd_process_command_buffer env (full st0 (p ++ [59]) size) size).2) := by
  have hB := bufsize_eq
  have hp2 : p.length < AT_CMD_PARSER_BUFFER_SIZE := by omega
  have hp3 : p.length + 1 < AT_CMD_PARSER_BUFFER_SIZE := by omega
  have h := set_append_drop p st0.command_buffer 59 (by omega)
  have hd : List.drop (p.length + 1) st0.command_buffer
      = st0.command_buffer[p.length + 1] :: List.drop (p.length + 1 + 1) st0.command_buffer :=
    List.drop_eq_getElem_cons (by omega)
  have hset : (p ++ 59 :: List.drop (p.length + 1) st0.command_buffer).set (p.length + 1) 0
      = p ++ 59 :: 0 :: List.drop (p.length + 1 + 1) st0.command_buffer := by
    rw [hd, List.set_append_right _ _ (by omega), Nat.add_sub_cancel_left,
      List.set_cons_succ, List.set_cons_zero]
  have hg : ∀ (l : List Nat) (hh : p.length < (p ++ 59 :: l).length),
      (p ++ 59 :: l)[p.length] = 59 := fun l hh => getElem_append_cons_length p l 59 hh
  rw [add_reading env _ [59] (by simp) (by simpa [mid] using hp3) rfl]
  have hsz : size ≠ 0 := by omega
  have hw : p.length = size - 1 := by omega
  simp only [List.append_assoc, List.singleton_append] at h
  subst hs
  simp [add_chars_loop, mid, full, buf_set, buf_get, hp2, hp3, h, hset, hg]

/-- The carriage return in implicit mode: the frame is finalized without it and
processed, then the state is reset. -/
theorem add_final_implicit (env : Env) (st0 : at_cmd_parser_t) (p : List Nat)
    (hl : st0.command_buffer.length = AT_CMD_PARSER_BUFFER_SIZE)
    (hcap : p.length + 1 < AT_CMD_PARSER_BUFFER_SIZE) :
    at_cmd_add_command_chars env (mid st0 p false 0) [13]
      = (at_cmd_reset_command_buffer
           (at_cmd_process_command_buffer env (full st0 p 0) p.length).1,
         (at_cmd_process_command_buffer env (full st0 p 0) p.length).2) := by
  have hB := bufsize_eq
  have hp2 : p.length < AT_CMD_PARSER_BUFFER_SIZE := by omega
  have h := set_append_drop p st0.command_buffer 13 (by omega)
  have hset : (p ++ 13 :: List.drop (p.length + 1) st0.command_buffer).set p.length 0
      = p ++ 0 :: List.drop (p.length + 1) st0.command_buffer := by
    rw [List.set_append_right _ _ (le_refl _)]
    simp
  have hg : ∀ (l : List Nat) (hh : p.length < (p ++ 13 :: l).length),
      (p ++ 13 :: l)[p.length] = 13 := fun l hh => getElem_append_cons_length p l 13 hh
  rw [add_reading env _ [13] (by simp) (by simpa [mid] using hcap) rfl]
  simp only [List.append_assoc, List.singleton_append] at h
  simp [add_chars_loop, mid, full, buf_set, buf_get, hp2, h, hset, hg]


/-! ## Processing a finalized frame -/

theorem takeWhile_append_stop (p : Nat → Bool) (s : List Nat) (c : Nat) (l : List Nat)
    (hs : ∀ x ∈ s, p x = true) (hc : p c = false) :
    (s ++ c :: l).takeWhile p = s := by
  induction s with
  | nil => simp [List.takeWhile, hc]
  | cons a s ih =>
    have ha := hs a (by simp)
    rw [List.cons_append, List.takeWhile_cons, ha, ih (fun x hx => hs x (by simp [hx]))]
    rfl

theorem getD_append_cons (s : List Nat) (c : Nat) (l : List Nat) :
    (s ++ c :: l).getD s.length 0 = c := by
  rw [List.getD_eq_getElem?_getD, List.getElem?_append_right (le_refl _), Nat.sub_self]
  simp

/-- On a finalized frame with a well-formed header whose size field is at most
`AT_CMD_MAX_SIZE`, the header checks of `at_cmd_process_command_buffer` pass and
the serial number is the value of the serial digits. -/
theorem process_full (env : Env) (st0 : at_cmd_parser_t) (d1 d2 d3 d4 : Nat)
    (s rest : List Nat) (size : Nat)
    (hd : all_digits [d1, d2, d3, d4]) (hs : all_digits s)
    (hv : digits_value 0 [d1, d2, d3, d4] ≤ AT_CMD_MAX_SIZE) :
    at_cmd_process_command_buffer env
        (full st0 ([65, 84, 43, d1, d2, d3, d4] ++ s ++ 59 :: rest) size)
        ([65, 84, 43, d1, d2, d3, d4] ++ s ++ 59 :: rest).length
      = process_dispatch env
          (echoed (full st0 ([65, 84, 43, d1, d2, d3, d4] ++ s ++ 59 :: rest) size)
            ([65, 84, 43, d1, d2, d3, d4] ++ s ++ 59 :: rest).length)
          (digits_value 0 s) (7 + s.length + 1)
          ([65, 84, 43, d1, d2, d3, d4] ++ s ++ 59 :: rest).length := by
  have h1 : isdigit d1 = true := hd d1 (by simp)
  have h2 : isdigit d2 = true := hd d2 (by simp)
  have h3 : isdigit d3 = true := hd d3 (by simp)
  have h4 : isdigit d4 = true := hd d4 (by simp)
  have hbuf : ∀ st : at_cmd_parser_t,
      st.command_buffer = ([65, 84, 43, d1, d2, d3, d4] ++ s ++ 59 :: rest)
        ++ 0 :: st0.command_buffer.drop (([65, 84, 43, d1, d2, d3, d4] ++ s ++ 59 :: rest).length + 1) →
      ¬ (([65, 84, 43, d1, d2, d3, d4] ++ s ++ 59 :: rest).length < AT_CMD_MIN_HEADER_SIZE ∨
          st.command_buffer.take AT_CMD_PREFIX_CHARS ≠ AT_CMD_PREFIX)
      ∧ process_size st AT_CMD_SIZE_CHARS 0 0 = some (digits_value 0 [d1, d2, d3, d4])
      ∧ (st.command_buffer.drop (AT_CMD_PREFIX_CHARS + AT_CMD_SIZE_CHARS)).takeWhile isdigit = s
      ∧ buf_get st (AT_CMD_PREFIX_CHARS + AT_CMD_SIZE_CHARS + s.length) = AT_CMD_TERMINATOR_CHAR := by
    intro st e
    have e' : st.command_buffer = 65 :: 84 :: 43 :: d1 :: d2 :: d3 :: d4 ::
        (s ++ 59 :: (rest ++ 0 :: st0.command_buffer.drop
          (([65, 84, 43, d1, d2, d3, d4] ++ s ++ 59 :: rest).length + 1))) := by
      rw [e]; simp
    refine ⟨?_, ?_, ?_, ?_⟩
    · rw [e']
      simp [AT_CMD_MIN_HEADER_SIZE, AT_CMD_PREFIX_CHARS, AT_CMD_SIZE_CHARS, AT_CMD_PREFIX]
      omega
    · simp only [process_size, buf_get, e', AT_CMD_PREFIX_CHARS, AT_CMD_SIZE_CHARS]
      simp [h1, h2, h3, h4, digits_value]
    · rw [e']
      simp only [AT_CMD_PREFIX_CHARS, AT_CMD_SIZE_CHARS, Nat.reduceAdd, List.drop_succ_cons,
        List.drop_zero]
      exact takeWhile_append_stop _ s 59 _ hs (by simp [isdigit])
    · simp only [buf_get, e', AT_CMD_PREFIX_CHARS, AT_CMD_SIZE_CHARS, Nat.reduceAdd,
        AT_CMD_TERMINATOR_CHAR]
      rw [show 7 + s.length = s.length + 7 from Nat.add_comm _ _]
      simp only [List.getD_cons_succ]
      exact getD_append_cons s 59 _
  have hb := hbuf (echoed (full st0 ([65, 84, 43, d1, d2, d3, d4] ++ s ++ 59 :: rest) size)
      ([65, 84, 43, d1, d2, d3, d4] ++ s ++ 59 :: rest).length) (by
    unfold echoed; split <;> simp [full, emit])
  obtain ⟨c1, c2, c3, c4⟩ := hb
  have hv' : ¬ digits_value 0 [d1, d2, d3, d4] > AT_CMD_MAX_SIZE := by omega
  unfold at_cmd_process_command_buffer
  simp only []
  rw [if_neg c1]
  simp only [c2, hv', if_false, c3, c4, ne_eq, not_true_eq_false]
  rfl


/-! ## The trace of the encoder and of the dispatcher -/

@[simp] theorem out_put_trace (st : at_cmd_parser_t) (p c : Nat) :
    (out_put st p c).trace = st.trace := by
  unfold out_put; split <;> rfl

@[simp] theorem out_puts_trace (s : List Nat) : ∀ (st : at_cmd_parser_t) (p : Nat),
    (out_puts st p s).trace = st.trace := by
  induction s with
  | nil => intro st p; rfl
  | cons c cs ih => intro st p; simp [out_puts, ih]

@[simp] theorem out_snprintf_trace (st : at_cmd_parser_t) (p room : Nat) (s : List Nat) :
    (out_snprintf st p room s).trace = st.trace := by
  unfold out_snprintf; split <;> simp

@[simp] theorem out_size_trace (n : Nat) : ∀ (st : at_cmd_parser_t) (size d : Nat),
    (out_size n st size d).trace = st.trace := by
  induction n with
  | zero => intro st size d; rfl
  | succ n ih => intro st size d; simp [out_size, ih]

@[simp] theorem out_put_scan (st : at_cmd_parser_t) (p c : Nat) :
    (out_put st p c).command_buffer = st.command_buffer ∧
    (out_put st p c).cmd_tables = st.cmd_tables := by
  unfold out_put; split <;> exact ⟨rfl, rfl⟩

/-- A response adds at most one event to the trace, a transport write. -/
theorem send_host_message_trace (env : Env) (st : at_cmd_parser_t) (async_msg : Bool)
    (serial status : Nat) (text : Option (List Nat)) :
    ∃ l : List Event, (at_cmd_send_host_message env st async_msg serial status text).1.trace
        = st.trace ++ l ∧ (∀ e ∈ l, ∃ d, e = Event.write d) := by
  have aux : ∀ (E : at_cmd_parser_t) (w : List Nat), E.trace = st.trace →
      ∃ l : List Event, (emit E (Event.write w)).trace = st.trace ++ l ∧
        (∀ e ∈ l, ∃ d, e = Event.write d) :=
    fun E w h => ⟨[Event.write w], by simp [emit, h], by simp⟩
  unfold at_cmd_send_host_message
  split
  · exact ⟨[], by simp, by simp⟩
  · apply aux
    simp only [out_put_trace, out_size_trace]
    cases async_msg
    · rcases text with _ | _ | ⟨c, cs⟩ <;> simp
    · rcases text with _ | t <;> simp

theorem send_cmd_response_trace (env : Env) (st : at_cmd_parser_t)
    (serial status : Nat) (text : Option (List Nat)) :
    ∃ l : List Event, (at_cmd_parser_send_cmd_response env st serial status text).1.trace
        = st.trace ++ l ∧ (∀ e ∈ l, ∃ d, e = Event.write d) :=
  send_host_message_trace env st false serial status text

/-- The dispatcher adds the hand-over event and at most one event more, a call
of a callback. -/
theorem parse_cmd_trace (env : Env) (st : at_cmd_parser_t) (serial cmd_len cmd_buf : Nat) :
    ∃ l : List Event, (at_cmd_parse_cmd env st serial cmd_len cmd_buf).1.trace
        = st.trace ++ Event.dispatch serial cmd_len ((st.command_buffer.drop cmd_buf).take cmd_len)
            :: l ∧ (∀ e ∈ l, is_dispatch e = false) := by
  have aux : ∀ (E : at_cmd_parser_t) (ev d : Event), is_dispatch ev = false →
      E.trace = st.trace ++ [d] →
      ∃ l : List Event, (emit E ev).trace = st.trace ++ d :: l ∧
        (∀ e ∈ l, is_dispatch e = false) :=
    fun E ev d h1 h2 => ⟨[ev], by simp [emit, h2], by simpa using h1⟩
  have hr : ∀ (i j k : Nat) (b : Prop) [Decidable b] (d : Event),
      (if b then (buf_set (emit st d) i 0, j) else (emit st d, k)).1.trace = st.trace ++ [d] := by
    intro i j k b _ d
    split <;> simp [emit]
  unfold at_cmd_parse_cmd
  simp only []
  split
  · exact ⟨[], by simpa using hr _ _ _ _ _, by simp⟩
  · exact aux _ _ _ rfl (hr _ _ _ _ _)

/-- Processing from the stripping of the trailing `;` on adds exactly one
hand-over event, for the bytes between the header and the stripped end. -/
theorem process_dispatch_trace (env : Env) (st : at_cmd_parser_t) (serial ptr count : Nat) :
    ∃ l : List Event, (process_dispatch env st serial ptr count).1.trace
        = st.trace ++ Event.dispatch serial
            (u32sub (if buf_get st (count - 1) = 59 then count - 1 else count) ptr)
            (((if buf_get st (count - 1) = 59 then buf_set st (count - 1) 0 else st).command_buffer.drop
                ptr).take (u32sub (if buf_get st (count - 1) = 59 then count - 1 else count) ptr))
            :: l ∧ (∀ e ∈ l, is_dispatch e = false) := by
  unfold process_dispatch
  simp only [AT_CMD_TERMINATOR_CHAR]
  by_cases hb : buf_get st (count - 1) = 59
  · simp only [hb, if_true]
    obtain ⟨l, hl, hnd⟩ := parse_cmd_trace env (buf_set st (count - 1) 0) serial
      (u32sub (count - 1) ptr) ptr
    rw [buf_set_trace] at hl
    split
    · obtain ⟨l2, hl2, hw⟩ := send_cmd_response_trace env
        (at_cmd_parse_cmd env (buf_set st (count - 1) 0) serial (u32sub (count - 1) ptr) ptr).1
        0 1 (some (bytes "Invalid cmd"))
      refine ⟨l ++ l2, ?_, ?_⟩
      · rw [hl2, hl]; simp
      · intro e he
        rcases List.mem_append.1 he with h | h
        · exact hnd e h
        · obtain ⟨d, rfl⟩ := hw e h; rfl
    · rename_i msg _
      split
      · obtain ⟨l2, hl2, hw⟩ := send_cmd_response_trace env
          (emit (at_cmd_parse_cmd env (buf_set st (count - 1) 0) serial
            (u32sub (count - 1) ptr) ptr).1 (Event.queue_put msg)) 0 1 (some (bytes "queue error"))
        refine ⟨l ++ [Event.queue_put msg] ++ l2 ++ [Event.free msg], ?_, ?_⟩
        · simp only [emit] at hl2 ⊢
          rw [hl2, hl]; simp
        · intro e he
          simp only [List.mem_append, List.mem_singleton] at he
          rcases he with ((h | h) | h) | h
          · exact hnd e h
          · subst h; rfl
          · obtain ⟨d, rfl⟩ := hw e h; rfl
          · subst h; rfl
      · refine ⟨l ++ [Event.queue_put msg], ?_, ?_⟩
        · simp only [emit, hl]; simp
        · intro e he
          simp only [List.mem_append, List.mem_singleton] at he
          rcases he with h | h
          · exact hnd e h
          · subst h; rfl
  · simp only [hb, if_false]
    obtain ⟨l, hl, hnd⟩ := parse_cmd_trace env st serial (u32sub count ptr) ptr
    split
    · obtain ⟨l2, hl2, hw⟩ := send_cmd_response_trace env
        (at_cmd_parse_cmd env st serial (u32sub count ptr) ptr).1
        0 1 (some (bytes "Invalid cmd"))
      refine ⟨l ++ l2, ?_, ?_⟩
      · rw [hl2, hl]; simp
      · intro e he
        rcases List.mem_append.1 he with h | h
        · exact hnd e h
        · obtain ⟨d, rfl⟩ := hw e h; rfl
    · rename_i msg _
      split
      · obtain ⟨l2, hl2, hw⟩ := send_cmd_response_trace env
          (emit (at_cmd_parse_cmd env st serial (u32sub count ptr) ptr).1
            (Event.queue_put msg)) 0 1 (some (bytes "queue error"))
        refine ⟨l ++ [Event.queue_put msg] ++ l2 ++ [Event.free msg], ?_, ?_⟩
        · simp only [emit] at hl2 ⊢
          rw [hl2, hl]; simp
        · intro e he
          simp only [List.mem_append, List.mem_singleton] at he
          rcases he with ((h | h) | h) | h
          · exact hnd e h
          · subst h; rfl
          · obtain ⟨d, rfl⟩ := hw e h; rfl
          · subst h; rfl
      · refine ⟨l ++ [Event.queue_put msg], ?_, ?_⟩
        · simp only [emit, hl]; simp
        · intro e he
          simp only [List.mem_append, List.mem_singleton] at he
          rcases he with h | h
          · exact hnd e h
          · subst h; rfl


/-! ## Whole frames -/

theorem all_digits_pad4 (n : Nat) : all_digits (pad4 n) := by
  intro c hc
  simp only [pad4, List.mem_cons, List.mem_singleton, List.not_mem_nil, or_false] at hc
  rcases hc with h | h | h | h <;> (subst h; simp [isdigit]; omega)

theorem digits_value_pad4 (n : Nat) (h : n ≤ 9999) : digits_value 0 (pad4 n) = n := by
  rw [pad4_eq]
  generalize ha : n / 10 = a
  generalize hb : a / 10 = b
  generalize hc : b / 10 = c
  have e1 : u32 (0 * 10 + (c % 10 + 48) - 48) = c := by simp only [u32]; omega
  have e2 : u32 (c * 10 + (b % 10 + 48) - 48) = b := by simp only [u32]; omega
  have e3 : u32 (b * 10 + (a % 10 + 48) - 48) = a := by simp only [u32]; omega
  have e4 : u32 (a * 10 + (n % 10 + 48) - 48) = n := by simp only [u32]; omega
  simp only [digits_value, List.foldl, e1, e2, e3, e4]

theorem all_digits_append {a b : List Nat} (ha : all_digits a) (hb : all_digits b) :
    all_digits (a ++ b) := by
  intro c hc
  rcases List.mem_append.1 hc with h | h
  · exact ha c h
  · exact hb c h

/-- The scanner across noise without a full prefix and a header: the body begins
right after the header terminator, with the header in the buffer and the total
frame size computed from the size field. -/
theorem run_header (env : Env) (st0 : at_cmd_parser_t) (h : Fresh st0) (g ds s : List Nat)
    (hg : ¬ AT_CMD_PREFIX <:+: g ++ [65, 84])
    (hds : ds.length = 4) (hdd : all_digits ds) (hs : s ≠ []) (hsd : all_digits s)
    (hcap : 8 + s.length < AT_CMD_PARSER_BUFFER_SIZE)
    (hsize : digits_value 0 ds = 0
      ∨ digits_value 0 ds + (8 + s.length) + 1 ≤ AT_CMD_PARSER_BUFFER_SIZE) :
    run env st0 (g ++ AT_CMD_PREFIX ++ ds ++ s ++ [59])
      = mid st0 (AT_CMD_PREFIX ++ ds ++ s ++ [59]) false
          (if digits_value 0 ds = 0 then 0 else digits_value 0 ds + (8 + s.length) + 1)
    ∧ all_continuing env st0 (g ++ AT_CMD_PREFIX ++ ds ++ s ++ [59]) := by
  have hP : AT_CMD_PREFIX.length = 3 := rfl
  have hspos : 0 < s.length := List.length_pos.2 hs
  obtain ⟨r1, c1⟩ := run_resync env st0 h g hg
  obtain ⟨r2, c2⟩ := run_size_digits env st0 h.len ds AT_CMD_PREFIX 0 (by rw [hP, hds]) hdd
  obtain ⟨r3, c3⟩ := run_serial_digits env st0 h.len s (AT_CMD_PREFIX ++ ds) (digits_value 0 ds)
    (by simp [hP, hds]) (by simp [hP, hds]; omega) hsd
  obtain ⟨r4, c4⟩ := step_header_end env st0 (AT_CMD_PREFIX ++ ds ++ s) (digits_value 0 ds) h.len
    (by simp [hP, hds]; omega) (by simp [hP, hds]; omega)
    (by simp only [List.length_append, hP, hds]; omega)
  have e : (AT_CMD_PREFIX ++ ds ++ s).length + 2 = 8 + s.length + 1 := by
    simp [hP, hds]; omega
  rw [e] at r4
  have e2 : digits_value 0 ds + (8 + s.length + 1) = digits_value 0 ds + (8 + s.length) + 1 := by
    omega
  rw [e2] at r4
  constructor
  · rw [run_append, run_append, run_append, r1, r2, r3, run_cons, run_nil, r4]
  · rw [all_continuing_append env (g ++ AT_CMD_PREFIX ++ ds ++ s) [59],
      all_continuing_append env (g ++ AT_CMD_PREFIX ++ ds) s,
      all_continuing_append env (g ++ AT_CMD_PREFIX) ds,
      run_append env st0 (g ++ AT_CMD_PREFIX ++ ds) s,
      run_append env st0 (g ++ AT_CMD_PREFIX) ds, r1, r2, r3]
    exact ⟨⟨⟨c1, c2⟩, c3⟩, c4, trivial⟩

/-- The bytes of an explicit-mode frame before the last one. -/
theorem run_explicit (env : Env) (st0 : at_cmd_parser_t) (h : Fresh st0) (g s b : List Nat)
    (hg : ¬ AT_CMD_PREFIX <:+: g ++ [65, 84]) (hs : s ≠ []) (hsd : all_digits s)
    (hb1 : 1 ≤ b.length) (hb2 : b.length ≤ 9999)
    (hcap : (explicit_frame s b).length < AT_CMD_PARSER_BUFFER_SIZE) :
    run env st0 (g ++ AT_CMD_PREFIX ++ pad4 b.length ++ s ++ [59] ++ b)
      = mid st0 (AT_CMD_PREFIX ++ pad4 b.length ++ s ++ [59] ++ b) false
          (explicit_frame s b).length
    ∧ all_continuing env st0 (g ++ AT_CMD_PREFIX ++ pad4 b.length ++ s ++ [59] ++ b) := by
  have hP : AT_CMD_PREFIX.length = 3 := rfl
  have hlen : (explicit_frame s b).length = b.length + (8 + s.length) + 1 := by
    simp [explicit_frame, hP, pad4_length]; omega
  rw [hlen] at hcap ⊢
  have hv := digits_value_pad4 b.length hb2
  obtain ⟨r1, c1⟩ := run_header env st0 h g (pad4 b.length) s hg (pad4_length _)
    (all_digits_pad4 _) hs hsd (by omega) (by rw [hv]; omega)
  rw [hv, if_neg (by omega)] at r1
  obtain ⟨r2, c2⟩ := run_body_explicit env st0 h.len (b.length + (8 + s.length) + 1) b
    (AT_CMD_PREFIX ++ pad4 b.length ++ s ++ [59])
    (by simp [hP, pad4_length]; omega) (by omega)
  constructor
  · rw [run_append, r1, r2]
  · rw [all_continuing_append, r1]
    exact ⟨c1, c2⟩

/-- The bytes of an implicit-mode frame before the carriage return. -/
theorem run_implicit (env : Env) (st0 : at_cmd_parser_t) (h : Fresh st0) (g s b : List Nat)
    (hg : ¬ AT_CMD_PREFIX <:+: g ++ [65, 84]) (hs : s ≠ []) (hsd : all_digits s)
    (hb : 13 ∉ b)
    (hcap : (implicit_frame s b).length < AT_CMD_PARSER_BUFFER_SIZE) :
    run env st0 (g ++ AT_CMD_PREFIX ++ [48, 48, 48, 48] ++ s ++ [59] ++ b)
      = mid st0 (AT_CMD_PREFIX ++ [48, 48, 48, 48] ++ s ++ [59] ++ b.filter (fun c => c != 10))
          false 0
    ∧ all_continuing env st0 (g ++ AT_CMD_PREFIX ++ [48, 48, 48, 48] ++ s ++ [59] ++ b) := by
  have hP : AT_CMD_PREFIX.length = 3 := rfl
  have hlen : (implicit_frame s b).length = b.length + (8 + s.length) + 1 := by
    simp [implicit_frame, hP]; omega
  rw [hlen] at hcap
  have hv : digits_value 0 [48, 48, 48, 48] = 0 := by decide
  obtain ⟨r1, c1⟩ := run_header env st0 h g [48, 48, 48, 48] s hg rfl
    (by intro c hc; simp at hc; subst hc; decide) hs hsd (by omega) (Or.inl hv)
  rw [hv, if_pos rfl] at r1
  obtain ⟨r2, c2⟩ := run_body_implicit env st0 h.len b
    (AT_CMD_PREFIX ++ [48, 48, 48, 48] ++ s ++ [59])
    (by simp [hP]; omega) hb
  constructor
  · rw [run_append, r1, r2]
  · rw [all_continuing_append, r1]
    exact ⟨c1, c2⟩


/-- An explicit-mode frame after noise without a full prefix, fed in any chunks:
the frame is finalized on its last byte, processed, and the state reset. -/
theorem feed_explicit (env : Env) (st0 : at_cmd_parser_t) (h : Fresh st0) (g s b : List Nat)
    (chunks : List (List Nat))
    (hg : ¬ AT_CMD_PREFIX <:+: g ++ [65, 84]) (hs : s ≠ []) (hsd : all_digits s)
    (hb1 : 1 ≤ b.length) (hb2 : b.length ≤ 9999)
    (hne : ∀ ch ∈ chunks, ch ≠ []) (hj : chunks.flatten = g ++ explicit_frame s b)
    (hcap : (g ++ explicit_frame s b).length < AT_CMD_PARSER_BUFFER_SIZE) :
    feed env st0 chunks
      = completed env st0 (explicit_frame s b) (explicit_frame s b).length := by
  have hcap' : (explicit_frame s b).length < AT_CMD_PARSER_BUFFER_SIZE := by
    simp only [List.length_append] at hcap; omega
  obtain ⟨r, c⟩ := run_explicit env st0 h g s b hg hs hsd hb1 hb2 hcap'
  have e : g ++ explicit_frame s b
      = (g ++ AT_CMD_PREFIX ++ pad4 b.length ++ s ++ [59] ++ b) ++ [59] := by
    simp [explicit_frame]
  rw [feed_eq env chunks st0 _ 59 hne (hj.trans e) (by rw [← e, h.widx]; omega) c, r]
  have hl : (AT_CMD_PREFIX ++ pad4 b.length ++ s ++ [59] ++ b).length + 1
      = (explicit_frame s b).length := by simp [explicit_frame]; omega
  rw [add_final_explicit env st0 _ _ h.len hl hcap']
  rfl

/-- An implicit-mode frame after noise without a full prefix, fed in any chunks:
the frame is finalized on the carriage return, without it and without the line
feeds of the body, processed, and the state reset. -/
theorem feed_implicit (env : Env) (st0 : at_cmd_parser_t) (h : Fresh st0) (g s b : List Nat)
    (chunks : List (List Nat))
    (hg : ¬ AT_CMD_PREFIX <:+: g ++ [65, 84]) (hs : s ≠ []) (hsd : all_digits s)
    (hb : 13 ∉ b)
    (hne : ∀ ch ∈ chunks, ch ≠ []) (hj : chunks.flatten = g ++ implicit_frame s b)
    (hcap : (g ++ implicit_frame s b).length < AT_CMD_PARSER_BUFFER_SIZE) :
    feed env st0 chunks
      = completed env st0
          (AT_CMD_PREFIX ++ [48, 48, 48, 48] ++ s ++ [59] ++ b.filter (fun c => c != 10)) 0 := by
  have hcap' : (implicit_frame s b).length < AT_CMD_PARSER_BUFFER_SIZE := by
    simp only [List.length_append] at hcap; omega
  obtain ⟨r, c⟩ := run_implicit env st0 h g s b hg hs hsd hb hcap'
  have e : g ++ implicit_frame s b
      = (g ++ AT_CMD_PREFIX ++ [48, 48, 48, 48] ++ s ++ [59] ++ b) ++ [13] := by
    simp [implicit_frame]
  rw [feed_eq env chunks st0 _ 13 hne (hj.trans e) (by rw [← e, h.widx]; omega) c, r]
  have hf : (b.filter (fun c => c != 10)).length ≤ b.length := List.length_filter_le _ _
  rw [add_final_implicit env st0 _ h.len (by
    simp only [implicit_frame, List.length_append, List.length_cons, List.length_nil] at hcap' ⊢
    omega)]
  rfl

/-- The empty noise holds no prefix. -/
theorem no_prefix_nil : ¬ AT_CMD_PREFIX <:+: ([] : List Nat) ++ [65, 84] := by
  rintro ⟨u, v, hu⟩
  have hlen := congrArg List.length hu
  simp [AT_CMD_PREFIX] at hlen
  omega

/-- The noise of a stream in which the prefix occurs only at the end of
`g ++ "AT+"` holds no prefix, even followed by `"AT"`. -/
theorem no_prefix_of_only_at_end (g : List Nat)
    (h : ∀ u v : List Nat, g ++ AT_CMD_PREFIX = u ++ AT_CMD_PREFIX ++ v → v = []) :
    ¬ AT_CMD_PREFIX <:+: g ++ [65, 84] := by
  rintro ⟨u, v, hu⟩
  have := h u (v ++ [43]) (by
    have e : g ++ AT_CMD_PREFIX = (g ++ [65, 84]) ++ [43] := by simp [AT_CMD_PREFIX]
    rw [e, ← hu]; simp)
  simp at this


/-- Chunks of bytes that neither abort nor complete a frame: every call returns
success, the state is the one reached byte by byte, the trace is unchanged. -/
theorem feed_all_continuing (env : Env) (chunks : List (List Nat)) (st : at_cmd_parser_t)
    (xs : List Nat) (hne : ∀ ch ∈ chunks, ch ≠ []) (hj : chunks.flatten = xs) (hx : xs ≠ [])
    (hcap : st.cmd_widx + xs.length < AT_CMD_PARSER_BUFFER_SIZE)
    (hall : all_continuing env st xs) :
    feed env st chunks = (run env st xs, cy_rslt_t.CY_RSLT_SUCCESS)
    ∧ (run env st xs).trace = st.trace := by
  obtain ⟨ys, c, hy⟩ := (List.eq_nil_or_concat xs).resolve_left hx
  rw [List.concat_eq_append] at hy
  subst hy
  have hall' := (all_continuing_append env ys [c] st).1 hall
  simp only [List.length_append, List.length_singleton] at hcap
  obtain ⟨hw, ht⟩ := run_continuing env ys st hall'.1 (by omega)
  obtain ⟨h1, _, h3⟩ := add_single env (run env st ys) c (by omega) hall'.2.1
  constructor
  · rw [feed_eq env chunks st ys c hne hj (by simp; omega) hall'.1, h1, run_append]
    rfl
  · exact (run_continuing env (ys ++ [c]) st hall (by simp; omega)).2

theorem all_continuing_prefix (env : Env) (st : at_cmd_parser_t) (w xs : List Nat)
    (hw : w <+: xs) (hall : all_continuing env st xs) : all_continuing env st w := by
  obtain ⟨t, rfl⟩ := hw
  exact ((all_continuing_append env w t st).1 hall).1


/-! ## The hand-over of a completed frame -/

theorem echoed_full (st0 : at_cmd_parser_t) (f : List Nat) (size : Nat) :
    echoed (full st0 f size) f.length
      = { full st0 f size with trace := st0.trace ++ echo_events st0.echo_cmd f } := by
  unfold echoed echo_events
  by_cases he : st0.echo_cmd = true
  · simp [full, emit, he]
  · simp [full, he]

theorem echoed_trace (st0 : at_cmd_parser_t) (f : List Nat) (size : Nat) :
    (echoed (full st0 f size) f.length).trace = st0.trace ++ echo_events st0.echo_cmd f := by
  rw [echoed_full]

theorem echoed_buffer (st : at_cmd_parser_t) (n : Nat) :
    (echoed st n).command_buffer = st.command_buffer := by
  unfold echoed; split <;> rfl

theorem take_drop_set_ge (l : List Nat) (i p n v : Nat) (h : p + n ≤ i) :
    ((l.set i v).drop p).take n = (l.drop p).take n := by
  rw [List.drop_set, if_neg (by omega), List.set_take, List.set_eq_of_length_le]
  rw [List.length_take]
  omega

theorem buf_set_take_drop (st : at_cmd_parser_t) (i p n v : Nat) (h : p + n ≤ i) :
    ((buf_set st i v).command_buffer.drop p).take n = (st.command_buffer.drop p).take n := by
  unfold buf_set
  split
  · exact take_drop_set_ge _ _ _ _ _ h
  · rfl

theorem getD_append_last (a : List Nat) (c : Nat) (l : List Nat) :
    ((a ++ [c]) ++ l).getD ((a ++ [c]).length - 1) 0 = c := by
  have : (a ++ [c]).length - 1 = a.length := by simp
  rw [this, List.append_assoc]
  exact getD_append_cons a c _

/-- A completed explicit-mode frame: after the echo, the dispatcher is handed the
serial denoted by the serial digits and exactly the body, and nothing else is
handed to it. -/
theorem completed_explicit (env : Env) (st0 : at_cmd_parser_t) (s b : List Nat) (size : Nat)
    (hsd : all_digits s) (hb2 : b.length ≤ AT_CMD_MAX_SIZE) :
    ∃ l : List Event,
      (completed env st0 (explicit_frame s b) size).1.trace
        = st0.trace ++ echo_events st0.echo_cmd (explicit_frame s b)
            ++ Event.dispatch (digits_value 0 s) b.length b :: l
      ∧ (∀ e ∈ l, is_dispatch e = false) := by
  have hM : AT_CMD_MAX_SIZE = 6000 := rfl
  have hF : explicit_frame s b
      = [65, 84, 43, b.length / 1000 % 10 + 48, b.length / 100 % 10 + 48,
          b.length / 10 % 10 + 48, b.length % 10 + 48] ++ s ++ 59 :: (b ++ [59]) := by
    simp [explicit_frame, AT_CMD_PREFIX, pad4]
  have hv := digits_value_pad4 b.length (by omega)
  have hpf := process_full env st0 (b.length / 1000 % 10 + 48) (b.length / 100 % 10 + 48)
    (b.length / 10 % 10 + 48) (b.length % 10 + 48) s (b ++ [59]) size
    (all_digits_pad4 b.length) hsd (by rw [← pad4]; omega)
  rw [← hF] at hpf
  obtain ⟨l, hl, hnd⟩ := process_dispatch_trace env
    (echoed (full st0 (explicit_frame s b) size) (explicit_frame s b).length)
    (digits_value 0 s) (7 + s.length + 1) (explicit_frame s b).length
  have hlen : (explicit_frame s b).length = 7 + s.length + 1 + b.length + 1 := by
    rw [hF]; simp; omega
  have hlast : buf_get (echoed (full st0 (explicit_frame s b) size) (explicit_frame s b).length)
      ((explicit_frame s b).length - 1) = 59 := by
    simp only [buf_get, echoed_buffer, full]
    have : explicit_frame s b = (AT_CMD_PREFIX ++ pad4 b.length ++ s ++ [59] ++ b) ++ [59] := rfl
    rw [this]
    exact getD_append_last _ 59 _
  have hsub : u32sub ((explicit_frame s b).length - 1) (7 + s.length + 1) = b.length := by
    simp only [u32sub, hlen]; omega
  rw [if_pos hlast, if_pos hlast, hsub,
    buf_set_take_drop _ _ _ _ _ (by rw [hlen]; omega)] at hl
  have hbody : (List.drop (7 + s.length + 1)
      (echoed (full st0 (explicit_frame s b) size)
        (explicit_frame s b).length).command_buffer).take b.length = b := by
    rw [echoed_buffer]
    simp only [full]
    have e : explicit_frame s b ++ 0 :: List.drop ((explicit_frame s b).length + 1)
          st0.command_buffer
        = ([65, 84, 43, b.length / 1000 % 10 + 48, b.length / 100 % 10 + 48,
          b.length / 10 % 10 + 48, b.length % 10 + 48] ++ s ++ [59])
          ++ (b ++ (59 :: 0 :: List.drop ((explicit_frame s b).length + 1)
          st0.command_buffer)) := by
      rw [hF]; simp
    rw [e, List.drop_left' (by simp; omega), List.take_left' rfl]
  rw [hbody, echoed_trace] at hl
  refine ⟨l, ?_, hnd⟩
  simp only [completed, at_cmd_reset_command_buffer]
  rw [hpf, hl]


theorem process_dispatch_trace_ex (env : Env) (st : at_cmd_parser_t) (serial ptr count : Nat) :
    ∃ (len : Nat) (cmd : List Nat) (l : List Event),
      (process_dispatch env st serial ptr count).1.trace
        = st.trace ++ Event.dispatch serial len cmd :: l ∧ (∀ e ∈ l, is_dispatch e = false) := by
  obtain ⟨l, hl, hnd⟩ := process_dispatch_trace env st serial ptr count
  exact ⟨_, _, l, hl, hnd⟩

/-- A completed implicit-mode frame: after the echo, the dispatcher is handed the
serial denoted by the serial digits, once. -/
theorem completed_implicit (env : Env) (st0 : at_cmd_parser_t) (s b : List Nat) (size : Nat)
    (hsd : all_digits s) :
    ∃ (len : Nat) (cmd : List Nat) (l : List Event),
      (completed env st0 (AT_CMD_PREFIX ++ [48, 48, 48, 48] ++ s ++ [59] ++ b) size).1.trace
        = st0.trace ++ echo_events st0.echo_cmd (AT_CMD_PREFIX ++ [48, 48, 48, 48] ++ s ++ [59] ++ b)
            ++ Event.dispatch (digits_value 0 s) len cmd :: l
      ∧ (∀ e ∈ l, is_dispatch e = false) := by
  have hF : AT_CMD_PREFIX ++ [48, 48, 48, 48] ++ s ++ [59] ++ b
      = [65, 84, 43, 48, 48, 48, 48] ++ s ++ 59 :: b := by
    simp [AT_CMD_PREFIX]
  have hpf := process_full env st0 48 48 48 48 s b size
    (by intro c hc; simp at hc; subst hc; decide) hsd (by decide)
  rw [← hF] at hpf
  obtain ⟨len, cmd, l, hl, hnd⟩ := process_dispatch_trace_ex env
    (echoed (full st0 (AT_CMD_PREFIX ++ [48, 48, 48, 48] ++ s ++ [59] ++ b) size)
      (AT_CMD_PREFIX ++ [48, 48, 48, 48] ++ s ++ [59] ++ b).length)
    (digits_value 0 s) (7 + s.length + 1)
    (AT_CMD_PREFIX ++ [48, 48, 48, 48] ++ s ++ [59] ++ b).length
  rw [echoed_trace] at hl
  refine ⟨len, cmd, l, ?_, hnd⟩
  simp only [completed, at_cmd_reset_command_buffer]
  rw [hpf, hl]

theorem countP_dispatch_echo (echo : Bool) (f : List Nat) :
    (echo_events echo f).countP is_dispatch = 0 := by
  cases echo <;> simp [echo_events, is_dispatch]

/-- A trace extended by an echo, one hand-over and events that are no hand-over
holds one hand-over more. -/
theorem countP_dispatch_one (t : List Event) (echo : Bool) (f : List Nat) (d : Event)
    (l : List Event) (hd : is_dispatch d = true) (hl : ∀ e ∈ l, is_dispatch e = false) :
    (t ++ echo_events echo f ++ d :: l).countP is_dispatch = t.countP is_dispatch + 1 := by
  have h0 : l.countP is_dispatch = 0 := by
    rw [List.countP_eq_zero]
    intro e he
    simp [hl e he]
  simp [List.countP_append, List.countP_cons, countP_dispatch_echo, hd, h0]


/-! ## The value of a run of digits -/

theorem digits_value_mod (ds : List Nat) : ∀ v w : Nat, all_digits ds → u32 v = u32 w →
    u32 (digits_value v ds) = u32 (ds.foldl (fun v c => v * 10 + (c - 48)) w) := by
  induction ds with
  | nil => intro v w _ h; simpa [digits_value] using h
  | cons d ds ih =>
    intro v w hd h
    have h1 : isdigit d = true := hd d (by simp)
    simp only [isdigit, Bool.and_eq_true, decide_eq_true_eq] at h1
    simp only [digits_value, List.foldl_cons]
    apply ih _ _ (fun c hc => hd c (by simp [hc]))
    simp only [u32] at h ⊢
    omega

theorem digits_value_lt (ds : List Nat) : ∀ v : Nat, v < 4294967296 →
    digits_value v ds < 4294967296 := by
  induction ds with
  | nil => intro v h; simpa [digits_value] using h
  | cons d ds ih =>
    intro v _
    simp only [digits_value, List.foldl_cons]
    exact ih _ (by simp only [u32]; omega)

/-- The accumulation of the scanner and of the dispatcher yields the number
denoted by the digits, modulo `2 ^ 32`. -/
theorem digits_value_eq (ds : List Nat) (h : all_digits ds) :
    digits_value 0 ds = decimal_value ds % 4294967296 := by
  have h1 := digits_value_mod ds 0 0 h rfl
  have h2 := digits_value_lt ds 0 (by omega)
  simp only [u32] at h1
  unfold decimal_value
  rw [← h1, Nat.mod_eq_of_lt h2]


/-- A non-empty proper part of an input all of whose bytes but the last neither
abort nor complete a frame, fed in any chunks: every call returns success and
the trace is unchanged. -/
theorem feed_proper_prefix (env : Env) (st : at_cmd_parser_t) (xs : List Nat) (c : Nat)
    (hall : all_continuing env st xs)
    (hcap : st.cmd_widx + (xs ++ [c]).length < AT_CMD_PARSER_BUFFER_SIZE)
    (cs : List (List Nat)) (w : List Nat) (hcs : ∀ ch ∈ cs, ch ≠ []) (hj : cs.flatten = w)
    (hw : w ≠ []) (hpre : w <+: xs ++ [c]) (hneq : w ≠ xs ++ [c]) :
    feed env st cs = (run env st w, cy_rslt_t.CY_RSLT_SUCCESS)
    ∧ (run env st w).trace = st.trace ∧ w <+: xs := by
  have hpre' : w <+: xs := by
    rcases List.prefix_concat_iff.1 hpre with h1 | h1
    · exact absurd h1 hneq
    · exact h1
  have hwl := hpre'.length_le
  simp only [List.length_append, List.length_singleton] at hcap
  obtain ⟨f1, f2⟩ := feed_all_continuing env cs st w hcs hj hw (by omega)
    ( all_continuing_prefix env st w xs hpre' hall)
  exact ⟨f1, f2, hpre'⟩

/-! ## The dispatcher on a body with arguments -/

/-- The dispatcher on a buffer holding `name , args NUL` at `cmd_buf`, the name
being that of a registered command: the name is cut at the comma and the callback
of the command is called with the bytes after the comma. -/
theorem parse_cmd_comma (env : Env) (st : at_cmd_parser_t) (serial cmd_len : Nat)
    (hd name args rest : List Nat) (cmd : at_cmd_def_t)
    (hbuf : st.command_buffer = hd ++ (name ++ 44 :: (args ++ 0 :: rest)))
    (hlt : hd.length + name.length < AT_CMD_PARSER_BUFFER_SIZE)
    (hname : ∀ c ∈ name, (c != 0 && c != 44) = true) (hargs : ∀ c ∈ args, (c != 0) = true)
    (hfind : find_cmd st.cmd_tables name = some cmd) :
    (at_cmd_parse_cmd env st serial cmd_len hd.length).1.trace
      = st.trace ++ [Event.dispatch serial cmd_len ((st.command_buffer.drop hd.length).take cmd_len),
          Event.callback cmd.cmd_parser_fn cmd.cmd_id serial
            (u32sub cmd_len (name.length + 1)) args] := by
  have hstop : ((st.command_buffer.drop hd.length).takeWhile (fun c => c != 0 && c != 44)) = name := by
    rw [hbuf, List.drop_left' rfl]
    exact takeWhile_append_stop _ name 44 _ hname (by decide)
  have hget : st.command_buffer.getD (hd.length + name.length) 0 = 44 := by
    rw [hbuf, ← List.append_assoc, ← List.length_append]
    exact getD_append_cons _ 44 _
  have hset : st.command_buffer.set (hd.length + name.length) 0
      = hd ++ (name ++ 0 :: (args ++ 0 :: rest)) := by
    rw [hbuf, ← List.append_assoc, ← List.length_append,
      List.set_append_right _ _ (le_refl _), Nat.sub_self, List.set_cons_zero, List.append_assoc]
  have hn0 : ∀ c ∈ name, (c != 0) = true := by
    intro c hc
    have := hname c hc
    simp only [Bool.and_eq_true] at this
    exact this.1
  have hc1 : ((hd ++ (name ++ 0 :: (args ++ 0 :: rest))).drop hd.length).takeWhile
      (fun c => c != 0) = name := by
    rw [List.drop_left' rfl]
    exact takeWhile_append_stop _ name 0 _ hn0 (by decide)
  have hc2 : ((hd ++ (name ++ 0 :: (args ++ 0 :: rest))).drop (hd.length + name.length + 1)).takeWhile
      (fun c => c != 0) = args := by
    have e : hd ++ (name ++ 0 :: (args ++ 0 :: rest)) = (hd ++ name ++ [0]) ++ (args ++ 0 :: rest) := by
      simp
    rw [e, List.drop_left' (by simp; omega)]
    exact takeWhile_append_stop _ args 0 _ hargs (by decide)
  have hsub : u32sub (hd.length + name.length + 1) hd.length = name.length + 1 := by
    have := bufsize_eq
    simp only [u32sub]; omega
  unfold at_cmd_parse_cmd
  simp only [emit, buf_get, hstop, hget, if_true, buf_set, hlt, cstr, hset, hc1, hfind, hc2, hsub]
  simp


/-- Processing from the stripping of the trailing `;` on, the buffer holding
`name , args ;` after the header and the name being that of a registered command:
the dispatcher is handed `name,args`, the callback of the command is called with
`args`, and what follows is neither a hand-over nor a callback. -/
theorem process_dispatch_comma (env : Env) (st : at_cmd_parser_t) (serial : Nat)
    (hd name args rest : List Nat) (cmd : at_cmd_def_t)
    (hbuf : st.command_buffer = hd ++ (name ++ 44 :: (args ++ 59 :: 0 :: rest)))
    (hlt : hd.length + name.length + 1 + args.length + 1 < AT_CMD_PARSER_BUFFER_SIZE)
    (hname : ∀ c ∈ name, (c != 0 && c != 44) = true) (hargs : ∀ c ∈ args, (c != 0) = true)
    (hfind : find_cmd st.cmd_tables name = some cmd) :
    ∃ l : List Event,
      (process_dispatch env st serial hd.length
          (hd.length + name.length + 1 + args.length + 1)).1.trace
        = st.trace ++ Event.dispatch serial (name.length + 1 + args.length) (name ++ 44 :: args)
            :: Event.callback cmd.cmd_parser_fn cmd.cmd_id serial args.length args :: l
      ∧ (∀ e ∈ l, is_dispatch e = false ∧ is_callback e = false) := by
  have hB := bufsize_eq
  have e1 : hd ++ (name ++ 44 :: (args ++ 59 :: 0 :: rest))
      = (hd ++ name ++ 44 :: args) ++ 59 :: 0 :: rest := by simp
  have hl1 : (hd ++ name ++ 44 :: args).length = hd.length + name.length + 1 + args.length := by
    simp; omega
  have hget : buf_get st (hd.length + name.length + 1 + args.length) = 59 := by
    rw [buf_get, hbuf, e1, ← hl1]
    exact getD_append_cons _ 59 _
  have hset : (buf_set st (hd.length + name.length + 1 + args.length) 0).command_buffer
      = hd ++ (name ++ 44 :: (args ++ 0 :: 0 :: rest)) := by
    rw [buf_set, if_pos (by omega)]
    simp only []
    rw [hbuf, e1, ← hl1, List.set_append_right _ _ (le_refl _), Nat.sub_self, List.set_cons_zero]
    simp
  have hsub : u32sub (hd.length + name.length + 1 + args.length) hd.length
      = name.length + 1 + args.length := by
    simp only [u32sub]; omega
  have hsub2 : u32sub (name.length + 1 + args.length) (name.length + 1) = args.length := by
    simp only [u32sub]; omega
  have hp := parse_cmd_comma env (buf_set st (hd.length + name.length + 1 + args.length) 0)
    serial (name.length + 1 + args.length) hd name args (0 :: rest) cmd hset (by omega)
    hname hargs (by simpa [buf_set, show hd.length + name.length + 1 + args.length
      < AT_CMD_PARSER_BUFFER_SIZE by omega] using hfind)
  have hbody : (List.drop hd.length (hd ++ (name ++ 44 :: (args ++ 0 :: 0 :: rest)))).take
      (name.length + 1 + args.length) = name ++ 44 :: args := by
    have e2 : name ++ 44 :: (args ++ 0 :: 0 :: rest) = (name ++ 44 :: args) ++ 0 :: 0 :: rest := by
      simp
    rw [List.drop_left' rfl, e2, List.take_left' (by simp; omega)]
  rw [hset, hbody, hsub2, buf_set_trace] at hp
  unfold process_dispatch
  simp only [AT_CMD_TERMINATOR_CHAR, Nat.add_sub_cancel, hget, if_true, hsub]
  split
  · obtain ⟨l2, hl2, hw⟩ := send_cmd_response_trace env
      (at_cmd_parse_cmd env (buf_set st (hd.length + name.length + 1 + args.length) 0) serial
        (name.length + 1 + args.length) hd.length).1 0 1 (some (bytes "Invalid cmd"))
    refine ⟨l2, ?_, ?_⟩
    · rw [hl2, hp]; simp
    · intro e he
      obtain ⟨d, rfl⟩ := hw e he
      exact ⟨rfl, rfl⟩
  · rename_i msg _
    split
    · obtain ⟨l2, hl2, hw⟩ := send_cmd_response_trace env
        (emit (at_cmd_parse_cmd env (buf_set st (hd.length + name.length + 1 + args.length) 0)
          serial (name.length + 1 + args.length) hd.length).1 (Event.queue_put msg)) 0 1
        (some (bytes "queue error"))
      refine ⟨[Event.queue_put msg] ++ l2 ++ [Event.free msg], ?_, ?_⟩
      · simp only [emit] at hl2 ⊢
        rw [hl2, hp]; simp
      · intro e he
        simp only [List.mem_append, List.mem_singleton] at he
        rcases he with (h | h) | h
        · subst h; exact ⟨rfl, rfl⟩
        · obtain ⟨d, rfl⟩ := hw e h; exact ⟨rfl, rfl⟩
        · subst h; exact ⟨rfl, rfl⟩
    · refine ⟨[Event.queue_put msg], ?_, ?_⟩
      · simp only [emit, hp]; simp
      · intro e he
        simp only [List.mem_singleton] at he
        subst he; exact ⟨rfl, rfl⟩


/-- A completed explicit-mode frame whose body is `name,args`, the name being
that of a registered command: after the echo, the dispatcher is handed the body
and the callback of the command is called with `args`, once each. -/
theorem completed_explicit_comma (env : Env) (st0 : at_cmd_parser_t) (s name args : List Nat)
    (size : Nat) (cmd : at_cmd_def_t) (hsd : all_digits s)
    (hb2 : (name ++ 44 :: args).length ≤ AT_CMD_MAX_SIZE)
    (hlen : (explicit_frame s (name ++ 44 :: args)).length < AT_CMD_PARSER_BUFFER_SIZE)
    (hname : ∀ c ∈ name, (c != 0 && c != 44) = true) (hargs : ∀ c ∈ args, (c != 0) = true)
    (hfind : find_cmd st0.cmd_tables name = some cmd) :
    ∃ l : List Event,
      (completed env st0 (explicit_frame s (name ++ 44 :: args)) size).1.trace
        = st0.trace ++ echo_events st0.echo_cmd (explicit_frame s (name ++ 44 :: args))
            ++ Event.dispatch (digits_value 0 s) (name ++ 44 :: args).length (name ++ 44 :: args)
            :: Event.callback cmd.cmd_parser_fn cmd.cmd_id (digits_value 0 s) args.length args
            :: l
      ∧ (∀ e ∈ l, is_dispatch e = false ∧ is_callback e = false) := by
  have hM : AT_CMD_MAX_SIZE = 6000 := rfl
  generalize hb : name ++ 44 :: args = b at hb2 hlen ⊢
  have hF : explicit_frame s b
      = [65, 84, 43, b.length / 1000 % 10 + 48, b.length / 100 % 10 + 48,
          b.length / 10 % 10 + 48, b.length % 10 + 48] ++ s ++ 59 :: (b ++ [59]) := by
    simp [explicit_frame, AT_CMD_PREFIX, pad4]
  have hv := digits_value_pad4 b.length (by omega)
  have hpf := process_full env st0 (b.length / 1000 % 10 + 48) (b.length / 100 % 10 + 48)
    (b.length / 10 % 10 + 48) (b.length % 10 + 48) s (b ++ [59]) size
    (all_digits_pad4 b.length) hsd (by rw [← pad4]; omega)
  rw [← hF] at hpf
  have hbl : b.length = name.length + 1 + args.length := by
    rw [← hb]; simp; omega
  have hFl : (explicit_frame s b).length = 7 + s.length + 1 + name.length + 1 + args.length + 1 := by
    rw [hF]; simp; omega
  have hbuf : (echoed (full st0 (explicit_frame s b) size) (explicit_frame s b).length).command_buffer
      = ([65, 84, 43, b.length / 1000 % 10 + 48, b.length / 100 % 10 + 48,
          b.length / 10 % 10 + 48, b.length % 10 + 48] ++ s ++ [59])
        ++ (name ++ 44 :: (args ++ 59 :: 0 ::
              List.drop ((explicit_frame s b).length + 1) st0.command_buffer)) := by
    rw [echoed_buffer]
    simp only [full]
    rw [hF, ← hb]
    simp
  obtain ⟨l, hl, hnd⟩ := process_dispatch_comma env
    (echoed (full st0 (explicit_frame s b) size) (explicit_frame s b).length)
    (digits_value 0 s) _ name args _ cmd hbuf (by simp; omega) hname hargs
    (by
      have : (echoed (full st0 (explicit_frame s b) size) (explicit_frame s b).length).cmd_tables
          = st0.cmd_tables := by
        unfold echoed; split <;> rfl
      rw [this]; exact hfind)
  have e1 : ([65, 84, 43, b.length / 1000 % 10 + 48, b.length / 100 % 10 + 48,
          b.length / 10 % 10 + 48, b.length % 10 + 48] ++ s ++ [59]).length = 7 + s.length + 1 := by
    simp; omega
  rw [e1, ← hFl, echoed_trace, ← hbl, hb] at hl
  refine ⟨l, ?_, hnd⟩
  simp only [completed, at_cmd_reset_command_buffer]
  rw [hpf, hl]

/-! ## Rejected frames -/

/-- The byte at the last position of an explicit-mode frame, when it is neither
the terminator nor a line feed: the frame is rejected with the response
`bad cmd trailer` and the state is reset. -/
theorem add_final_bad_trailer (env : Env) (st0 : at_cmd_parser_t) (p : List Nat) (size c : Nat)
    (hl : st0.command_buffer.length = AT_CMD_PARSER_BUFFER_SIZE)
    (hs : p.length + 1 = size) (hcap : size < AT_CMD_PARSER_BUFFER_SIZE)
    (hc : c ≠ 59) (hc10 : c ≠ 10) :
    at_cmd_add_command_chars env (mid st0 p false size) [c]
      = (at_cmd_reset_command_buffer
           (at_cmd_parser_send_cmd_response env (full st0 (p ++ [c]) size) 0 1
             (some (bytes "bad cmd trailer"))).1,
         cy_rslt_t.CY_AT_CMD_PARSER_ERROR) := by
  have hB := bufsize_eq
  have hp2 : p.length < AT_CMD_PARSER_BUFFER_SIZE := by omega
  have hp3 : p.length + 1 < AT_CMD_PARSER_BUFFER_SIZE := by omega
  have h := set_append_drop p st0.command_buffer c (by omega)
  have hd : List.drop (p.length + 1) st0.command_buffer
      = st0.command_buffer[p.length + 1] :: List.drop (p.length + 1 + 1) st0.command_buffer :=
    List.drop_eq_getElem_cons (by omega)
  have hset : (p ++ c :: List.drop (p.length + 1) st0.command_buffer).set (p.length + 1) 0
      = p ++ c :: 0 :: List.drop (p.length + 1 + 1) st0.command_buffer := by
    rw [hd, List.set_append_right _ _ (by omega), Nat.add_sub_cancel_left,
      List.set_cons_succ, List.set_cons_zero]
  have hg : ∀ (l : List Nat) (hh : p.length < (p ++ c :: l).length),
      (p ++ c :: l)[p.length] = c := fun l hh => getElem_append_cons_length p l c hh
  rw [add_reading env _ [c] (by simp) (by simpa [mid] using hp3) rfl]
  have hsz : size ≠ 0 := by omega
  have hw : p.length = size - 1 := by omega
  simp only [List.append_assoc, List.singleton_append] at h
  subst hs
  simp [add_chars_loop, mid, full, buf_set, buf_get, hp2, hp3, h, hset, hg, hc, hc10]


/-- An explicit-mode frame whose last byte is neither the terminator nor a line
feed, after noise without a full prefix, fed in any chunks: the frame is rejected
on that byte. -/
theorem feed_bad_trailer (env : Env) (st0 : at_cmd_parser_t) (h : Fresh st0) (g s b : List Nat)
    (c : Nat) (chunks : List (List Nat))
    (hg : ¬ AT_CMD_PREFIX <:+: g ++ [65, 84]) (hs : s ≠ []) (hsd : all_digits s)
    (hb1 : 1 ≤ b.length) (hb2 : b.length ≤ 9999) (hc : c ≠ 59) (hc10 : c ≠ 10)
    (hne : ∀ ch ∈ chunks, ch ≠ [])
    (hj : chunks.flatten = g ++ AT_CMD_PREFIX ++ pad4 b.length ++ s ++ [59] ++ b ++ [c])
    (hcap : (g ++ explicit_frame s b).length < AT_CMD_PARSER_BUFFER_SIZE) :
    feed env st0 chunks
      = (at_cmd_reset_command_buffer
           (at_cmd_parser_send_cmd_response env
             (full st0 (AT_CMD_PREFIX ++ pad4 b.length ++ s ++ [59] ++ b ++ [c])
               (explicit_frame s b).length) 0 1 (some (bytes "bad cmd trailer"))).1,
         cy_rslt_t.CY_AT_CMD_PARSER_ERROR) := by
  have hcap' : (explicit_frame s b).length < AT_CMD_PARSER_BUFFER_SIZE := by
    simp only [List.length_append] at hcap; omega
  obtain ⟨r, cc⟩ := run_explicit env st0 h g s b hg hs hsd hb1 hb2 hcap'
  have hl : (AT_CMD_PREFIX ++ pad4 b.length ++ s ++ [59] ++ b).length + 1
      = (explicit_frame s b).length := by simp [explicit_frame]; omega
  have hl2 : (g ++ AT_CMD_PREFIX ++ pad4 b.length ++ s ++ [59] ++ b ++ [c]).length
      = (g ++ explicit_frame s b).length := by
    simp [explicit_frame]
  rw [feed_eq env chunks st0 _ c hne hj (by rw [hl2, h.widx]; omega) cc, r]
  exact add_final_bad_trailer env st0 _ _ c h.len hl hcap' hc hc10

/-- The rejection of an explicit-mode frame whose last byte is neither the
terminator nor a line feed, as seen from outside: one write, of the response
`+S0017,0;1,bad cmd trailer;` with serial 0, the status `CY_AT_CMD_PARSER_ERROR`,
and the per-frame state reset. -/
theorem explicit_bad_trailer_rejected (env : Env) (st0 : at_cmd_parser_t) (h : Fresh st0)
    (hm : env.mutex_get = cy_rslt_t.CY_RSLT_SUCCESS)
    (ho : st0.output_buffer.length = AT_CMD_PARSER_BUFFER_SIZE)
    (g s b : List Nat) (c : Nat) (chunks : List (List Nat))
    (hg : ¬ AT_CMD_PREFIX <:+: g ++ [65, 84]) (hs : s ≠ []) (hsd : all_digits s)
    (hb1 : 1 ≤ b.length) (hb2 : b.length ≤ 9999) (hc : c ≠ 59) (hc10 : c ≠ 10)
    (hne : ∀ ch ∈ chunks, ch ≠ [])
    (hj : chunks.flatten = g ++ AT_CMD_PREFIX ++ pad4 b.length ++ s ++ [59] ++ b ++ [c])
    (hcap : (g ++ explicit_frame s b).length < AT_CMD_PARSER_BUFFER_SIZE) :
    (feed env st0 chunks).2 = cy_rslt_t.CY_AT_CMD_PARSER_ERROR
    ∧ (feed env st0 chunks).1.trace
        = st0.trace ++ [Event.write (bytes "+S0017,0;1,bad cmd trailer;\r\n")]
    ∧ (feed env st0 chunks).1.reading_cmd = false ∧ (feed env st0 chunks).1.cmd_header = false
    ∧ (feed env st0 chunks).1.cmd_widx = 0 ∧ (feed env st0 chunks).1.cmd_size = 0
    ∧ (feed env st0 chunks).1.at_cmd_prefix_idx = 0 := by
  rw [feed_bad_trailer env st0 h g s b c chunks hg hs hsd hb1 hb2 hc hc10 hne hj hcap]
  obtain ⟨out, flt, _, _, e⟩ := send_cmd_response_spec env
    (full st0 (AT_CMD_PREFIX ++ pad4 b.length ++ s ++ [59] ++ b ++ [c])
      (explicit_frame s b).length) 0 1 (some (bytes "bad cmd trailer")) hm
    (by simpa [full] using ho) (by decide)
  rw [e]
  refine ⟨rfl, ?_, rfl, rfl, rfl, rfl, rfl⟩
  simp only [at_cmd_reset_command_buffer, full]
  rfl

/-- A line feed among the serial digits of the header is not dropped: the header
scanner rejects the frame with the response `Invalid format`, the rest of the
chunk is discarded and nothing is handed to the dispatcher. -/
theorem line_feed_in_header_rejected :
    (at_cmd_add_command_chars env_ok demo_state (bytes "AT+00000\n07;PING\r")).1.trace
      = [Event.write (bytes "+S0016,0;1,Invalid format;\r\n")]
    ∧ (at_cmd_add_command_chars env_ok demo_state (bytes "AT+00000\n07;PING\r")).1.reading_cmd
      = false := by
  decide

/-! ## The header scanner -/

/-- A chunk beginning with bytes that neither abort nor complete a frame: the call
is the call on the rest of the chunk in the state reached byte by byte. -/
theorem add_append (env : Env) (xs ys : List Nat) (hy : ys ≠ []) : ∀ st : at_cmd_parser_t,
    st.cmd_widx + (xs ++ ys).length < AT_CMD_PARSER_BUFFER_SIZE → all_continuing env st xs →
    at_cmd_add_command_chars env st (xs ++ ys)
      = at_cmd_add_command_chars env (run env st xs) ys := by
  induction xs with
  | nil => intro st _ _; rfl
  | cons x xs ih =>
    intro st hcap hall
    simp only [List.cons_append, List.length_cons, List.length_append] at hcap
    obtain ⟨_, h2, _⟩ := add_single env st x (by omega) hall.1
    rw [List.cons_append, add_cons env st x (xs ++ ys) (by simp [hy]) (by simp; omega) hall.1]
    exact ih (step env st x) (by simp; omega) hall.2

/-- The calls on successive chunks: the last call is made in the state left by the
calls before it. -/
theorem feed_concat (env : Env) (last : List Nat) : ∀ (cs : List (List Nat)) (st : at_cmd_parser_t),
    feed env st (cs ++ [last]) = at_cmd_add_command_chars env (feed env st cs).1 last := by
  intro cs
  induction cs with
  | nil => intro st; rfl
  | cons ch rest ih =>
    intro st
    cases rest with
    | nil => rfl
    | cons ch2 rest2 =>
      have := ih (at_cmd_add_command_chars env st ch).1
      simpa [feed] using this

/-- Chunks of bytes that neither abort nor complete a frame, then one more chunk:
the last call is made in the state reached byte by byte. -/
theorem feed_then (env : Env) (cs : List (List Nat)) (last w : List Nat) (st : at_cmd_parser_t)
    (hne : ∀ ch ∈ cs, ch ≠ []) (hj : cs.flatten = w)
    (hcap : st.cmd_widx + w.length < AT_CMD_PARSER_BUFFER_SIZE)
    (hall : all_continuing env st w) :
    feed env st (cs ++ [last]) = at_cmd_add_command_chars env (run env st w) last := by
  rw [feed_concat]
  by_cases hw : w = []
  · subst hw
    have : cs = [] := by
      cases cs with
      | nil => rfl
      | cons ch rest =>
        have h1 := hne ch (by simp)
        simp only [List.flatten_cons, List.append_eq_nil] at hj
        exact absurd hj.1 h1
    subst this
    rfl
  · obtain ⟨f1, _⟩ := feed_all_continuing env cs st w hne hj hw hcap hall
    rw [f1]

/-- The main loop when the index has already been moved over all the bytes left. -/
theorem add_chars_loop_skip_all (env : Env) (st : at_cmd_parser_t) (cs : List Nat) (k : Nat)
    (res : cy_rslt_t) (hk : cs.length ≤ k) :
    add_chars_loop env st cs k res = (st, res) := by
  rw [add_chars_loop_skip, List.drop_eq_nil_of_le hk]
  rfl

/-- In the size field, a byte that is not a digit aborts the frame; the rest of
the chunk is not read. -/
theorem add_bad_size_digit (env : Env) (st0 : at_cmd_parser_t) (p : List Nat) (size c : Nat)
    (rest : List Nat) (hp : p.length < 7)
    (hcap : p.length + (c :: rest).length < AT_CMD_PARSER_BUFFER_SIZE)
    (hd : isdigit c = false) :
    at_cmd_add_command_chars env (mid st0 p true size) (c :: rest)
      = (rejected env (mid st0 p true size) (bytes "Invalid size digit"),
         cy_rslt_t.CY_RSLT_SUCCESS) := by
  rw [add_reading env _ (c :: rest) (by simp) (by simpa [mid] using hcap) rfl]
  have e : at_cmd_scan_cmd_header env (c :: rest).length (mid st0 p true size) (c :: rest) 0
      = (rejected env (mid st0 p true size) (bytes "Invalid size digit"), (c :: rest).length) := by
    simp [at_cmd_scan_cmd_header, mid, hp, hd, rejected, AT_CMD_PREFIX_CHARS, AT_CMD_SIZE_CHARS]
  have hh : (mid st0 p true size).cmd_header = true := rfl
  simp only [add_chars_loop, hh, if_true, e]
  exact add_chars_loop_skip_all env _ rest _ _ (by simp)

/-- Right after the size field, a byte that is not a digit aborts the frame. -/
theorem add_bad_serial_digit (env : Env) (st0 : at_cmd_parser_t) (p : List Nat) (size c : Nat)
    (rest : List Nat) (hp : p.length = 7)
    (hcap : p.length + (c :: rest).length < AT_CMD_PARSER_BUFFER_SIZE)
    (hd : isdigit c = false) :
    at_cmd_add_command_chars env (mid st0 p true size) (c :: rest)
      = (rejected env (mid st0 p true size) (bytes "Invalid serial digit"),
         cy_rslt_t.CY_RSLT_SUCCESS) := by
  rw [add_reading env _ (c :: rest) (by simp) (by simpa [mid] using hcap) rfl]
  have e : at_cmd_scan_cmd_header env (c :: rest).length (mid st0 p true size) (c :: rest) 0
      = (rejected env (mid st0 p true size) (bytes "Invalid serial digit"),
         (c :: rest).length) := by
    simp [at_cmd_scan_cmd_header, mid, hp, hd, rejected, AT_CMD_PREFIX_CHARS, AT_CMD_SIZE_CHARS]
  have hh : (mid st0 p true size).cmd_header = true := rfl
  simp only [add_chars_loop, hh, if_true, e]
  exact add_chars_loop_skip_all env _ rest _ _ (by simp)

/-- After the first serial digit, a byte that is neither a digit nor the
terminator aborts the frame. -/
theorem add_bad_format (env : Env) (st0 : at_cmd_parser_t) (p : List Nat) (size c : Nat)
    (rest : List Nat) (hp : 7 < p.length)
    (hcap : p.length + (c :: rest).length < AT_CMD_PARSER_BUFFER_SIZE)
    (hd : isdigit c = false) (hc : c ≠ 59) :
    at_cmd_add_command_chars env (mid st0 p true size) (c :: rest)
      = (rejected env (mid st0 p true size) (bytes "Invalid format"),
         cy_rslt_t.CY_RSLT_SUCCESS) := by
  rw [add_reading env _ (c :: rest) (by simp) (by simpa [mid] using hcap) rfl]
  have hp3 : ¬ p.length < 7 := by omega
  have hp4 : ¬ p.length = 7 := by omega
  have e : at_cmd_scan_cmd_header env (c :: rest).length (mid st0 p true size) (c :: rest) 0
      = (rejected env (mid st0 p true size) (bytes "Invalid format"), (c :: rest).length) := by
    simp [at_cmd_scan_cmd_header, mid, hp3, hp4, hd, hc, rejected, AT_CMD_PREFIX_CHARS,
      AT_CMD_SIZE_CHARS, AT_CMD_TERMINATOR_CHAR]
  have hh : (mid st0 p true size).cmd_header = true := rfl
  simp only [add_chars_loop, hh, if_true, e]
  exact add_chars_loop_skip_all env _ rest _ _ (by simp)

/-- The terminator of a header whose nonzero size makes the total exceed the
buffer size aborts the frame, after the terminator has been stored and the total
computed. -/
theorem add_total_too_large (env : Env) (st0 : at_cmd_parser_t) (p : List Nat) (size : Nat)
    (rest : List Nat) (hl : st0.command_buffer.length = AT_CMD_PARSER_BUFFER_SIZE)
    (hp : 7 < p.length)
    (hcap : p.length + (59 :: rest).length < AT_CMD_PARSER_BUFFER_SIZE)
    (hs : 0 < size) (hv : size ≤ 9999)
    (hbig : AT_CMD_PARSER_BUFFER_SIZE < size + (p.length + 2)) :
    at_cmd_add_command_chars env (mid st0 p true size) (59 :: rest)
      = (rejected env (mid st0 (p ++ [59]) false (size + (p.length + 2)))
           (bytes "Input buffer size exceeded"),
         cy_rslt_t.CY_RSLT_SUCCESS) := by
  have hB := bufsize_eq
  simp only [List.length_cons] at hcap
  rw [add_reading env _ (59 :: rest) (by simp) (by simp [mid]; omega) rfl]
  have hp2 : p.length < AT_CMD_PARSER_BUFFER_SIZE := by omega
  have hp3 : ¬ p.length < 7 := by omega
  have hp4 : ¬ p.length = 7 := by omega
  have h := set_append_drop p st0.command_buffer 59 (by omega)
  have hu : u32 (size + (p.length + 1 + 1)) = size + (p.length + 2) := by
    simp only [u32]; omega
  have e : at_cmd_scan_cmd_header env (59 :: rest).length (mid st0 p true size) (59 :: rest) 0
      = (rejected env (mid st0 (p ++ [59]) false (size + (p.length + 2)))
           (bytes "Input buffer size exceeded"), (59 :: rest).length) := by
    simp [at_cmd_scan_cmd_header, mid, buf_push, buf_set, hp2, hp3, hp4, h, isdigit, rejected,
      AT_CMD_PREFIX_CHARS, AT_CMD_SIZE_CHARS, AT_CMD_TERMINATOR_CHAR, hu, hs, hbig]
  have hh : (mid st0 p true size).cmd_header = true := rfl
  simp only [add_chars_loop, hh, if_true, e]
  exact add_chars_loop_skip_all env _ rest _ _ (by simp)

/-- The value of a size field of four digits, as the scanner accumulates it, is
the number the digits denote, at most 9999. -/
theorem size_field_value (d : List Nat) (hl : d.length = 4) (hd : all_digits d) :
    digits_value 0 d = decimal_value d ∧ decimal_value d ≤ 9999 := by
  match d, hl with
  | [a, b, c, e], _ =>
    have ha := hd a (by simp)
    have hb := hd b (by simp)
    have hc := hd c (by simp)
    have he := hd e (by simp)
    simp only [isdigit, Bool.and_eq_true, decide_eq_true_eq] at ha hb hc he
    have h1 : u32 (0 * 10 + a - 48) = a - 48 := by simp only [u32]; omega
    have h2 : u32 ((a - 48) * 10 + b - 48) = (a - 48) * 10 + (b - 48) := by
      simp only [u32]; omega
    have h3 : u32 (((a - 48) * 10 + (b - 48)) * 10 + c - 48)
        = ((a - 48) * 10 + (b - 48)) * 10 + (c - 48) := by simp only [u32]; omega
    have h4 : u32 ((((a - 48) * 10 + (b - 48)) * 10 + (c - 48)) * 10 + e - 48)
        = (((a - 48) * 10 + (b - 48)) * 10 + (c - 48)) * 10 + (e - 48) := by
      simp only [u32]; omega
    simp only [digits_value, decimal_value, List.foldl_cons, List.foldl_nil, h1, h2, h3, h4]
    constructor
    · omega
    · omega

/-- The scanner after the prefix and a run of digits: it is in the header, the
bytes are stored verbatim, and the size is the value of the digits of the size
field read so far. -/
theorem run_header_digits (env : Env) (st0 : at_cmd_parser_t) (h : Fresh st0) (w : List Nat)
    (hw : all_digits w) (hcap : 3 + w.length < AT_CMD_PARSER_BUFFER_SIZE) :
    run env st0 (AT_CMD_PREFIX ++ w)
      = mid st0 (AT_CMD_PREFIX ++ w) true (digits_value 0 (w.take 4))
    ∧ all_continuing env st0 (AT_CMD_PREFIX ++ w) := by
  have hP : AT_CMD_PREFIX.length = 3 := rfl
  obtain ⟨r1, c1⟩ := run_resync env st0 h [] no_prefix_nil
  simp only [List.nil_append] at r1 c1
  have hw1 : all_digits (w.take 4) := fun c hc => hw c (List.mem_of_mem_take hc)
  have hw2 : all_digits (w.drop 4) := fun c hc => hw c (List.mem_of_mem_drop hc)
  obtain ⟨r2, c2⟩ := run_size_digits env st0 h.len (w.take 4) AT_CMD_PREFIX 0
    (by rw [hP, List.length_take]; omega) hw1
  have e : AT_CMD_PREFIX ++ w = AT_CMD_PREFIX ++ w.take 4 ++ w.drop 4 := by
    rw [List.append_assoc, List.take_append_drop]
  by_cases h4 : w.length ≤ 4
  · have hd : w.drop 4 = [] := List.drop_eq_nil_of_le h4
    rw [hd, List.append_nil] at e
    rw [e]
    constructor
    · rw [run_append, r1, r2]
    · rw [all_continuing_append, r1]
      exact ⟨c1, c2⟩
  · have hlt : (w.take 4).length = 4 := by rw [List.length_take]; omega
    obtain ⟨r3, c3⟩ := run_serial_digits env st0 h.len (w.drop 4) (AT_CMD_PREFIX ++ w.take 4)
      (digits_value 0 (w.take 4)) (by simp [hP, hlt])
      (by simp only [List.length_append, hP, hlt, List.length_drop]; omega) hw2
    constructor
    · rw [e, run_append, run_append, r1, r2, r3]
    · rw [e, all_continuing_append env (AT_CMD_PREFIX ++ w.take 4) (w.drop 4),
        all_continuing_append env AT_CMD_PREFIX (w.take 4), run_append, r1, r2]
      exact ⟨⟨c1, c2⟩, c3⟩

@[simp] theorem rejected_reading (env : Env) (st : at_cmd_parser_t) (text : List Nat) :
    (rejected env st text).reading_cmd = false := rfl

@[simp] theorem rejected_header (env : Env) (st : at_cmd_parser_t) (text : List Nat) :
    (rejected env st text).cmd_header = false := rfl

@[simp] theorem rejected_widx (env : Env) (st : at_cmd_parser_t) (text : List Nat) :
    (rejected env st text).cmd_widx = 0 := rfl

@[simp] theorem rejected_size (env : Env) (st : at_cmd_parser_t) (text : List Nat) :
    (rejected env st text).cmd_size = 0 := rfl

@[simp] theorem rejected_prefix_idx (env : Env) (st : at_cmd_parser_t) (text : List Nat) :
    (rejected env st text).at_cmd_prefix_idx = 0 := rfl

/-- In the header, after the prefix and a run of digits, a byte that is not a
digit ends the header: the scanner leaves the header state, and it stays inside
the frame only when the byte is the terminator, at least one serial digit has
been read and the size is zero or the total fits the buffer. -/
theorem header_step_nondigit (env : Env) (st0 : at_cmd_parser_t) (h : Fresh st0)
    (u : List Nat) (x : Nat) (hu : all_digits u) (hx : isdigit x = false)
    (hcap : 3 + u.length + 1 < AT_CMD_PARSER_BUFFER_SIZE) :
    (step env (mid st0 (AT_CMD_PREFIX ++ u) true (digits_value 0 (u.take 4))) x).cmd_header
        = false
    ∧ ((step env (mid st0 (AT_CMD_PREFIX ++ u) true (digits_value 0 (u.take 4))) x).reading_cmd
          = true →
        x = 59 ∧ 4 < u.length ∧
        (digits_value 0 (u.take 4) = 0
          ∨ digits_value 0 (u.take 4) + (4 + u.length) + 1 ≤ AT_CMD_PARSER_BUFFER_SIZE)) := by
  have hP : AT_CMD_PREFIX.length = 3 := rfl
  have hB := bufsize_eq
  have hpl : (AT_CMD_PREFIX ++ u).length = 3 + u.length := by simp [hP]
  rcases Nat.lt_trichotomy u.length 4 with h4 | h4 | h4
  · have e := add_bad_size_digit env st0 (AT_CMD_PREFIX ++ u) (digits_value 0 (u.take 4)) x []
      (by rw [hpl]; omega) (by rw [hpl]; simp; omega) hx
    simp only [step, e]
    exact ⟨rfl, fun hc => absurd hc (by simp)⟩
  · have e := add_bad_serial_digit env st0 (AT_CMD_PREFIX ++ u) (digits_value 0 (u.take 4)) x []
      (by rw [hpl]; omega) (by rw [hpl]; simp; omega) hx
    simp only [step, e]
    exact ⟨rfl, fun hc => absurd hc (by simp)⟩
  · by_cases hx59 : x = 59
    · subst hx59
      have hlt : (u.take 4).length = 4 := by rw [List.length_take]; omega
      have hu1 : all_digits (u.take 4) := fun c hc => hu c (List.mem_of_mem_take hc)
      obtain ⟨hv1, hv2⟩ := size_field_value (u.take 4) hlt hu1
      by_cases hfit : digits_value 0 (u.take 4) = 0
          ∨ digits_value 0 (u.take 4) + ((AT_CMD_PREFIX ++ u).length + 2)
              ≤ AT_CMD_PARSER_BUFFER_SIZE
      · obtain ⟨r, _⟩ := step_header_end env st0 (AT_CMD_PREFIX ++ u)
          (digits_value 0 (u.take 4)) h.len (by rw [hpl]; omega) (by rw [hpl]; omega) hfit
        rw [r]
        refine ⟨rfl, fun _ => ⟨rfl, h4, ?_⟩⟩
        rw [hpl] at hfit
        rcases hfit with h0 | h1
        · exact Or.inl h0
        · exact Or.inr (by omega)
      · have hn := not_or.1 hfit
        have e := add_total_too_large env st0 (AT_CMD_PREFIX ++ u) (digits_value 0 (u.take 4)) []
          h.len (by rw [hpl]; omega) (by rw [hpl]; simp; omega) (by omega) (by omega)
          (by omega)
        simp only [step, e]
        exact ⟨rfl, fun hc => absurd hc (by simp)⟩
    · have e := add_bad_format env st0 (AT_CMD_PREFIX ++ u) (digits_value 0 (u.take 4)) x []
        (by rw [hpl]; omega) (by rw [hpl]; simp; omega) hx hx59
      simp only [step, e]
      exact ⟨rfl, fun hc => absurd hc (by simp)⟩

/-- While the scanner stays in the header after the prefix, only digits have been
read. -/
theorem header_only_digits (env : Env) (st0 : at_cmd_parser_t) (h : Fresh st0) (w : List Nat) :
    3 + w.length < AT_CMD_PARSER_BUFFER_SIZE →
    (∀ u, u <+: w → (run env st0 (AT_CMD_PREFIX ++ u)).cmd_header = true) → all_digits w := by
  induction w using List.reverseRecOn with
  | nil => intro _ _ c hc; simp at hc
  | append_singleton u x ih =>
    intro hcap hin
    simp only [List.length_append, List.length_singleton] at hcap
    have hu : all_digits u := ih (by omega) (fun v hv => hin v (hv.trans (List.prefix_append u [x])))
    have hx : isdigit x = true := by
      by_contra hx
      have hx' : isdigit x = false := by simpa using hx
      obtain ⟨r, _⟩ := run_header_digits env st0 h u hu (by omega)
      have hh := hin (u ++ [x]) (List.prefix_refl _)
      rw [← List.append_assoc, run_append, r, run_cons, run_nil] at hh
      rw [(header_step_nondigit env st0 h u x hu hx' (by omega)).1] at hh
      exact absurd hh (by simp)
    intro c hc
    rcases List.mem_append.1 hc with h1 | h1
    · exact hu c h1
    · simp only [List.mem_singleton] at h1
      subst h1; exact hx

/-- The header scanner accepts nothing but four size digits, at least one serial
digit and the terminator, with a size that is zero or a total that fits the
buffer: if the scanner is in the header after every part of `w` and has left the
header, still inside the frame, after `w ++ [c]`, then `w ++ [c]` is of that
form. -/
theorem header_accepted_only (env : Env) (st0 : at_cmd_parser_t) (h : Fresh st0)
    (w : List Nat) (c : Nat) (hcap : 3 + w.length + 1 < AT_CMD_PARSER_BUFFER_SIZE)
    (hin : ∀ u, u <+: w → (run env st0 (AT_CMD_PREFIX ++ u)).cmd_header = true)
    (hr : (run env st0 (AT_CMD_PREFIX ++ w ++ [c])).reading_cmd = true)
    (hh : (run env st0 (AT_CMD_PREFIX ++ w ++ [c])).cmd_header = false) :
    all_digits w ∧ 4 < w.length ∧ c = 59
    ∧ (digits_value 0 (w.take 4) = 0
        ∨ digits_value 0 (w.take 4) + (4 + w.length) + 1 ≤ AT_CMD_PARSER_BUFFER_SIZE) := by
  have hw := header_only_digits env st0 h w (by omega) hin
  obtain ⟨r, _⟩ := run_header_digits env st0 h w hw (by omega)
  rw [run_append, r, run_cons, run_nil] at hr hh
  have hc : isdigit c = false := by
    by_contra hc
    have hc' : isdigit c = true := by simpa using hc
    have hP : AT_CMD_PREFIX.length = 3 := rfl
    by_cases h7 : (AT_CMD_PREFIX ++ w).length < 7
    · rw [(step_size_digit env st0 _ _ c h.len h7 hc').1] at hh
      exact absurd hh (by simp [mid])
    · rw [(step_serial_digit env st0 _ _ c h.len (by omega)
        (by simp only [List.length_append, hP]; omega) hc').1] at hh
      exact absurd hh (by simp [mid])
  obtain ⟨_, h2⟩ := header_step_nondigit env st0 h w c hw hc hcap
  obtain ⟨h3, h4, h5⟩ := h2 hr
  exact ⟨hw, h4, h3, h5⟩

/-- A rejection seen from outside, with the output mutex obtained: one write, of
the response with serial 0 and status 1, the per-frame state reset, and the rest
of the scanner state as it was. -/
theorem rejected_spec (env : Env) (st : at_cmd_parser_t) (text : List Nat)
    (hm : env.mutex_get = cy_rslt_t.CY_RSLT_SUCCESS)
    (ho : st.output_buffer.length = AT_CMD_PARSER_BUFFER_SIZE)
    (hfit : (response_frame 83 0 (sync_payload 1 (some text))).length
              < AT_CMD_PARSER_BUFFER_SIZE) :
    (rejected env st text).trace
        = st.trace ++ [Event.write (response_frame 83 0 (sync_payload 1 (some text)))]
    ∧ (rejected env st text).command_buffer = st.command_buffer
    ∧ (rejected env st text).cmd_tables = st.cmd_tables
    ∧ (rejected env st text).echo_cmd = st.echo_cmd
    ∧ (rejected env st text).output_buffer.length = AT_CMD_PARSER_BUFFER_SIZE
    ∧ (rejected env st text).fault = st.fault := by
  obtain ⟨out, flt, h1, h2, e⟩ := send_cmd_response_spec env st 0 1 (some text) hm ho
    (le_of_lt hfit)
  simp only [rejected, e, at_cmd_reset_command_buffer]
  exact ⟨trivial, trivial, trivial, trivial, h1, h2 hfit⟩

/-- Chunks that end inside the header, after the prefix and a run of digits, and
one more chunk that goes on with digits: the bytes `tail` that follow are read in
the header state. -/
theorem feed_header_then (env : Env) (st0 : at_cmd_parser_t) (h : Fresh st0)
    (w : List Nat) (hw : all_digits w) (cs : List (List Nat)) (w2 tail : List Nat)
    (htail : tail ≠ []) (hne : ∀ ch ∈ cs, ch ≠ [])
    (hj : cs.flatten ++ w2 = AT_CMD_PREFIX ++ w)
    (hcap : 3 + w.length + tail.length < AT_CMD_PARSER_BUFFER_SIZE) :
    feed env st0 (cs ++ [w2 ++ tail])
      = at_cmd_add_command_chars env
          (mid st0 (AT_CMD_PREFIX ++ w) true (digits_value 0 (w.take 4))) tail := by
  have hP : AT_CMD_PREFIX.length = 3 := rfl
  obtain ⟨r, c⟩ := run_header_digits env st0 h w hw (by omega)
  rw [← hj] at r c
  have hlen : cs.flatten.length + w2.length = 3 + w.length := by
    have := congrArg List.length hj
    simpa [hP] using this
  have hc := (all_continuing_append env cs.flatten w2 st0).1 c
  rw [feed_then env cs (w2 ++ tail) cs.flatten st0 hne rfl (by rw [h.widx]; omega) hc.1]
  obtain ⟨hwx, _⟩ := run_continuing env cs.flatten st0 hc.1 (by rw [h.widx]; omega)
  rw [h.widx] at hwx
  rw [add_append env w2 tail htail _ (by simp only [List.length_append]; omega) hc.2,
    ← run_append, r, hj]

/-! ## Rejections seen from outside -/

/-- Chunks of bytes that neither abort nor complete a frame, the last of them
going on with the bytes `tail`: these are read in the state reached byte by
byte. -/
theorem feed_split (env : Env) (st : at_cmd_parser_t) (cs : List (List Nat))
    (w2 tail x : List Nat) (htail : tail ≠ []) (hne : ∀ ch ∈ cs, ch ≠ [])
    (hj : cs.flatten ++ w2 = x) (hall : all_continuing env st x)
    (hcap : st.cmd_widx + x.length + tail.length < AT_CMD_PARSER_BUFFER_SIZE) :
    feed env st (cs ++ [w2 ++ tail]) = at_cmd_add_command_chars env (run env st x) tail := by
  subst hj
  simp only [List.length_append] at hcap
  have hc := (all_continuing_append env cs.flatten w2 st).1 hall
  rw [feed_then env cs (w2 ++ tail) cs.flatten st hne rfl (by omega) hc.1]
  obtain ⟨hwx, _⟩ := run_continuing env cs.flatten st hc.1 (by omega)
  rw [add_append env w2 tail htail _ (by simp only [List.length_append]; omega) hc.2,
    ← run_append]

/-- The byte at the last position of an explicit-mode frame, when it is neither
the terminator nor a line feed: the frame is rejected and the rest of the chunk
is not read. -/
theorem add_bad_trailer (env : Env) (st0 : at_cmd_parser_t) (p : List Nat) (size c : Nat)
    (rest : List Nat) (hl : st0.command_buffer.length = AT_CMD_PARSER_BUFFER_SIZE)
    (hs : p.length + 1 = size)
    (hcap : p.length + (c :: rest).length < AT_CMD_PARSER_BUFFER_SIZE)
    (hc : c ≠ 59) (hc10 : c ≠ 10) :
    at_cmd_add_command_chars env (mid st0 p false size) (c :: rest)
      = (rejected env (full st0 (p ++ [c]) size) (bytes "bad cmd trailer"),
         cy_rslt_t.CY_AT_CMD_PARSER_ERROR) := by
  have hB := bufsize_eq
  simp only [List.length_cons] at hcap
  have hp2 : p.length < AT_CMD_PARSER_BUFFER_SIZE := by omega
  have hp3 : p.length + 1 < AT_CMD_PARSER_BUFFER_SIZE := by omega
  have h := set_append_drop p st0.command_buffer c (by omega)
  have hd : List.drop (p.length + 1) st0.command_buffer
      = st0.command_buffer[p.length + 1] :: List.drop (p.length + 1 + 1) st0.command_buffer :=
    List.drop_eq_getElem_cons (by omega)
  have hset : (p ++ c :: List.drop (p.length + 1) st0.command_buffer).set (p.length + 1) 0
      = p ++ c :: 0 :: List.drop (p.length + 1 + 1) st0.command_buffer := by
    rw [hd, List.set_append_right _ _ (by omega), Nat.add_sub_cancel_left,
      List.set_cons_succ, List.set_cons_zero]
  have hg : ∀ (l : List Nat) (hh : p.length < (p ++ c :: l).length),
      (p ++ c :: l)[p.length] = c := fun l hh => getElem_append_cons_length p l c hh
  rw [add_reading env _ (c :: rest) (by simp) (by simp [mid]; omega) rfl]
  have hsz : size ≠ 0 := by omega
  have hw : p.length = size - 1 := by omega
  simp only [List.append_assoc, List.singleton_append] at h
  subst hs
  simp [add_chars_loop, mid, full, buf_set, buf_get, hp2, hp3, h, hset, hg, hc, hc10, rejected]

/-- The outcome of a rejection, with the output mutex obtained, for a response
that fits the output buffer. -/
theorem rejected_outcome (env : Env) (st0 st : at_cmd_parser_t) (text : List Nat)
    (hm : env.mutex_get = cy_rslt_t.CY_RSLT_SUCCESS)
    (ho : st.output_buffer.length = AT_CMD_PARSER_BUFFER_SIZE)
    (ht : st.trace = st0.trace)
    (hfit : (response_frame 83 0 (sync_payload 1 (some text))).length
              < AT_CMD_PARSER_BUFFER_SIZE) :
    rejection_outcome st0 (rejected env st text) text := by
  obtain ⟨h1, _⟩ := rejected_spec env st text hm ho hfit
  rw [ht] at h1
  exact ⟨h1, rfl, rfl, rfl, rfl, rfl⟩

/-! ## The dispatcher on any body -/

theorem takeWhile_append_cons_stop (p : Nat → Bool) (l : List Nat) (x : Nat) (r : List Nat)
    (hx : p x = false) : (l ++ x :: r).takeWhile p = l.takeWhile p := by
  induction l with
  | nil => simp [List.takeWhile, hx]
  | cons a l ih =>
    simp only [List.cons_append, List.takeWhile_cons]
    split
    · rw [ih]
    · rfl

/-- The shape of a body followed by a NUL, as the dispatcher scans it: the name,
then either a comma and the rest of the body, or a NUL. -/
theorem body_split (b rest : List Nat) :
    (∃ t, b = body_name b ++ 44 :: t ∧ body_comma b = true)
    ∨ (∃ r, b ++ 0 :: rest = body_name b ++ 0 :: r ∧ body_comma b = false) := by
  induction b with
  | nil => right; exact ⟨rest, rfl, rfl⟩
  | cons x b ih =>
    by_cases hx : (x != 0 && x != 44) = true
    · have hn : body_name (x :: b) = x :: body_name b := by
        simp only [body_name, List.takeWhile_cons, hx, if_true]
      have hc : body_comma (x :: b) = body_comma b := by
        simp only [body_comma, hn, List.length_cons, List.getD_cons_succ]
      rcases ih with ⟨t, h1, h2⟩ | ⟨r, h1, h2⟩
      · left
        refine ⟨t, ?_, by rw [hc, h2]⟩
        rw [hn, List.cons_append, ← h1]
      · right
        refine ⟨r, ?_, by rw [hc, h2]⟩
        rw [hn, List.cons_append, List.cons_append, h1]
    · have hn : body_name (x :: b) = [] := by
        simp only [body_name, List.takeWhile_cons, hx]
        rfl
      simp only [Bool.and_eq_true, bne_iff_ne, ne_eq, not_and_or, not_not] at hx
      rcases hx with h0 | h44
      · right
        subst h0
        refine ⟨b ++ 0 :: rest, by rw [hn]; rfl, ?_⟩
        simp [body_comma, hn]
      · left
        subst h44
        refine ⟨b, by rw [hn]; rfl, ?_⟩
        simp [body_comma, hn]

theorem body_name_clean (b : List Nat) :
    ∀ c ∈ body_name b, (c != 0 && c != 44) = true := by
  intro c hc
  exact List.mem_takeWhile_imp (p := fun c => c != 0 && c != 44) hc

/-- The dispatcher on a buffer holding, at `cmd_buf`, a name without comma or NUL
followed by a comma or a NUL: the hand-over event, then the call of the callback
of the first registered command of that name, if there is one, with the string
after the comma (empty after a NUL), and the message it returns. -/
theorem parse_cmd_at (env : Env) (st : at_cmd_parser_t) (serial cmd_len : Nat)
    (hd name : List Nat) (y : Nat) (r : List Nat)
    (hbuf : st.command_buffer = hd ++ (name ++ y :: r))
    (hlt : hd.length + name.length < AT_CMD_PARSER_BUFFER_SIZE)
    (hname : ∀ c ∈ name, (c != 0 && c != 44) = true) (hy : y = 0 ∨ y = 44) :
    (at_cmd_parse_cmd env st serial cmd_len hd.length).1.trace
      = st.trace ++ Event.dispatch serial cmd_len ((st.command_buffer.drop hd.length).take cmd_len)
          :: (match find_cmd st.cmd_tables name with
              | none => []
              | some cmd =>
                [Event.callback cmd.cmd_parser_fn cmd.cmd_id serial
                  (u32sub cmd_len (name.length + (if y = 44 then 1 else 0)))
                  (if y = 44 then r.takeWhile (fun c => c != 0) else [])])
    ∧ (at_cmd_parse_cmd env st serial cmd_len hd.length).2
      = (match find_cmd st.cmd_tables name with
         | none => none
         | some cmd =>
           env.callback cmd.cmd_parser_fn cmd.cmd_id serial
             (u32sub cmd_len (name.length + (if y = 44 then 1 else 0)))
             (if y = 44 then r.takeWhile (fun c => c != 0) else [])) := by
  have hB := bufsize_eq
  have hstop : ((st.command_buffer.drop hd.length).takeWhile (fun c => c != 0 && c != 44))
      = name := by
    rw [hbuf, List.drop_left' rfl]
    exact takeWhile_append_stop _ name y _ hname (by rcases hy with h | h <;> subst h <;> decide)
  have hget : st.command_buffer.getD (hd.length + name.length) 0 = y := by
    rw [hbuf, ← List.append_assoc, ← List.length_append]
    exact getD_append_cons _ y _
  have hn0 : ∀ c ∈ name, (c != 0) = true := by
    intro c hc
    have := hname c hc
    simp only [Bool.and_eq_true] at this
    exact this.1
  rcases hy with h0 | h44
  · subst h0
    have hc1 : (st.command_buffer.drop hd.length).takeWhile (fun c => c != 0) = name := by
      rw [hbuf, List.drop_left' rfl]
      exact takeWhile_append_stop _ name 0 _ hn0 (by decide)
    have hc2 : (st.command_buffer.drop (hd.length + name.length)).takeWhile
        (fun c => c != 0) = [] := by
      have e : hd ++ (name ++ 0 :: r) = (hd ++ name) ++ 0 :: r := by simp
      rw [hbuf, e, List.drop_left' (by simp)]
      rfl
    have hsub : u32sub (hd.length + name.length) hd.length = name.length := by
      simp only [u32sub]; omega
    have h044 : ¬ (0 : Nat) = 44 := by decide
    unfold at_cmd_parse_cmd
    simp only [emit, buf_get, hstop, hget, h044, if_false, cstr, hc1, hc2, hsub]
    cases find_cmd st.cmd_tables name <;> simp
  · subst h44
    have hset : st.command_buffer.set (hd.length + name.length) 0
        = hd ++ (name ++ 0 :: r) := by
      rw [hbuf, ← List.append_assoc, ← List.length_append,
        List.set_append_right _ _ (le_refl _), Nat.sub_self, List.set_cons_zero,
        List.append_assoc]
    have hc1 : ((hd ++ (name ++ 0 :: r)).drop hd.length).takeWhile (fun c => c != 0) = name := by
      rw [List.drop_left' rfl]
      exact takeWhile_append_stop _ name 0 _ hn0 (by decide)
    have hc2 : ((hd ++ (name ++ 0 :: r)).drop (hd.length + name.length + 1)).takeWhile
        (fun c => c != 0) = r.takeWhile (fun c => c != 0) := by
      have e : hd ++ (name ++ 0 :: r) = (hd ++ name ++ [0]) ++ r := by simp
      rw [e, List.drop_left' (by simp; omega)]
    have hsub : u32sub (hd.length + name.length + 1) hd.length = name.length + 1 := by
      simp only [u32sub]; omega
    unfold at_cmd_parse_cmd
    simp only [emit, buf_get, hstop, hget, if_true, buf_set, hlt, cstr, hset, hc1, hc2, hsub]
    cases find_cmd st.cmd_tables name <;> simp

/-- The dispatcher on a buffer holding a body followed by a NUL at `cmd_buf`: the
hand-over event, the call of the callback for the name found in the body, and the
message returned. -/
theorem parse_cmd_body (env : Env) (st : at_cmd_parser_t) (serial cmd_len : Nat)
    (hd b rest : List Nat)
    (hbuf : st.command_buffer = hd ++ (b ++ 0 :: rest))
    (hlt : hd.length + b.length < AT_CMD_PARSER_BUFFER_SIZE) :
    (at_cmd_parse_cmd env st serial cmd_len hd.length).1.trace
      = st.trace ++ Event.dispatch serial cmd_len ((b ++ 0 :: rest).take cmd_len)
          :: handler_call st.cmd_tables serial cmd_len b
    ∧ (at_cmd_parse_cmd env st serial cmd_len hd.length).2
      = handler_result env st.cmd_tables serial cmd_len b := by
  have hdrop : (st.command_buffer.drop hd.length).take cmd_len = (b ++ 0 :: rest).take cmd_len := by
    rw [hbuf, List.drop_left' rfl]
  have hnl : (body_name b).length ≤ b.length := by
    unfold body_name
    exact (List.takeWhile_sublist _).length_le
  rcases body_split b rest with ⟨t, h1, h2⟩ | ⟨r, h1, h2⟩
  · have hb2 : st.command_buffer = hd ++ (body_name b ++ 44 :: (t ++ 0 :: rest)) := by
      rw [hbuf]
      congr 1
      conv_lhs => rw [h1]
      simp
    obtain ⟨p1, p2⟩ := parse_cmd_at env st serial cmd_len hd (body_name b) 44 (t ++ 0 :: rest)
      hb2 (by omega) (body_name_clean b) (Or.inr rfl)
    have hargs : body_args b = (t ++ 0 :: rest).takeWhile (fun c => c != 0) := by
      have hd1 : b.drop ((body_name b).length + 1) = t := by
        have := congrArg (List.drop ((body_name b).length + 1)) h1
        rw [this]
        have e : body_name b ++ 44 :: t = (body_name b ++ [44]) ++ t := by simp
        rw [e, List.drop_left' (by simp)]
      rw [body_args, h2, if_pos rfl, hd1, takeWhile_append_cons_stop _ t 0 rest (by decide)]
    have hoff : body_args_offset b = (body_name b).length + 1 := by
      rw [body_args_offset, h2, if_pos rfl]
    simp only [if_true] at p1 p2
    rw [hdrop] at p1
    rw [p1, p2]
    simp only [handler_call, handler_result, hargs, hoff]
    exact ⟨trivial, trivial⟩
  · have hb2 : st.command_buffer = hd ++ (body_name b ++ 0 :: r) := by
      rw [hbuf, h1]
    obtain ⟨p1, p2⟩ := parse_cmd_at env st serial cmd_len hd (body_name b) 0 r
      hb2 (by omega) (body_name_clean b) (Or.inl rfl)
    have hargs : body_args b = [] := by
      rw [body_args, h2]; rfl
    have hoff : body_args_offset b = (body_name b).length + 0 := by
      rw [body_args_offset, h2]; rfl
    have h044 : ¬ (0 : Nat) = 44 := by decide
    simp only [h044, if_false] at p1 p2
    rw [hdrop] at p1
    rw [p1, p2]
    simp only [handler_call, handler_result, hargs, hoff]
    exact ⟨trivial, trivial⟩

/-- The dispatcher leaves everything but the command buffer and the trace as it
is, keeps the length of the command buffer, and makes no store outside it. -/
theorem parse_cmd_fields (env : Env) (st : at_cmd_parser_t) (serial cmd_len cmd_buf : Nat)
    (hl : st.command_buffer.length ≤ AT_CMD_PARSER_BUFFER_SIZE) :
    (at_cmd_parse_cmd env st serial cmd_len cmd_buf).1.output_buffer = st.output_buffer
    ∧ (at_cmd_parse_cmd env st serial cmd_len cmd_buf).1.cmd_tables = st.cmd_tables
    ∧ (at_cmd_parse_cmd env st serial cmd_len cmd_buf).1.echo_cmd = st.echo_cmd
    ∧ (at_cmd_parse_cmd env st serial cmd_len cmd_buf).1.command_buffer.length
        = st.command_buffer.length
    ∧ (at_cmd_parse_cmd env st serial cmd_len cmd_buf).1.fault = st.fault
    ∧ (at_cmd_parse_cmd env st serial cmd_len cmd_buf).1.cmd_widx = st.cmd_widx := by
  have key : ∀ (i : Nat), st.command_buffer.getD i 0 = 44 → i < AT_CMD_PARSER_BUFFER_SIZE := by
    intro i hi
    by_contra hge
    have : st.command_buffer.length ≤ i := by omega
    rw [List.getD_eq_getElem?_getD, List.getElem?_eq_none this] at hi
    simp at hi
  unfold at_cmd_parse_cmd
  simp only [emit, buf_get]
  by_cases hc : st.command_buffer.getD (cmd_buf + (List.takeWhile (fun c => c != 0 && c != 44)
      (List.drop cmd_buf st.command_buffer)).length) 0 = 44
  · have hi := key _ hc
    simp only [hc, if_true, buf_set, hi]
    split <;> simp
  · simp only [hc, if_false]
    split <;> simp

/-- What follows the dispatcher in `at_cmd_process_command_buffer`, with the
output mutex obtained: the events and the status depend on the message only. -/
theorem dispatch_finish_spec (env : Env) (p : at_cmd_parser_t × Option at_cmd_msg_base_t)
    (hm : env.mutex_get = cy_rslt_t.CY_RSLT_SUCCESS)
    (ho : p.1.output_buffer.length = AT_CMD_PARSER_BUFFER_SIZE) :
    (dispatch_finish env p).1.trace = p.1.trace ++ outcome_events env p.2
    ∧ (dispatch_finish env p).2 = outcome_status env p.2
    ∧ (dispatch_finish env p).1.command_buffer = p.1.command_buffer
    ∧ (dispatch_finish env p).1.cmd_tables = p.1.cmd_tables
    ∧ (dispatch_finish env p).1.echo_cmd = p.1.echo_cmd
    ∧ (dispatch_finish env p).1.output_buffer.length = AT_CMD_PARSER_BUFFER_SIZE
    ∧ (dispatch_finish env p).1.fault = p.1.fault
    ∧ (dispatch_finish env p).1.cmd_widx = p.1.cmd_widx := by
  obtain ⟨st, r⟩ := p
  cases r with
  | none =>
    obtain ⟨out, flt, h1, h2, e⟩ := send_cmd_response_spec env st 0 1
      (some (bytes "Invalid cmd")) hm ho (by decide)
    simp only [dispatch_finish, e, outcome_events, outcome_status]
    exact ⟨trivial, trivial, trivial, trivial, trivial, h1, h2 (by decide), trivial⟩
  | some msg =>
    simp only [dispatch_finish, outcome_events, outcome_status]
    by_cases hq : env.queue_put msg = cy_rslt_t.CY_RSLT_SUCCESS
    · simp [hq, emit, ho]
    · obtain ⟨out, flt, h1, h2, e⟩ := send_cmd_response_spec env (emit st (Event.queue_put msg))
        0 1 (some (bytes "queue error")) hm (by simpa [emit] using ho) (by decide)
      simp only [emit] at e
      simp only [hq, ne_eq, not_false_eq_true, if_true, emit, e]
      refine ⟨by simp, trivial, trivial, trivial, trivial, h1, ?_, trivial⟩
      simpa [emit] using h2 (by decide)

theorem process_dispatch_eq (env : Env) (st : at_cmd_parser_t) (serial ptr count : Nat) :
    process_dispatch env st serial ptr count
      = dispatch_finish env
          (at_cmd_parse_cmd env
            (if buf_get st (count - 1) = 59 then buf_set st (count - 1) 0 else st) serial
            (u32sub (if buf_get st (count - 1) = 59 then count - 1 else count) ptr) ptr) := by
  unfold process_dispatch dispatch_finish
  simp only [AT_CMD_TERMINATOR_CHAR]
  by_cases hb : buf_get st (count - 1) = 59
  · simp only [hb, if_true]
  · simp only [hb, if_false]

theorem buf_set_fields (st : at_cmd_parser_t) (i c : Nat)
    (hi : i < AT_CMD_PARSER_BUFFER_SIZE) :
    (buf_set st i c).command_buffer = st.command_buffer.set i c
    ∧ (buf_set st i c).output_buffer = st.output_buffer
    ∧ (buf_set st i c).cmd_tables = st.cmd_tables
    ∧ (buf_set st i c).echo_cmd = st.echo_cmd
    ∧ (buf_set st i c).fault = st.fault := by
  simp [buf_set, hi]

/-- The result of processing from the dispatcher on, in a state whose buffer holds
the body `b` followed by a NUL at `hd.length`: the hand-over, the call of the
callback, what follows from the message returned, and the status; nothing else
of the state changes but the buffer content. -/
theorem dispatch_finish_body (env : Env) (st : at_cmd_parser_t) (serial cmd_len : Nat)
    (hd b rest : List Nat)
    (hm : env.mutex_get = cy_rslt_t.CY_RSLT_SUCCESS)
    (ho : st.output_buffer.length = AT_CMD_PARSER_BUFFER_SIZE)
    (hl : st.command_buffer.length ≤ AT_CMD_PARSER_BUFFER_SIZE)
    (hbuf : st.command_buffer = hd ++ (b ++ 0 :: rest))
    (hlt : hd.length + b.length < AT_CMD_PARSER_BUFFER_SIZE) :
    (dispatch_finish env (at_cmd_parse_cmd env st serial cmd_len hd.length)).1.trace
      = st.trace ++ Event.dispatch serial cmd_len ((b ++ 0 :: rest).take cmd_len)
          :: (handler_call st.cmd_tables serial cmd_len b
              ++ outcome_events env (handler_result env st.cmd_tables serial cmd_len b))
    ∧ (dispatch_finish env (at_cmd_parse_cmd env st serial cmd_len hd.length)).2
      = outcome_status env (handler_result env st.cmd_tables serial cmd_len b)
    ∧ (dispatch_finish env (at_cmd_parse_cmd env st serial cmd_len hd.length)).1.command_buffer.length
      = st.command_buffer.length
    ∧ (dispatch_finish env (at_cmd_parse_cmd env st serial cmd_len hd.length)).1.cmd_tables
      = st.cmd_tables
    ∧ (dispatch_finish env (at_cmd_parse_cmd env st serial cmd_len hd.length)).1.echo_cmd
      = st.echo_cmd
    ∧ (dispatch_finish env (at_cmd_parse_cmd env st serial cmd_len hd.length)).1.output_buffer.length
      = AT_CMD_PARSER_BUFFER_SIZE
    ∧ (dispatch_finish env (at_cmd_parse_cmd env st serial cmd_len hd.length)).1.fault
      = st.fault := by
  obtain ⟨p1, p2⟩ := parse_cmd_body env st serial cmd_len hd b rest hbuf hlt
  obtain ⟨f1, f2, f3, f4, f5, _⟩ := parse_cmd_fields env st serial cmd_len hd.length hl
  obtain ⟨g1, g2, g3, g4, g5, g6, g7, _⟩ := dispatch_finish_spec env
    (at_cmd_parse_cmd env st serial cmd_len hd.length) hm (by rw [f1]; exact ho)
  refine ⟨?_, ?_, ?_, ?_, ?_, g6, ?_⟩
  · rw [g1, p1, p2]; simp
  · rw [g2, p2]
  · rw [g3, f4]
  · rw [g4, f2]
  · rw [g5, f3]
  · rw [g7, f5]

/-- Processing from the stripping of the trailing `;` on, the buffer holding the
body `b` and a `;` after the header: the `;` is stripped and `b` handed over. -/
theorem process_dispatch_strip (env : Env) (st : at_cmd_parser_t) (serial : Nat)
    (hd b rest : List Nat)
    (hm : env.mutex_get = cy_rslt_t.CY_RSLT_SUCCESS)
    (ho : st.output_buffer.length = AT_CMD_PARSER_BUFFER_SIZE)
    (hl : st.command_buffer.length ≤ AT_CMD_PARSER_BUFFER_SIZE)
    (hbuf : st.command_buffer = hd ++ (b ++ 59 :: 0 :: rest))
    (hlt : hd.length + b.length + 1 < AT_CMD_PARSER_BUFFER_SIZE) :
    (process_dispatch env st serial hd.length (hd.length + b.length + 1)).1.trace
      = st.trace ++ Event.dispatch serial b.length b
          :: (handler_call st.cmd_tables serial b.length b
              ++ outcome_events env (handler_result env st.cmd_tables serial b.length b))
    ∧ (process_dispatch env st serial hd.length (hd.length + b.length + 1)).2
      = outcome_status env (handler_result env st.cmd_tables serial b.length b)
    ∧ (process_dispatch env st serial hd.length (hd.length + b.length + 1)).1.command_buffer.length
      = st.command_buffer.length
    ∧ (process_dispatch env st serial hd.length (hd.length + b.length + 1)).1.cmd_tables
      = st.cmd_tables
    ∧ (process_dispatch env st serial hd.length (hd.length + b.length + 1)).1.echo_cmd
      = st.echo_cmd
    ∧ (process_dispatch env st serial hd.length (hd.length + b.length + 1)).1.output_buffer.length
      = AT_CMD_PARSER_BUFFER_SIZE
    ∧ (process_dispatch env st serial hd.length (hd.length + b.length + 1)).1.fault
      = st.fault := by
  have hB := bufsize_eq
  have e1 : hd ++ (b ++ 59 :: 0 :: rest) = (hd ++ b) ++ 59 :: 0 :: rest := by simp
  have hl1 : (hd ++ b).length = hd.length + b.length := by simp
  have hget : buf_get st (hd.length + b.length) = 59 := by
    rw [buf_get, hbuf, e1, ← hl1]
    exact getD_append_cons _ 59 _
  obtain ⟨s1, s2, s3, s4, s5⟩ := buf_set_fields st (hd.length + b.length) 0 (by omega)
  have hset : (buf_set st (hd.length + b.length) 0).command_buffer
      = hd ++ (b ++ 0 :: 0 :: rest) := by
    rw [s1, hbuf, e1, ← hl1, List.set_append_right _ _ (le_refl _), Nat.sub_self,
      List.set_cons_zero]
    simp
  have hsub : u32sub (hd.length + b.length) hd.length = b.length := by
    simp only [u32sub]; omega
  rw [process_dispatch_eq]
  simp only [Nat.add_sub_cancel, hget, if_true, hsub]
  obtain ⟨d1, d2, d3, d4, d5, d6, d7⟩ := dispatch_finish_body env
    (buf_set st (hd.length + b.length) 0) serial b.length hd b (0 :: rest) hm
    (by rw [s2]; exact ho) (by rw [s1, List.length_set]; exact hl) hset (by omega)
  rw [List.take_left' rfl, buf_set_trace, s3] at d1
  rw [s3] at d2
  refine ⟨d1, d2, ?_, ?_, ?_, d6, ?_⟩
  · rw [d3, s1, List.length_set]
  · rw [d4, s3]
  · rw [d5, s4]
  · rw [d7, s5]

/-- Processing from the stripping on when the finalized frame does not end in
`;`: the non-empty body `b` is handed over as it is. -/
theorem process_dispatch_keep (env : Env) (st : at_cmd_parser_t) (serial : Nat)
    (hd b rest : List Nat) (x : Nat)
    (hm : env.mutex_get = cy_rslt_t.CY_RSLT_SUCCESS)
    (ho : st.output_buffer.length = AT_CMD_PARSER_BUFFER_SIZE)
    (hl : st.command_buffer.length ≤ AT_CMD_PARSER_BUFFER_SIZE)
    (hbuf : st.command_buffer = hd ++ ((b ++ [x]) ++ 0 :: rest)) (hx : x ≠ 59)
    (hlt : hd.length + (b ++ [x]).length < AT_CMD_PARSER_BUFFER_SIZE) :
    (process_dispatch env st serial hd.length (hd.length + (b ++ [x]).length)).1.trace
      = st.trace ++ Event.dispatch serial (b ++ [x]).length (b ++ [x])
          :: (handler_call st.cmd_tables serial (b ++ [x]).length (b ++ [x])
              ++ outcome_events env
                  (handler_result env st.cmd_tables serial (b ++ [x]).length (b ++ [x])))
    ∧ (process_dispatch env st serial hd.length (hd.length + (b ++ [x]).length)).2
      = outcome_status env
          (handler_result env st.cmd_tables serial (b ++ [x]).length (b ++ [x]))
    ∧ (process_dispatch env st serial hd.length
        (hd.length + (b ++ [x]).length)).1.command_buffer.length = st.command_buffer.length
    ∧ (process_dispatch env st serial hd.length (hd.length + (b ++ [x]).length)).1.cmd_tables
      = st.cmd_tables
    ∧ (process_dispatch env st serial hd.length (hd.length + (b ++ [x]).length)).1.echo_cmd
      = st.echo_cmd
    ∧ (process_dispatch env st serial hd.length
        (hd.length + (b ++ [x]).length)).1.output_buffer.length = AT_CMD_PARSER_BUFFER_SIZE
    ∧ (process_dispatch env st serial hd.length (hd.length + (b ++ [x]).length)).1.fault
      = st.fault := by
  have hB := bufsize_eq
  have e1 : hd ++ ((b ++ [x]) ++ 0 :: rest) = (hd ++ b) ++ x :: 0 :: rest := by simp
  have hl1 : (hd ++ b).length = hd.length + b.length := by simp
  have hl2 : (b ++ [x]).length = b.length + 1 := by simp
  have hget : buf_get st (hd.length + b.length) = x := by
    rw [buf_get, hbuf, e1, ← hl1]
    exact getD_append_cons _ x _
  have hsub : u32sub (hd.length + (b.length + 1)) hd.length = b.length + 1 := by
    simp only [u32sub]; omega
  rw [process_dispatch_eq]
  have hidx : hd.length + (b ++ [x]).length - 1 = hd.length + b.length := by
    rw [hl2]; omega
  simp only [hidx, hget, hx, if_false]
  rw [hl2, hsub]
  obtain ⟨d1, d2, d3, d4, d5, d6, d7⟩ := dispatch_finish_body env st serial (b.length + 1) hd
    (b ++ [x]) rest hm ho hl hbuf (by omega)
  rw [← hl2, List.take_left' rfl] at d1
  rw [← hl2] at d2 d3 d4 d5 d6 d7
  rw [← hl2]
  exact ⟨d1, d2, d3, d4, d5, d6, d7⟩

/-- Processing from the stripping on when the finalized frame is the header
alone: the terminator of the header is stripped, the length handed over wraps
around to `2 ^ 32 - 1` and the body found is empty. -/
theorem process_dispatch_empty (env : Env) (st : at_cmd_parser_t) (serial : Nat)
    (hd rest : List Nat)
    (hm : env.mutex_get = cy_rslt_t.CY_RSLT_SUCCESS)
    (ho : st.output_buffer.length = AT_CMD_PARSER_BUFFER_SIZE)
    (hl : st.command_buffer.length ≤ AT_CMD_PARSER_BUFFER_SIZE)
    (hbuf : st.command_buffer = hd ++ 59 :: 0 :: rest)
    (hlt : hd.length + 1 < AT_CMD_PARSER_BUFFER_SIZE) :
    (process_dispatch env st serial (hd.length + 1) (hd.length + 1)).1.trace
      = st.trace ++ Event.dispatch serial 4294967295 ((0 :: rest).take 4294967295)
          :: (handler_call st.cmd_tables serial 4294967295 []
              ++ outcome_events env (handler_result env st.cmd_tables serial 4294967295 []))
    ∧ (process_dispatch env st serial (hd.length + 1) (hd.length + 1)).2
      = outcome_status env (handler_result env st.cmd_tables serial 4294967295 [])
    ∧ (process_dispatch env st serial (hd.length + 1) (hd.length + 1)).1.command_buffer.length
      = st.command_buffer.length
    ∧ (process_dispatch env st serial (hd.length + 1) (hd.length + 1)).1.cmd_tables
      = st.cmd_tables
    ∧ (process_dispatch env st serial (hd.length + 1) (hd.length + 1)).1.echo_cmd
      = st.echo_cmd
    ∧ (process_dispatch env st serial (hd.length + 1) (hd.length + 1)).1.output_buffer.length
      = AT_CMD_PARSER_BUFFER_SIZE
    ∧ (process_dispatch env st serial (hd.length + 1) (hd.length + 1)).1.fault
      = st.fault := by
  have hB := bufsize_eq
  have hget : buf_get st hd.length = 59 := by
    rw [buf_get, hbuf]
    exact getD_append_cons _ 59 _
  obtain ⟨s1, s2, s3, s4, s5⟩ := buf_set_fields st hd.length 0 (by omega)
  have hset : (buf_set st hd.length 0).command_buffer
      = (hd ++ [0]) ++ ([] ++ 0 :: rest) := by
    rw [s1, hbuf, List.set_append_right _ _ (le_refl _), Nat.sub_self, List.set_cons_zero]
    simp
  have hsub : u32sub hd.length (hd.length + 1) = 4294967295 := by
    simp only [u32sub]; omega
  have hl3 : (hd ++ [0]).length = hd.length + 1 := by simp
  rw [process_dispatch_eq]
  simp only [Nat.add_sub_cancel, hget, if_true, hsub]
  obtain ⟨d1, d2, d3, d4, d5, d6, d7⟩ := dispatch_finish_body env
    (buf_set st hd.length 0) serial 4294967295 (hd ++ [0]) [] rest hm
    (by rw [s2]; exact ho) (by rw [s1, List.length_set]; exact hl) hset (by simp; omega)
  rw [hl3] at d1 d2 d3 d4 d5 d6 d7
  rw [buf_set_trace, s3] at d1
  rw [s3] at d2
  simp only [List.nil_append] at d1
  refine ⟨d1, d2, ?_, ?_, ?_, d6, ?_⟩
  · rw [d3, s1, List.length_set]
  · rw [d4, s3]
  · rw [d5, s4]
  · rw [d7, s5]

theorem echoed_fields (st : at_cmd_parser_t) (n : Nat) :
    (echoed st n).output_buffer = st.output_buffer
    ∧ (echoed st n).cmd_tables = st.cmd_tables
    ∧ (echoed st n).echo_cmd = st.echo_cmd
    ∧ (echoed st n).fault = st.fault := by
  unfold echoed; split <;> simp [emit]

/-- A finalized frame with a well-formed header, processed and followed by the
reset: after the echo, the dispatcher is handed the serial and the body (the bytes
after the header without one trailing `;`), the callback of the command named in
the body is called, and the message it returns is queued or the failure answered;
the state is ready for the next frame. -/
theorem completed_spec (env : Env) (st0 : at_cmd_parser_t) (d1 d2 d3 d4 : Nat)
    (s t : List Nat) (size : Nat)
    (hm : env.mutex_get = cy_rslt_t.CY_RSLT_SUCCESS)
    (hl : st0.command_buffer.length = AT_CMD_PARSER_BUFFER_SIZE)
    (ho : st0.output_buffer.length = AT_CMD_PARSER_BUFFER_SIZE)
    (hd : all_digits [d1, d2, d3, d4]) (hs : all_digits s)
    (hv : digits_value 0 [d1, d2, d3, d4] ≤ AT_CMD_MAX_SIZE)
    (hlen : ([65, 84, 43, d1, d2, d3, d4] ++ s ++ 59 :: t).length < AT_CMD_PARSER_BUFFER_SIZE) :
    ∃ payload : List Nat,
      (completed env st0 ([65, 84, 43, d1, d2, d3, d4] ++ s ++ 59 :: t) size).1.trace
        = st0.trace ++ echo_events st0.echo_cmd ([65, 84, 43, d1, d2, d3, d4] ++ s ++ 59 :: t)
            ++ Event.dispatch (digits_value 0 s) (frame_cmd_len t) payload
            :: (handler_call st0.cmd_tables (digits_value 0 s) (frame_cmd_len t) (frame_body t)
                ++ outcome_events env
                    (handler_result env st0.cmd_tables (digits_value 0 s) (frame_cmd_len t)
                      (frame_body t)))
      ∧ (t ≠ [] → payload = frame_body t)
      ∧ (completed env st0 ([65, 84, 43, d1, d2, d3, d4] ++ s ++ 59 :: t) size).2
        = outcome_status env
            (handler_result env st0.cmd_tables (digits_value 0 s) (frame_cmd_len t)
              (frame_body t))
      ∧ Carried st0 (completed env st0 ([65, 84, 43, d1, d2, d3, d4] ++ s ++ 59 :: t) size).1 := by
  have hB := bufsize_eq
  have hpf := process_full env st0 d1 d2 d3 d4 s t size hd hs hv
  generalize hF : [65, 84, 43, d1, d2, d3, d4] ++ s ++ 59 :: t = F at hpf hlen ⊢
  have hFl : F.length = 7 + s.length + 1 + t.length := by
    rw [← hF]; simp; omega
  obtain ⟨e1, e2, e3, e4⟩ := echoed_fields (full st0 F size) F.length
  have hEb : (echoed (full st0 F size) F.length).command_buffer
      = F ++ 0 :: List.drop (F.length + 1) st0.command_buffer := by
    rw [echoed_buffer]; rfl
  have hEl : (echoed (full st0 F size) F.length).command_buffer.length
      = AT_CMD_PARSER_BUFFER_SIZE := by
    rw [hEb]; simp; omega
  have hEo : (echoed (full st0 F size) F.length).output_buffer.length
      = AT_CMD_PARSER_BUFFER_SIZE := by
    rw [e1]; exact ho
  have hEt := echoed_trace st0 F size
  have hhd : ([65, 84, 43, d1, d2, d3, d4] ++ s).length = 7 + s.length := by simp; omega
  have fin : ∀ (r : at_cmd_parser_t × cy_rslt_t) (cmd_len : Nat) (payload body : List Nat),
      process_dispatch env (echoed (full st0 F size) F.length) (digits_value 0 s)
        (7 + s.length + 1) F.length = r →
      r.1.trace = (echoed (full st0 F size) F.length).trace
        ++ Event.dispatch (digits_value 0 s) cmd_len payload
          :: (handler_call (echoed (full st0 F size) F.length).cmd_tables (digits_value 0 s)
                cmd_len body
              ++ outcome_events env
                  (handler_result env (echoed (full st0 F size) F.length).cmd_tables
                    (digits_value 0 s) cmd_len body)) →
      r.2 = outcome_status env
          (handler_result env (echoed (full st0 F size) F.length).cmd_tables
            (digits_value 0 s) cmd_len body) →
      r.1.command_buffer.length = (echoed (full st0 F size) F.length).command_buffer.length →
      r.1.cmd_tables = (echoed (full st0 F size) F.length).cmd_tables →
      r.1.echo_cmd = (echoed (full st0 F size) F.length).echo_cmd →
      r.1.output_buffer.length = AT_CMD_PARSER_BUFFER_SIZE →
      r.1.fault = (echoed (full st0 F size) F.length).fault →
      (completed env st0 F size).1.trace
        = st0.trace ++ echo_events st0.echo_cmd F
            ++ Event.dispatch (digits_value 0 s) cmd_len payload
            :: (handler_call st0.cmd_tables (digits_value 0 s) cmd_len body
                ++ outcome_events env
                    (handler_result env st0.cmd_tables (digits_value 0 s) cmd_len body))
      ∧ (completed env st0 F size).2
        = outcome_status env (handler_result env st0.cmd_tables (digits_value 0 s) cmd_len body)
      ∧ Carried st0 (completed env st0 F size).1 := by
    intro r cmd_len payload body hr h1 h2 h3 h4 h5 h6 h7
    have e2' : (echoed (full st0 F size) F.length).cmd_tables = st0.cmd_tables := e2
    have e3' : (echoed (full st0 F size) F.length).echo_cmd = st0.echo_cmd := e3
    have e4' : (echoed (full st0 F size) F.length).fault = st0.fault := e4
    rw [hEt, e2'] at h1
    rw [e2'] at h2
    simp only [completed, at_cmd_reset_command_buffer, hpf, hr]
    refine ⟨h1, h2, ⟨⟨rfl, rfl, rfl, rfl, rfl, ?_⟩, ?_, ?_, h6, ?_⟩⟩
    · show r.1.command_buffer.length = _
      rw [h3, hEl]
    · show r.1.cmd_tables = _
      rw [h4, e2']
    · show r.1.echo_cmd = _
      rw [h5, e3']
    · show r.1.fault = _
      rw [h7, e4']
  rcases List.eq_nil_or_concat t with ht | ⟨b, x, ht⟩
  · subst ht
    have hbuf : (echoed (full st0 F size) F.length).command_buffer
        = ([65, 84, 43, d1, d2, d3, d4] ++ s) ++ 59 :: 0
            :: List.drop (F.length + 1) st0.command_buffer := by
      rw [hEb, ← hF]; simp
    obtain ⟨p1, p2, p3, p4, p5, p6, p7⟩ := process_dispatch_empty env
      (echoed (full st0 F size) F.length) (digits_value 0 s)
      ([65, 84, 43, d1, d2, d3, d4] ++ s) _ hm hEo (le_of_eq hEl) hbuf
      (by rw [hhd]; simp at hFl; omega)
    rw [hhd] at p1 p2 p3 p4 p5 p6 p7
    have hcnt : F.length = 7 + s.length + 1 := by simpa using hFl
    obtain ⟨c1, c2, c3⟩ := fin _ 4294967295 _ [] (by rw [hcnt]) p1 p2 p3 p4 p5 p6 p7
    exact ⟨_, c1, fun hne => absurd rfl hne, c2, c3⟩
  · rw [List.concat_eq_append] at ht
    subst ht
    by_cases hx : x = 59
    · subst hx
      have hbuf : (echoed (full st0 F size) F.length).command_buffer
          = ([65, 84, 43, d1, d2, d3, d4] ++ s ++ [59]) ++ (b ++ 59 :: 0
              :: List.drop (F.length + 1) st0.command_buffer) := by
        rw [hEb, ← hF]; simp
      have hhd2 : ([65, 84, 43, d1, d2, d3, d4] ++ s ++ [59]).length = 7 + s.length + 1 := by
        simp; omega
      have hcnt : F.length = 7 + s.length + 1 + b.length + 1 := by simpa using hFl
      obtain ⟨p1, p2, p3, p4, p5, p6, p7⟩ := process_dispatch_strip env
        (echoed (full st0 F size) F.length) (digits_value 0 s)
        ([65, 84, 43, d1, d2, d3, d4] ++ s ++ [59]) b _ hm hEo (le_of_eq hEl) hbuf
        (by rw [hhd2]; omega)
      rw [hhd2, ← hcnt] at p1 p2 p3 p4 p5 p6 p7
      have hfb : frame_body (b ++ [59]) = b := by simp [frame_body]
      have hfc : frame_cmd_len (b ++ [59]) = b.length := by simp [frame_cmd_len, hfb]
      rw [hfb, hfc]
      obtain ⟨c1, c2, c3⟩ := fin _ b.length b b rfl p1 p2 p3 p4 p5 p6 p7
      exact ⟨b, c1, fun _ => rfl, c2, c3⟩
    · have hbuf : (echoed (full st0 F size) F.length).command_buffer
          = ([65, 84, 43, d1, d2, d3, d4] ++ s ++ [59]) ++ ((b ++ [x]) ++ 0
              :: List.drop (F.length + 1) st0.command_buffer) := by
        rw [hEb, ← hF]; simp
      have hhd2 : ([65, 84, 43, d1, d2, d3, d4] ++ s ++ [59]).length = 7 + s.length + 1 := by
        simp; omega
      have hcnt : F.length = 7 + s.length + 1 + (b ++ [x]).length := by simpa using hFl
      obtain ⟨p1, p2, p3, p4, p5, p6, p7⟩ := process_dispatch_keep env
        (echoed (full st0 F size) F.length) (digits_value 0 s)
        ([65, 84, 43, d1, d2, d3, d4] ++ s ++ [59]) b _ x hm hEo (le_of_eq hEl) hbuf hx
        (by rw [hhd2]; simp at hcnt ⊢; omega)
      rw [hhd2, ← hcnt] at p1 p2 p3 p4 p5 p6 p7
      have hfb : frame_body (b ++ [x]) = b ++ [x] := by simp [frame_body, hx]
      have hfc : frame_cmd_len (b ++ [x]) = (b ++ [x]).length := by
        simp [frame_cmd_len, hfb]
      rw [hfb, hfc]
      obtain ⟨c1, c2, c3⟩ := fin _ (b ++ [x]).length (b ++ [x]) (b ++ [x]) rfl
        p1 p2 p3 p4 p5 p6 p7
      exact ⟨b ++ [x], c1, fun _ => rfl, c2, c3⟩

theorem explicit_frame_eq (s b : List Nat) :
    explicit_frame s b
      = [65, 84, 43, b.length / 1000 % 10 + 48, b.length / 100 % 10 + 48,
          b.length / 10 % 10 + 48, b.length % 10 + 48] ++ s ++ 59 :: (b ++ [59]) := by
  simp [explicit_frame, AT_CMD_PREFIX, pad4]

/-- An explicit-mode frame after noise without a full prefix, fed in any chunks
from a fresh state with the output mutex obtained: after the echo, the body is
handed over with the serial denoted by the serial digits, the callback of the
command named in the body is called, the message queued or the failure answered;
the state is ready for the next frame. -/
theorem feed_explicit_spec (env : Env) (st0 : at_cmd_parser_t) (h : Fresh st0)
    (hm : env.mutex_get = cy_rslt_t.CY_RSLT_SUCCESS)
    (ho : st0.output_buffer.length = AT_CMD_PARSER_BUFFER_SIZE)
    (g s b : List Nat) (chunks : List (List Nat))
    (hg : ¬ AT_CMD_PREFIX <:+: g ++ [65, 84]) (hs : s ≠ []) (hsd : all_digits s)
    (hb1 : 1 ≤ b.length) (hb2 : b.length ≤ AT_CMD_MAX_SIZE)
    (hne : ∀ ch ∈ chunks, ch ≠ []) (hj : chunks.flatten = g ++ explicit_frame s b)
    (hcap : (g ++ explicit_frame s b).length < AT_CMD_PARSER_BUFFER_SIZE) :
    (feed env st0 chunks).1.trace
      = st0.trace ++ echo_events st0.echo_cmd (explicit_frame s b)
          ++ Event.dispatch (decimal_value s % 4294967296) b.length b
          :: dispatch_events env st0.cmd_tables (decimal_value s % 4294967296) b.length b
    ∧ (feed env st0 chunks).2
      = outcome_status env
          (handler_result env st0.cmd_tables (decimal_value s % 4294967296) b.length b)
    ∧ Carried st0 (feed env st0 chunks).1 := by
  have hM : AT_CMD_MAX_SIZE = 6000 := rfl
  rw [feed_explicit env st0 h g s b chunks hg hs hsd hb1 (by omega) hne hj hcap]
  have hcap' : (explicit_frame s b).length < AT_CMD_PARSER_BUFFER_SIZE := by
    simp only [List.length_append] at hcap; omega
  have hv := digits_value_pad4 b.length (by omega)
  rw [explicit_frame_eq] at hcap' ⊢
  obtain ⟨payload, c1, c2, c3, c4⟩ := completed_spec env st0 (b.length / 1000 % 10 + 48)
    (b.length / 100 % 10 + 48) (b.length / 10 % 10 + 48) (b.length % 10 + 48) s (b ++ [59])
    (explicit_frame s b).length hm h.len ho (all_digits_pad4 b.length) hsd
    (by rw [← pad4]; omega) hcap'
  have hfb : frame_body (b ++ [59]) = b := by simp [frame_body]
  have hfc : frame_cmd_len (b ++ [59]) = b.length := by simp [frame_cmd_len, hfb]
  have hp := c2 (by simp)
  rw [hfb] at hp
  rw [hfb, hfc, hp, digits_value_eq s hsd] at c1
  rw [hfb, hfc, digits_value_eq s hsd] at c3
  rw [explicit_frame_eq] at c1 c3 c4
  exact ⟨c1, c3, c4⟩

/-- An implicit-mode frame after noise without a full prefix, fed in any chunks
from a fresh state with the output mutex obtained: the finalized frame is the
header and the body without its line feeds; after the echo, that body without one
trailing `;` is handed over with the serial denoted by the serial digits, the
callback of the command named in it is called, the message queued or the failure
answered; the state is ready for the next frame. -/
theorem feed_implicit_spec (env : Env) (st0 : at_cmd_parser_t) (h : Fresh st0)
    (hm : env.mutex_get = cy_rslt_t.CY_RSLT_SUCCESS)
    (ho : st0.output_buffer.length = AT_CMD_PARSER_BUFFER_SIZE)
    (g s b : List Nat) (chunks : List (List Nat))
    (hg : ¬ AT_CMD_PREFIX <:+: g ++ [65, 84]) (hs : s ≠ []) (hsd : all_digits s)
    (hb : 13 ∉ b)
    (hne : ∀ ch ∈ chunks, ch ≠ []) (hj : chunks.flatten = g ++ implicit_frame s b)
    (hcap : (g ++ implicit_frame s b).length < AT_CMD_PARSER_BUFFER_SIZE) :
    ∃ payload : List Nat,
      (feed env st0 chunks).1.trace
        = st0.trace ++ echo_events st0.echo_cmd
            (AT_CMD_PREFIX ++ [48, 48, 48, 48] ++ s ++ [59] ++ b.filter (fun c => c != 10))
            ++ Event.dispatch (decimal_value s % 4294967296)
                (frame_cmd_len (b.filter (fun c => c != 10))) payload
            :: dispatch_events env st0.cmd_tables (decimal_value s % 4294967296)
                (frame_cmd_len (b.filter (fun c => c != 10)))
                (frame_body (b.filter (fun c => c != 10)))
      ∧ (b.filter (fun c => c != 10) ≠ [] → payload = frame_body (b.filter (fun c => c != 10)))
      ∧ (feed env st0 chunks).2
        = outcome_status env
            (handler_result env st0.cmd_tables (decimal_value s % 4294967296)
              (frame_cmd_len (b.filter (fun c => c != 10)))
              (frame_body (b.filter (fun c => c != 10))))
      ∧ Carried st0 (feed env st0 chunks).1 := by
  rw [feed_implicit env st0 h g s b chunks hg hs hsd hb hne hj hcap]
  have hf : (b.filter (fun c => c != 10)).length ≤ b.length := List.length_filter_le _ _
  have hF : AT_CMD_PREFIX ++ [48, 48, 48, 48] ++ s ++ [59] ++ b.filter (fun c => c != 10)
      = [65, 84, 43, 48, 48, 48, 48] ++ s ++ 59 :: b.filter (fun c => c != 10) := by
    simp [AT_CMD_PREFIX]
  have hcap' : ([65, 84, 43, 48, 48, 48, 48] ++ s
      ++ 59 :: b.filter (fun c => c != 10)).length < AT_CMD_PARSER_BUFFER_SIZE := by
    simp only [implicit_frame, AT_CMD_PREFIX, List.length_append, List.length_cons,
      List.length_nil] at hcap ⊢
    omega
  obtain ⟨payload, c1, c2, c3, c4⟩ := completed_spec env st0 48 48 48 48 s
    (b.filter (fun c => c != 10)) 0 hm h.len ho
    (by intro c hc; simp at hc; subst hc; decide) hsd (by decide) hcap'
  rw [digits_value_eq s hsd] at c1 c3
  rw [hF]
  exact ⟨payload, c1, c2, c3, c4⟩

/-! ## Rejections and the next frame -/

/-- A rejection leaves the state ready for the next frame. -/
theorem rejected_carried (env : Env) (st0 st : at_cmd_parser_t) (text : List Nat)
    (hm : env.mutex_get = cy_rslt_t.CY_RSLT_SUCCESS)
    (hl : st.command_buffer.length = AT_CMD_PARSER_BUFFER_SIZE)
    (ho : st.output_buffer.length = AT_CMD_PARSER_BUFFER_SIZE)
    (ht : st.cmd_tables = st0.cmd_tables) (he : st.echo_cmd = st0.echo_cmd)
    (hf : st.fault = st0.fault)
    (hfit : (response_frame 83 0 (sync_payload 1 (some text))).length
              < AT_CMD_PARSER_BUFFER_SIZE) :
    Carried st0 (rejected env st text) := by
  obtain ⟨_, h2, h3, h4, h5, h6⟩ := rejected_spec env st text hm ho hfit
  exact ⟨⟨rfl, rfl, rfl, rfl, rfl, by rw [h2, hl]⟩, by rw [h3, ht], by rw [h4, he], h5,
    by rw [h6, hf]⟩

theorem mid_buffer_length (st0 : at_cmd_parser_t) (p : List Nat) (hdr : Bool) (size : Nat)
    (hl : st0.command_buffer.length = AT_CMD_PARSER_BUFFER_SIZE)
    (hp : p.length ≤ AT_CMD_PARSER_BUFFER_SIZE) :
    (mid st0 p hdr size).command_buffer.length = AT_CMD_PARSER_BUFFER_SIZE := by
  simp only [mid, List.length_append, List.length_drop]
  omega

/-- The call on a non-empty chunk that fails the capacity test: the chunk is not
read, the frame in progress is rejected, and the status is the overflow one. -/
theorem add_overflow (env : Env) (st : at_cmd_parser_t) (chars : List Nat) (hne : chars ≠ [])
    (hov : AT_CMD_PARSER_BUFFER_SIZE ≤ u32 (st.cmd_widx + chars.length)) :
    at_cmd_add_command_chars env st chars
      = (rejected env st (bytes "Input buffer size exceeded"),
         cy_rslt_t.CY_AT_CMD_PARSER_BUFFER_OVERFLOW) := by
  have h1 : ¬ chars.length = 0 := by simpa using hne
  have h2 : u32 (st.cmd_widx + chars.length) ≥ AT_CMD_PARSER_BUFFER_SIZE := hov
  simp only [at_cmd_add_command_chars, h1, h2, if_false, if_true, rejected]

/-- The call on a non-empty chunk that passes the capacity test: the prefix scan,
if the scanner is not inside a frame, then the main loop. -/
theorem add_no_overflow (env : Env) (st : at_cmd_parser_t) (chars : List Nat) (hne : chars ≠ [])
    (hlt : u32 (st.cmd_widx + chars.length) < AT_CMD_PARSER_BUFFER_SIZE) :
    at_cmd_add_command_chars env st chars
      = if st.reading_cmd = true then
          add_chars_loop env st chars 0 cy_rslt_t.CY_RSLT_SUCCESS
        else if ( at_cmd_scan_for_prefix st chars 0).1.reading_cmd = true then
          add_chars_loop env ( at_cmd_scan_for_prefix st chars 0).1
            (chars.drop ( at_cmd_scan_for_prefix st chars 0).2) 0 cy_rslt_t.CY_RSLT_SUCCESS
        else (( at_cmd_scan_for_prefix st chars 0).1, cy_rslt_t.CY_RSLT_SUCCESS) := by
  have h1 : ¬ chars.length = 0 := by simpa using hne
  have h2 : ¬ u32 (st.cmd_widx + chars.length) ≥ AT_CMD_PARSER_BUFFER_SIZE := by omega
  by_cases hr : st.reading_cmd = true
  · simp [at_cmd_add_command_chars, h1, h2, hr]
  · have hr' : st.reading_cmd = false := by simpa using hr
    simp only [at_cmd_add_command_chars, h1, h2, hr', if_false, Bool.not_false, if_true]
    split <;> simp_all

/-- A synchronous response that fits the output buffer, whether or not the output
mutex is obtained: the scanner part of the state is left as it is, the output
buffer keeps its size and no store is made outside it. -/
theorem send_cmd_response_sound (env : Env) (st : at_cmd_parser_t) (serial status : Nat)
    (text : Option (List Nat)) (hs : Sound st)
    (hfit : (response_frame 83 serial (sync_payload status text)).length
              < AT_CMD_PARSER_BUFFER_SIZE) :
    Sound (at_cmd_parser_send_cmd_response env st serial status text).1
    ∧ (at_cmd_parser_send_cmd_response env st serial status text).1.command_buffer
        = st.command_buffer
    ∧ (at_cmd_parser_send_cmd_response env st serial status text).1.cmd_widx = st.cmd_widx
    ∧ (at_cmd_parser_send_cmd_response env st serial status text).1.cmd_tables = st.cmd_tables
    ∧ (at_cmd_parser_send_cmd_response env st serial status text).1.echo_cmd = st.echo_cmd := by
  by_cases hm : env.mutex_get = cy_rslt_t.CY_RSLT_SUCCESS
  · obtain ⟨out, flt, h1, h2, e⟩ := send_cmd_response_spec env st serial status text hm
      hs.out_len (le_of_lt hfit)
    rw [e]
    exact ⟨⟨hs.cmd_len, h1, by rw [h2 hfit]; exact hs.no_fault⟩, rfl, rfl, rfl, rfl⟩
  · have e : at_cmd_parser_send_cmd_response env st serial status text
        = (st, cy_rslt_t.CY_AT_CMD_PARSER_ERROR) := by
      simp [at_cmd_parser_send_cmd_response, at_cmd_send_host_message, hm]
    rw [e]
    exact ⟨hs, rfl, rfl, rfl, rfl⟩

/-- A rejection with one of the texts of the scanner keeps the state sound. -/
theorem rejected_sound (env : Env) (st : at_cmd_parser_t) (text : List Nat) (hs : Sound st)
    (hfit : (response_frame 83 0 (sync_payload 1 (some text))).length
              < AT_CMD_PARSER_BUFFER_SIZE) :
    Sound (rejected env st text) := by
  obtain ⟨h1, _⟩ := send_cmd_response_sound env st 0 1 (some text) hs hfit
  exact ⟨h1.cmd_len, h1.out_len, h1.no_fault⟩

theorem buf_set_sound (st : at_cmd_parser_t) (i c : Nat) (hs : Sound st)
    (hi : i < AT_CMD_PARSER_BUFFER_SIZE) : Sound (buf_set st i c) := by
  obtain ⟨s1, s2, _, _, s5⟩ := buf_set_fields st i c hi
  exact ⟨by rw [s1, List.length_set]; exact hs.cmd_len, by rw [s2]; exact hs.out_len,
    by rw [s5]; exact hs.no_fault⟩

theorem buf_push_sound (st : at_cmd_parser_t) (c : Nat) (hs : Sound st)
    (hi : st.cmd_widx < AT_CMD_PARSER_BUFFER_SIZE) : Sound (buf_push st c) := by
  have := buf_set_sound st st.cmd_widx c hs hi
  exact ⟨this.cmd_len, this.out_len, this.no_fault⟩

theorem reset_sound (st : at_cmd_parser_t) (hs : Sound st) :
    Sound (at_cmd_reset_command_buffer st) :=
  ⟨hs.cmd_len, hs.out_len, hs.no_fault⟩

/-- The header scan makes no store outside the buffer: with room for the bytes
still to be read, the state stays sound, and the write index leaves room for the
bytes of the chunk after those the returned value accounts for. -/
theorem scan_cmd_header_sound (env : Env) (count : Nat) (cs : List Nat) :
    ∀ (st : at_cmd_parser_t) (i : Nat), count = i + cs.length → Sound st →
    st.cmd_widx + cs.length < AT_CMD_PARSER_BUFFER_SIZE →
    Sound (at_cmd_scan_cmd_header env count st cs i).1
    ∧ (at_cmd_scan_cmd_header env count st cs i).1.cmd_widx
        + (count - ((at_cmd_scan_cmd_header env count st cs i).2 + 1))
      < AT_CMD_PARSER_BUFFER_SIZE := by
  have hB := bufsize_eq
  induction cs with
  | nil =>
    intro st i hc hs hw
    simp only [at_cmd_scan_cmd_header]
    exact ⟨hs, by simp at hw hc; omega⟩
  | cons c cs ih =>
    intro st i hc hs hw
    simp only [List.length_cons] at hc hw
    have rej : ∀ (s2 : at_cmd_parser_t) (text : List Nat), Sound s2 →
        (response_frame 83 0 (sync_payload 1 (some text))).length < AT_CMD_PARSER_BUFFER_SIZE →
        Sound (rejected env s2 text)
        ∧ (rejected env s2 text).cmd_widx + (count - (count + 1)) < AT_CMD_PARSER_BUFFER_SIZE :=
      fun s2 text h2 hf => ⟨rejected_sound env s2 text h2 hf, by simp [rejected_widx]; omega⟩
    simp only [at_cmd_scan_cmd_header]
    split
    · split
      · exact rej st _ hs (by decide)
      · have hs2 : Sound (buf_push { st with cmd_size := u32 (st.cmd_size * 10 + c - 48) } c) :=
          buf_push_sound _ c ⟨hs.cmd_len, hs.out_len, hs.no_fault⟩ (by simp; omega)
        exact ih _ (i + 1) (by omega) hs2 (by simp; omega)
    · split
      · exact rej st _ hs (by decide)
      · split
        · exact rej st _ hs (by decide)
        · split
          · have hs2 : Sound (buf_push st c) := buf_push_sound st c hs (by omega)
            split
            · split
              · exact rej _ _ ⟨hs2.cmd_len, hs2.out_len, hs2.no_fault⟩ (by decide)
              · refine ⟨⟨hs2.cmd_len, hs2.out_len, hs2.no_fault⟩, ?_⟩
                simp; omega
            · refine ⟨⟨hs2.cmd_len, hs2.out_len, hs2.no_fault⟩, ?_⟩
              simp; omega
          · exact ih _ (i + 1) (by omega) (buf_push_sound st c hs (by omega)) (by simp; omega)

/-- The prefix scan makes no store outside the buffer. -/
theorem scan_for_prefix_sound (total : Nat) (cs : List Nat) :
    ∀ (st : at_cmd_parser_t) (i : Nat), total = i + cs.length → Sound st →
    st.cmd_widx + cs.length < AT_CMD_PARSER_BUFFER_SIZE →
    Sound ( at_cmd_scan_for_prefix st cs i).1
    ∧ ( at_cmd_scan_for_prefix st cs i).1.cmd_widx + (total - ( at_cmd_scan_for_prefix st cs i).2)
      < AT_CMD_PARSER_BUFFER_SIZE := by
  have hB := bufsize_eq
  induction cs with
  | nil =>
    intro st i hc hs hw
    simp only [ at_cmd_scan_for_prefix]
    exact ⟨hs, by simp at hw hc; omega⟩
  | cons c cs ih =>
    intro st i hc hs hw
    simp only [List.length_cons] at hc hw
    simp only [ at_cmd_scan_for_prefix]
    split
    · have hs2 : Sound (buf_push st c) := buf_push_sound st c hs (by omega)
      split
      · refine ⟨⟨hs2.cmd_len, hs2.out_len, hs2.no_fault⟩, ?_⟩
        simp; omega
      · exact ih _ (i + 1) (by omega) ⟨hs2.cmd_len, hs2.out_len, hs2.no_fault⟩ (by simp; omega)
    · split
      · have hs2 : Sound (buf_set st 0 c) := buf_set_sound st 0 c hs (by omega)
        exact ih _ (i + 1) (by omega) ⟨hs2.cmd_len, hs2.out_len, hs2.no_fault⟩ (by simp; omega)
      · exact ih _ (i + 1) (by omega) ⟨hs.cmd_len, hs.out_len, hs.no_fault⟩ (by simp; omega)

theorem echoed_sound (st : at_cmd_parser_t) (n : Nat) (hs : Sound st) : Sound (echoed st n) := by
  obtain ⟨e1, _, _, e4⟩ := echoed_fields st n
  exact ⟨by rw [echoed_buffer]; exact hs.cmd_len, by rw [e1]; exact hs.out_len,
    by rw [e4]; exact hs.no_fault⟩

theorem emit_sound (st : at_cmd_parser_t) (e : Event) (hs : Sound st) : Sound (emit st e) :=
  ⟨hs.cmd_len, hs.out_len, hs.no_fault⟩

/-- What follows the dispatcher keeps the state sound, whatever the collaborators
answer. -/
theorem dispatch_finish_sound (env : Env) (p : at_cmd_parser_t × Option at_cmd_msg_base_t)
    (hs : Sound p.1) : Sound (dispatch_finish env p).1 := by
  obtain ⟨st, r⟩ := p
  cases r with
  | none =>
    simp only [dispatch_finish]
    exact (send_cmd_response_sound env st 0 1 _ hs (by decide)).1
  | some msg =>
    simp only [dispatch_finish]
    split
    · exact emit_sound _ _
        (send_cmd_response_sound env _ 0 1 _ (emit_sound st _ hs) (by decide)).1
    · exact emit_sound st _ hs

theorem parse_cmd_sound (env : Env) (st : at_cmd_parser_t) (serial cmd_len cmd_buf : Nat)
    (hs : Sound st) : Sound (at_cmd_parse_cmd env st serial cmd_len cmd_buf).1 := by
  obtain ⟨f1, _, _, f4, f5, _⟩ := parse_cmd_fields env st serial cmd_len cmd_buf
    (le_of_eq hs.cmd_len)
  exact ⟨by rw [f4]; exact hs.cmd_len, by rw [f1]; exact hs.out_len,
    by rw [f5]; exact hs.no_fault⟩

/-- Processing a finalized frame of `count` bytes, `count` at most the buffer
size, makes no store outside the buffers. -/
theorem process_command_buffer_sound (env : Env) (st : at_cmd_parser_t) (count : Nat)
    (hs : Sound st) (hc : count ≤ AT_CMD_PARSER_BUFFER_SIZE) :
    Sound (at_cmd_process_command_buffer env st count).1 := by
  have hB := bufsize_eq
  have he := echoed_sound st count hs
  have snd : ∀ text, (response_frame 83 0 (sync_payload 1 (some text))).length
      < AT_CMD_PARSER_BUFFER_SIZE →
      Sound (at_cmd_parser_send_cmd_response env (echoed st count) 0 1 (some text)).1 :=
    fun text hf => (send_cmd_response_sound env _ 0 1 _ he hf).1
  unfold at_cmd_process_command_buffer
  simp only []
  split
  · exact snd (bytes "Invalid command") (by decide)
  · rename_i h8
    have hc8 : 8 ≤ count := by
      simp only [AT_CMD_MIN_HEADER_SIZE, AT_CMD_PREFIX_CHARS, AT_CMD_SIZE_CHARS, not_or,
        not_lt] at h8
      exact h8.1
    split
    · exact snd (bytes "Invalid size digit") (by decide)
    · split
      · exact snd (bytes "Invalid size") (by decide)
      · split
        · exact snd (bytes "Invalid format") (by decide)
        · rw [process_dispatch_eq]
          apply dispatch_finish_sound
          have hstrip : Sound (if buf_get (echoed st count) (count - 1) = 59
              then buf_set (echoed st count) (count - 1) 0 else echoed st count) := by
            split
            · exact buf_set_sound _ _ _ he (by omega)
            · exact he
          exact parse_cmd_sound env _ _ _ _ hstrip

/-- The main loop makes no store outside the buffers: with room for the bytes
still to be read, the state stays sound and the write index below the buffer
size. -/
theorem add_chars_loop_sound (env : Env) (cs : List Nat) :
    ∀ (st : at_cmd_parser_t) (skip : Nat) (res : cy_rslt_t), Sound st →
    st.cmd_widx + (cs.length - skip) < AT_CMD_PARSER_BUFFER_SIZE →
    Sound (add_chars_loop env st cs skip res).1
    ∧ (add_chars_loop env st cs skip res).1.cmd_widx < AT_CMD_PARSER_BUFFER_SIZE := by
  have hB := bufsize_eq
  induction cs with
  | nil =>
    intro st skip res hs hw
    simp only [add_chars_loop]
    exact ⟨hs, by simp at hw; omega⟩
  | cons c cs ih =>
    intro st skip res hs hw
    cases skip with
    | succ k =>
      simp only [add_chars_loop]
      exact ih st k res hs (by simp only [List.length_cons] at hw; omega)
    | zero =>
      simp only [List.length_cons, Nat.sub_zero] at hw
      simp only [add_chars_loop]
      split
      · obtain ⟨h1, h2⟩ := scan_cmd_header_sound env (c :: cs).length (c :: cs) st 0
          (by simp) hs (by simp; omega)
        have hl : (c :: cs).length = cs.length + 1 := rfl
        exact ih _ _ res h1 (by omega)
      · split
        · split
          · exact ih _ 0 res (buf_push_sound st c hs (by omega)) (by simp; omega)
          · exact ih _ 0 res hs (by omega)
        · have hs1 : Sound (buf_set st st.cmd_widx c) := buf_set_sound st _ c hs (by omega)
          split
          · have hs2 : Sound (buf_set (buf_set st st.cmd_widx c)
                (buf_set st st.cmd_widx c).cmd_widx 0) :=
              buf_set_sound _ _ 0 hs1 (by simp; omega)
            have hp := process_command_buffer_sound env _
              (buf_set (buf_set st st.cmd_widx c) (buf_set st st.cmd_widx c).cmd_widx 0).cmd_widx
              hs2 (by simp; omega)
            exact ih _ 0 _ (reset_sound _ hp) (by simp [at_cmd_reset_command_buffer]; omega)
          · split
            · have hs2 : Sound ({ buf_set st st.cmd_widx c with
                  cmd_widx := (buf_set st st.cmd_widx c).cmd_widx + 1 }) :=
                ⟨hs1.cmd_len, hs1.out_len, hs1.no_fault⟩
              have hs3 := buf_set_sound _
                ({ buf_set st st.cmd_widx c with
                  cmd_widx := (buf_set st st.cmd_widx c).cmd_widx + 1 }).cmd_widx 0 hs2
                (by simp; omega)
              split
              · exact ⟨rejected_sound env _ (bytes "bad cmd trailer") hs3 (by decide),
                  by simp only [at_cmd_reset_command_buffer]; omega⟩
              · have hp := process_command_buffer_sound env _
                  (buf_set { buf_set st st.cmd_widx c with
                      cmd_widx := (buf_set st st.cmd_widx c).cmd_widx + 1 }
                    ({ buf_set st st.cmd_widx c with
                      cmd_widx := (buf_set st st.cmd_widx c).cmd_widx + 1 }).cmd_widx 0).cmd_widx
                  hs3 (by simp; omega)
                exact ih _ _ _ (reset_sound _ hp)
                  (by simp [at_cmd_reset_command_buffer]; omega)
            · exact ih _ 0 res ⟨hs1.cmd_len, hs1.out_len, hs1.no_fault⟩ (by simp; omega)

/-- One call of `at_cmd_add_command_chars` on a chunk shorter than
`2 ^ 32 - AT_CMD_PARSER_BUFFER_SIZE`, in a sound state with the write index below
the buffer size: the state stays sound and the write index below the buffer
size. -/
theorem add_sound (env : Env) (st : at_cmd_parser_t) (chars : List Nat) (hs : Sound st)
    (hw : st.cmd_widx < AT_CMD_PARSER_BUFFER_SIZE)
    (hlen : chars.length + AT_CMD_PARSER_BUFFER_SIZE ≤ 4294967296) :
    Sound (at_cmd_add_command_chars env st chars).1
    ∧ (at_cmd_add_command_chars env st chars).1.cmd_widx < AT_CMD_PARSER_BUFFER_SIZE := by
  have hB := bufsize_eq
  by_cases hne : chars = []
  · subst hne
    simp only [at_cmd_add_command_chars, List.length_nil, if_true]
    exact ⟨hs, hw⟩
  · have hu : u32 (st.cmd_widx + chars.length) = st.cmd_widx + chars.length := by
      simp only [u32]; omega
    by_cases hov : AT_CMD_PARSER_BUFFER_SIZE ≤ u32 (st.cmd_widx + chars.length)
    · rw [add_overflow env st chars hne hov]
      exact ⟨rejected_sound env st _ hs (by decide), by simp [rejected_widx]; omega⟩
    · rw [add_no_overflow env st chars hne (by omega)]
      rw [hu] at hov
      split
      · exact add_chars_loop_sound env chars st 0 _ hs (by omega)
      · obtain ⟨h1, h2⟩ := scan_for_prefix_sound chars.length chars st 0 (by simp) hs (by omega)
        split
        · exact add_chars_loop_sound env _ _ 0 _ h1 (by simp only [List.length_drop]; omega)
        · refine ⟨h1, ?_⟩
          show ( at_cmd_scan_for_prefix st chars 0).1.cmd_widx < _
          omega

/-- The calls on successive chunks keep the state sound and the write index below
the buffer size. -/
theorem feed_sound (env : Env) (chunks : List (List Nat)) :
    ∀ st : at_cmd_parser_t, Sound st → st.cmd_widx < AT_CMD_PARSER_BUFFER_SIZE →
    (∀ ch ∈ chunks, ch.length + AT_CMD_PARSER_BUFFER_SIZE ≤ 4294967296) →
    Sound (feed env st chunks).1 ∧ (feed env st chunks).1.cmd_widx < AT_CMD_PARSER_BUFFER_SIZE := by
  induction chunks with
  | nil => intro st hs hw _; exact ⟨hs, hw⟩
  | cons ch rest ih =>
    intro st hs hw hl
    obtain ⟨h1, h2⟩ := add_sound env st ch hs hw (hl ch (by simp))
    cases rest with
    | nil => exact ⟨h1, h2⟩
    | cons ch2 rest2 =>
      exact ih _ h1 h2 (fun x hx => hl x (by simp [hx]))

/-- The parser before any input is sound. -/
theorem g_cmd_parser_0_sound (tables : List at_cmd_table_t) (echo : Bool) :
    Sound (g_cmd_parser_0 tables echo) :=
  ⟨by simp [g_cmd_parser_0], by simp [g_cmd_parser_0], rfl⟩

/-! ## The search of the registry -/

/-- The search of `at_cmd_parse_cmd` applies the test `cmd_matches` to the entries. -/
theorem find_cmd_eq (tables : List at_cmd_table_t) (name : List Nat) :
    find_cmd tables name
      = tables.findSome? fun t => (t.cmd_table.take t.num_cmds).find? (cmd_matches name) := rfl

/-- The test of an entry succeeds exactly when the entry has a name and the name
is the command name. -/
theorem cmd_matches_iff (name : List Nat) (cmd : at_cmd_def_t) :
    cmd_matches name cmd = true ↔ cmd.cmd_name = some name := by
  unfold cmd_matches
  cases h : cmd.cmd_name with
  | none => simp
  | some n =>
    simp only [Bool.and_eq_true, beq_iff_eq, List.take_length, Option.some.injEq]
    constructor
    · rintro ⟨h1, h2⟩
      rw [← h1, List.take_length] at h2
      exact h2.symm
    · rintro rfl
      simp

/-- The search finds the first entry of the registry, in the order of
`registry_entries`, that passes the test. -/
theorem find_cmd_entries (tables : List at_cmd_table_t) (name : List Nat) :
    find_cmd tables name = (registry_entries tables).find? (cmd_matches name) := by
  rw [find_cmd_eq, registry_entries, List.find?_flatten, List.findSome?_map]
  rfl

/-- First match: an entry with the command name that no entry with that name
precedes is the one found. -/
theorem find_cmd_first (tables : List at_cmd_table_t) (name : List Nat)
    (pre post : List at_cmd_def_t) (e : at_cmd_def_t)
    (hsplit : registry_entries tables = pre ++ e :: post)
    (he : e.cmd_name = some name)
    (hpre : ∀ x ∈ pre, x.cmd_name ≠ some name) :
    find_cmd tables name = some e := by
  rw [find_cmd_entries, List.find?_eq_some]
  refine ⟨(cmd_matches_iff name e).2 he, pre, post, hsplit, ?_⟩
  intro a ha
  have hn := hpre a ha
  cases hm : cmd_matches name a with
  | false => rfl
  | true => exact absurd ((cmd_matches_iff name a).1 hm) hn

/-- The entry found has the command name, and no entry before it has. -/
theorem find_cmd_some (tables : List at_cmd_table_t) (name : List Nat) (e : at_cmd_def_t)
    (h : find_cmd tables name = some e) :
    e.cmd_name = some name
    ∧ ∃ pre post, registry_entries tables = pre ++ e :: post
        ∧ ∀ x ∈ pre, x.cmd_name ≠ some name := by
  rw [find_cmd_entries, List.find?_eq_some] at h
  obtain ⟨h1, pre, post, h2, h3⟩ := h
  refine ⟨(cmd_matches_iff name e).1 h1, pre, post, h2, ?_⟩
  intro x hx hn
  have := h3 x hx
  rw [(cmd_matches_iff name x).2 hn] at this
  simp at this

/-- Nothing is found exactly when no entry has the command name. -/
theorem find_cmd_none (tables : List at_cmd_table_t) (name : List Nat) :
    find_cmd tables name = none ↔ ∀ e ∈ registry_entries tables, e.cmd_name ≠ some name := by
  rw [find_cmd_entries, List.find?_eq_none]
  constructor
  · intro h e he hn
    exact h e he ((cmd_matches_iff name e).2 hn)
  · intro h e he hm
    exact h e he ((cmd_matches_iff name e).1 hm)

/-- Successful registrations append their tables, in the order of the calls, and
change nothing else. -/
theorem register_all_spec (ts : List at_cmd_table_t) : ∀ st : at_cmd_parser_t,
    (∀ t ∈ ts, t.num_cmds ≠ 0) →
    register_all st ts = { st with cmd_tables := st.cmd_tables ++ ts } := by
  induction ts with
  | nil => intro st _; simp [register_all]
  | cons t ts ih =>
    intro st h
    have h0 : t.num_cmds ≠ 0 := h t (by simp)
    have := ih ({ st with cmd_tables := st.cmd_tables ++ [t] }) (fun x hx => h x (by simp [hx]))
    simp only [register_all, List.foldl_cons] at this ⊢
    simp only [at_cmd_parser_register_commands, h0, if_false, Bool.not_true]
    simpa using this

/-- The dispatcher on a body whose name is found in the registry: the hand-over,
then the one call of the callback of the entry found. -/
theorem parse_cmd_found (env : Env) (st : at_cmd_parser_t) (serial cmd_len : Nat)
    (hd b rest : List Nat) (e : at_cmd_def_t)
    (hbuf : st.command_buffer = hd ++ (b ++ 0 :: rest))
    (hlt : hd.length + b.length < AT_CMD_PARSER_BUFFER_SIZE)
    (hf : find_cmd st.cmd_tables (body_name b) = some e) :
    (at_cmd_parse_cmd env st serial cmd_len hd.length).1.trace
      = st.trace ++ [Event.dispatch serial cmd_len ((b ++ 0 :: rest).take cmd_len),
          Event.callback e.cmd_parser_fn e.cmd_id serial
            (u32sub cmd_len (body_args_offset b)) (body_args b)]
    ∧ (at_cmd_parse_cmd env st serial cmd_len hd.length).2
      = env.callback e.cmd_parser_fn e.cmd_id serial
          (u32sub cmd_len (body_args_offset b)) (body_args b) := by
  obtain ⟨h1, h2⟩ := parse_cmd_body env st serial cmd_len hd b rest hbuf hlt
  rw [h1, h2]
  simp only [handler_call, handler_result, hf]
  exact ⟨trivial, trivial⟩

/-- The dispatcher on a body whose name is not found in the registry: the
hand-over only, and no message. -/
theorem parse_cmd_not_found (env : Env) (st : at_cmd_parser_t) (serial cmd_len : Nat)
    (hd b rest : List Nat)
    (hbuf : st.command_buffer = hd ++ (b ++ 0 :: rest))
    (hlt : hd.length + b.length < AT_CMD_PARSER_BUFFER_SIZE)
    (hf : find_cmd st.cmd_tables (body_name b) = none) :
    (at_cmd_parse_cmd env st serial cmd_len hd.length).1.trace
      = st.trace ++ [Event.dispatch serial cmd_len ((b ++ 0 :: rest).take cmd_len)]
    ∧ (at_cmd_parse_cmd env st serial cmd_len hd.length).2 = none := by
  obtain ⟨h1, h2⟩ := parse_cmd_body env st serial cmd_len hd b rest hbuf hlt
  rw [h1, h2]
  simp only [handler_call, handler_result, hf]
  exact ⟨trivial, trivial⟩

/-! ## The fields of a body -/

theorem takeWhile_all (p : Nat → Bool) (l : List Nat) (h : ∀ x ∈ l, p x = true) :
    l.takeWhile p = l := by
  induction l with
  | nil => rfl
  | cons a l ih =>
    rw [List.takeWhile_cons, h a (by simp), if_pos rfl, ih (fun x hx => h x (by simp [hx]))]

theorem append_cons_unique (a b r s : List Nat) (x : Nat) (ha : x ∉ a) (hb : x ∉ b)
    (h : a ++ x :: r = b ++ x :: s) : a = b := by
  induction a generalizing b with
  | nil =>
    cases b with
    | nil => rfl
    | cons y b =>
      simp only [List.nil_append, List.cons_append, List.cons.injEq] at h
      exact absurd (by simp [h.1]) hb
  | cons y a ih =>
    cases b with
    | nil =>
      simp only [List.nil_append, List.cons_append, List.cons.injEq] at h
      exact absurd (by simp [h.1]) ha
    | cons z b =>
      simp only [List.cons_append, List.cons.injEq] at h
      rw [h.1, ih b (fun hx => ha (by simp [hx])) (fun hx => hb (by simp [hx])) h.2]

/-- The fields the dispatcher passes on for a body `b` without NUL handed over
with its length: with a comma in `b`, the name is what precedes the first comma,
the argument string all that follows it, and the argument length the length of
that string; without a comma, the name is `b`, the argument string is empty and
the argument length 0. -/
theorem body_fields (b : List Nat) (h0 : 0 ∉ b) (hl : b.length < 4294967296) :
    (44 ∈ b → ∃ n a, b = n ++ 44 :: a ∧ 44 ∉ n ∧ body_name b = n ∧ body_args b = a
        ∧ u32sub b.length (body_args_offset b) = a.length)
    ∧ (44 ∉ b → body_name b = b ∧ body_args b = []
        ∧ u32sub b.length (body_args_offset b) = 0) := by
  have hclean := body_name_clean b
  have hn44 : 44 ∉ body_name b := by
    intro h
    have := hclean 44 h
    simp at this
  have hn0 : 0 ∉ body_name b := by
    intro h
    have := hclean 0 h
    simp at this
  rcases body_split b [] with ⟨t, h1, h2⟩ | ⟨r, h1, h2⟩
  · generalize hn : body_name b = n at h1 hn44 hn0
    have hlen : b.length = n.length + 1 + t.length := by
      rw [h1]
      simp only [List.length_append, List.length_cons]
      omega
    have ht0 : 0 ∉ t := by
      intro h
      apply h0
      rw [h1]
      simp [h]
    have hargs : body_args b = t := by
      have hd : b.drop (n.length + 1) = t := by
        rw [h1, show n ++ 44 :: t = (n ++ [44]) ++ t by simp]
        exact List.drop_left' (by simp)
      simp only [body_args, h2, if_true, hn, hd]
      apply takeWhile_all
      intro x hx
      simp only [bne_iff_ne, ne_eq]
      rintro rfl
      exact ht0 hx
    constructor
    · intro _
      refine ⟨n, t, h1, hn44, rfl, hargs, ?_⟩
      simp only [body_args_offset, h2, if_true, u32sub, hn]
      omega
    · intro h
      exact absurd (by rw [h1]; simp) h
  · have hb : b = body_name b := append_cons_unique b (body_name b) [] r 0 h0 hn0 h1
    constructor
    · intro h
      rw [hb] at h
      exact absurd h hn44
    · intro _
      refine ⟨hb.symm, ?_, ?_⟩
      · simp only [body_args, h2]
        rfl
      · simp only [body_args_offset, h2, u32sub, ← hb]
        simp only [Bool.false_eq_true, if_false]
        omega

/-- The call made for a body without NUL handed over with its own length, when the
name found in it is that of the entry `e` the search returns: the callback of `e`
with the id of `e`, the argument string and the length of that string. -/
theorem handler_call_fields (tables : List at_cmd_table_t) (serial : Nat) (b : List Nat)
    (e : at_cmd_def_t) (h0 : 0 ∉ b) (hl : b.length < 4294967296)
    (hf : find_cmd tables (body_name b) = some e) :
    handler_call tables serial b.length b
      = [Event.callback e.cmd_parser_fn e.cmd_id serial (body_args b).length (body_args b)] := by
  have hlen : u32sub b.length (body_args_offset b) = (body_args b).length := by
    obtain ⟨h1, h2⟩ := body_fields b h0 hl
    by_cases hc : 44 ∈ b
    · obtain ⟨n, a, _, _, _, ha, hu⟩ := h1 hc
      rw [hu, ha]
    · obtain ⟨_, ha, hu⟩ := h2 hc
      rw [hu, ha]; rfl
  simp only [handler_call, hf, hlen]

/-! ## The fault flag is never cleared -/

theorem out_put_fault (st : at_cmd_parser_t) (ptr c : Nat) (h : st.fault = true) :
    (out_put st ptr c).fault = true := by
  unfold out_put
  split <;> simp [h]

theorem out_puts_fault (s : List Nat) : ∀ (st : at_cmd_parser_t) (ptr : Nat),
    st.fault = true → (out_puts st ptr s).fault = true := by
  induction s with
  | nil => intro st ptr h; exact h
  | cons c cs ih => intro st ptr h; exact ih _ _ (out_put_fault st ptr c h)

theorem out_snprintf_fault (st : at_cmd_parser_t) (ptr room : Nat) (s : List Nat)
    (h : st.fault = true) : (out_snprintf st ptr room s).fault = true := by
  unfold out_snprintf
  split
  · exact h
  · exact out_puts_fault _ _ _ h

theorem out_size_fault (n : Nat) : ∀ (st : at_cmd_parser_t) (size data_bytes : Nat),
    st.fault = true → (out_size n st size data_bytes).fault = true := by
  induction n with
  | zero => intro st _ _ h; exact h
  | succ n ih => intro st size d h; exact ih _ _ _ (out_put_fault st size _ h)

theorem send_host_message_fault (env : Env) (st : at_cmd_parser_t) (async_msg : Bool)
    (serial status : Nat) (text : Option (List Nat)) (h : st.fault = true) :
    (at_cmd_send_host_message env st async_msg serial status text).1.fault = true := by
  unfold at_cmd_send_host_message
  split
  · exact h
  · simp only [emit]
    apply out_put_fault
    apply out_put_fault
    apply out_put_fault
    apply out_put_fault
    apply out_size_fault
    have h1 : (out_put (out_snprintf (out_put (out_puts (out_put (out_put st 0 43) 1
        (if async_msg = true then 72 else 83)) 2 (List.replicate AT_CMD_SIZE_CHARS 48))
        (2 + AT_CMD_SIZE_CHARS) 44) (2 + AT_CMD_SIZE_CHARS + 1)
        (u32sub AT_CMD_PARSER_BUFFER_SIZE (2 + AT_CMD_SIZE_CHARS + 1)) (decimal serial))
        (2 + AT_CMD_SIZE_CHARS + 1 + (decimal serial).length) 59).fault = true := by
      apply out_put_fault
      apply out_snprintf_fault
      apply out_put_fault
      apply out_puts_fault
      apply out_put_fault
      apply out_put_fault
      exact h
    split
    · split
      · exact out_snprintf_fault _ _ _ _ (out_snprintf_fault _ _ _ _ h1)
      · exact out_snprintf_fault _ _ _ _ h1
    · split
      · exact out_snprintf_fault _ _ _ _ h1
      · rfl

theorem send_cmd_response_fault (env : Env) (st : at_cmd_parser_t)
    (serial status : Nat) (text : Option (List Nat)) (h : st.fault = true) :
    (at_cmd_parser_send_cmd_response env st serial status text).1.fault = true :=
  send_host_message_fault env st false serial status text h

theorem buf_set_fault (st : at_cmd_parser_t) (i c : Nat) (h : st.fault = true) :
    (buf_set st i c).fault = true := by
  unfold buf_set
  split <;> simp [h]

theorem buf_push_fault (st : at_cmd_parser_t) (c : Nat) (h : st.fault = true) :
    (buf_push st c).fault = true := buf_set_fault st _ c h

theorem parse_cmd_fault (env : Env) (st : at_cmd_parser_t) (serial cmd_len cmd_buf : Nat)
    (h : st.fault = true) : (at_cmd_parse_cmd env st serial cmd_len cmd_buf).1.fault = true := by
  unfold at_cmd_parse_cmd
  simp only [emit]
  have h1 : ∀ i c, (buf_set { st with trace := st.trace ++
      [Event.dispatch serial cmd_len ((st.command_buffer.drop cmd_buf).take cmd_len)] }
      i c).fault = true := fun i c => buf_set_fault _ i c h
  split <;> split <;> first | exact h1 _ _ | exact h

theorem process_dispatch_fault (env : Env) (st : at_cmd_parser_t) (serial ptr count : Nat)
    (h : st.fault = true) : (process_dispatch env st serial ptr count).1.fault = true := by
  unfold process_dispatch
  have h1 : (if buf_get st (count - 1) = AT_CMD_TERMINATOR_CHAR
      then (buf_set st (count - 1) 0, count - 1) else (st, count)).1.fault = true := by
    split
    · exact buf_set_fault st _ 0 h
    · exact h
  have h2 := parse_cmd_fault env _ serial
    (u32sub (if buf_get st (count - 1) = AT_CMD_TERMINATOR_CHAR
      then (buf_set st (count - 1) 0, count - 1) else (st, count)).2 ptr) ptr h1
  simp only
  split
  · exact send_cmd_response_fault env _ 0 1 (some (bytes "Invalid cmd")) h2
  · split
    · exact send_cmd_response_fault env (emit _ _) 0 1 (some (bytes "queue error")) h2
    · exact h2

theorem echoed_fault (st : at_cmd_parser_t) (n : Nat) (h : st.fault = true) :
    (echoed st n).fault = true := by
  unfold echoed
  split
  · exact h
  · exact h

theorem process_command_buffer_fault (env : Env) (st : at_cmd_parser_t) (count : Nat)
    (h : st.fault = true) : (at_cmd_process_command_buffer env st count).1.fault = true := by
  unfold at_cmd_process_command_buffer
  have h1 := echoed_fault st count h
  simp only
  split
  · exact send_cmd_response_fault env _ 0 1 (some (bytes "Invalid command")) h1
  · split
    · exact send_cmd_response_fault env _ 0 1 (some (bytes "Invalid size digit")) h1
    · split
      · exact send_cmd_response_fault env _ 0 1 (some (bytes "Invalid size")) h1
      · split
        · exact send_cmd_response_fault env _ 0 1 (some (bytes "Invalid format")) h1
        · exact process_dispatch_fault env _ _ _ _ h1

theorem reset_fault (st : at_cmd_parser_t) (h : st.fault = true) :
    (at_cmd_reset_command_buffer st).fault = true := h

theorem scan_cmd_header_fault (env : Env) (count : Nat) (cs : List Nat) :
    ∀ (st : at_cmd_parser_t) (i : Nat), st.fault = true →
    (at_cmd_scan_cmd_header env count st cs i).1.fault = true := by
  induction cs with
  | nil => intro st i h; exact h
  | cons c cs ih =>
    intro st i h
    have rej : ∀ (s : at_cmd_parser_t) (text : List Nat), s.fault = true →
        (at_cmd_reset_command_buffer
          (at_cmd_parser_send_cmd_response env s 0 1 (some text)).1).fault = true :=
      fun s text hs => send_cmd_response_fault env s 0 1 (some text) hs
    simp only [at_cmd_scan_cmd_header]
    split
    · split
      · exact rej st (bytes "Invalid size digit") h
      · exact ih _ _ (buf_push_fault _ c h)
    · split
      · exact rej st (bytes "Invalid serial digit") h
      · split
        · exact rej st (bytes "Invalid format") h
        · split
          · have hp : (buf_push st c).fault = true := buf_push_fault st c h
            split
            · split
              · exact rej _ (bytes "Input buffer size exceeded") hp
              · exact hp
            · exact hp
          · exact ih _ _ (buf_push_fault st c h)

theorem scan_for_prefix_fault (cs : List Nat) :
    ∀ (st : at_cmd_parser_t) (i : Nat), st.fault = true →
    ( at_cmd_scan_for_prefix st cs i).1.fault = true := by
  induction cs with
  | nil => intro st i h; exact h
  | cons c cs ih =>
    intro st i h
    simp only [ at_cmd_scan_for_prefix]
    have hp : (buf_push st c).fault = true := buf_push_fault st c h
    split
    · split
      · exact hp
      · exact ih _ _ hp
    · split
      · exact ih _ _ (buf_set_fault st 0 c h)
      · exact ih _ _ h

theorem add_chars_loop_fault (env : Env) (cs : List Nat) :
    ∀ (st : at_cmd_parser_t) (skip : Nat) (res : cy_rslt_t), st.fault = true →
    (add_chars_loop env st cs skip res).1.fault = true := by
  induction cs with
  | nil => intro st skip res h; simp only [add_chars_loop]; exact h
  | cons c cs ih =>
    intro st skip res h
    cases skip with
    | succ k => simp only [add_chars_loop]; exact ih st k res h
    | zero =>
      simp only [add_chars_loop]
      have h1 : (buf_set st st.cmd_widx c).fault = true := buf_set_fault st _ c h
      split
      · exact ih _ _ _ (scan_cmd_header_fault env _ _ st 0 h)
      · split
        · split
          · exact ih _ _ _ (buf_push_fault st c h)
          · exact ih _ _ _ h
        · split
          · exact ih _ _ _ (process_command_buffer_fault env _ _ (buf_set_fault _ _ 0 h1))
          · split
            · have h2 : (buf_set { buf_set st st.cmd_widx c with
                  cmd_widx := (buf_set st st.cmd_widx c).cmd_widx + 1 }
                  ({ buf_set st st.cmd_widx c with
                    cmd_widx := (buf_set st st.cmd_widx c).cmd_widx + 1 }).cmd_widx 0).fault
                  = true := buf_set_fault _ _ 0 h1
              split
              · exact send_cmd_response_fault env _ 0 1 (some (bytes "bad cmd trailer")) h2
              · exact ih _ _ _ (process_command_buffer_fault env _ _ h2)
            · exact ih _ _ _ h1

theorem add_fault (env : Env) (st : at_cmd_parser_t) (chars : List Nat) (h : st.fault = true) :
    (at_cmd_add_command_chars env st chars).1.fault = true := by
  unfold at_cmd_add_command_chars
  split
  · exact h
  · split
    · exact send_cmd_response_fault env st 0 1 (some (bytes "Input buffer size exceeded")) h
    · cases hb : st.reading_cmd with
      | false =>
        have hp := scan_for_prefix_fault chars st 0 h
        simp only [Bool.not_false, if_true]
        split
        · exact hp
        · exact add_chars_loop_fault env _ _ _ _ hp
      | true =>
        simp only [Bool.not_true, Bool.false_eq_true, if_false, hb]
        exact add_chars_loop_fault env _ _ _ _ h

/-- The fault flag is never cleared: once a store has gone outside a buffer, the
flag stays set through every later call. -/
theorem feed_fault (env : Env) (chunks : List (List Nat)) : ∀ st : at_cmd_parser_t,
    st.fault = true → (feed env st chunks).1.fault = true := by
  induction chunks with
  | nil => intro st h; exact h
  | cons ch rest ih =>
    intro st h
    cases rest with
    | nil => exact add_fault env st ch h
    | cons ch2 rest2 => exact ih _ (add_fault env st ch h)

/-! ## The arguments of the callback for a whole frame -/

theorem handler_result_fields (env : Env) (tables : List at_cmd_table_t) (serial : Nat)
    (b : List Nat) (e : at_cmd_def_t) (h0 : 0 ∉ b) (hl : b.length < 4294967296)
    (hf : find_cmd tables (body_name b) = some e) :
    handler_result env tables serial b.length b
      = env.callback e.cmd_parser_fn e.cmd_id serial (body_args b).length (body_args b) := by
  have hc := handler_call_fields tables serial b e h0 hl hf
  simp only [handler_call, hf, List.cons.injEq, Event.callback.injEq, and_true, true_and] at hc
  simp only [handler_result, hf, hc]

/-- An explicit-mode frame whose body `b` holds no NUL and names a registered
command, fed in any chunks from a fresh state: after the echo and the hand-over,
the callback of the first entry `e` with that name is called once, with the id of
`e`, the serial denoted by the serial digits modulo `2 ^ 32`, the bytes after the
first comma of `b` and their number; then the message is queued or the failure
answered. -/
theorem feed_explicit_arguments (env : Env) (st0 : at_cmd_parser_t) (h : Fresh st0)
    (hm : env.mutex_get = cy_rslt_t.CY_RSLT_SUCCESS)
    (ho : st0.output_buffer.length = AT_CMD_PARSER_BUFFER_SIZE)
    (g s b : List Nat) (chunks : List (List Nat)) (e : at_cmd_def_t)
    (hg : ¬ AT_CMD_PREFIX <:+: g ++ [65, 84]) (hs : s ≠ []) (hsd : all_digits s)
    (hb1 : 1 ≤ b.length) (hb2 : b.length ≤ AT_CMD_MAX_SIZE) (h0 : 0 ∉ b)
    (hne : ∀ ch ∈ chunks, ch ≠ []) (hj : chunks.flatten = g ++ explicit_frame s b)
    (hcap : (g ++ explicit_frame s b).length < AT_CMD_PARSER_BUFFER_SIZE)
    (hf : find_cmd st0.cmd_tables (body_name b) = some e) :
    (feed env st0 chunks).1.trace
      = st0.trace ++ echo_events st0.echo_cmd (explicit_frame s b)
          ++ Event.dispatch (decimal_value s % 4294967296) b.length b
          :: Event.callback e.cmd_parser_fn e.cmd_id (decimal_value s % 4294967296)
                (body_args b).length (body_args b)
          :: outcome_events env (env.callback e.cmd_parser_fn e.cmd_id
                (decimal_value s % 4294967296) (body_args b).length (body_args b)) := by
  have hM : AT_CMD_MAX_SIZE = 6000 := rfl
  obtain ⟨h1, _, _⟩ := feed_explicit_spec env st0 h hm ho g s b chunks hg hs hsd hb1 hb2
    hne hj hcap
  rw [h1, dispatch_events, handler_call_fields _ _ b e h0 (by omega) hf,
    handler_result_fields env _ _ b e h0 (by omega) hf]
  rfl

/-- An implicit-mode frame whose body, without its line feeds and one trailing
`;`, is the non-empty `b` without NUL and names a registered command, fed in any
chunks from a fresh state: after the echo and the hand-over of `b`, the callback
of the first entry `e` with that name is called once, with the id of `e`, the
serial denoted by the serial digits modulo `2 ^ 32`, the bytes after the first
comma of `b` and their number; then the message is queued or the failure
answered. -/
theorem feed_implicit_arguments (env : Env) (st0 : at_cmd_parser_t) (h : Fresh st0)
    (hm : env.mutex_get = cy_rslt_t.CY_RSLT_SUCCESS)
    (ho : st0.output_buffer.length = AT_CMD_PARSER_BUFFER_SIZE)
    (g s w b : List Nat) (chunks : List (List Nat)) (e : at_cmd_def_t)
    (hg : ¬ AT_CMD_PREFIX <:+: g ++ [65, 84]) (hs : s ≠ []) (hsd : all_digits s)
    (hw : 13 ∉ w) (hwb : frame_body (w.filter (fun c => c != 10)) = b)
    (hwne : w.filter (fun c => c != 10) ≠ []) (h0 : 0 ∉ b)
    (hne : ∀ ch ∈ chunks, ch ≠ []) (hj : chunks.flatten = g ++ implicit_frame s w)
    (hcap : (g ++ implicit_frame s w).length < AT_CMD_PARSER_BUFFER_SIZE)
    (hf : find_cmd st0.cmd_tables (body_name b) = some e) :
    (feed env st0 chunks).1.trace
      = st0.trace ++ echo_events st0.echo_cmd
          (AT_CMD_PREFIX ++ [48, 48, 48, 48] ++ s ++ [59] ++ w.filter (fun c => c != 10))
          ++ Event.dispatch (decimal_value s % 4294967296) b.length b
          :: Event.callback e.cmd_parser_fn e.cmd_id (decimal_value s % 4294967296)
                (body_args b).length (body_args b)
          :: outcome_events env (env.callback e.cmd_parser_fn e.cmd_id
                (decimal_value s % 4294967296) (body_args b).length (body_args b)) := by
  have hB := bufsize_eq
  obtain ⟨payload, h1, h2, _, _⟩ := feed_implicit_spec env st0 h hm ho g s w chunks hg hs hsd
    hw hne hj hcap
  have hlen : b.length < 4294967296 := by
    have h3 : b.length ≤ (w.filter (fun c => c != 10)).length := by
      rw [← hwb, frame_body]
      split
      · simp
      · exact le_refl _
    have h4 : (w.filter (fun c => c != 10)).length ≤ w.length := List.length_filter_le _ _
    simp only [List.length_append, implicit_frame] at hcap
    omega
  have hc : frame_cmd_len (w.filter (fun c => c != 10)) = b.length := by
    simp only [frame_cmd_len, hwne, if_false, hwb]
  rw [h1, h2 hwne, hc, hwb, dispatch_events, handler_call_fields _ _ b e h0 hlen hf,
    handler_result_fields env _ _ b e h0 hlen hf]
  rfl

/-! ## The second size limit -/

/-- On a finalized frame with a well-formed header whose size field is greater
than `AT_CMD_MAX_SIZE`, `at_cmd_process_command_buffer` answers `Invalid size`
after the echo and returns `CY_AT_CMD_PARSER_ERROR`. -/
theorem process_full_invalid_size (env : Env) (st0 : at_cmd_parser_t) (d1 d2 d3 d4 : Nat)
    (s rest : List Nat) (size : Nat)
    (hd : all_digits [d1, d2, d3, d4])
    (hv : AT_CMD_MAX_SIZE < digits_value 0 [d1, d2, d3, d4]) :
    at_cmd_process_command_buffer env
        (full st0 ([65, 84, 43, d1, d2, d3, d4] ++ s ++ 59 :: rest) size)
        ([65, 84, 43, d1, d2, d3, d4] ++ s ++ 59 :: rest).length
      = ((at_cmd_parser_send_cmd_response env
            (echoed (full st0 ([65, 84, 43, d1, d2, d3, d4] ++ s ++ 59 :: rest) size)
              ([65, 84, 43, d1, d2, d3, d4] ++ s ++ 59 :: rest).length)
            0 1 (some (bytes "Invalid size"))).1,
         cy_rslt_t.CY_AT_CMD_PARSER_ERROR) := by
  have h1 : isdigit d1 = true := hd d1 (by simp)
  have h2 : isdigit d2 = true := hd d2 (by simp)
  have h3 : isdigit d3 = true := hd d3 (by simp)
  have h4 : isdigit d4 = true := hd d4 (by simp)
  have hbuf : ∀ st : at_cmd_parser_t,
      st.command_buffer = ([65, 84, 43, d1, d2, d3, d4] ++ s ++ 59 :: rest)
        ++ 0 :: st0.command_buffer.drop (([65, 84, 43, d1, d2, d3, d4] ++ s ++ 59 :: rest).length + 1) →
      ¬ (([65, 84, 43, d1, d2, d3, d4] ++ s ++ 59 :: rest).length < AT_CMD_MIN_HEADER_SIZE ∨
          st.command_buffer.take AT_CMD_PREFIX_CHARS ≠ AT_CMD_PREFIX)
      ∧ process_size st AT_CMD_SIZE_CHARS 0 0 = some (digits_value 0 [d1, d2, d3, d4]) := by
    intro st e
    have e' : st.command_buffer = 65 :: 84 :: 43 :: d1 :: d2 :: d3 :: d4 ::
        (s ++ 59 :: (rest ++ 0 :: st0.command_buffer.drop
          (([65, 84, 43, d1, d2, d3, d4] ++ s ++ 59 :: rest).length + 1))) := by
      rw [e]; simp
    refine ⟨?_, ?_⟩
    · rw [e']
      simp [AT_CMD_MIN_HEADER_SIZE, AT_CMD_PREFIX_CHARS, AT_CMD_SIZE_CHARS, AT_CMD_PREFIX]
      omega
    · simp only [process_size, buf_get, e', AT_CMD_PREFIX_CHARS, AT_CMD_SIZE_CHARS]
      simp [h1, h2, h3, h4, digits_value]
  have hb := hbuf (echoed (full st0 ([65, 84, 43, d1, d2, d3, d4] ++ s ++ 59 :: rest) size)
      ([65, 84, 43, d1, d2, d3, d4] ++ s ++ 59 :: rest).length) (by
    unfold echoed; split <;> simp [full, emit])
  obtain ⟨c1, c2⟩ := hb
  have hv' : digits_value 0 [d1, d2, d3, d4] > AT_CMD_MAX_SIZE := hv
  unfold at_cmd_process_command_buffer
  simp only []
  rw [if_neg c1]
  simp only [c2, hv', if_true]

/-- A completed frame whose size field is greater than `AT_CMD_MAX_SIZE`, the
output mutex obtained: after the echo, the response `Invalid size` with serial 0
and status 1 is the only event, nothing is handed to the dispatcher, and the call
returns `CY_AT_CMD_PARSER_ERROR` in a state ready for the next frame. -/
theorem completed_invalid_size (env : Env) (st0 : at_cmd_parser_t) (d1 d2 d3 d4 : Nat)
    (s t : List Nat) (size : Nat)
    (hm : env.mutex_get = cy_rslt_t.CY_RSLT_SUCCESS)
    (hl : st0.command_buffer.length = AT_CMD_PARSER_BUFFER_SIZE)
    (ho : st0.output_buffer.length = AT_CMD_PARSER_BUFFER_SIZE)
    (hd : all_digits [d1, d2, d3, d4])
    (hv : AT_CMD_MAX_SIZE < digits_value 0 [d1, d2, d3, d4])
    (hlen : ([65, 84, 43, d1, d2, d3, d4] ++ s ++ 59 :: t).length < AT_CMD_PARSER_BUFFER_SIZE) :
    (completed env st0 ([65, 84, 43, d1, d2, d3, d4] ++ s ++ 59 :: t) size).1.trace
        = st0.trace ++ echo_events st0.echo_cmd ([65, 84, 43, d1, d2, d3, d4] ++ s ++ 59 :: t)
            ++ [Event.write (response_frame 83 0 (sync_payload 1 (some (bytes "Invalid size"))))]
    ∧ (completed env st0 ([65, 84, 43, d1, d2, d3, d4] ++ s ++ 59 :: t) size).2
        = cy_rslt_t.CY_AT_CMD_PARSER_ERROR
    ∧ Carried st0 (completed env st0 ([65, 84, 43, d1, d2, d3, d4] ++ s ++ 59 :: t) size).1 := by
  have hB := bufsize_eq
  unfold completed
  rw [process_full_invalid_size env st0 d1 d2 d3 d4 s t size hd hv, echoed_full]
  obtain ⟨out, flt, h1, h2, e⟩ := send_cmd_response_spec env
    { full st0 ([65, 84, 43, d1, d2, d3, d4] ++ s ++ 59 :: t) size with
      trace := st0.trace ++ echo_events st0.echo_cmd ([65, 84, 43, d1, d2, d3, d4] ++ s ++ 59 :: t) }
    0 1 (some (bytes "Invalid size")) hm (by simpa [full] using ho) (by decide)
  rw [e]
  refine ⟨rfl, rfl, ?_⟩
  have hf := h2 (by decide)
  refine ⟨⟨rfl, rfl, rfl, rfl, rfl, ?_⟩, rfl, rfl, h1, ?_⟩
  · simp only [at_cmd_reset_command_buffer, full, List.length_append, List.length_cons,
      List.length_drop, hl]
    simp only [List.length_append, List.length_cons] at hlen
    omega
  · simp only [at_cmd_reset_command_buffer]
    rw [hf]
    rfl

/-- An explicit-mode frame whose size field is greater than `AT_CMD_MAX_SIZE` and
which is shorter than the buffer, fed in any chunks from a fresh state with the
output mutex obtained: the frame is accumulated whole, and after the echo the
response `Invalid size` is the only event; the state is ready for the next frame. -/
theorem feed_explicit_invalid_size (env : Env) (st0 : at_cmd_parser_t) (h : Fresh st0)
    (hm : env.mutex_get = cy_rslt_t.CY_RSLT_SUCCESS)
    (ho : st0.output_buffer.length = AT_CMD_PARSER_BUFFER_SIZE)
    (g s b : List Nat) (chunks : List (List Nat))
    (hg : ¬ AT_CMD_PREFIX <:+: g ++ [65, 84]) (hs : s ≠ []) (hsd : all_digits s)
    (hb1 : AT_CMD_MAX_SIZE < b.length) (hb2 : b.length ≤ 9999)
    (hne : ∀ ch ∈ chunks, ch ≠ []) (hj : chunks.flatten = g ++ explicit_frame s b)
    (hcap : (g ++ explicit_frame s b).length < AT_CMD_PARSER_BUFFER_SIZE) :
    (feed env st0 chunks).1.trace
      = st0.trace ++ echo_events st0.echo_cmd (explicit_frame s b)
          ++ [Event.write (response_frame 83 0 (sync_payload 1 (some (bytes "Invalid size"))))]
    ∧ (feed env st0 chunks).2 = cy_rslt_t.CY_AT_CMD_PARSER_ERROR
    ∧ Carried st0 (feed env st0 chunks).1 := by
  have hM : AT_CMD_MAX_SIZE = 6000 := rfl
  rw [feed_explicit env st0 h g s b chunks hg hs hsd (by omega) hb2 hne hj hcap]
  have hcap' : (explicit_frame s b).length < AT_CMD_PARSER_BUFFER_SIZE := by
    simp only [List.length_append] at hcap; omega
  have hv := digits_value_pad4 b.length hb2
  rw [explicit_frame_eq] at hcap' ⊢
  exact completed_invalid_size env st0 (b.length / 1000 % 10 + 48)
    (b.length / 100 % 10 + 48) (b.length / 10 % 10 + 48) (b.length % 10 + 48) s (b ++ [59])
    _ hm h.len ho (all_digits_pad4 b.length) (by rw [← pad4, hv]; omega) hcap'

theorem body_6174_length : body_6174.length = 6174 := List.length_replicate _ _

theorem body_6001_length : body_6001.length = 6001 := List.length_replicate _ _

theorem explicit_frame_length (s b : List Nat) :
    (explicit_frame s b).length = b.length + (8 + s.length) + 1 := by
  have hP : AT_CMD_PREFIX.length = 3 := rfl
  simp [explicit_frame, hP, pad4_length]
  omega

theorem explicit_frame_ne_nil (s b : List Nat) : explicit_frame s b ≠ [] := by
  intro e
  have := congrArg List.length e
  rw [explicit_frame_length] at this
  simp at this

/-! ## One outcome per completed frame -/

/-- The hand-over of a body followed by the events of the dispatcher shows exactly
one outcome. -/
theorem one_outcome_dispatch (env : Env) (tables : List at_cmd_table_t)
    (serial cmd_len : Nat) (b payload : List Nat) :
    one_outcome env
      (Event.dispatch serial cmd_len payload :: dispatch_events env tables serial cmd_len b) := by
  unfold one_outcome dispatch_events handler_call handler_result
  cases hf : find_cmd tables (body_name b) with
  | none =>
    simp only [outcome_events]
    refine ⟨Or.inr ⟨bytes "Invalid cmd", ?_, ?_⟩, ?_⟩
    · simp [List.filter, is_write]
    · intro msg hmem
      simp at hmem
    · simp [List.filter, is_callback]
  | some cmd =>
    simp only
    generalize env.callback cmd.cmd_parser_fn cmd.cmd_id serial
      (u32sub cmd_len (body_args_offset b)) (body_args b) = res
    cases res with
    | none =>
      simp only [outcome_events]
      refine ⟨Or.inr ⟨bytes "Invalid cmd", ?_, ?_⟩, ?_⟩
      · simp [List.filter, is_write]
      · intro msg hmem
        simp at hmem
      · simp [List.filter, is_callback]
    | some msg =>
      simp only [outcome_events]
      by_cases hq : env.queue_put msg = cy_rslt_t.CY_RSLT_SUCCESS
      · simp only [hq, ne_eq, not_true_eq_false, if_false]
        refine ⟨Or.inl ⟨msg, ?_, hq, ?_⟩, ?_⟩
        · simp [List.filter, is_queue_put]
        · simp [List.filter, is_write]
        · simp [List.filter, is_callback]
      · simp only [hq, ne_eq, not_false_eq_true, if_true]
        refine ⟨Or.inr ⟨bytes "queue error", ?_, ?_⟩, ?_⟩
        · simp [List.filter, is_write]
        · intro m hmem
          simp at hmem
          rw [hmem]
          exact hq
        · simp [List.filter, is_callback]

/-- A single response with serial 0 and status 1 is exactly one outcome. -/
theorem one_outcome_response (env : Env) (text : List Nat) :
    one_outcome env [Event.write (response_frame 83 0 (sync_payload 1 (some text)))] := by
  refine ⟨Or.inr ⟨text, by simp [List.filter, is_write], ?_⟩, by simp [List.filter, is_callback]⟩
  intro msg hmem
  simp at hmem

/-- The dispatcher adds the hand-over event and at most one event more, a call of
a callback. -/
theorem parse_cmd_shape (env : Env) (st : at_cmd_parser_t) (serial cmd_len cmd_buf : Nat) :
    ∃ l : List Event, (at_cmd_parse_cmd env st serial cmd_len cmd_buf).1.trace
        = st.trace ++ Event.dispatch serial cmd_len ((st.command_buffer.drop cmd_buf).take cmd_len)
            :: l
      ∧ (l = [] ∨ ∃ f i n a, l = [Event.callback f i serial n a]) := by
  have hr : ∀ (i j k : Nat) (b : Prop) [Decidable b] (d : Event),
      (if b then (buf_set (emit st d) i 0, j) else (emit st d, k)).1.trace = st.trace ++ [d] := by
    intro i j k b _ d
    split <;> simp [emit]
  have aux : ∀ (E : at_cmd_parser_t) (f i n : Nat) (a : List Nat) (d : Event),
      E.trace = st.trace ++ [d] →
      ∃ l : List Event, (emit E (Event.callback f i serial n a)).trace = st.trace ++ d :: l ∧
        (l = [] ∨ ∃ f i n a, l = [Event.callback f i serial n a]) :=
    fun E f i n a d h => ⟨[Event.callback f i serial n a], by simp [emit, h],
      Or.inr ⟨f, i, n, a, rfl⟩⟩
  unfold at_cmd_parse_cmd
  simp only []
  split
  · exact ⟨[], by simpa using hr _ _ _ _ _, Or.inl rfl⟩
  · exact aux _ _ _ _ _ _ (hr _ _ _ _ _)

/-- A hand-over event, at most one call of a callback and what
`at_cmd_process_command_buffer` does with the result show exactly one outcome. -/
theorem one_outcome_parts (env : Env) (serial cmd_len : Nat) (payload : List Nat)
    (l : List Event) (r : Option at_cmd_msg_base_t)
    (hl : l = [] ∨ ∃ f i n a, l = [Event.callback f i serial n a]) :
    one_outcome env (Event.dispatch serial cmd_len payload :: (l ++ outcome_events env r)) := by
  have hw : l.filter is_write = [] := by
    rcases hl with rfl | ⟨f, i, n, a, rfl⟩ <;> simp [List.filter, is_write]
  have hq : ∀ msg, Event.queue_put msg ∉ l := by
    intro msg
    rcases hl with rfl | ⟨f, i, n, a, rfl⟩ <;> simp
  have hc : (l.filter is_callback).length ≤ 1 := by
    rcases hl with rfl | ⟨f, i, n, a, rfl⟩ <;> simp [List.filter, is_callback]
  have hqf : l.filter is_queue_put = [] := by
    rcases hl with rfl | ⟨f, i, n, a, rfl⟩ <;> simp [List.filter, is_queue_put]
  unfold one_outcome
  cases r with
  | none =>
    simp only [outcome_events]
    refine ⟨Or.inr ⟨bytes "Invalid cmd", ?_, ?_⟩, ?_⟩
    · simp [List.filter_cons, List.filter_append, is_write, hw]
    · intro msg hmem
      simp at hmem
      exact absurd hmem (hq msg)
    · simpa [List.filter_cons, List.filter_append, is_callback] using hc
  | some msg =>
    simp only [outcome_events]
    by_cases hs : env.queue_put msg = cy_rslt_t.CY_RSLT_SUCCESS
    · simp only [hs, ne_eq, not_true_eq_false, if_false]
      refine ⟨Or.inl ⟨msg, ?_, hs, ?_⟩, ?_⟩
      · simp [List.filter_cons, List.filter_append, is_queue_put, hqf]
      · simp [List.filter_cons, List.filter_append, is_write, hw]
      · simpa [List.filter_cons, List.filter_append, is_callback] using hc
    · simp only [hs, ne_eq, not_false_eq_true, if_true]
      refine ⟨Or.inr ⟨bytes "queue error", ?_, ?_⟩, ?_⟩
      · simp [List.filter_cons, List.filter_append, is_write, hw]
      · intro m hmem
        simp at hmem
        rcases hmem with hmem | hmem
        · exact absurd hmem (hq m)
        · rw [hmem]; exact hs
      · simpa [List.filter_cons, List.filter_append, is_callback] using hc

theorem buf_set_keeps (st : at_cmd_parser_t) (i c : Nat) :
    (buf_set st i c).output_buffer = st.output_buffer
    ∧ (buf_set st i c).trace = st.trace
    ∧ (buf_set st i c).command_buffer.length = st.command_buffer.length := by
  unfold buf_set
  split <;> simp

/-- Every call of `at_cmd_process_command_buffer`, on any buffer, with the output
mutex obtained: after the echo of the `count` bytes, the events show exactly one
outcome. -/
theorem process_command_buffer_one_outcome (env : Env) (st : at_cmd_parser_t) (count : Nat)
    (hm : env.mutex_get = cy_rslt_t.CY_RSLT_SUCCESS)
    (ho : st.output_buffer.length = AT_CMD_PARSER_BUFFER_SIZE)
    (hl : st.command_buffer.length ≤ AT_CMD_PARSER_BUFFER_SIZE) :
    ∃ evs : List Event,
      (at_cmd_process_command_buffer env st count).1.trace
        = st.trace ++ echo_events st.echo_cmd (st.command_buffer.take count) ++ evs
      ∧ one_outcome env evs := by
  have he : (echoed st count).trace
      = st.trace ++ echo_events st.echo_cmd (st.command_buffer.take count) := by
    unfold echoed echo_events
    split <;> simp [emit]
  have heo : (echoed st count).output_buffer.length = AT_CMD_PARSER_BUFFER_SIZE := by
    rw [(echoed_fields st count).1]; exact ho
  have hel : (echoed st count).command_buffer.length ≤ AT_CMD_PARSER_BUFFER_SIZE := by
    rw [echoed_buffer]; exact hl
  have rsp : ∀ text : List Nat,
      (response_frame 83 0 (sync_payload 1 (some text))).length < AT_CMD_PARSER_BUFFER_SIZE →
      ∃ evs : List Event,
        (at_cmd_parser_send_cmd_response env (echoed st count) 0 1 (some text)).1.trace
          = st.trace ++ echo_events st.echo_cmd (st.command_buffer.take count) ++ evs
        ∧ one_outcome env evs := by
    intro text hfit
    obtain ⟨out, flt, _, _, e⟩ := send_cmd_response_spec env (echoed st count) 0 1 (some text)
      hm heo (le_of_lt hfit)
    rw [e]
    exact ⟨_, by simp only [he], one_outcome_response env text⟩
  unfold at_cmd_process_command_buffer
  simp only []
  split
  · exact rsp (bytes "Invalid command") (by decide)
  · split
    · exact rsp (bytes "Invalid size digit") (by decide)
    · split
      · exact rsp (bytes "Invalid size") (by decide)
      · split
        · exact rsp (bytes "Invalid format") (by decide)
        · rw [process_dispatch_eq]
          generalize hS : (if buf_get (echoed st count) (count - 1) = 59
            then buf_set (echoed st count) (count - 1) 0 else echoed st count) = S
          have hSt : S.trace = (echoed st count).trace := by
            rw [← hS]; split
            · exact (buf_set_keeps _ _ _).2.1
            · rfl
          have hSo : S.output_buffer.length = AT_CMD_PARSER_BUFFER_SIZE := by
            rw [← hS]; split
            · rw [(buf_set_keeps _ _ _).1]; exact heo
            · exact heo
          have hSl : S.command_buffer.length ≤ AT_CMD_PARSER_BUFFER_SIZE := by
            rw [← hS]; split
            · rw [(buf_set_keeps _ _ _).2.2]; exact hel
            · exact hel
          generalize hser : List.foldl (fun serial c => u32 (serial * 10 + c - 48)) 0
            (List.takeWhile isdigit
              (List.drop (AT_CMD_PREFIX_CHARS + AT_CMD_SIZE_CHARS)
                (echoed st count).command_buffer)) = serial
          generalize hptr : AT_CMD_PREFIX_CHARS + AT_CMD_SIZE_CHARS
            + (List.takeWhile isdigit
              (List.drop (AT_CMD_PREFIX_CHARS + AT_CMD_SIZE_CHARS)
                (echoed st count).command_buffer)).length + 1 = ptr
          generalize hlen : u32sub (if buf_get (echoed st count) (count - 1) = 59
            then count - 1 else count) ptr = cmd_len
          obtain ⟨l, h1, h2⟩ := parse_cmd_shape env S serial cmd_len ptr
          obtain ⟨d1, _⟩ := dispatch_finish_spec env (at_cmd_parse_cmd env S serial cmd_len ptr)
            hm (by rw [(parse_cmd_fields env S serial cmd_len ptr hSl).1]; exact hSo)
          refine ⟨_, ?_, one_outcome_parts env serial cmd_len
            ((S.command_buffer.drop ptr).take cmd_len) l
            (at_cmd_parse_cmd env S serial cmd_len ptr).2 h2⟩
          rw [d1, h1, hSt, he]
          simp

/-! ## The optional trailing terminator of an implicit-mode frame -/

/-- An implicit-mode frame with a non-empty body `b` without carriage return or
line feed that does not end in `;`, and the same frame with one `;` after `b`,
each fed in any chunks from a fresh state with the output mutex obtained: after
the echo, the events are the same, the hand-over of `b` with its length and what
follows it, and so is the status. -/
theorem implicit_optional_terminator (env : Env) (st0 : at_cmd_parser_t) (h : Fresh st0)
    (hm : env.mutex_get = cy_rslt_t.CY_RSLT_SUCCESS)
    (ho : st0.output_buffer.length = AT_CMD_PARSER_BUFFER_SIZE)
    (g s b : List Nat) (chunks1 chunks2 : List (List Nat))
    (hg : ¬ AT_CMD_PREFIX <:+: g ++ [65, 84]) (hs : s ≠ []) (hsd : all_digits s)
    (hb13 : 13 ∉ b) (hb10 : 10 ∉ b) (hbne : b ≠ []) (hlast : b.getLast? ≠ some 59)
    (hne1 : ∀ ch ∈ chunks1, ch ≠ []) (hj1 : chunks1.flatten = g ++ implicit_frame s b)
    (hne2 : ∀ ch ∈ chunks2, ch ≠ [])
    (hj2 : chunks2.flatten = g ++ implicit_frame s (b ++ [59]))
    (hcap : (g ++ implicit_frame s (b ++ [59])).length < AT_CMD_PARSER_BUFFER_SIZE) :
    (feed env st0 chunks1).1.trace
      = st0.trace ++ echo_events st0.echo_cmd
          (AT_CMD_PREFIX ++ [48, 48, 48, 48] ++ s ++ [59] ++ b)
        ++ Event.dispatch (decimal_value s % 4294967296) b.length b
        :: dispatch_events env st0.cmd_tables (decimal_value s % 4294967296) b.length b
    ∧ (feed env st0 chunks2).1.trace
      = st0.trace ++ echo_events st0.echo_cmd
          (AT_CMD_PREFIX ++ [48, 48, 48, 48] ++ s ++ [59] ++ (b ++ [59]))
        ++ Event.dispatch (decimal_value s % 4294967296) b.length b
        :: dispatch_events env st0.cmd_tables (decimal_value s % 4294967296) b.length b
    ∧ (feed env st0 chunks1).2 = (feed env st0 chunks2).2 := by
  have hf1 : b.filter (fun c => c != 10) = b := by
    rw [List.filter_eq_self]
    intro a ha
    simp only [bne_iff_ne, ne_eq]
    rintro rfl
    exact hb10 ha
  have hf2 : (b ++ [59]).filter (fun c => c != 10) = b ++ [59] := by
    rw [List.filter_append, hf1]
    rfl
  have hb1 : frame_body b = b := by
    simp only [frame_body, hlast, if_false]
  have hb2 : frame_body (b ++ [59]) = b := by simp [frame_body]
  have hc1 : frame_cmd_len b = b.length := by
    simp only [frame_cmd_len, hbne, if_false, hb1]
  have hc2 : frame_cmd_len (b ++ [59]) = b.length := by simp [frame_cmd_len, hb2]
  have hcap1 : (g ++ implicit_frame s b).length < AT_CMD_PARSER_BUFFER_SIZE := by
    simp only [implicit_frame, List.length_append, List.length_cons, List.length_nil] at hcap ⊢
    omega
  have h13 : 13 ∉ b ++ [59] := by
    simp only [List.mem_append, List.mem_singleton, not_or]
    exact ⟨hb13, by decide⟩
  obtain ⟨p1, a1, a2, a3, _⟩ := feed_implicit_spec env st0 h hm ho g s b chunks1 hg hs hsd
    hb13 hne1 hj1 hcap1
  obtain ⟨p2, c1, c2, c3, _⟩ := feed_implicit_spec env st0 h hm ho g s (b ++ [59]) chunks2 hg
    hs hsd h13 hne2 hj2 hcap
  rw [hf1] at a1 a2 a3
  rw [hf2] at c1 c2 c3
  rw [hb1, hc1] at a1 a3
  rw [hb2, hc2] at c1 c3
  have e1 := a2 hbne
  have e2 := c2 (by simp)
  rw [hb1] at e1
  rw [hb2] at e2
  rw [e1] at a1
  rw [e2] at c1
  exact ⟨a1, c1, by rw [a3, c3]⟩

/-! ## The length of a finalized frame -/

theorem add_chars_loop_with_eq (env : Env) (cs : List Nat) :
    ∀ (st : at_cmd_parser_t) (skip : Nat) (res : cy_rslt_t),
    add_chars_loop_with env (at_cmd_process_command_buffer env) st cs skip res
      = add_chars_loop env st cs skip res := by
  induction cs with
  | nil => intro st skip res; simp only [add_chars_loop_with, add_chars_loop]
  | cons c cs ih =>
    intro st skip res
    cases skip with
    | succ k => simp only [add_chars_loop_with, add_chars_loop]; exact ih st k res
    | zero => simp only [add_chars_loop_with, add_chars_loop, ih]

theorem add_command_chars_with_eq (env : Env) (st : at_cmd_parser_t) (chars : List Nat) :
    add_command_chars_with env (at_cmd_process_command_buffer env) st chars
      = at_cmd_add_command_chars env st chars := by
  simp only [add_command_chars_with, at_cmd_add_command_chars, add_chars_loop_with_eq]

/-- With `at_cmd_process_command_buffer` as its parameter, `feed_with` is `feed`. -/
theorem feed_with_eq (env : Env) (chunks : List (List Nat)) : ∀ st : at_cmd_parser_t,
    feed_with env (at_cmd_process_command_buffer env) st chunks = feed env st chunks := by
  induction chunks with
  | nil => intro st; rfl
  | cons ch rest ih =>
    intro st
    cases rest with
    | nil => simp only [feed_with, feed, add_command_chars_with_eq]
    | cons ch2 rest2 =>
      simp only [feed_with, feed, add_command_chars_with_eq]
      exact ih _

/-- The main loop with a parameter `P` that keeps sound states sound when called
with `count` below the buffer size: with room for the bytes still to be read, every
call of `P` is made with such a `count`, so that the state stays sound and the
write index below the buffer size. -/
theorem add_chars_loop_with_sound (env : Env)
    (P : at_cmd_parser_t → Nat → at_cmd_parser_t × cy_rslt_t)
    (hP : ∀ (st : at_cmd_parser_t) (count : Nat), Sound st →
      count < AT_CMD_PARSER_BUFFER_SIZE → Sound (P st count).1)
    (cs : List Nat) :
    ∀ (st : at_cmd_parser_t) (skip : Nat) (res : cy_rslt_t), Sound st →
    st.cmd_widx + (cs.length - skip) < AT_CMD_PARSER_BUFFER_SIZE →
    Sound (add_chars_loop_with env P st cs skip res).1
    ∧ (add_chars_loop_with env P st cs skip res).1.cmd_widx < AT_CMD_PARSER_BUFFER_SIZE := by
  have hB := bufsize_eq
  induction cs with
  | nil =>
    intro st skip res hs hw
    simp only [add_chars_loop_with]
    exact ⟨hs, by simp at hw; omega⟩
  | cons c cs ih =>
    intro st skip res hs hw
    cases skip with
    | succ k =>
      simp only [add_chars_loop_with]
      exact ih st k res hs (by simp only [List.length_cons] at hw; omega)
    | zero =>
      simp only [List.length_cons, Nat.sub_zero] at hw
      simp only [add_chars_loop_with]
      split
      · obtain ⟨h1, h2⟩ := scan_cmd_header_sound env (c :: cs).length (c :: cs) st 0
          (by simp) hs (by simp; omega)
        have hl : (c :: cs).length = cs.length + 1 := rfl
        exact ih _ _ res h1 (by omega)
      · split
        · split
          · exact ih _ 0 res (buf_push_sound st c hs (by omega)) (by simp; omega)
          · exact ih _ 0 res hs (by omega)
        · have hs1 : Sound (buf_set st st.cmd_widx c) := buf_set_sound st _ c hs (by omega)
          split
          · have hs2 : Sound (buf_set (buf_set st st.cmd_widx c)
                (buf_set st st.cmd_widx c).cmd_widx 0) :=
              buf_set_sound _ _ 0 hs1 (by simp; omega)
            have hp := hP _
              (buf_set (buf_set st st.cmd_widx c) (buf_set st st.cmd_widx c).cmd_widx 0).cmd_widx
              hs2 (by simp; omega)
            exact ih _ 0 _ (reset_sound _ hp) (by simp [at_cmd_reset_command_buffer]; omega)
          · split
            · have hs2 : Sound ({ buf_set st st.cmd_widx c with
                  cmd_widx := (buf_set st st.cmd_widx c).cmd_widx + 1 }) :=
                ⟨hs1.cmd_len, hs1.out_len, hs1.no_fault⟩
              have hs3 := buf_set_sound _
                ({ buf_set st st.cmd_widx c with
                  cmd_widx := (buf_set st st.cmd_widx c).cmd_widx + 1 }).cmd_widx 0 hs2
                (by simp; omega)
              split
              · exact ⟨rejected_sound env _ (bytes "bad cmd trailer") hs3 (by decide),
                  by simp only [at_cmd_reset_command_buffer]; omega⟩
              · have hp := hP _
                  (buf_set { buf_set st st.cmd_widx c with
                      cmd_widx := (buf_set st st.cmd_widx c).cmd_widx + 1 }
                    ({ buf_set st st.cmd_widx c with
                      cmd_widx := (buf_set st st.cmd_widx c).cmd_widx + 1 }).cmd_widx 0).cmd_widx
                  hs3 (by simp; omega)
                exact ih _ _ _ (reset_sound _ hp)
                  (by simp [at_cmd_reset_command_buffer]; omega)
            · exact ih _ 0 res ⟨hs1.cmd_len, hs1.out_len, hs1.no_fault⟩ (by simp; omega)

theorem add_command_chars_with_sound (env : Env)
    (P : at_cmd_parser_t → Nat → at_cmd_parser_t × cy_rslt_t)
    (hP : ∀ (st : at_cmd_parser_t) (count : Nat), Sound st →
      count < AT_CMD_PARSER_BUFFER_SIZE → Sound (P st count).1)
    (st : at_cmd_parser_t) (chars : List Nat) (hs : Sound st)
    (hw : st.cmd_widx < AT_CMD_PARSER_BUFFER_SIZE)
    (hlen : chars.length + AT_CMD_PARSER_BUFFER_SIZE ≤ 4294967296) :
    Sound (add_command_chars_with env P st chars).1
    ∧ (add_command_chars_with env P st chars).1.cmd_widx < AT_CMD_PARSER_BUFFER_SIZE := by
  have hB := bufsize_eq
  have hu : u32 (st.cmd_widx + chars.length) = st.cmd_widx + chars.length := by
    simp only [u32]; omega
  unfold add_command_chars_with
  split
  · exact ⟨hs, hw⟩
  · split
    · exact ⟨rejected_sound env st (bytes "Input buffer size exceeded") hs (by decide),
        by simp only [at_cmd_reset_command_buffer]; omega⟩
    · rename_i hov
      rw [hu] at hov
      cases hb : st.reading_cmd with
      | false =>
        obtain ⟨h1, h2⟩ := scan_for_prefix_sound chars.length chars st 0 (by simp) hs (by omega)
        simp only [Bool.not_false, if_true]
        split
        · refine ⟨h1, ?_⟩
          show ( at_cmd_scan_for_prefix st chars 0).1.cmd_widx < _
          omega
        · exact add_chars_loop_with_sound env P hP _ _ 0 _ h1
            (by simp only [List.length_drop]; omega)
      | true =>
        simp only [Bool.not_true, Bool.false_eq_true, if_false, hb]
        exact add_chars_loop_with_sound env P hP chars st 0 _ hs (by simp; omega)

theorem feed_with_sound (env : Env)
    (P : at_cmd_parser_t → Nat → at_cmd_parser_t × cy_rslt_t)
    (hP : ∀ (st : at_cmd_parser_t) (count : Nat), Sound st →
      count < AT_CMD_PARSER_BUFFER_SIZE → Sound (P st count).1)
    (chunks : List (List Nat)) :
    ∀ st : at_cmd_parser_t, Sound st → st.cmd_widx < AT_CMD_PARSER_BUFFER_SIZE →
    (∀ ch ∈ chunks, ch.length + AT_CMD_PARSER_BUFFER_SIZE ≤ 4294967296) →
    Sound (feed_with env P st chunks).1
    ∧ (feed_with env P st chunks).1.cmd_widx < AT_CMD_PARSER_BUFFER_SIZE := by
  induction chunks with
  | nil => intro st hs hw _; exact ⟨hs, hw⟩
  | cons ch rest ih =>
    intro st hs hw hl
    obtain ⟨h1, h2⟩ := add_command_chars_with_sound env P hP st ch hs hw (hl ch (by simp))
    cases rest with
    | nil => exact ⟨h1, h2⟩
    | cons ch2 rest2 =>
      exact ih _ h1 h2 (fun x hx => hl x (by simp [hx]))

theorem process_checked_sound (env : Env) (st : at_cmd_parser_t) (count : Nat)
    (hs : Sound st) (hc : count < AT_CMD_PARSER_BUFFER_SIZE) :
    Sound (process_checked env st count).1 := by
  unfold process_checked
  rw [if_pos hc]
  exact process_command_buffer_sound env st count hs (le_of_lt hc)

/-- The ghost check of `process_checked` is permanent: a call with `count` not
below the buffer size leaves the flag `fault` set, as does a call in a state in
which it is set. -/
theorem process_checked_fault (env : Env) (st : at_cmd_parser_t) (count : Nat)
    (h : st.fault = true ∨ AT_CMD_PARSER_BUFFER_SIZE ≤ count) :
    (process_checked env st count).1.fault = true := by
  unfold process_checked
  apply process_command_buffer_fault
  split
  · rename_i hc
    rcases h with h | h
    · exact h
    · omega
  · rfl

theorem add_chars_loop_with_fault (env : Env)
    (P : at_cmd_parser_t → Nat → at_cmd_parser_t × cy_rslt_t)
    (hP : ∀ (st : at_cmd_parser_t) (count : Nat), st.fault = true → (P st count).1.fault = true)
    (cs : List Nat) :
    ∀ (st : at_cmd_parser_t) (skip : Nat) (res : cy_rslt_t), st.fault = true →
    (add_chars_loop_with env P st cs skip res).1.fault = true := by
  induction cs with
  | nil => intro st skip res h; simp only [add_chars_loop_with]; exact h
  | cons c cs ih =>
    intro st skip res h
    cases skip with
    | succ k => simp only [add_chars_loop_with]; exact ih st k res h
    | zero =>
      simp only [add_chars_loop_with]
      have h1 : (buf_set st st.cmd_widx c).fault = true := buf_set_fault st _ c h
      split
      · exact ih _ _ _ (scan_cmd_header_fault env _ _ st 0 h)
      · split
        · split
          · exact ih _ _ _ (buf_push_fault st c h)
          · exact ih _ _ _ h
        · split
          · exact ih _ _ _ (hP _ _ (buf_set_fault _ _ 0 h1))
          · split
            · have h2 : (buf_set { buf_set st st.cmd_widx c with
                  cmd_widx := (buf_set st st.cmd_widx c).cmd_widx + 1 }
                  ({ buf_set st st.cmd_widx c with
                    cmd_widx := (buf_set st st.cmd_widx c).cmd_widx + 1 }).cmd_widx 0).fault
                  = true := buf_set_fault _ _ 0 h1
              split
              · exact send_cmd_response_fault env _ 0 1 (some (bytes "bad cmd trailer")) h2
              · exact ih _ _ _ (hP _ _ h2)
            · exact ih _ _ _ h1

theorem add_command_chars_with_fault (env : Env)
    (P : at_cmd_parser_t → Nat → at_cmd_parser_t × cy_rslt_t)
    (hP : ∀ (st : at_cmd_parser_t) (count : Nat), st.fault = true → (P st count).1.fault = true)
    (st : at_cmd_parser_t) (chars : List Nat) (h : st.fault = true) :
    (add_command_chars_with env P st chars).1.fault = true := by
  unfold add_command_chars_with
  split
  · exact h
  · split
    · exact send_cmd_response_fault env st 0 1 (some (bytes "Input buffer size exceeded")) h
    · cases hb : st.reading_cmd with
      | false =>
        have hp := scan_for_prefix_fault chars st 0 h
        simp only [Bool.not_false, if_true]
        split
        · exact hp
        · exact add_chars_loop_with_fault env P hP _ _ _ _ hp
      | true =>
        simp only [Bool.not_true, Bool.false_eq_true, if_false, hb]
        exact add_chars_loop_with_fault env P hP _ _ _ _ h

/-- With a parameter `P` that leaves the flag `fault` set, the flag is never
cleared by the calls on successive chunks. -/
theorem feed_with_fault (env : Env)
    (P : at_cmd_parser_t → Nat → at_cmd_parser_t × cy_rslt_t)
    (hP : ∀ (st : at_cmd_parser_t) (count : Nat), st.fault = true → (P st count).1.fault = true)
    (chunks : List (List Nat)) : ∀ st : at_cmd_parser_t,
    st.fault = true → (feed_with env P st chunks).1.fault = true := by
  induction chunks with
  | nil => intro st h; exact h
  | cons ch rest ih =>
    intro st h
    cases rest with
    | nil => exact add_command_chars_with_fault env P hP st ch h
    | cons ch2 rest2 => exact ih _ (add_command_chars_with_fault env P hP st ch h)

/-- A header whose computed total is exactly the buffer size: it is accepted, the
bytes that follow are stored as long as the calls bring the write index below the
buffer size, and the call that carries the last byte of the frame is aborted by
the check made before any byte is appended. -/
theorem feed_total_equals_capacity (env : Env) (st0 : at_cmd_parser_t) (h : Fresh st0)
    (g ds s r0 r1 extra : List Nat) (cs : List (List Nat))
    (hg : ¬ AT_CMD_PREFIX <:+: g ++ [65, 84])
    (hds : ds.length = 4) (hdd : all_digits ds) (hs : s ≠ []) (hsd : all_digits s)
    (hpos : 0 < digits_value 0 ds)
    (htotal : digits_value 0 ds + (8 + s.length) + 1 = AT_CMD_PARSER_BUFFER_SIZE)
    (hr : (r0 ++ r1).length = digits_value 0 ds + 1) (hr1 : r1 ≠ [])
    (hne : ∀ ch ∈ cs, ch ≠ [])
    (hj : cs.flatten = g ++ AT_CMD_PREFIX ++ ds ++ s ++ [59] ++ r0)
    (hcap : (g ++ AT_CMD_PREFIX ++ ds ++ s ++ [59] ++ r0).length < AT_CMD_PARSER_BUFFER_SIZE)
    (hx : (r1 ++ extra).length + AT_CMD_PARSER_BUFFER_SIZE ≤ 4294967296) :
    run env st0 (g ++ AT_CMD_PREFIX ++ ds ++ s ++ [59])
      = mid st0 (AT_CMD_PREFIX ++ ds ++ s ++ [59]) false AT_CMD_PARSER_BUFFER_SIZE
    ∧ feed env st0 (cs ++ [r1 ++ extra])
      = (rejected env
          (mid st0 (AT_CMD_PREFIX ++ ds ++ s ++ [59] ++ r0) false AT_CMD_PARSER_BUFFER_SIZE)
          (bytes "Input buffer size exceeded"),
         cy_rslt_t.CY_AT_CMD_PARSER_BUFFER_OVERFLOW) := by
  have hB := bufsize_eq
  have hP : AT_CMD_PREFIX.length = 3 := rfl
  have hlen : (g ++ AT_CMD_PREFIX ++ ds ++ s ++ [59] ++ r0).length
      = g.length + (8 + s.length) + r0.length := by
    simp only [List.length_append, hP, hds, List.length_singleton]; omega
  have hrl : r0.length + r1.length = digits_value 0 ds + 1 := by
    rw [← hr, List.length_append]
  have hr1l : 0 < r1.length := List.length_pos.2 hr1
  obtain ⟨r, c⟩ := run_header env st0 h g ds s hg hds hdd hs hsd (by omega)
    (Or.inr (by omega))
  rw [if_neg (by omega), htotal] at r
  obtain ⟨rb, cb⟩ := run_body_explicit env st0 h.len AT_CMD_PARSER_BUFFER_SIZE r0
    (AT_CMD_PREFIX ++ ds ++ s ++ [59])
    (by simp only [List.length_append, hP, hds, List.length_singleton]; omega) (le_refl _)
  have hall : all_continuing env st0 (g ++ AT_CMD_PREFIX ++ ds ++ s ++ [59] ++ r0) := by
    rw [all_continuing_append, r]
    exact ⟨c, cb⟩
  have hrun : run env st0 (g ++ AT_CMD_PREFIX ++ ds ++ s ++ [59] ++ r0)
      = mid st0 (AT_CMD_PREFIX ++ ds ++ s ++ [59] ++ r0) false AT_CMD_PARSER_BUFFER_SIZE := by
    rw [run_append, r, rb]
  refine ⟨r, ?_⟩
  rw [feed_then env cs (r1 ++ extra) _ st0 hne hj (by rw [h.widx]; omega) hall, hrun]
  apply add_overflow
  · simp [hr1]
  · have e1 : (mid st0 (AT_CMD_PREFIX ++ ds ++ s ++ [59] ++ r0) false
        AT_CMD_PARSER_BUFFER_SIZE).cmd_widx = 8 + s.length + r0.length := by
      simp only [mid, List.length_append, hP, hds, List.length_singleton]; omega
    have e2 : (r1 ++ extra).length = r1.length + extra.length := List.length_append _ _
    rw [e1, u32]
    omega

/-! ## The header tests of the dispatcher on a scanned frame -/

/-- When the header tests pass, `at_cmd_process_command_buffer` goes past the
branches `Invalid command`, `Invalid size digit` and `Invalid format`: it answers
`Invalid size` when the size field is greater than `AT_CMD_MAX_SIZE`, and
otherwise goes on to strip and dispatch with the serial number read from the digit
run `s`. -/
theorem process_of_revalidates (env : Env) (st : at_cmd_parser_t) (count size : Nat)
    (s : List Nat) (h : revalidates (echoed st count) count s)
    (hsz : process_size (echoed st count) AT_CMD_SIZE_CHARS 0 0 = some size) :
    at_cmd_process_command_buffer env st count
      = if size > AT_CMD_MAX_SIZE then
          ((at_cmd_parser_send_cmd_response env (echoed st count) 0 1
              (some (bytes "Invalid size"))).1,
           cy_rslt_t.CY_AT_CMD_PARSER_ERROR)
        else
          process_dispatch env (echoed st count) (digits_value 0 s)
            (AT_CMD_PREFIX_CHARS + AT_CMD_SIZE_CHARS + s.length + 1) count := by
  obtain ⟨c1, _, c3, c4⟩ := h
  unfold at_cmd_process_command_buffer
  simp only []
  rw [if_neg c1]
  by_cases hbig : size > AT_CMD_MAX_SIZE
  · simp only [hsz, hbig, if_true]
  · simp only [hsz, hbig, if_false, c3, if_neg c4, digits_value]

/-- A finalized frame made of the prefix, four digits, a run of digits and `;`,
followed by anything: the header tests of `at_cmd_process_command_buffer` pass,
the size read back is the value of the four digits and the digit run read as the
serial number is the one in the buffer. -/
theorem full_revalidates (st0 : at_cmd_parser_t) (d1 d2 d3 d4 : Nat)
    (s rest : List Nat) (size : Nat)
    (hd : all_digits [d1, d2, d3, d4]) (hs : all_digits s) :
    revalidates
      (echoed (full st0 ([65, 84, 43, d1, d2, d3, d4] ++ s ++ 59 :: rest) size)
        ([65, 84, 43, d1, d2, d3, d4] ++ s ++ 59 :: rest).length)
      ([65, 84, 43, d1, d2, d3, d4] ++ s ++ 59 :: rest).length s
    ∧ process_size
        (echoed (full st0 ([65, 84, 43, d1, d2, d3, d4] ++ s ++ 59 :: rest) size)
          ([65, 84, 43, d1, d2, d3, d4] ++ s ++ 59 :: rest).length) AT_CMD_SIZE_CHARS 0 0
      = some (digits_value 0 [d1, d2, d3, d4]) := by
  have h1 : isdigit d1 = true := hd d1 (by simp)
  have h2 : isdigit d2 = true := hd d2 (by simp)
  have h3 : isdigit d3 = true := hd d3 (by simp)
  have h4 : isdigit d4 = true := hd d4 (by simp)
  generalize hst : echoed (full st0 ([65, 84, 43, d1, d2, d3, d4] ++ s ++ 59 :: rest) size)
      ([65, 84, 43, d1, d2, d3, d4] ++ s ++ 59 :: rest).length = st
  have e : st.command_buffer = ([65, 84, 43, d1, d2, d3, d4] ++ s ++ 59 :: rest)
      ++ 0 :: st0.command_buffer.drop
          (([65, 84, 43, d1, d2, d3, d4] ++ s ++ 59 :: rest).length + 1) := by
    rw [← hst, echoed_buffer]
    rfl
  have e' : st.command_buffer = 65 :: 84 :: 43 :: d1 :: d2 :: d3 :: d4 ::
      (s ++ 59 :: (rest ++ 0 :: st0.command_buffer.drop
        (([65, 84, 43, d1, d2, d3, d4] ++ s ++ 59 :: rest).length + 1))) := by
    rw [e]; simp
  have c2 : process_size st AT_CMD_SIZE_CHARS 0 0 = some (digits_value 0 [d1, d2, d3, d4]) := by
    simp only [process_size, buf_get, e', AT_CMD_PREFIX_CHARS, AT_CMD_SIZE_CHARS]
    simp [h1, h2, h3, h4, digits_value]
  refine ⟨⟨?_, ?_, ?_, ?_⟩, c2⟩
  · rw [e']
    simp [AT_CMD_MIN_HEADER_SIZE, AT_CMD_PREFIX_CHARS, AT_CMD_SIZE_CHARS, AT_CMD_PREFIX]
    omega
  · rw [c2]; simp
  · rw [e']
    simp only [AT_CMD_PREFIX_CHARS, AT_CMD_SIZE_CHARS, Nat.reduceAdd, List.drop_succ_cons,
      List.drop_zero]
    exact takeWhile_append_stop _ s 59 _ hs (by simp [isdigit])
  · simp only [buf_get, e', AT_CMD_PREFIX_CHARS, AT_CMD_SIZE_CHARS, Nat.reduceAdd,
      AT_CMD_TERMINATOR_CHAR, ne_eq, not_not]
    rw [show 7 + s.length = s.length + 7 from Nat.add_comm _ _]
    simp only [List.getD_cons_succ]
    exact getD_append_cons s 59 _

theorem response_frame_head (kind serial : Nat) (p : List Nat) :
    (response_frame kind serial p).head? = some 43 := by
  simp [response_frame]

/-- None of the responses `Invalid command`, `Invalid size digit`, `Invalid format`
is among the events of the echo of a frame that begins with `A`, the hand-over and
what the dispatcher does. -/
theorem no_revalidation_response_dispatch (env : Env) (tables : List at_cmd_table_t)
    (echo : Bool) (F : List Nat) (serial cmd_len : Nat) (payload b : List Nat)
    (hF : F.head? = some 65) :
    ∀ text ∈ revalidation_texts,
      Event.write (response_frame 83 0 (sync_payload 1 (some text)))
        ∉ echo_events echo F
            ++ Event.dispatch serial cmd_len payload
            :: dispatch_events env tables serial cmd_len b := by
  intro text htext hmem
  have hne1 : response_frame 83 0 (sync_payload 1 (some text))
      ≠ response_frame 83 0 (sync_payload 1 (some (bytes "Invalid cmd"))) := by
    simp only [revalidation_texts, List.mem_cons, List.mem_singleton, List.not_mem_nil,
      or_false] at htext
    rcases htext with rfl | rfl | rfl <;> decide
  have hne2 : response_frame 83 0 (sync_payload 1 (some text))
      ≠ response_frame 83 0 (sync_payload 1 (some (bytes "queue error"))) := by
    simp only [revalidation_texts, List.mem_cons, List.mem_singleton, List.not_mem_nil,
      or_false] at htext
    rcases htext with rfl | rfl | rfl <;> decide
  have hhead := response_frame_head 83 0 (sync_payload 1 (some text))
  rw [List.mem_append] at hmem
  rcases hmem with hmem | hmem
  · unfold echo_events at hmem
    split at hmem
    · simp only [List.mem_cons, Event.write.injEq, List.mem_singleton, List.not_mem_nil,
        or_false] at hmem
      rcases hmem with e | e
      · rw [e, hF] at hhead
        exact absurd hhead (by decide)
      · rw [e] at hhead
        exact absurd hhead (by decide)
    · simp at hmem
  · simp only [List.mem_cons, dispatch_events, List.mem_append] at hmem
    rcases hmem with e | hmem | hmem
    · exact absurd e (by simp)
    · unfold handler_call at hmem
      split at hmem
      · simp at hmem
      · simp at hmem
    · unfold outcome_events at hmem
      split at hmem
      · simp only [List.mem_singleton, Event.write.injEq] at hmem
        exact hne1 hmem
      · split at hmem
        · simp only [List.mem_cons, List.mem_singleton, Event.write.injEq, List.not_mem_nil,
            or_false] at hmem
          rcases hmem with e | e | e
          · exact absurd e (by simp)
          · exact hne2 e
          · exact absurd e (by simp)
        · simp at hmem

/-- None of the responses `Invalid command`, `Invalid size digit`, `Invalid format`
is among the events of the echo of a frame that begins with `A` and the response
`Invalid size`. -/
theorem no_revalidation_response_size (echo : Bool) (F : List Nat)
    (hF : F.head? = some 65) :
    ∀ text ∈ revalidation_texts,
      Event.write (response_frame 83 0 (sync_payload 1 (some text)))
        ∉ echo_events echo F
            ++ [Event.write
                  (response_frame 83 0 (sync_payload 1 (some (bytes "Invalid size"))))] := by
  intro text htext hmem
  have hne1 : response_frame 83 0 (sync_payload 1 (some text))
      ≠ response_frame 83 0 (sync_payload 1 (some (bytes "Invalid size"))) := by
    simp only [revalidation_texts, List.mem_cons, List.mem_singleton, List.not_mem_nil,
      or_false] at htext
    rcases htext with rfl | rfl | rfl <;> decide
  have hhead := response_frame_head 83 0 (sync_payload 1 (some text))
  rw [List.mem_append] at hmem
  rcases hmem with hmem | hmem
  · unfold echo_events at hmem
    split at hmem
    · simp only [List.mem_cons, Event.write.injEq, List.mem_singleton, List.not_mem_nil,
        or_false] at hmem
      rcases hmem with e | e
      · rw [e, hF] at hhead
        exact absurd hhead (by decide)
      · rw [e] at hhead
        exact absurd hhead (by decide)
    · simp at hmem
  · simp only [List.mem_singleton, Event.write.injEq] at hmem
    exact hne1 hmem

/-! ## Response encoder: the claims -/

/-- C1 (as stated, refuted): for serial 42, status 1 and text "Invalid command" the
encoder does not write the bytes `+S0023,42;1,Invalid command;\r\n`. -/
theorem C1_length_field_is_not_0023 :
    (at_cmd_parser_send_cmd_response env_ok demo_state 42 1
        (some (bytes "Invalid command"))).1.trace
      ≠ [Event.write (bytes "+S0023,42;1,Invalid command;\r\n")] := by
  decide

/-- C1 (amended): for serial 42, status 1 and text "Invalid command" the encoder
makes exactly one transport write, of the bytes `+S0017,42;1,Invalid command;\r\n`
(length field 0017, the 17 bytes of `1,Invalid command`), and returns the status of
that write. -/
theorem C1_sync_response_example (env : Env) (st : at_cmd_parser_t)
    (hm : env.mutex_get = cy_rslt_t.CY_RSLT_SUCCESS)
    (hlen : st.output_buffer.length = AT_CMD_PARSER_BUFFER_SIZE) :
    (at_cmd_parser_send_cmd_response env st 42 1 (some (bytes "Invalid command"))).1.trace
        = st.trace ++ [Event.write (bytes "+S0017,42;1,Invalid command;\r\n")]
    ∧ (at_cmd_parser_send_cmd_response env st 42 1 (some (bytes "Invalid command"))).2
        = env.write_data (bytes "+S0017,42;1,Invalid command;\r\n") := by
  have e : response_frame 83 42 (sync_payload 1 (some (bytes "Invalid command")))
      = bytes "+S0017,42;1,Invalid command;\r\n" := by decide
  obtain ⟨out, flt, _, _, h⟩ := send_cmd_response_spec env st 42 1
    (some (bytes "Invalid command")) hm hlen (by rw [e]; decide)
  rw [h, e]
  exact ⟨rfl, rfl⟩

/-- Witness of C1 (amended) on the initial parser with a succeeding environment. -/
theorem C1_sync_response_example_witness :
    env_ok.mutex_get = cy_rslt_t.CY_RSLT_SUCCESS
    ∧ demo_state.output_buffer.length = AT_CMD_PARSER_BUFFER_SIZE
    ∧ (at_cmd_parser_send_cmd_response env_ok demo_state 42 1
        (some (bytes "Invalid command"))).1.trace
        = demo_state.trace ++ [Event.write (bytes "+S0017,42;1,Invalid command;\r\n")]
    ∧ (at_cmd_parser_send_cmd_response env_ok demo_state 42 1
        (some (bytes "Invalid command"))).2
        = env_ok.write_data (bytes "+S0017,42;1,Invalid command;\r\n") :=
  ⟨rfl, by simp [demo_state, g_cmd_parser_0],
   C1_sync_response_example env_ok demo_state rfl (by simp [demo_state, g_cmd_parser_0])⟩

/-- C2: for every serial, status and text whose frame fits the output buffer,
`at_cmd_parser_send_cmd_response` makes exactly one transport write, of
`"+S" ++ pad4(len payload) ++ "," ++ decimal serial ++ ";" ++ payload ++ ";\r\n"`,
where the payload is `decimal status` for a null or empty text and
`decimal status ++ "," ++ text` otherwise. -/
theorem C2_sync_response_frame (env : Env) (st : at_cmd_parser_t) (serial status : Nat)
    (text : Option (List Nat))
    (hm : env.mutex_get = cy_rslt_t.CY_RSLT_SUCCESS)
    (hlen : st.output_buffer.length = AT_CMD_PARSER_BUFFER_SIZE)
    (hfit : (bytes "+S" ++ pad4 (sync_payload status text).length ++ bytes "," ++ decimal serial
              ++ bytes ";" ++ sync_payload status text ++ bytes ";\r\n").length
            ≤ AT_CMD_PARSER_BUFFER_SIZE) :
    (at_cmd_parser_send_cmd_response env st serial status text).1.trace
        = st.trace ++ [Event.write
            (bytes "+S" ++ pad4 (sync_payload status text).length ++ bytes "," ++ decimal serial
              ++ bytes ";" ++ sync_payload status text ++ bytes ";\r\n")]
    ∧ sync_payload status text
        = (if text = none ∨ text = some [] then decimal status
           else decimal status ++ bytes "," ++ text.getD []) := by
  have e : bytes "+S" ++ pad4 (sync_payload status text).length ++ bytes "," ++ decimal serial
              ++ bytes ";" ++ sync_payload status text ++ bytes ";\r\n"
      = response_frame 83 serial (sync_payload status text) := rfl
  rw [e] at hfit ⊢
  obtain ⟨out, flt, _, _, h⟩ := send_cmd_response_spec env st serial status text hm hlen hfit
  rw [h]
  refine ⟨rfl, ?_⟩
  rcases text with _ | _ | ⟨c, cs⟩
  · simp [sync_payload]
  · simp [sync_payload]
  · simp only [sync_payload, reduceCtorEq, false_or, Option.some.injEq, if_false,
      Option.getD_some]
    rw [show bytes "," = [44] from rfl]
    simp

/-- Witness of C2: serial 7, status 0, no text. -/
theorem C2_sync_response_frame_witness :
    env_ok.mutex_get = cy_rslt_t.CY_RSLT_SUCCESS
    ∧ demo_state.output_buffer.length = AT_CMD_PARSER_BUFFER_SIZE
    ∧ (at_cmd_parser_send_cmd_response env_ok demo_state 7 0 none).1.trace
        = demo_state.trace ++ [Event.write
            (bytes "+S" ++ pad4 (sync_payload 0 none).length ++ bytes "," ++ decimal 7
              ++ bytes ";" ++ sync_payload 0 none ++ bytes ";\r\n")] :=
  ⟨rfl, by simp [demo_state, g_cmd_parser_0],
   (C2_sync_response_frame env_ok demo_state 7 0 none rfl
      (by simp [demo_state, g_cmd_parser_0]) (by decide)).1⟩

/-- C3: for every serial and non-null text whose frame fits the output buffer,
`at_cmd_parser_send_cmd_async_response` makes exactly one transport write, of
`"+H" ++ pad4(len text) ++ "," ++ decimal serial ++ ";" ++ text ++ ";\r\n"` (the text
verbatim, no status field), and returns the status returned by that write. -/
theorem C3_async_response_frame (env : Env) (st : at_cmd_parser_t) (serial : Nat)
    (text : List Nat)
    (hm : env.mutex_get = cy_rslt_t.CY_RSLT_SUCCESS)
    (hlen : st.output_buffer.length = AT_CMD_PARSER_BUFFER_SIZE)
    (hfit : (bytes "+H" ++ pad4 text.length ++ bytes "," ++ decimal serial
              ++ bytes ";" ++ text ++ bytes ";\r\n").length ≤ AT_CMD_PARSER_BUFFER_SIZE) :
    (at_cmd_parser_send_cmd_async_response env st serial (some text)).1.trace
        = st.trace ++ [Event.write
            (bytes "+H" ++ pad4 text.length ++ bytes "," ++ decimal serial
              ++ bytes ";" ++ text ++ bytes ";\r\n")]
    ∧ (at_cmd_parser_send_cmd_async_response env st serial (some text)).2
        = env.write_data
            (bytes "+H" ++ pad4 text.length ++ bytes "," ++ decimal serial
              ++ bytes ";" ++ text ++ bytes ";\r\n") := by
  have e : bytes "+H" ++ pad4 text.length ++ bytes "," ++ decimal serial
              ++ bytes ";" ++ text ++ bytes ";\r\n"
      = response_frame 72 serial text := rfl
  rw [e] at hfit ⊢
  obtain ⟨out, flt, _, _, h⟩ := send_cmd_async_response_spec env st serial text hm hlen hfit
  rw [h]
  exact ⟨rfl, rfl⟩

/-- Witness of C3: serial 7, text "hello". -/
theorem C3_async_response_frame_witness :
    env_ok.mutex_get = cy_rslt_t.CY_RSLT_SUCCESS
    ∧ demo_state.output_buffer.length = AT_CMD_PARSER_BUFFER_SIZE
    ∧ (at_cmd_parser_send_cmd_async_response env_ok demo_state 7 (some (bytes "hello"))).1.trace
        = demo_state.trace ++ [Event.write (bytes "+H0005,7;hello;\r\n")]
    ∧ (at_cmd_parser_send_cmd_async_response env_ok demo_state 7 (some (bytes "hello"))).2
        = env_ok.write_data (bytes "+H0005,7;hello;\r\n") :=
  ⟨rfl, by simp [demo_state, g_cmd_parser_0],
   C3_async_response_frame env_ok demo_state 7 (bytes "hello") rfl
     (by simp [demo_state, g_cmd_parser_0]) (by decide)⟩

/-! ## Frame scanner: the claims -/

/-- The initial parser with the demonstration registry is fresh. -/
theorem demo_state_fresh : Fresh demo_state :=
  ⟨rfl, rfl, rfl, rfl, rfl, by simp [demo_state, g_cmd_parser_0]⟩

/-- C4: chunk-splitting invariance.  For every valid request frame shorter than the
buffer and every way of cutting it into non-empty consecutive chunks, feeding the
chunks one per call from a fresh scanner state gives the same final state (trace of
dispatcher hand-overs, callback invocations, queue puts and responses included) and
the same status as feeding the whole frame in a single call. -/
theorem C4_chunk_splitting_invariance (env : Env) (st0 : at_cmd_parser_t) (h : Fresh st0)
    (frame : List Nat) (hv : valid_frame frame)
    (hlen : frame.length < AT_CMD_PARSER_BUFFER_SIZE)
    (chunks : List (List Nat)) (hne : ∀ ch ∈ chunks, ch ≠ [])
    (hj : chunks.flatten = frame) :
    feed env st0 chunks = at_cmd_add_command_chars env st0 frame := by
  have hM : AT_CMD_MAX_SIZE = 6000 := rfl
  cases hv with
  | explicit s b hs hsd hb1 hb2 =>
    have h1 := feed_explicit env st0 h [] s b chunks no_prefix_nil hs hsd hb1 (by omega) hne
      (by simpa using hj) (by simpa using hlen)
    have h2 := feed_explicit env st0 h [] s b [explicit_frame s b] no_prefix_nil hs hsd hb1
      (by omega) (by
        intro ch hch
        simp only [List.mem_singleton] at hch
        subst hch
        simp [explicit_frame, AT_CMD_PREFIX]) (by simp) (by simpa using hlen)
    rw [h1, ← h2]
    rfl
  | implicit s b hs hsd hb =>
    have h1 := feed_implicit env st0 h [] s b chunks no_prefix_nil hs hsd hb hne
      (by simpa using hj) (by simpa using hlen)
    have h2 := feed_implicit env st0 h [] s b [implicit_frame s b] no_prefix_nil hs hsd hb
      (by
        intro ch hch
        simp only [List.mem_singleton] at hch
        subst hch
        simp [implicit_frame, AT_CMD_PREFIX]) (by simp) (by simpa using hlen)
    rw [h1, ← h2]
    rfl

/-- Witness of C4: the frame `AT+00107;ECHO,hello;` cut after `EC`. -/
theorem C4_chunk_splitting_invariance_witness :
    Fresh demo_state
    ∧ valid_frame (explicit_frame (bytes "7") (bytes "ECHO,hello"))
    ∧ (explicit_frame (bytes "7") (bytes "ECHO,hello")).length < AT_CMD_PARSER_BUFFER_SIZE
    ∧ feed env_ok demo_state [bytes "AT+00107;EC", bytes "HO,hello;"]
        = at_cmd_add_command_chars env_ok demo_state
            (explicit_frame (bytes "7") (bytes "ECHO,hello")) :=
  ⟨demo_state_fresh,
   valid_frame.explicit _ _ (by decide) (by decide) (by decide) (by decide),
   by decide,
   C4_chunk_splitting_invariance env_ok demo_state demo_state_fresh _
     (valid_frame.explicit _ _ (by decide) (by decide) (by decide) (by decide))
     (by decide) [bytes "AT+00107;EC", bytes "HO,hello;"] (by decide) (by decide)⟩

/-- C10: prefix resynchronization.  Let the only occurrence of `AT+` in `g ++ "AT+"`
be at its end and let `"AT+" ++ r` be a valid frame, the whole shorter than the
buffer.  Fed from a fresh state in any non-empty chunks, `g ++ "AT+" ++ r` gives the
same final state, trace and status as `"AT+" ++ r` fed alone; exactly one frame is
handed to the dispatcher; and the scanner is in header parsing, with `AT+` at the
start of the command buffer and write index 3, after the last byte of
`g ++ "AT+"` and after no shorter part of it. -/
theorem C10_prefix_resynchronization (env : Env) (st0 : at_cmd_parser_t) (h : Fresh st0)
    (g r : List Nat)
    (hg : ∀ u v : List Nat, g ++ AT_CMD_PREFIX = u ++ AT_CMD_PREFIX ++ v → v = [])
    (hv : valid_frame (AT_CMD_PREFIX ++ r))
    (hlen : (g ++ AT_CMD_PREFIX ++ r).length < AT_CMD_PARSER_BUFFER_SIZE)
    (chunks : List (List Nat)) (hne : ∀ ch ∈ chunks, ch ≠ [])
    (hj : chunks.flatten = g ++ AT_CMD_PREFIX ++ r) :
    feed env st0 chunks = at_cmd_add_command_chars env st0 (AT_CMD_PREFIX ++ r)
    ∧ (feed env st0 chunks).1.trace.countP is_dispatch = st0.trace.countP is_dispatch + 1
    ∧ (∀ cs : List (List Nat), (∀ ch ∈ cs, ch ≠ []) → cs.flatten = g ++ AT_CMD_PREFIX →
        (feed env st0 cs).1.reading_cmd = true ∧ (feed env st0 cs).1.cmd_header = true
        ∧ (feed env st0 cs).1.cmd_widx = 3
        ∧ (feed env st0 cs).1.command_buffer.take 3 = AT_CMD_PREFIX)
    ∧ (∀ (cs : List (List Nat)) (w : List Nat), (∀ ch ∈ cs, ch ≠ []) → cs.flatten = w →
        w ≠ [] → w <+: g ++ AT_CMD_PREFIX → w ≠ g ++ AT_CMD_PREFIX →
        (feed env st0 cs).1.reading_cmd = false) := by
  have hM : AT_CMD_MAX_SIZE = 6000 := rfl
  have hP : AT_CMD_PREFIX.length = 3 := rfl
  have hg' := no_prefix_of_only_at_end g hg
  have hw0 := h.widx
  simp only [List.length_append, hP] at hlen
  refine ⟨?_, ?_, ?_, ?_⟩
  · generalize hF : AT_CMD_PREFIX ++ r = frame at hv
    have hj' : chunks.flatten = g ++ frame := by rw [hj, List.append_assoc, hF]
    have hl' : (g ++ frame).length < AT_CMD_PARSER_BUFFER_SIZE := by
      rw [← hF]; simp only [List.length_append, hP]; omega
    cases hv with
    | explicit s b hs hsd hb1 hb2 =>
      have h1 := feed_explicit env st0 h g s b chunks hg' hs hsd hb1 (by omega) hne hj' hl'
      have h2 := feed_explicit env st0 h [] s b [explicit_frame s b] no_prefix_nil hs hsd hb1
        (by omega) (by
          intro ch hch
          simp only [List.mem_singleton] at hch
          subst hch
          simp [explicit_frame, AT_CMD_PREFIX]) (by simp)
        (by simp only [List.length_append] at hl' ⊢; simp; omega)
      rw [h1, ← h2]
      rfl
    | implicit s b hs hsd hb =>
      have h1 := feed_implicit env st0 h g s b chunks hg' hs hsd hb hne hj' hl'
      have h2 := feed_implicit env st0 h [] s b [implicit_frame s b] no_prefix_nil hs hsd hb
        (by
          intro ch hch
          simp only [List.mem_singleton] at hch
          subst hch
          simp [implicit_frame, AT_CMD_PREFIX]) (by simp)
        (by simp only [List.length_append] at hl' ⊢; simp; omega)
      rw [h1, ← h2]
      rfl
  · generalize hF : AT_CMD_PREFIX ++ r = frame at hv
    have hj' : chunks.flatten = g ++ frame := by rw [hj, List.append_assoc, hF]
    have hl' : (g ++ frame).length < AT_CMD_PARSER_BUFFER_SIZE := by
      rw [← hF]; simp only [List.length_append, hP]; omega
    cases hv with
    | explicit s b hs hsd hb1 hb2 =>
      rw [feed_explicit env st0 h g s b chunks hg' hs hsd hb1 (by omega) hne hj' hl']
      obtain ⟨l, hl, hnd⟩ := completed_explicit env st0 s b (explicit_frame s b).length hsd hb2
      rw [hl]
      exact countP_dispatch_one _ _ _ _ _ rfl hnd
    | implicit s b hs hsd hb =>
      rw [feed_implicit env st0 h g s b chunks hg' hs hsd hb hne hj' hl']
      obtain ⟨len, cmd, l, hl, hnd⟩ := completed_implicit env st0 s
        (b.filter (fun c => c != 10)) 0 hsd
      rw [hl]
      exact countP_dispatch_one _ _ _ _ _ rfl hnd
  · intro cs hcs hcj
    obtain ⟨r1, c1⟩ := run_resync env st0 h g hg'
    obtain ⟨f1, _⟩ := feed_all_continuing env cs st0 (g ++ AT_CMD_PREFIX) hcs hcj
      (by simp [AT_CMD_PREFIX]) (by simp only [List.length_append, hP]; omega) c1
    rw [f1, r1]
    simp [mid, AT_CMD_PREFIX]
  · intro cs w hcs hcj hw hpre hneq
    have e : g ++ AT_CMD_PREFIX = (g ++ [65, 84]) ++ [43] := by simp [AT_CMD_PREFIX]
    have hpre' : w <+: g ++ [65, 84] := by
      rw [e] at hpre hneq
      rcases List.prefix_concat_iff.1 hpre with h1 | h1
      · exact absurd h1 hneq
      · exact h1
    have hno : ¬ AT_CMD_PREFIX <:+: w := fun hi => hg' (hi.trans hpre'.isInfix)
    obtain ⟨⟨a, b, x, e1, _, _⟩, c1⟩ := run_noise env st0 h w hno
    have hwl : w.length ≤ (g ++ [65, 84]).length := hpre'.length_le
    simp only [List.length_append, List.length_cons, List.length_nil] at hwl
    obtain ⟨f1, _⟩ := feed_all_continuing env cs st0 w hcs hcj hw (by omega) c1
    rw [f1, e1]
    simpa [pre] using h.reading

/-- In the stream `XAT+`, the prefix occurs only at the end. -/
theorem only_at_end_X :
    ∀ u v : List Nat, bytes "X" ++ AT_CMD_PREFIX = u ++ AT_CMD_PREFIX ++ v → v = [] := by
  intro u v huv
  have e : bytes "X" ++ AT_CMD_PREFIX = [88, 65, 84, 43] := by decide
  rw [e] at huv
  have hl := congrArg List.length huv
  simp [AT_CMD_PREFIX] at hl
  rcases u with _ | ⟨a, _ | ⟨a2, u2⟩⟩
  · simp [AT_CMD_PREFIX] at huv
  · simp at hl
    exact List.length_eq_zero.1 (by omega)
  · simp at hl
    omega

/-- Witness of C10: the stream `XAT+00048;PING;` cut inside the prefix. -/
theorem C10_prefix_resynchronization_witness :
    Fresh demo_state
    ∧ (∀ u v : List Nat, bytes "X" ++ AT_CMD_PREFIX = u ++ AT_CMD_PREFIX ++ v → v = [])
    ∧ valid_frame (AT_CMD_PREFIX ++ bytes "00048;PING;")
    ∧ feed env_ok demo_state [bytes "XAT", bytes "+00048;PING;"]
        = at_cmd_add_command_chars env_ok demo_state (AT_CMD_PREFIX ++ bytes "00048;PING;")
    ∧ (feed env_ok demo_state [bytes "XAT", bytes "+00048;PING;"]).1.trace.countP is_dispatch
        = demo_state.trace.countP is_dispatch + 1 :=
  have hv : valid_frame (AT_CMD_PREFIX ++ bytes "00048;PING;") :=
    (by decide : explicit_frame (bytes "8") (bytes "PING") = AT_CMD_PREFIX ++ bytes "00048;PING;")
      ▸ valid_frame.explicit _ _ (by decide) (by decide) (by decide) (by decide)
  have hc := C10_prefix_resynchronization env_ok demo_state demo_state_fresh (bytes "X")
    (bytes "00048;PING;") only_at_end_X hv (by decide)
    [bytes "XAT", bytes "+00048;PING;"] (by decide) (by decide)
  ⟨demo_state_fresh, only_at_end_X, hv, hc.1, hc.2.1⟩

/-- C9: implicit-mode termination.  For every frame with size field `0000`, a
non-empty serial and a body without carriage return, shorter than the buffer and
fed from a fresh state in any non-empty chunks: no part of the frame short of the
carriage return completes it (every call returns success and nothing is handed
over or sent); on the carriage return the frame is finalized as the header and
the body without its line feeds, the carriage return excluded, processed with the
serial denoted by the serial digits, and the per-frame state is reset; and two
bodies that are equal once their line feeds are dropped give the same final
state, trace and status. -/
theorem C9_implicit_mode_termination (env : Env) (st0 : at_cmd_parser_t) (h : Fresh st0)
    (s b : List Nat) (hs : s ≠ []) (hsd : all_digits s) (hb : 13 ∉ b)
    (hlen : (implicit_frame s b).length < AT_CMD_PARSER_BUFFER_SIZE)
    (chunks : List (List Nat)) (hne : ∀ ch ∈ chunks, ch ≠ [])
    (hj : chunks.flatten = implicit_frame s b) :
    (∀ (cs : List (List Nat)) (w : List Nat), (∀ ch ∈ cs, ch ≠ []) → cs.flatten = w →
        w ≠ [] → w <+: implicit_frame s b → w ≠ implicit_frame s b →
        (feed env st0 cs).2 = cy_rslt_t.CY_RSLT_SUCCESS ∧ (feed env st0 cs).1.trace = st0.trace)
    ∧ feed env st0 chunks
        = completed env st0
            (AT_CMD_PREFIX ++ [48, 48, 48, 48] ++ s ++ [59] ++ b.filter (fun c => c != 10)) 0
    ∧ (∃ (len : Nat) (cmd : List Nat) (l : List Event),
        (feed env st0 chunks).1.trace
          = st0.trace ++ echo_events st0.echo_cmd
              (AT_CMD_PREFIX ++ [48, 48, 48, 48] ++ s ++ [59] ++ b.filter (fun c => c != 10))
              ++ Event.dispatch (decimal_value s % 4294967296) len cmd :: l
        ∧ (∀ e ∈ l, is_dispatch e = false))
    ∧ ((feed env st0 chunks).1.reading_cmd = false ∧ (feed env st0 chunks).1.cmd_header = false
        ∧ (feed env st0 chunks).1.cmd_widx = 0 ∧ (feed env st0 chunks).1.cmd_size = 0
        ∧ (feed env st0 chunks).1.at_cmd_prefix_idx = 0)
    ∧ (∀ (b2 : List Nat) (chunks2 : List (List Nat)), 13 ∉ b2 →
        b2.filter (fun c => c != 10) = b.filter (fun c => c != 10) →
        (implicit_frame s b2).length < AT_CMD_PARSER_BUFFER_SIZE →
        (∀ ch ∈ chunks2, ch ≠ []) → chunks2.flatten = implicit_frame s b2 →
        feed env st0 chunks2 = feed env st0 chunks) := by
  have hfeed := feed_implicit env st0 h [] s b chunks no_prefix_nil hs hsd hb hne
    (by simpa using hj) (by simpa using hlen)
  refine ⟨?_, hfeed, ?_, ?_, ?_⟩
  · intro cs w hcs hcj hw hpre hneq
    obtain ⟨_, c⟩ := run_implicit env st0 h [] s b no_prefix_nil hs hsd hb hlen
    have e : implicit_frame s b
        = ([] ++ AT_CMD_PREFIX ++ [48, 48, 48, 48] ++ s ++ [59] ++ b) ++ [13] := by
      simp [implicit_frame]
    rw [e] at hpre hneq
    obtain ⟨f1, f2, _⟩ := feed_proper_prefix env st0 _ 13 c
      (by rw [← e, h.widx]; omega) cs w hcs hcj hw hpre hneq
    rw [f1]
    exact ⟨rfl, f2⟩
  · obtain ⟨len, cmd, l, hl, hnd⟩ := completed_implicit env st0 s
      (b.filter (fun c => c != 10)) 0 hsd
    rw [hfeed, hl, digits_value_eq s hsd]
    exact ⟨len, cmd, l, rfl, hnd⟩
  · rw [hfeed]
    simp [completed, at_cmd_reset_command_buffer]
  · intro b2 chunks2 hb2 hfil hlen2 hne2 hj2
    rw [hfeed, feed_implicit env st0 h [] s b2 chunks2 no_prefix_nil hs hsd hb2 hne2
      (by simpa using hj2) (by simpa using hlen2), hfil]

/-- Witness of C9: the frame `AT+0000007;PI<LF>NG<CR>` cut after the header. -/
theorem C9_implicit_mode_termination_witness :
    Fresh demo_state
    ∧ bytes "007" ≠ [] ∧ all_digits (bytes "007") ∧ 13 ∉ bytes "PI\nNG"
    ∧ (implicit_frame (bytes "007") (bytes "PI\nNG")).length < AT_CMD_PARSER_BUFFER_SIZE
    ∧ feed env_ok demo_state [bytes "AT+0000007;", bytes "PI\nNG\r"]
        = completed env_ok demo_state
            (AT_CMD_PREFIX ++ [48, 48, 48, 48] ++ bytes "007" ++ [59]
              ++ (bytes "PI\nNG").filter (fun c => c != 10)) 0 :=
  ⟨demo_state_fresh, by decide, by decide, by decide, by decide,
   (C9_implicit_mode_termination env_ok demo_state demo_state_fresh (bytes "007")
      (bytes "PI\nNG") (by decide) (by decide) (by decide) (by decide)
      [bytes "AT+0000007;", bytes "PI\nNG\r"] (by decide) (by decide)).2.1⟩

/-- C7: the explicit-mode size field as the code documents it.  For every body `b`
of 1 to 6000 bytes and every non-empty digit string `s` such that the frame
`"AT+" ++ pad4(len b) ++ s ++ ";" ++ b ++ ";"` is shorter than the buffer, fed from
a fresh state: after the header the total frame size is `len b` plus the header
bytes (its `;` included) plus 1; no part of the frame short of its last byte
completes it, and before that byte the scanner is still inside the frame; on the
last byte the frame is completed and the per-frame state reset; and the
dispatcher is handed exactly the body `b` (closing `;` stripped) with the serial
denoted by `s`, once. -/
theorem C7_explicit_size_between_terminators (env : Env) (st0 : at_cmd_parser_t)
    (h : Fresh st0) (s b : List Nat) (hs : s ≠ []) (hsd : all_digits s)
    (hb1 : 1 ≤ b.length) (hb2 : b.length ≤ 6000)
    (hlen : (explicit_frame s b).length < AT_CMD_PARSER_BUFFER_SIZE)
    (chunks : List (List Nat)) (hne : ∀ ch ∈ chunks, ch ≠ [])
    (hj : chunks.flatten = explicit_frame s b) :
    (at_cmd_add_command_chars env st0 (AT_CMD_PREFIX ++ pad4 b.length ++ s ++ [59])).1.cmd_size
        = b.length + (AT_CMD_PREFIX ++ pad4 b.length ++ s ++ [59]).length + 1
    ∧ (∀ (cs : List (List Nat)) (w : List Nat), (∀ ch ∈ cs, ch ≠ []) → cs.flatten = w →
        w ≠ [] → w <+: explicit_frame s b → w ≠ explicit_frame s b →
        (feed env st0 cs).2 = cy_rslt_t.CY_RSLT_SUCCESS ∧ (feed env st0 cs).1.trace = st0.trace)
    ∧ (at_cmd_add_command_chars env st0 (explicit_frame s b).dropLast).1.reading_cmd = true
    ∧ ((feed env st0 chunks).1.reading_cmd = false ∧ (feed env st0 chunks).1.cmd_header = false
        ∧ (feed env st0 chunks).1.cmd_widx = 0 ∧ (feed env st0 chunks).1.cmd_size = 0
        ∧ (feed env st0 chunks).1.at_cmd_prefix_idx = 0)
    ∧ (∃ l : List Event,
        (feed env st0 chunks).1.trace
          = st0.trace ++ echo_events st0.echo_cmd (explicit_frame s b)
              ++ Event.dispatch (decimal_value s % 4294967296) b.length b :: l
        ∧ (∀ e ∈ l, is_dispatch e = false)) := by
  have hP : AT_CMD_PREFIX.length = 3 := rfl
  have hB := bufsize_eq
  have hfl : (explicit_frame s b).length = b.length + (8 + s.length) + 1 := by
    simp [explicit_frame, hP, pad4_length]; omega
  have hfeed := feed_explicit env st0 h [] s b chunks no_prefix_nil hs hsd hb1 (by omega) hne
    (by simpa using hj) (by simpa using hlen)
  obtain ⟨r, c⟩ := run_explicit env st0 h [] s b no_prefix_nil hs hsd hb1 (by omega) hlen
  have e : explicit_frame s b
      = ([] ++ AT_CMD_PREFIX ++ pad4 b.length ++ s ++ [59] ++ b) ++ [59] := by
    simp [explicit_frame]
  refine ⟨?_, ?_, ?_, ?_, ?_⟩
  · have hv := digits_value_pad4 b.length (by omega)
    obtain ⟨r1, c1⟩ := run_header env st0 h [] (pad4 b.length) s no_prefix_nil (pad4_length _)
      (all_digits_pad4 _) hs hsd (by omega) (by rw [hv]; omega)
    rw [hv, if_neg (by omega)] at r1
    simp only [List.nil_append] at r1 c1
    rw [add_eq_run env _ st0 (by simp [AT_CMD_PREFIX]) (by
      rw [h.widx]; simp only [List.length_append, hP, pad4_length]; simp; omega) c1, r1]
    simp [mid, hP, pad4_length]
    omega
  · intro cs w hcs hcj hw hpre hneq
    rw [e] at hpre hneq
    obtain ⟨f1, f2, _⟩ := feed_proper_prefix env st0 _ 59 c
      (by rw [← e, h.widx]; omega) cs w hcs hcj hw hpre hneq
    rw [f1]
    exact ⟨rfl, f2⟩
  · have hd : (explicit_frame s b).dropLast
        = [] ++ AT_CMD_PREFIX ++ pad4 b.length ++ s ++ [59] ++ b := by
      rw [e, List.dropLast_concat]
    rw [hd, add_eq_run env _ st0 (by simp [AT_CMD_PREFIX]) (by
      rw [h.widx]
      have := congrArg List.length e
      simp only [List.length_append, List.length_singleton] at this ⊢
      omega) c, r]
    rfl
  · rw [hfeed]
    simp [completed, at_cmd_reset_command_buffer]
  · obtain ⟨l, hl, hnd⟩ := completed_explicit env st0 s b (explicit_frame s b).length hsd hb2
    rw [hfeed, hl, digits_value_eq s hsd]
    exact ⟨l, rfl, hnd⟩

/-- Witness of C7: the frame `AT+00107;ECHO,hello;` fed in one call. -/
theorem C7_explicit_size_between_terminators_witness :
    Fresh demo_state
    ∧ bytes "7" ≠ [] ∧ all_digits (bytes "7")
    ∧ 1 ≤ (bytes "ECHO,hello").length ∧ (bytes "ECHO,hello").length ≤ 6000
    ∧ (explicit_frame (bytes "7") (bytes "ECHO,hello")).length < AT_CMD_PARSER_BUFFER_SIZE
    ∧ (at_cmd_add_command_chars env_ok demo_state
        (AT_CMD_PREFIX ++ pad4 (bytes "ECHO,hello").length ++ bytes "7" ++ [59])).1.cmd_size
        = (bytes "ECHO,hello").length
          + (AT_CMD_PREFIX ++ pad4 (bytes "ECHO,hello").length ++ bytes "7" ++ [59]).length + 1 :=
  ⟨demo_state_fresh, by decide, by decide, by decide, by decide, by decide,
   (C7_explicit_size_between_terminators env_ok demo_state demo_state_fresh (bytes "7")
      (bytes "ECHO,hello") (by decide) (by decide) (by decide) (by decide) (by decide)
      [bytes "AT+00107;ECHO,hello;"] (by decide) (by decide)).1⟩

/-- C6 (as stated, refuted): with the declared size 0011 the frame
`AT+00117;ECHO,hello;` is not completed by its closing `;`: after the whole frame
no event has happened (no dispatch, no callback, no response), the scanner is
still inside the frame, 20 bytes are stored and the total size computed from the
header is 21. -/
theorem C6_declared_size_0011_not_completed :
    (at_cmd_add_command_chars env_ok demo_state (bytes "AT+00117;ECHO,hello;")).1.trace = []
    ∧ (at_cmd_add_command_chars env_ok demo_state (bytes "AT+00117;ECHO,hello;")).1.reading_cmd
        = true
    ∧ (at_cmd_add_command_chars env_ok demo_state (bytes "AT+00117;ECHO,hello;")).1.cmd_widx = 20
    ∧ (at_cmd_add_command_chars env_ok demo_state (bytes "AT+00117;ECHO,hello;")).1.cmd_size = 21 := by
  decide

/-- C6 (amended): a nonzero size field declares the number of bytes strictly
between the header `;` and the closing `;`.  For the body `ECHO,hello` the declared
size is 10: the frame is `AT+0010<serial>;ECHO,hello;`, and fed in any chunks from
a fresh state with `ECHO` registered it hands the dispatcher `ECHO,hello` and calls
the callback of `ECHO` with the 5 bytes `hello` and the serial denoted by the
serial digits, once each, and resets the per-frame state.  In general, for a body
`b` of 1 to 6000 bytes, after the declared number of bytes following the header
`;` the frame is still open with nothing dispatched and one byte missing, and the
next byte, the closing `;`, finalizes it: the scanner consumes the declared size
plus 1 bytes after the header terminator. -/
theorem C6_explicit_size_excludes_closing_terminator (env : Env) (st0 : at_cmd_parser_t)
    (h : Fresh st0) (s : List Nat) (hs : s ≠ []) (hsd : all_digits s)
    (hlen : (explicit_frame s (bytes "ECHO,hello")).length < AT_CMD_PARSER_BUFFER_SIZE)
    (cmd : at_cmd_def_t) (hfind : find_cmd st0.cmd_tables (bytes "ECHO") = some cmd)
    (chunks : List (List Nat)) (hne : ∀ ch ∈ chunks, ch ≠ [])
    (hj : chunks.flatten = bytes "AT+0010" ++ s ++ bytes ";ECHO,hello;") :
    explicit_frame s (bytes "ECHO,hello") = bytes "AT+0010" ++ s ++ bytes ";ECHO,hello;"
    ∧ (∃ l : List Event,
        (feed env st0 chunks).1.trace
          = st0.trace ++ echo_events st0.echo_cmd (bytes "AT+0010" ++ s ++ bytes ";ECHO,hello;")
              ++ Event.dispatch (decimal_value s % 4294967296) 10 (bytes "ECHO,hello")
              :: Event.callback cmd.cmd_parser_fn cmd.cmd_id (decimal_value s % 4294967296) 5
                  (bytes "hello")
              :: l
        ∧ (∀ e ∈ l, is_dispatch e = false ∧ is_callback e = false))
    ∧ ((feed env st0 chunks).1.reading_cmd = false ∧ (feed env st0 chunks).1.cmd_header = false
        ∧ (feed env st0 chunks).1.cmd_widx = 0 ∧ (feed env st0 chunks).1.cmd_size = 0
        ∧ (feed env st0 chunks).1.at_cmd_prefix_idx = 0)
    ∧ (∀ b : List Nat, 1 ≤ b.length → b.length ≤ 6000 →
        (explicit_frame s b).length < AT_CMD_PARSER_BUFFER_SIZE →
        (at_cmd_add_command_chars env st0
            (AT_CMD_PREFIX ++ pad4 b.length ++ s ++ [59] ++ b)).1.reading_cmd = true
        ∧ (at_cmd_add_command_chars env st0
            (AT_CMD_PREFIX ++ pad4 b.length ++ s ++ [59] ++ b)).1.trace = st0.trace
        ∧ (at_cmd_add_command_chars env st0
            (AT_CMD_PREFIX ++ pad4 b.length ++ s ++ [59] ++ b)).1.cmd_widx + 1
          = (at_cmd_add_command_chars env st0
            (AT_CMD_PREFIX ++ pad4 b.length ++ s ++ [59] ++ b)).1.cmd_size
        ∧ at_cmd_add_command_chars env st0 (AT_CMD_PREFIX ++ pad4 b.length ++ s ++ [59] ++ b ++ [59])
          = completed env st0 (explicit_frame s b) (explicit_frame s b).length
        ∧ (completed env st0 (explicit_frame s b) (explicit_frame s b).length).1.reading_cmd
          = false) := by
  have hP : AT_CMD_PREFIX.length = 3 := rfl
  have hB := bufsize_eq
  have hE : explicit_frame s (bytes "ECHO,hello")
      = bytes "AT+0010" ++ s ++ bytes ";ECHO,hello;" := by
    simp [explicit_frame, AT_CMD_PREFIX, pad4, bytes]
  have hb : bytes "ECHO" ++ 44 :: bytes "hello" = bytes "ECHO,hello" := by decide
  have hfeed := feed_explicit env st0 h [] s (bytes "ECHO,hello") chunks no_prefix_nil hs hsd
    (by decide) (by decide) hne (by simpa [hE] using hj) (by simpa using hlen)
  refine ⟨hE, ?_, ?_, ?_⟩
  · obtain ⟨l, hl, hnd⟩ := completed_explicit_comma env st0 s (bytes "ECHO") (bytes "hello")
      (explicit_frame s (bytes "ECHO,hello")).length cmd hsd (by decide) (by rw [hb]; exact hlen)
      (by decide) (by decide) hfind
    rw [hb, digits_value_eq s hsd, hE] at hl
    rw [hfeed, hE]
    exact ⟨l, hl, hnd⟩
  · rw [hfeed]
    simp [completed, at_cmd_reset_command_buffer]
  · intro b hb1 hb2 hbl
    have hfl : (explicit_frame s b).length = b.length + (8 + s.length) + 1 := by
      simp [explicit_frame, hP, pad4_length]; omega
    obtain ⟨r, c⟩ := run_explicit env st0 h [] s b no_prefix_nil hs hsd hb1 (by omega) hbl
    have e : explicit_frame s b
        = ([] ++ AT_CMD_PREFIX ++ pad4 b.length ++ s ++ [59] ++ b) ++ [59] := by
      simp [explicit_frame]
    have hl0 : ([] ++ AT_CMD_PREFIX ++ pad4 b.length ++ s ++ [59] ++ b).length
        = b.length + (8 + s.length) := by
      simp [hP, pad4_length]; omega
    have ha : (at_cmd_add_command_chars env st0
        (AT_CMD_PREFIX ++ pad4 b.length ++ s ++ [59] ++ b)).1
        = mid st0 ([] ++ AT_CMD_PREFIX ++ pad4 b.length ++ s ++ [59] ++ b) false
            (explicit_frame s b).length := by
      have := add_eq_run env ([] ++ AT_CMD_PREFIX ++ pad4 b.length ++ s ++ [59] ++ b) st0
        (by simp [AT_CMD_PREFIX]) (by rw [h.widx, hl0]; omega) c
      simp only [List.nil_append] at this r ⊢
      rw [this, r]
    have hf1 := feed_explicit env st0 h [] s b [explicit_frame s b] no_prefix_nil hs hsd hb1
      (by omega) (by simp [explicit_frame]) (by simp) (by simpa using hbl)
    refine ⟨?_, ?_, ?_, ?_, ?_⟩
    · rw [ha]; rfl
    · rw [ha]; rfl
    · rw [ha]
      simp only [mid, hl0, hfl]
    · have : AT_CMD_PREFIX ++ pad4 b.length ++ s ++ [59] ++ b ++ [59] = explicit_frame s b := rfl
      rw [this, ← hf1]
      simp [feed]
    · simp [completed, at_cmd_reset_command_buffer]

/-- Witness of C6 (amended): the frame `AT+00107;ECHO,hello;` fed in one call to the
parser with the demo registry. -/
theorem C6_explicit_size_excludes_closing_terminator_witness :
    Fresh demo_state ∧ bytes "7" ≠ [] ∧ all_digits (bytes "7")
    ∧ (explicit_frame (bytes "7") (bytes "ECHO,hello")).length < AT_CMD_PARSER_BUFFER_SIZE
    ∧ find_cmd demo_state.cmd_tables (bytes "ECHO")
        = some { cmd_name := some (bytes "ECHO"), cmd_id := 1, cmd_parser_fn := 100 }
    ∧ [bytes "AT+00107;ECHO,hello;"].flatten = bytes "AT+0010" ++ bytes "7" ++ bytes ";ECHO,hello;"
    ∧ explicit_frame (bytes "7") (bytes "ECHO,hello")
        = bytes "AT+0010" ++ bytes "7" ++ bytes ";ECHO,hello;" :=
  ⟨demo_state_fresh, by decide, by decide, by decide, by decide, by decide,
   (C6_explicit_size_excludes_closing_terminator env_ok demo_state demo_state_fresh (bytes "7")
      (by decide) (by decide) (by decide)
      { cmd_name := some (bytes "ECHO"), cmd_id := 1, cmd_parser_fn := 100 } (by decide)
      [bytes "AT+00107;ECHO,hello;"] (by decide) (by decide)).1⟩

/-- C5 (the code evaluated at the failing input): the two explicit-size frames
`AT+00107;ECHO,hello;` and `AT+00048;PING;`, both naming registered commands.  Fed
in one call, only the first is dispatched: the bytes of the second are stored
without any prefix or header scan, and the call returns with 14 bytes stored
while the scanner is marked as not inside a frame.  Fed in two calls, both are
dispatched. -/
theorem C5_second_frame_of_one_call_not_dispatched :
    (at_cmd_add_command_chars env_ok demo_state
        (bytes "AT+00107;ECHO,hello;" ++ bytes "AT+00048;PING;")).1.trace
      = [Event.dispatch 7 10 (bytes "ECHO,hello"), Event.callback 100 1 7 5 (bytes "hello"),
         Event.queue_put { cmd_id := 1, serial := 7 }]
    ∧ (at_cmd_add_command_chars env_ok demo_state
        (bytes "AT+00107;ECHO,hello;" ++ bytes "AT+00048;PING;")).2 = cy_rslt_t.CY_RSLT_SUCCESS
    ∧ (at_cmd_add_command_chars env_ok demo_state
        (bytes "AT+00107;ECHO,hello;" ++ bytes "AT+00048;PING;")).1.reading_cmd = false
    ∧ (at_cmd_add_command_chars env_ok demo_state
        (bytes "AT+00107;ECHO,hello;" ++ bytes "AT+00048;PING;")).1.cmd_widx = 14
    ∧ (feed env_ok demo_state [bytes "AT+00107;ECHO,hello;", bytes "AT+00048;PING;"]).1.trace
      = [Event.dispatch 7 10 (bytes "ECHO,hello"), Event.callback 100 1 7 5 (bytes "hello"),
         Event.queue_put { cmd_id := 1, serial := 7 },
         Event.dispatch 8 4 (bytes "PING"), Event.callback 200 2 8 0 [],
         Event.queue_put { cmd_id := 2, serial := 8 }] := by
  decide

/-- C8 (the code evaluated at the failing input): the explicit-size frame
`AT+00011;A` followed by a line feed at the position of the closing `;`.  The line
feed is stored without the terminator check: nothing is written, the call returns
success and the scanner stays inside the frame with the write index equal to the
total size, so that a `;` sent next does not complete the frame either.  The byte
`X` at the same position is rejected as the claim says. -/
theorem C8_line_feed_at_closing_position_not_rejected :
    (at_cmd_add_command_chars env_ok demo_state (bytes "AT+00011;AX")).2
      = cy_rslt_t.CY_AT_CMD_PARSER_ERROR
    ∧ (at_cmd_add_command_chars env_ok demo_state (bytes "AT+00011;AX")).1.trace
      = [Event.write (bytes "+S0017,0;1,bad cmd trailer;\r\n")]
    ∧ (at_cmd_add_command_chars env_ok demo_state (bytes "AT+00011;AX")).1.reading_cmd = false
    ∧ (at_cmd_add_command_chars env_ok demo_state (bytes "AT+00011;A\n")).2
      = cy_rslt_t.CY_RSLT_SUCCESS
    ∧ (at_cmd_add_command_chars env_ok demo_state (bytes "AT+00011;A\n")).1.trace = []
    ∧ (at_cmd_add_command_chars env_ok demo_state (bytes "AT+00011;A\n")).1.reading_cmd = true
    ∧ (at_cmd_add_command_chars env_ok demo_state (bytes "AT+00011;A\n")).1.cmd_widx = 11
    ∧ (at_cmd_add_command_chars env_ok demo_state (bytes "AT+00011;A\n")).1.cmd_size = 11
    ∧ (at_cmd_add_command_chars env_ok demo_state (bytes "AT+00011;A\n;")).1.trace = []
    ∧ (at_cmd_add_command_chars env_ok demo_state (bytes "AT+00011;A\n;")).1.reading_cmd = true := by
  decide

/-- C11 (as stated, refuted): the header `99991;` consists of four size digits, one
serial digit and the terminator, yet the header scanner does not accept it: the
frame is aborted with the response `Input buffer size exceeded` and the scanner is
back in prefix scanning. -/
theorem C11_header_99991_not_accepted :
    (at_cmd_add_command_chars env_ok demo_state (bytes "AT+99991;")).1.reading_cmd = false
    ∧ (at_cmd_add_command_chars env_ok demo_state (bytes "AT+99991;")).1.trace
      = [Event.write (bytes "+S0028,0;1,Input buffer size exceeded;\r\n")] := by
  decide

/-- C11 (amended): header grammar.  After the prefix, for four size digits `d` and
a non-empty run of serial digits `s` (fed from a fresh state in any chunks): before
the terminator the scanner is in the header and the declared size is the decimal
value of `d`; the terminator is accepted, with every header byte stored verbatim
and the header state left, exactly when that value is 0 or the value plus the
header bytes plus 1 is at most the buffer size, and aborts the frame otherwise.  A
non-digit among the size bytes, a non-digit as first serial byte, and a later byte
that is neither a digit nor `;` abort the frame.  Conversely, whenever the scanner
has stayed in the header after every part of `w` and has left it, still inside the
frame, on the next byte `c`, then `w ++ [c]` is four size digits, a non-empty run
of serial digits and `;`, with a size that is 0 or a total that fits. -/
theorem C11_header_grammar (env : Env) (st0 : at_cmd_parser_t) (h : Fresh st0)
    (d s : List Nat) (hd4 : d.length = 4) (hdd : all_digits d) (hs : s ≠ [])
    (hsd : all_digits s) (hcap : 8 + s.length < AT_CMD_PARSER_BUFFER_SIZE)
    (chunks : List (List Nat)) (hne : ∀ ch ∈ chunks, ch ≠ [])
    (hj : chunks.flatten = AT_CMD_PREFIX ++ d ++ s ++ [59]) :
    at_cmd_add_command_chars env st0 (AT_CMD_PREFIX ++ d ++ s)
      = (mid st0 (AT_CMD_PREFIX ++ d ++ s) true (decimal_value d), cy_rslt_t.CY_RSLT_SUCCESS)
    ∧ ((decimal_value d = 0
          ∨ decimal_value d + (8 + s.length) + 1 ≤ AT_CMD_PARSER_BUFFER_SIZE) →
        feed env st0 chunks
          = (mid st0 (AT_CMD_PREFIX ++ d ++ s ++ [59]) false
               (if decimal_value d = 0 then 0 else decimal_value d + (8 + s.length) + 1),
             cy_rslt_t.CY_RSLT_SUCCESS))
    ∧ (¬ (decimal_value d = 0
          ∨ decimal_value d + (8 + s.length) + 1 ≤ AT_CMD_PARSER_BUFFER_SIZE) →
        feed env st0 chunks
          = (rejected env
               (mid st0 (AT_CMD_PREFIX ++ d ++ s ++ [59]) false
                 (decimal_value d + (8 + s.length) + 1))
               (bytes "Input buffer size exceeded"),
             cy_rslt_t.CY_RSLT_SUCCESS))
    ∧ (∀ (p : List Nat) (c : Nat) (cs : List (List Nat)), all_digits p → p.length < 4 →
        isdigit c = false → (∀ ch ∈ cs, ch ≠ []) → cs.flatten = AT_CMD_PREFIX ++ p ++ [c] →
        feed env st0 cs
          = (rejected env (mid st0 (AT_CMD_PREFIX ++ p) true (digits_value 0 p))
               (bytes "Invalid size digit"), cy_rslt_t.CY_RSLT_SUCCESS))
    ∧ (∀ (c : Nat) (cs : List (List Nat)), isdigit c = false → (∀ ch ∈ cs, ch ≠ []) →
        cs.flatten = AT_CMD_PREFIX ++ d ++ [c] →
        feed env st0 cs
          = (rejected env (mid st0 (AT_CMD_PREFIX ++ d) true (decimal_value d))
               (bytes "Invalid serial digit"), cy_rslt_t.CY_RSLT_SUCCESS))
    ∧ (∀ (c : Nat) (cs : List (List Nat)), isdigit c = false → c ≠ 59 →
        (∀ ch ∈ cs, ch ≠ []) → cs.flatten = AT_CMD_PREFIX ++ d ++ s ++ [c] →
        feed env st0 cs
          = (rejected env (mid st0 (AT_CMD_PREFIX ++ d ++ s) true (decimal_value d))
               (bytes "Invalid format"), cy_rslt_t.CY_RSLT_SUCCESS))
    ∧ (∀ (w : List Nat) (c : Nat), 3 + w.length + 1 < AT_CMD_PARSER_BUFFER_SIZE →
        (∀ u, u <+: w → (run env st0 (AT_CMD_PREFIX ++ u)).cmd_header = true) →
        (run env st0 (AT_CMD_PREFIX ++ w ++ [c])).reading_cmd = true →
        (run env st0 (AT_CMD_PREFIX ++ w ++ [c])).cmd_header = false →
        ∃ d2 s2 : List Nat, w = d2 ++ s2 ∧ d2.length = 4 ∧ all_digits d2 ∧ s2 ≠ []
          ∧ all_digits s2 ∧ c = 59
          ∧ (decimal_value d2 = 0
              ∨ decimal_value d2 + (8 + s2.length) + 1 ≤ AT_CMD_PARSER_BUFFER_SIZE)) := by
  have hP : AT_CMD_PREFIX.length = 3 := rfl
  have hB := bufsize_eq
  obtain ⟨hv1, hv2⟩ := size_field_value d hd4 hdd
  have hspos : 0 < s.length := List.length_pos.2 hs
  have hds : all_digits (d ++ s) := all_digits_append hdd hsd
  have htk : (d ++ s).take 4 = d := by rw [← hd4]; exact List.take_left' rfl
  obtain ⟨r, c⟩ := run_header_digits env st0 h (d ++ s) hds (by simp [hd4]; omega)
  rw [htk, hv1, ← List.append_assoc] at r
  rw [← List.append_assoc] at c
  have hlen : (AT_CMD_PREFIX ++ d ++ s).length = 7 + s.length := by simp [hP, hd4]; omega
  refine ⟨?_, ?_, ?_, ?_, ?_, ?_, ?_⟩
  · rw [add_eq_run env _ st0 (by simp [AT_CMD_PREFIX]) (by rw [h.widx, hlen]; omega) c, r]
  · intro hfit
    obtain ⟨r1, c1⟩ := run_header env st0 h [] d s no_prefix_nil hd4 hdd hs hsd hcap
      (by rw [hv1]; exact hfit)
    simp only [List.nil_append, hv1] at r1 c1
    obtain ⟨f1, _⟩ := feed_all_continuing env chunks st0 _ hne hj (by simp [AT_CMD_PREFIX])
      (by rw [h.widx]; simp only [List.length_append, hlen, List.length_singleton]; omega) c1
    rw [f1, r1]
  · intro hfit
    have hn := not_or.1 hfit
    rw [feed_eq env chunks st0 _ 59 hne hj
      (by rw [h.widx]; simp only [List.length_append, hlen, List.length_singleton]; omega) c, r]
    have e := add_total_too_large env st0 (AT_CMD_PREFIX ++ d ++ s) (decimal_value d) []
      h.len (by rw [hlen]; omega) (by rw [hlen]; simp; omega) (by omega) hv2
      (by rw [hlen]; omega)
    rw [e, hlen]
    have e2 : decimal_value d + (7 + s.length + 2) = decimal_value d + (8 + s.length) + 1 := by
      omega
    rw [e2]
  · intro p x cs hp hp4 hx hcs hcj
    obtain ⟨r2, c2⟩ := run_header_digits env st0 h p hp (by omega)
    have htk2 : p.take 4 = p := List.take_of_length_le (by omega)
    rw [htk2] at r2
    rw [feed_eq env cs st0 _ x hcs hcj
      (by rw [h.widx]; simp only [List.length_append, hP, List.length_singleton]; omega) c2, r2]
    exact add_bad_size_digit env st0 _ _ x [] (by simp [hP]; omega) (by simp [hP]; omega) hx
  · intro x cs hx hcs hcj
    obtain ⟨r2, c2⟩ := run_header_digits env st0 h d hdd (by omega)
    have htk2 : d.take 4 = d := List.take_of_length_le (by omega)
    rw [htk2, hv1] at r2
    rw [feed_eq env cs st0 _ x hcs hcj
      (by rw [h.widx]; simp only [List.length_append, hP, List.length_singleton]; omega) c2, r2]
    exact add_bad_serial_digit env st0 _ _ x [] (by simp [hP, hd4]) (by simp [hP, hd4]; omega) hx
  · intro x cs hx hx59 hcs hcj
    rw [feed_eq env cs st0 _ x hcs hcj
      (by rw [h.widx]; simp only [List.length_append, hlen, List.length_singleton]; omega) c, r]
    exact add_bad_format env st0 _ _ x [] (by rw [hlen]; omega) (by rw [hlen]; simp; omega)
      hx hx59
  · intro w x hwc hin hr hh
    obtain ⟨hw, h4, hx, hfit⟩ := header_accepted_only env st0 h w x hwc hin hr hh
    have hlt : (w.take 4).length = 4 := by rw [List.length_take]; omega
    have hw1 : all_digits (w.take 4) := fun c hc => hw c (List.mem_of_mem_take hc)
    have hw2 : all_digits (w.drop 4) := fun c hc => hw c (List.mem_of_mem_drop hc)
    obtain ⟨hv3, _⟩ := size_field_value (w.take 4) hlt hw1
    refine ⟨w.take 4, w.drop 4, (List.take_append_drop 4 w).symm, hlt, hw1, ?_, hw2, hx, ?_⟩
    · intro hnil
      have := congrArg List.length hnil
      simp only [List.length_drop, List.length_nil] at this
      omega
    · rw [← hv3, List.length_drop]
      rcases hfit with h0 | h1
      · exact Or.inl h0
      · exact Or.inr (by omega)

/-- Witness of C11 (amended): the header `AT+00107;` fed in one call. -/
theorem C11_header_grammar_witness :
    Fresh demo_state ∧ (bytes "0010").length = 4 ∧ all_digits (bytes "0010")
    ∧ bytes "7" ≠ [] ∧ all_digits (bytes "7")
    ∧ at_cmd_add_command_chars env_ok demo_state (AT_CMD_PREFIX ++ bytes "0010" ++ bytes "7")
      = (mid demo_state (AT_CMD_PREFIX ++ bytes "0010" ++ bytes "7") true
           (decimal_value (bytes "0010")), cy_rslt_t.CY_RSLT_SUCCESS) :=
  ⟨demo_state_fresh, by decide, by decide, by decide, by decide,
   (C11_header_grammar env_ok demo_state demo_state_fresh (bytes "0010") (bytes "7")
      (by decide) (by decide) (by decide) (by decide) (by decide)
      [bytes "AT+00107;"] (by decide) (by decide)).1⟩

/-- C12: malformed-framing treatment.  From a fresh state, with the output mutex
obtained, in any chunking and whatever follows the offending byte in its chunk:
for a non-digit in the size field, a non-digit in place of the first serial digit,
a byte that is neither digit nor `;` before the header terminator, a header whose
nonzero size makes the total exceed the buffer size, and an explicit-mode frame
whose last byte is neither `;` nor a line feed, the call that reads the offending
byte sends exactly one synchronous response with serial 0, status 1 and a
non-empty text, calls no handler, and returns with the five per-frame fields at
their reset values. -/
theorem C12_malformed_framing (env : Env) (st0 : at_cmd_parser_t) (h : Fresh st0)
    (hm : env.mutex_get = cy_rslt_t.CY_RSLT_SUCCESS)
    (ho : st0.output_buffer.length = AT_CMD_PARSER_BUFFER_SIZE) :
    (∀ (p : List Nat) (c : Nat) (rest : List Nat) (cs : List (List Nat)) (w2 : List Nat),
        all_digits p → p.length < 4 → isdigit c = false → (∀ ch ∈ cs, ch ≠ []) →
        cs.flatten ++ w2 = AT_CMD_PREFIX ++ p →
        3 + p.length + (c :: rest).length < AT_CMD_PARSER_BUFFER_SIZE →
        rejection_outcome st0 (feed env st0 (cs ++ [w2 ++ c :: rest])).1
          (bytes "Invalid size digit"))
    ∧ (∀ (d : List Nat) (c : Nat) (rest : List Nat) (cs : List (List Nat)) (w2 : List Nat),
        all_digits d → d.length = 4 → isdigit c = false → (∀ ch ∈ cs, ch ≠ []) →
        cs.flatten ++ w2 = AT_CMD_PREFIX ++ d →
        7 + (c :: rest).length < AT_CMD_PARSER_BUFFER_SIZE →
        rejection_outcome st0 (feed env st0 (cs ++ [w2 ++ c :: rest])).1
          (bytes "Invalid serial digit"))
    ∧ (∀ (d s : List Nat) (c : Nat) (rest : List Nat) (cs : List (List Nat)) (w2 : List Nat),
        all_digits d → d.length = 4 → s ≠ [] → all_digits s → isdigit c = false → c ≠ 59 →
        (∀ ch ∈ cs, ch ≠ []) → cs.flatten ++ w2 = AT_CMD_PREFIX ++ d ++ s →
        7 + s.length + (c :: rest).length < AT_CMD_PARSER_BUFFER_SIZE →
        rejection_outcome st0 (feed env st0 (cs ++ [w2 ++ c :: rest])).1
          (bytes "Invalid format"))
    ∧ (∀ (d s : List Nat) (rest : List Nat) (cs : List (List Nat)) (w2 : List Nat),
        all_digits d → d.length = 4 → s ≠ [] → all_digits s → 0 < decimal_value d →
        AT_CMD_PARSER_BUFFER_SIZE < decimal_value d + (8 + s.length) + 1 →
        (∀ ch ∈ cs, ch ≠ []) → cs.flatten ++ w2 = AT_CMD_PREFIX ++ d ++ s →
        7 + s.length + (59 :: rest).length < AT_CMD_PARSER_BUFFER_SIZE →
        rejection_outcome st0 (feed env st0 (cs ++ [w2 ++ 59 :: rest])).1
          (bytes "Input buffer size exceeded"))
    ∧ (∀ (s b : List Nat) (c : Nat) (rest : List Nat) (cs : List (List Nat)) (w2 : List Nat),
        s ≠ [] → all_digits s → 1 ≤ b.length → b.length ≤ 9999 → c ≠ 59 → c ≠ 10 →
        (∀ ch ∈ cs, ch ≠ []) →
        cs.flatten ++ w2 = AT_CMD_PREFIX ++ pad4 b.length ++ s ++ [59] ++ b →
        (explicit_frame s b).length + rest.length < AT_CMD_PARSER_BUFFER_SIZE →
        rejection_outcome st0 (feed env st0 (cs ++ [w2 ++ c :: rest])).1
          (bytes "bad cmd trailer")
        ∧ (feed env st0 (cs ++ [w2 ++ c :: rest])).2 = cy_rslt_t.CY_AT_CMD_PARSER_ERROR) := by
  have hP : AT_CMD_PREFIX.length = 3 := rfl
  have hB := bufsize_eq
  refine ⟨?_, ?_, ?_, ?_, ?_⟩
  · intro p c rest cs w2 hp hp4 hc hcs hj hcap
    rw [feed_header_then env st0 h p hp cs w2 (c :: rest) (by simp) hcs hj hcap,
      add_bad_size_digit env st0 _ _ c rest (by simp [hP]; omega)
        (by simp only [List.length_append, hP]; omega) hc]
    exact rejected_outcome env st0 _ _ hm (by simpa [mid] using ho) rfl (by decide)
  · intro d c rest cs w2 hd hd4 hc hcs hj hcap
    rw [feed_header_then env st0 h d hd cs w2 (c :: rest) (by simp) hcs hj (by omega),
      add_bad_serial_digit env st0 _ _ c rest (by simp [hP, hd4])
        (by simp only [List.length_append, hP]; omega) hc]
    exact rejected_outcome env st0 _ _ hm (by simpa [mid] using ho) rfl (by decide)
  · intro d s c rest cs w2 hd hd4 hs hsd hc hc59 hcs hj hcap
    have hspos : 0 < s.length := List.length_pos.2 hs
    rw [List.append_assoc] at hj
    rw [feed_header_then env st0 h (d ++ s) (all_digits_append hd hsd) cs w2 (c :: rest)
        (by simp) hcs hj (by simp only [List.length_append, hd4]; omega),
      add_bad_format env st0 _ _ c rest (by simp [hP, hd4]; omega)
        (by simp only [List.length_append, hP, hd4]; omega) hc hc59]
    exact rejected_outcome env st0 _ _ hm (by simpa [mid] using ho) rfl (by decide)
  · intro d s rest cs w2 hd hd4 hs hsd hpos hbig hcs hj hcap
    have hspos : 0 < s.length := List.length_pos.2 hs
    obtain ⟨hv1, hv2⟩ := size_field_value d hd4 hd
    have htk : (d ++ s).take 4 = d := by rw [← hd4]; exact List.take_left' rfl
    rw [List.append_assoc] at hj
    rw [feed_header_then env st0 h (d ++ s) (all_digits_append hd hsd) cs w2 (59 :: rest)
        (by simp) hcs hj (by simp only [List.length_append, hd4]; omega), htk, hv1,
      add_total_too_large env st0 _ _ rest h.len (by simp [hP, hd4]; omega)
        (by simp only [List.length_append, hP, hd4]; omega) hpos hv2
        (by simp only [List.length_append, hP, hd4]; omega)]
    exact rejected_outcome env st0 _ _ hm (by simpa [mid] using ho) rfl (by decide)
  · intro s b c rest cs w2 hs hsd hb1 hb2 hc hc10 hcs hj hcap
    have hfl : (explicit_frame s b).length = b.length + (8 + s.length) + 1 := by
      simp [explicit_frame, hP, pad4_length]; omega
    obtain ⟨r, cc⟩ := run_explicit env st0 h [] s b no_prefix_nil hs hsd hb1 hb2 (by omega)
    simp only [List.nil_append] at r cc
    have hl0 : (AT_CMD_PREFIX ++ pad4 b.length ++ s ++ [59] ++ b).length
        = b.length + (8 + s.length) := by
      simp [hP, pad4_length]; omega
    rw [feed_split env st0 cs w2 (c :: rest) _ (by simp) hcs hj cc
        (by rw [h.widx, hl0]; simp; omega), r,
      add_bad_trailer env st0 _ _ c rest h.len (by rw [hl0, hfl])
        (by rw [hl0]; simp; omega) hc hc10]
    exact ⟨rejected_outcome env st0 _ _ hm (by simpa [full] using ho) rfl (by decide), rfl⟩

/-- Witness of C12: the chunk `AT+00x7;PING;`, with a letter in the size field. -/
theorem C12_malformed_framing_witness :
    Fresh demo_state ∧ env_ok.mutex_get = cy_rslt_t.CY_RSLT_SUCCESS
    ∧ demo_state.output_buffer.length = AT_CMD_PARSER_BUFFER_SIZE
    ∧ rejection_outcome demo_state
        (feed env_ok demo_state ([] ++ [bytes "AT+00" ++ 120 :: bytes "7;PING;"])).1
        (bytes "Invalid size digit") :=
  ⟨demo_state_fresh, rfl, by simp [demo_state, g_cmd_parser_0],
   (C12_malformed_framing env_ok demo_state demo_state_fresh rfl
      (by simp [demo_state, g_cmd_parser_0])).1 (bytes "00") 120 (bytes "7;PING;") []
      (bytes "AT+00") (by decide) (by decide) (by decide) (by simp) (by decide) (by decide)⟩

/-- C13 (as stated, refuted): a valid frame that follows a rejected header in the
same chunk is not dispatched.  After the header `AT+99991;`, rejected for its
size, the frame `AT+00048;PING;` of the same chunk is discarded: the only event
is the error response.  Fed alone to the fresh parser, that frame is
dispatched. -/
theorem C13_frame_in_same_chunk_discarded :
    (at_cmd_add_command_chars env_ok demo_state
        (bytes "AT+99991;" ++ bytes "AT+00048;PING;")).1.trace
      = [Event.write (bytes "+S0028,0;1,Input buffer size exceeded;\r\n")]
    ∧ (at_cmd_add_command_chars env_ok demo_state (bytes "AT+00048;PING;")).1.trace
      = [Event.dispatch 8 4 (bytes "PING"), Event.callback 200 2 8 0 [],
         Event.queue_put { cmd_id := 2, serial := 8 }] := by
  decide

/-- C13 (amended): resumption after a rejected header.  When a header is rejected
because its nonzero size makes the total exceed the buffer size (in any chunking,
whatever follows the `;` in its chunk, which is not read), the error response is
sent and the scanner is back in the prefix-scanning state, ready for the next
frame.  Every valid frame fed in later chunks, possibly after noise without a
prefix, is then handled as from the fresh state: the same echo, the same body and
serial handed over, the same callback call with the same arguments, the same
queueing or error response, and the same status. -/
theorem C13_resumption_after_rejected_header (env : Env) (st0 : at_cmd_parser_t)
    (h : Fresh st0) (hm : env.mutex_get = cy_rslt_t.CY_RSLT_SUCCESS)
    (ho : st0.output_buffer.length = AT_CMD_PARSER_BUFFER_SIZE)
    (d s rest : List Nat) (cs : List (List Nat)) (w2 : List Nat)
    (hd : all_digits d) (hd4 : d.length = 4) (hs : s ≠ []) (hsd : all_digits s)
    (hpos : 0 < decimal_value d)
    (hbig : AT_CMD_PARSER_BUFFER_SIZE < decimal_value d + (8 + s.length) + 1)
    (hcs : ∀ ch ∈ cs, ch ≠ []) (hj : cs.flatten ++ w2 = AT_CMD_PREFIX ++ d ++ s)
    (hcap : 7 + s.length + (59 :: rest).length < AT_CMD_PARSER_BUFFER_SIZE) :
    rejection_outcome st0 (feed env st0 (cs ++ [w2 ++ 59 :: rest])).1
      (bytes "Input buffer size exceeded")
    ∧ Carried st0 (feed env st0 (cs ++ [w2 ++ 59 :: rest])).1
    ∧ (∀ (g s2 b2 : List Nat) (chunks : List (List Nat)),
        ¬ AT_CMD_PREFIX <:+: g ++ [65, 84] → s2 ≠ [] → all_digits s2 → 1 ≤ b2.length →
        b2.length ≤ AT_CMD_MAX_SIZE → (∀ ch ∈ chunks, ch ≠ []) →
        chunks.flatten = g ++ explicit_frame s2 b2 →
        (g ++ explicit_frame s2 b2).length < AT_CMD_PARSER_BUFFER_SIZE →
        (feed env (feed env st0 (cs ++ [w2 ++ 59 :: rest])).1 chunks).1.trace
          = (feed env st0 (cs ++ [w2 ++ 59 :: rest])).1.trace
              ++ echo_events st0.echo_cmd (explicit_frame s2 b2)
              ++ Event.dispatch (decimal_value s2 % 4294967296) b2.length b2
              :: dispatch_events env st0.cmd_tables (decimal_value s2 % 4294967296)
                  b2.length b2
        ∧ (feed env st0 chunks).1.trace
          = st0.trace ++ echo_events st0.echo_cmd (explicit_frame s2 b2)
              ++ Event.dispatch (decimal_value s2 % 4294967296) b2.length b2
              :: dispatch_events env st0.cmd_tables (decimal_value s2 % 4294967296)
                  b2.length b2
        ∧ (feed env (feed env st0 (cs ++ [w2 ++ 59 :: rest])).1 chunks).2
          = (feed env st0 chunks).2)
    ∧ (∀ (g s2 b2 : List Nat) (chunks : List (List Nat)),
        ¬ AT_CMD_PREFIX <:+: g ++ [65, 84] → s2 ≠ [] → all_digits s2 → 13 ∉ b2 →
        (∀ ch ∈ chunks, ch ≠ []) → chunks.flatten = g ++ implicit_frame s2 b2 →
        (g ++ implicit_frame s2 b2).length < AT_CMD_PARSER_BUFFER_SIZE →
        ∃ p1 p0 : List Nat,
          (feed env (feed env st0 (cs ++ [w2 ++ 59 :: rest])).1 chunks).1.trace
            = (feed env st0 (cs ++ [w2 ++ 59 :: rest])).1.trace
                ++ echo_events st0.echo_cmd
                    (AT_CMD_PREFIX ++ [48, 48, 48, 48] ++ s2 ++ [59]
                      ++ b2.filter (fun c => c != 10))
                ++ Event.dispatch (decimal_value s2 % 4294967296)
                    (frame_cmd_len (b2.filter (fun c => c != 10))) p1
                :: dispatch_events env st0.cmd_tables (decimal_value s2 % 4294967296)
                    (frame_cmd_len (b2.filter (fun c => c != 10)))
                    (frame_body (b2.filter (fun c => c != 10)))
          ∧ (feed env st0 chunks).1.trace
            = st0.trace
                ++ echo_events st0.echo_cmd
                    (AT_CMD_PREFIX ++ [48, 48, 48, 48] ++ s2 ++ [59]
                      ++ b2.filter (fun c => c != 10))
                ++ Event.dispatch (decimal_value s2 % 4294967296)
                    (frame_cmd_len (b2.filter (fun c => c != 10))) p0
                :: dispatch_events env st0.cmd_tables (decimal_value s2 % 4294967296)
                    (frame_cmd_len (b2.filter (fun c => c != 10)))
                    (frame_body (b2.filter (fun c => c != 10)))
          ∧ (b2.filter (fun c => c != 10) ≠ [] → p1 = p0)
          ∧ (feed env (feed env st0 (cs ++ [w2 ++ 59 :: rest])).1 chunks).2
            = (feed env st0 chunks).2) := by
  have hP : AT_CMD_PREFIX.length = 3 := rfl
  have hB := bufsize_eq
  have hspos : 0 < s.length := List.length_pos.2 hs
  obtain ⟨hv1, hv2⟩ := size_field_value d hd4 hd
  have htk : (d ++ s).take 4 = d := by rw [← hd4]; exact List.take_left' rfl
  have hj' : cs.flatten ++ w2 = AT_CMD_PREFIX ++ (d ++ s) := by rw [hj, List.append_assoc]
  have hfeed : feed env st0 (cs ++ [w2 ++ 59 :: rest])
      = (rejected env (mid st0 (AT_CMD_PREFIX ++ (d ++ s) ++ [59]) false
            (decimal_value d + ((AT_CMD_PREFIX ++ (d ++ s)).length + 2)))
          (bytes "Input buffer size exceeded"), cy_rslt_t.CY_RSLT_SUCCESS) := by
    rw [feed_header_then env st0 h (d ++ s) (all_digits_append hd hsd) cs w2 (59 :: rest)
        (by simp) hcs hj' (by simp only [List.length_append, hd4]; omega), htk, hv1,
      add_total_too_large env st0 _ _ rest h.len (by simp [hP, hd4]; omega)
        (by simp only [List.length_append, hP, hd4]; omega) hpos hv2
        (by simp only [List.length_append, hP, hd4]; omega)]
  have hcar : Carried st0 (feed env st0 (cs ++ [w2 ++ 59 :: rest])).1 := by
    rw [hfeed]
    exact rejected_carried env st0 _ _ hm
      (mid_buffer_length st0 _ _ _ h.len
        (by simp only [List.length_append, hP, hd4, List.length_singleton]
            simp only [List.length_cons] at hcap; omega))
      (by simpa [mid] using ho) rfl rfl rfl (by decide)
  refine ⟨?_, hcar, ?_, ?_⟩
  · rw [hfeed]
    exact rejected_outcome env st0 _ _ hm (by simpa [mid] using ho) rfl (by decide)
  · intro g s2 b2 chunks hg hs2 hsd2 hb1 hb2 hne hcj hc
    obtain ⟨a1, a2, _⟩ := feed_explicit_spec env _ hcar.fresh hm hcar.out g s2 b2 chunks hg hs2
      hsd2 hb1 hb2 hne hcj hc
    obtain ⟨b1, b2', _⟩ := feed_explicit_spec env st0 h hm ho g s2 b2 chunks hg hs2
      hsd2 hb1 hb2 hne hcj hc
    rw [hcar.tables, hcar.echo] at a1
    rw [hcar.tables] at a2
    exact ⟨a1, b1, by rw [a2, b2']⟩
  · intro g s2 b2 chunks hg hs2 hsd2 hb hne hcj hc
    obtain ⟨p1, a1, a2, a3, _⟩ := feed_implicit_spec env _ hcar.fresh hm hcar.out g s2 b2 chunks
      hg hs2 hsd2 hb hne hcj hc
    obtain ⟨p0, b1, b2', b3, _⟩ := feed_implicit_spec env st0 h hm ho g s2 b2 chunks
      hg hs2 hsd2 hb hne hcj hc
    rw [hcar.tables, hcar.echo] at a1
    rw [hcar.tables] at a3
    exact ⟨p1, p0, a1, b1, fun hne2 => by rw [a2 hne2, b2' hne2], by rw [a3, b3]⟩

/-- Witness of C13 (amended): the header `AT+99991;` fed in one call. -/
theorem C13_resumption_after_rejected_header_witness :
    Fresh demo_state ∧ env_ok.mutex_get = cy_rslt_t.CY_RSLT_SUCCESS
    ∧ demo_state.output_buffer.length = AT_CMD_PARSER_BUFFER_SIZE
    ∧ 0 < decimal_value (bytes "9999")
    ∧ AT_CMD_PARSER_BUFFER_SIZE < decimal_value (bytes "9999") + (8 + (bytes "1").length) + 1
    ∧ rejection_outcome demo_state
        (feed env_ok demo_state ([] ++ [bytes "AT+99991" ++ 59 :: []])).1
        (bytes "Input buffer size exceeded") :=
  ⟨demo_state_fresh, rfl, by simp [demo_state, g_cmd_parser_0], by decide, by decide,
   (C13_resumption_after_rejected_header env_ok demo_state demo_state_fresh rfl
      (by simp [demo_state, g_cmd_parser_0]) (bytes "9999") (bytes "1") [] [] (bytes "AT+99991")
      (by decide) (by decide) (by decide) (by decide) (by decide) (by decide) (by simp)
      (by decide) (by decide)).1⟩

/-- C14 (as stated, refuted): for the header `AT+99991;`, whose declared size makes
the total exceed the buffer size, the frame is aborted with the response
`Input buffer size exceeded`, but the call returns `CY_RSLT_SUCCESS`, not
`CY_AT_CMD_PARSER_BUFFER_OVERFLOW`. -/
theorem C14_header_overflow_returns_success :
    (at_cmd_add_command_chars env_ok demo_state (bytes "AT+99991;")).2
      = cy_rslt_t.CY_RSLT_SUCCESS
    ∧ (at_cmd_add_command_chars env_ok demo_state (bytes "AT+99991;")).2
      ≠ cy_rslt_t.CY_AT_CMD_PARSER_BUFFER_OVERFLOW
    ∧ (at_cmd_add_command_chars env_ok demo_state (bytes "AT+99991;")).1.trace
      = [Event.write (bytes "+S0028,0;1,Input buffer size exceeded;\r\n")] := by
  decide

/-- C14 (amended): the overflow status is returned by the capacity test made on
entry only.  In every state, a call with a non-empty chunk for which
`cmd_widx + count` reaches the buffer size returns
`CY_AT_CMD_PARSER_BUFFER_OVERFLOW`.  A header whose nonzero declared size makes the
total exceed the buffer size (from a fresh state, in any chunking, whatever
follows in the chunk) is aborted with the same response text and the reset, and
the call returns `CY_RSLT_SUCCESS`. -/
theorem C14_overflow_status (env : Env) (st0 : at_cmd_parser_t) (h : Fresh st0)
    (hm : env.mutex_get = cy_rslt_t.CY_RSLT_SUCCESS)
    (ho : st0.output_buffer.length = AT_CMD_PARSER_BUFFER_SIZE) :
    (∀ (st : at_cmd_parser_t) (chars : List Nat), chars ≠ [] →
        st.cmd_widx + chars.length < 4294967296 →
        AT_CMD_PARSER_BUFFER_SIZE ≤ st.cmd_widx + chars.length →
        (at_cmd_add_command_chars env st chars).2 = cy_rslt_t.CY_AT_CMD_PARSER_BUFFER_OVERFLOW)
    ∧ (∀ (d s rest : List Nat) (cs : List (List Nat)) (w2 : List Nat),
        all_digits d → d.length = 4 → s ≠ [] → all_digits s → 0 < decimal_value d →
        AT_CMD_PARSER_BUFFER_SIZE < decimal_value d + (8 + s.length) + 1 →
        (∀ ch ∈ cs, ch ≠ []) → cs.flatten ++ w2 = AT_CMD_PREFIX ++ d ++ s →
        7 + s.length + (59 :: rest).length < AT_CMD_PARSER_BUFFER_SIZE →
        (feed env st0 (cs ++ [w2 ++ 59 :: rest])).2 = cy_rslt_t.CY_RSLT_SUCCESS
        ∧ rejection_outcome st0 (feed env st0 (cs ++ [w2 ++ 59 :: rest])).1
            (bytes "Input buffer size exceeded")) := by
  have hP : AT_CMD_PREFIX.length = 3 := rfl
  have hB := bufsize_eq
  refine ⟨?_, ?_⟩
  · intro st chars hne hw hov
    rw [add_overflow env st chars hne (by simp only [u32, Nat.mod_eq_of_lt hw]; exact hov)]
  · intro d s rest cs w2 hd hd4 hs hsd hpos hbig hcs hj hcap
    have hspos : 0 < s.length := List.length_pos.2 hs
    obtain ⟨hv1, hv2⟩ := size_field_value d hd4 hd
    have htk : (d ++ s).take 4 = d := by rw [← hd4]; exact List.take_left' rfl
    rw [List.append_assoc] at hj
    rw [feed_header_then env st0 h (d ++ s) (all_digits_append hd hsd) cs w2 (59 :: rest)
        (by simp) hcs hj (by simp only [List.length_append, hd4]; omega), htk, hv1,
      add_total_too_large env st0 _ _ rest h.len (by simp [hP, hd4]; omega)
        (by simp only [List.length_append, hP, hd4]; omega) hpos hv2
        (by simp only [List.length_append, hP, hd4]; omega)]
    exact ⟨rfl, rejected_outcome env st0 _ _ hm (by simpa [mid] using ho) rfl (by decide)⟩

/-- Witness of C14 (amended): the fresh demo parser. -/
theorem C14_overflow_status_witness :
    Fresh demo_state ∧ env_ok.mutex_get = cy_rslt_t.CY_RSLT_SUCCESS
    ∧ demo_state.output_buffer.length = AT_CMD_PARSER_BUFFER_SIZE
    ∧ (feed env_ok demo_state ([] ++ [bytes "AT+99991" ++ 59 :: bytes "XYZ"])).2
      = cy_rslt_t.CY_RSLT_SUCCESS :=
  ⟨demo_state_fresh, rfl, by simp [demo_state, g_cmd_parser_0],
   ((C14_overflow_status env_ok demo_state demo_state_fresh rfl
      (by simp [demo_state, g_cmd_parser_0])).2 (bytes "9999") (bytes "1") (bytes "XYZ") []
      (bytes "AT+99991") (by decide) (by decide) (by decide) (by decide) (by decide) (by decide)
      (by simp) (by decide) (by decide)).1⟩

/-- C15: the capacity test made on entry, `cmd_widx + count >= AT_CMD_PARSER_BUFFER_SIZE`
in `uint32_t` (the sum itself when it is below `2 ^ 32`).  In every state, for every
non-empty chunk, with the output mutex obtained: when the test holds, the call
reads no byte of the chunk (any chunk of that length gives the same result),
leaves the command buffer as it is, sends exactly one response, with serial 0,
resets the per-frame state and returns `CY_AT_CMD_PARSER_BUFFER_OVERFLOW`; when it
does not hold, the call is the prefix scan followed by the main loop, and the
overflow branch is not taken. -/
theorem C15_entry_capacity_check (env : Env) (st : at_cmd_parser_t) (chars : List Nat)
    (hne : chars ≠ []) (hm : env.mutex_get = cy_rslt_t.CY_RSLT_SUCCESS)
    (ho : st.output_buffer.length = AT_CMD_PARSER_BUFFER_SIZE) :
    (st.cmd_widx + chars.length < 4294967296 →
        u32 (st.cmd_widx + chars.length) = st.cmd_widx + chars.length)
    ∧ (AT_CMD_PARSER_BUFFER_SIZE ≤ u32 (st.cmd_widx + chars.length) →
        (at_cmd_add_command_chars env st chars).2 = cy_rslt_t.CY_AT_CMD_PARSER_BUFFER_OVERFLOW
        ∧ (∀ chars2 : List Nat, chars2.length = chars.length →
            at_cmd_add_command_chars env st chars2 = at_cmd_add_command_chars env st chars)
        ∧ (at_cmd_add_command_chars env st chars).1.command_buffer = st.command_buffer
        ∧ rejection_outcome st (at_cmd_add_command_chars env st chars).1
            (bytes "Input buffer size exceeded"))
    ∧ (u32 (st.cmd_widx + chars.length) < AT_CMD_PARSER_BUFFER_SIZE →
        at_cmd_add_command_chars env st chars
          = if st.reading_cmd = true then
              add_chars_loop env st chars 0 cy_rslt_t.CY_RSLT_SUCCESS
            else if ( at_cmd_scan_for_prefix st chars 0).1.reading_cmd = true then
              add_chars_loop env ( at_cmd_scan_for_prefix st chars 0).1
                (chars.drop ( at_cmd_scan_for_prefix st chars 0).2) 0 cy_rslt_t.CY_RSLT_SUCCESS
            else (( at_cmd_scan_for_prefix st chars 0).1, cy_rslt_t.CY_RSLT_SUCCESS)) := by
  refine ⟨?_, ?_, ?_⟩
  · intro hw
    simp only [u32, Nat.mod_eq_of_lt hw]
  · intro hov
    rw [add_overflow env st chars hne hov]
    refine ⟨rfl, ?_, ?_, ?_⟩
    · intro chars2 hl
      exact add_overflow env st chars2
        (by intro hnil; rw [hnil] at hl; exact hne (List.length_eq_zero.1 hl.symm))
        (by rw [hl]; exact hov)
    · exact (rejected_spec env st _ hm ho (by decide)).2.1
    · exact rejected_outcome env st st _ hm ho rfl (by decide)
  · intro hlt
    exact add_no_overflow env st chars hne hlt

/-- Witness of C15: a state with the write index at the last position of the
buffer and a chunk of one byte. -/
theorem C15_entry_capacity_check_witness :
    bytes "A" ≠ [] ∧ env_ok.mutex_get = cy_rslt_t.CY_RSLT_SUCCESS
    ∧ (at_cmd_add_command_chars env_ok { demo_state with cmd_widx := 6183 } (bytes "A")).2
          = cy_rslt_t.CY_AT_CMD_PARSER_BUFFER_OVERFLOW :=
  ⟨by decide, rfl,
   ((C15_entry_capacity_check env_ok { demo_state with cmd_widx := 6183 } (bytes "A")
      (by decide) rfl (by simp [demo_state, g_cmd_parser_0])).2.1 (by decide)).1⟩

/-! ## Capacity invariant -/

/-- C16: capacity invariant.  From a state in which both buffers have their
`AT_CMD_PARSER_BUFFER_SIZE` bytes, no store has gone outside them and `cmd_widx` is
below `AT_CMD_PARSER_BUFFER_SIZE` (the parser before any input and every reset
state are such states), after any sequence of calls of `at_cmd_add_command_chars`
on chunks of at most `2 ^ 32 - AT_CMD_PARSER_BUFFER_SIZE` bytes (the input thread
passes at most 64), `cmd_widx` is below `AT_CMD_PARSER_BUFFER_SIZE`, the buffers
keep their size and no store of the scanner, of the dispatcher or of the encoder
has been made at an index outside its buffer: the flag `fault`, which the
out-of-range branch of a store sets, is still unset.  The flag is never cleared:
set in some state, it is set after any further calls. -/
theorem C16_capacity_invariant (env : Env) (st0 : at_cmd_parser_t)
    (chunks : List (List Nat))
    (hlen : st0.command_buffer.length = AT_CMD_PARSER_BUFFER_SIZE
      ∧ st0.output_buffer.length = AT_CMD_PARSER_BUFFER_SIZE)
    (hfault : st0.fault = false)
    (hw : st0.cmd_widx < AT_CMD_PARSER_BUFFER_SIZE)
    (hl : ∀ ch ∈ chunks, ch.length + AT_CMD_PARSER_BUFFER_SIZE ≤ 4294967296) :
    (feed env st0 chunks).1.cmd_widx < AT_CMD_PARSER_BUFFER_SIZE
    ∧ (feed env st0 chunks).1.fault = false
    ∧ (feed env st0 chunks).1.command_buffer.length = AT_CMD_PARSER_BUFFER_SIZE
    ∧ (feed env st0 chunks).1.output_buffer.length = AT_CMD_PARSER_BUFFER_SIZE
    ∧ (∀ (st : at_cmd_parser_t) (cs : List (List Nat)), st.fault = true →
        (feed env st cs).1.fault = true) := by
  obtain ⟨h1, h2⟩ := feed_sound env chunks st0 ⟨hlen.1, hlen.2, hfault⟩ hw hl
  exact ⟨h2, h1.no_fault, h1.cmd_len, h1.out_len, fun st cs h => feed_fault env cs st h⟩

/-- C16 at the parser before any input, fed `AT+00001;PI` and `NG` with a carriage
return in two calls. -/
theorem C16_capacity_invariant_witness :
    (demo_state.command_buffer.length = AT_CMD_PARSER_BUFFER_SIZE
      ∧ demo_state.output_buffer.length = AT_CMD_PARSER_BUFFER_SIZE)
    ∧ demo_state.fault = false
    ∧ demo_state.cmd_widx < AT_CMD_PARSER_BUFFER_SIZE
    ∧ (∀ ch ∈ [bytes "AT+00001;PI", bytes "NG\r"],
        ch.length + AT_CMD_PARSER_BUFFER_SIZE ≤ 4294967296)
    ∧ (feed env_ok demo_state [bytes "AT+00001;PI", bytes "NG\r"]).1.cmd_widx
        < AT_CMD_PARSER_BUFFER_SIZE
    ∧ (feed env_ok demo_state [bytes "AT+00001;PI", bytes "NG\r"]).1.fault = false
    ∧ (feed env_ok demo_state [bytes "AT+00001;PI", bytes "NG\r"]).1.command_buffer.length
        = AT_CMD_PARSER_BUFFER_SIZE
    ∧ (feed env_ok demo_state [bytes "AT+00001;PI", bytes "NG\r"]).1.output_buffer.length
        = AT_CMD_PARSER_BUFFER_SIZE
    ∧ (∀ (st : at_cmd_parser_t) (cs : List (List Nat)), st.fault = true →
        (feed env_ok st cs).1.fault = true) :=
  have h1 : demo_state.command_buffer.length = AT_CMD_PARSER_BUFFER_SIZE
      ∧ demo_state.output_buffer.length = AT_CMD_PARSER_BUFFER_SIZE :=
    ⟨(g_cmd_parser_0_sound demo_tables false).cmd_len,
     (g_cmd_parser_0_sound demo_tables false).out_len⟩
  have h2 : demo_state.cmd_widx < AT_CMD_PARSER_BUFFER_SIZE := by decide
  have h3 : ∀ ch ∈ [bytes "AT+00001;PI", bytes "NG\r"],
      ch.length + AT_CMD_PARSER_BUFFER_SIZE ≤ 4294967296 := by decide
  ⟨h1, rfl, h2, h3,
    C16_capacity_invariant env_ok demo_state [bytes "AT+00001;PI", bytes "NG\r"] h1 rfl h2 h3⟩

/-! ## Dispatcher: the claims -/

/-- C17: first-match-wins dispatch.  Let the tables `ts` be registered by
successive successful calls of `at_cmd_parser_register_commands` after those
already in the registry, and let the command buffer hold a NUL-terminated body `b`
at `cmd_buf`.  The registry is then the earlier tables followed by `ts` in the
order of the calls, and for the first entry `e` (tables in that order, entries in
their order within a table) whose name is the command name found in `b`,
`at_cmd_parse_cmd` calls the callback of `e` with the id of `e`, once, calls no
other callback and returns what that callback returns. -/
theorem C17_first_match_wins (env : Env) (st0 : at_cmd_parser_t) (ts : List at_cmd_table_t)
    (serial cmd_len : Nat) (hd b rest : List Nat) (pre post : List at_cmd_def_t)
    (e : at_cmd_def_t)
    (hreg : ∀ t ∈ ts, t.num_cmds ≠ 0)
    (hbuf : st0.command_buffer = hd ++ (b ++ 0 :: rest))
    (hlt : hd.length + b.length < AT_CMD_PARSER_BUFFER_SIZE)
    (hsplit : registry_entries (st0.cmd_tables ++ ts) = pre ++ e :: post)
    (he : e.cmd_name = some (body_name b))
    (hpre : ∀ x ∈ pre, x.cmd_name ≠ some (body_name b)) :
    (register_all st0 ts).cmd_tables = st0.cmd_tables ++ ts
    ∧ (at_cmd_parse_cmd env (register_all st0 ts) serial cmd_len hd.length).1.trace
        = st0.trace ++ [Event.dispatch serial cmd_len ((b ++ 0 :: rest).take cmd_len),
            Event.callback e.cmd_parser_fn e.cmd_id serial
              (u32sub cmd_len (body_args_offset b)) (body_args b)]
    ∧ (at_cmd_parse_cmd env (register_all st0 ts) serial cmd_len hd.length).2
        = env.callback e.cmd_parser_fn e.cmd_id serial
            (u32sub cmd_len (body_args_offset b)) (body_args b) := by
  have hr := register_all_spec ts st0 hreg
  have hf : find_cmd (register_all st0 ts).cmd_tables (body_name b) = some e := by
    rw [hr]
    exact find_cmd_first _ _ pre post e hsplit he hpre
  have hb : (register_all st0 ts).command_buffer = hd ++ (b ++ 0 :: rest) := by
    rw [hr]; exact hbuf
  have ht : (register_all st0 ts).trace = st0.trace := by rw [hr]
  obtain ⟨h1, h2⟩ := parse_cmd_found env (register_all st0 ts) serial cmd_len hd b rest e hb hlt hf
  rw [ht] at h1
  exact ⟨by rw [hr], h1, h2⟩

/-- C17 at two tables registered one after the other, each with an entry named
`X`, and the finalized frame `AT+00001;X`: the callback 100 with id 1 of the table
registered first is called; and the same through the scanner, for the frame
`AT+00001;X` ended by a carriage return. -/
theorem C17_first_match_wins_witness :
    (∀ t ∈ [table_X1, table_X2], t.num_cmds ≠ 0)
    ∧ (full (g_cmd_parser_0 [] false) (bytes "AT+00001;X") 0).command_buffer
        = bytes "AT+00001;" ++ (bytes "X" ++ 0 ::
            (g_cmd_parser_0 [] false).command_buffer.drop 11)
    ∧ registry_entries ((full (g_cmd_parser_0 [] false) (bytes "AT+00001;X") 0).cmd_tables
          ++ [table_X1, table_X2])
        = [] ++ { cmd_name := some (bytes "X"), cmd_id := 1, cmd_parser_fn := 100 }
            :: [{ cmd_name := some (bytes "X"), cmd_id := 2, cmd_parser_fn := 200 }]
    ∧ ((register_all (full (g_cmd_parser_0 [] false) (bytes "AT+00001;X") 0)
          [table_X1, table_X2]).cmd_tables
        = (full (g_cmd_parser_0 [] false) (bytes "AT+00001;X") 0).cmd_tables
            ++ [table_X1, table_X2]
      ∧ (at_cmd_parse_cmd env_ok
          (register_all (full (g_cmd_parser_0 [] false) (bytes "AT+00001;X") 0)
            [table_X1, table_X2]) 1 1 (bytes "AT+00001;").length).1.trace
        = (full (g_cmd_parser_0 [] false) (bytes "AT+00001;X") 0).trace
          ++ [Event.dispatch 1 1
                ((bytes "X" ++ 0 :: (g_cmd_parser_0 [] false).command_buffer.drop 11).take 1),
              Event.callback 100 1 1 (u32sub 1 (body_args_offset (bytes "X")))
                (body_args (bytes "X"))]
      ∧ (at_cmd_parse_cmd env_ok
          (register_all (full (g_cmd_parser_0 [] false) (bytes "AT+00001;X") 0)
            [table_X1, table_X2]) 1 1 (bytes "AT+00001;").length).2
        = env_ok.callback 100 1 1 (u32sub 1 (body_args_offset (bytes "X")))
            (body_args (bytes "X")))
    ∧ (feed env_ok (register_all (g_cmd_parser_0 [] false) [table_X1, table_X2])
        [bytes "AT+00001;X\r"]).1.trace
        = [Event.dispatch 1 1 (bytes "X"), Event.callback 100 1 1 0 [],
           Event.queue_put { cmd_id := 1, serial := 1 }] :=
  have h1 : ∀ t ∈ [table_X1, table_X2], t.num_cmds ≠ 0 := by decide
  have h2 : (full (g_cmd_parser_0 [] false) (bytes "AT+00001;X") 0).command_buffer
        = bytes "AT+00001;" ++ (bytes "X" ++ 0 ::
            (g_cmd_parser_0 [] false).command_buffer.drop 11) := rfl
  have h3 : registry_entries ((full (g_cmd_parser_0 [] false) (bytes "AT+00001;X") 0).cmd_tables
          ++ [table_X1, table_X2])
        = [] ++ { cmd_name := some (bytes "X"), cmd_id := 1, cmd_parser_fn := 100 }
            :: [{ cmd_name := some (bytes "X"), cmd_id := 2, cmd_parser_fn := 200 }] := rfl
  ⟨h1, h2, h3,
    C17_first_match_wins env_ok (full (g_cmd_parser_0 [] false) (bytes "AT+00001;X") 0)
      [table_X1, table_X2] 1 1 (bytes "AT+00001;") (bytes "X")
      ((g_cmd_parser_0 [] false).command_buffer.drop 11) []
      [{ cmd_name := some (bytes "X"), cmd_id := 2, cmd_parser_fn := 200 }]
      { cmd_name := some (bytes "X"), cmd_id := 1, cmd_parser_fn := 100 }
      h1 h2 (by decide) h3 (by decide) (by simp),
    by decide⟩

/-- C18: exact-name matching.  With a NUL-terminated body `b` at `cmd_buf`, the
test `at_cmd_parse_cmd` makes of a table entry succeeds if and only if the entry
has a name and that name is, byte for byte and in length, the command name found in
`b`; so an entry whose name the command name properly begins, properly extends, or
differs from only in the case of letters is not matched.  When some entry of the
registry has the command name, the callback of one such entry is called, once; when
none has, no callback is called and the function returns NULL. -/
theorem C18_exact_name_matching (env : Env) (st : at_cmd_parser_t) (serial cmd_len : Nat)
    (hd b rest : List Nat)
    (hbuf : st.command_buffer = hd ++ (b ++ 0 :: rest))
    (hlt : hd.length + b.length < AT_CMD_PARSER_BUFFER_SIZE) :
    (∀ cmd : at_cmd_def_t,
      cmd_matches (body_name b) cmd = true
        ↔ ∃ n, cmd.cmd_name = some n ∧ n.length = (body_name b).length ∧ n = body_name b)
    ∧ (∀ (cmd : at_cmd_def_t) (n : List Nat), cmd.cmd_name = some n →
        ((body_name b <+: n ∧ body_name b ≠ n) ∨ (n <+: body_name b ∧ n ≠ body_name b)
          ∨ (body_name b ≠ n ∧ (body_name b).map toupper = n.map toupper)) →
        cmd_matches (body_name b) cmd = false)
    ∧ (st.cmd_tables.findSome? (fun t =>
          (t.cmd_table.take t.num_cmds).find? (cmd_matches (body_name b)))
        = find_cmd st.cmd_tables (body_name b))
    ∧ ((∃ e ∈ registry_entries st.cmd_tables, e.cmd_name = some (body_name b)) →
        ∃ e ∈ registry_entries st.cmd_tables, e.cmd_name = some (body_name b)
          ∧ (at_cmd_parse_cmd env st serial cmd_len hd.length).1.trace
              = st.trace ++ [Event.dispatch serial cmd_len ((b ++ 0 :: rest).take cmd_len),
                  Event.callback e.cmd_parser_fn e.cmd_id serial
                    (u32sub cmd_len (body_args_offset b)) (body_args b)]
          ∧ (at_cmd_parse_cmd env st serial cmd_len hd.length).2
              = env.callback e.cmd_parser_fn e.cmd_id serial
                  (u32sub cmd_len (body_args_offset b)) (body_args b))
    ∧ ((∀ e ∈ registry_entries st.cmd_tables, e.cmd_name ≠ some (body_name b)) →
        (at_cmd_parse_cmd env st serial cmd_len hd.length).1.trace
            = st.trace ++ [Event.dispatch serial cmd_len ((b ++ 0 :: rest).take cmd_len)]
        ∧ (at_cmd_parse_cmd env st serial cmd_len hd.length).2 = none) := by
  have hneq : ∀ (cmd : at_cmd_def_t) (n : List Nat), cmd.cmd_name = some n → body_name b ≠ n →
      cmd_matches (body_name b) cmd = false := by
    intro cmd n hn hne
    cases hm : cmd_matches (body_name b) cmd with
    | false => rfl
    | true =>
      have := (cmd_matches_iff _ cmd).1 hm
      rw [hn] at this
      exact absurd (Option.some.inj this).symm hne
  refine ⟨?_, ?_, (find_cmd_eq _ _).symm, ?_, ?_⟩
  · intro cmd
    rw [cmd_matches_iff]
    constructor
    · intro h
      exact ⟨_, h, rfl, rfl⟩
    · rintro ⟨n, h1, _, h3⟩
      rw [h1, h3]
  · intro cmd n hn h
    apply hneq cmd n hn
    rcases h with ⟨_, h⟩ | ⟨_, h⟩ | ⟨h, _⟩
    · exact h
    · exact fun h2 => h h2.symm
    · exact h
  · rintro ⟨e0, he0, hn0⟩
    cases hf : find_cmd st.cmd_tables (body_name b) with
    | none => exact absurd hn0 ((find_cmd_none _ _).1 hf e0 he0)
    | some e =>
      obtain ⟨h1, pre, post, h2, _⟩ := find_cmd_some _ _ e hf
      obtain ⟨h3, h4⟩ := parse_cmd_found env st serial cmd_len hd b rest e hbuf hlt hf
      exact ⟨e, by rw [h2]; simp, h1, h3, h4⟩
  · intro h
    exact parse_cmd_not_found env st serial cmd_len hd b rest hbuf hlt
      ((find_cmd_none _ _).2 h)

/-- C18 at the registry with `ECHO` and `PING` and the finalized frame
`AT+00001;PIN`, whose command name properly begins `PING`: no callback is called
and the function returns NULL; and through the scanner the names `PIN`, `PINGS`
and `ping` are answered `Invalid cmd` without any callback, the name `PING` is
dispatched. -/
theorem C18_exact_name_matching_witness :
    (full demo_state (bytes "AT+00001;PIN") 0).command_buffer
        = bytes "AT+00001;" ++ (bytes "PIN" ++ 0 :: demo_state.command_buffer.drop 13)
    ∧ (bytes "AT+00001;").length + (bytes "PIN").length < AT_CMD_PARSER_BUFFER_SIZE
    ∧ ((at_cmd_parse_cmd env_ok (full demo_state (bytes "AT+00001;PIN") 0) 1 3
          (bytes "AT+00001;").length).1.trace
        = (full demo_state (bytes "AT+00001;PIN") 0).trace
          ++ [Event.dispatch 1 3
                ((bytes "PIN" ++ 0 :: demo_state.command_buffer.drop 13).take 3)]
      ∧ (at_cmd_parse_cmd env_ok (full demo_state (bytes "AT+00001;PIN") 0) 1 3
          (bytes "AT+00001;").length).2 = none)
    ∧ (feed env_ok demo_state [bytes "AT+00001;PIN\r"]).1.trace
        = [Event.dispatch 1 3 (bytes "PIN"), Event.write (bytes "+S0013,0;1,Invalid cmd;\r\n")]
    ∧ (feed env_ok demo_state [bytes "AT+00001;PINGS\r"]).1.trace
        = [Event.dispatch 1 5 (bytes "PINGS"),
           Event.write (bytes "+S0013,0;1,Invalid cmd;\r\n")]
    ∧ (feed env_ok demo_state [bytes "AT+00001;ping\r"]).1.trace
        = [Event.dispatch 1 4 (bytes "ping"), Event.write (bytes "+S0013,0;1,Invalid cmd;\r\n")]
    ∧ (feed env_ok demo_state [bytes "AT+00001;PING\r"]).1.trace
        = [Event.dispatch 1 4 (bytes "PING"), Event.callback 200 2 1 0 [],
           Event.queue_put { cmd_id := 2, serial := 1 }] :=
  have h1 : (full demo_state (bytes "AT+00001;PIN") 0).command_buffer
        = bytes "AT+00001;" ++ (bytes "PIN" ++ 0 :: demo_state.command_buffer.drop 13) := rfl
  have h2 : (bytes "AT+00001;").length + (bytes "PIN").length < AT_CMD_PARSER_BUFFER_SIZE := by
    decide
  ⟨h1, h2,
    (C18_exact_name_matching env_ok (full demo_state (bytes "AT+00001;PIN") 0) 1 3
      (bytes "AT+00001;") (bytes "PIN") (demo_state.command_buffer.drop 13) h1 h2).2.2.2.2
      (by decide),
    by decide, by decide, by decide, by decide⟩

/-- C19 (the code evaluated at the failing input): with a command of empty name
registered, the implicit-mode frame `AT+00001;` ended by a carriage return, whose
body is empty, has the `;` of its header stripped as if it were a trailing `;` of
the body, and the callback is called with the argument length `2 ^ 32 - 1` and an
empty argument string.  The frames with the bodies `;` and `ECHO` are dispatched
with the argument length 0, and the frame with the body `ECHO,a,b` with the
argument string `a,b` of length 3. -/
theorem C19_empty_body_argument_length :
    (feed env_ok (g_cmd_parser_0 tables_empty_name false)
        [bytes "AT+00001;\r"]).1.trace.filter is_callback
      = [Event.callback 900 9 1 4294967295 []]
    ∧ (feed env_ok (g_cmd_parser_0 tables_empty_name false)
        [bytes "AT+00001;;\r"]).1.trace.filter is_callback
      = [Event.callback 900 9 1 0 []]
    ∧ (feed env_ok (g_cmd_parser_0 tables_empty_name false)
        [bytes "AT+00001;ECHO\r"]).1.trace
      = [Event.dispatch 1 4 (bytes "ECHO"), Event.callback 100 1 1 0 [],
         Event.queue_put { cmd_id := 1, serial := 1 }]
    ∧ (feed env_ok (g_cmd_parser_0 tables_empty_name false)
        [bytes "AT+00001;ECHO,a,b\r"]).1.trace
      = [Event.dispatch 1 8 (bytes "ECHO,a,b"), Event.callback 100 1 1 3 (bytes "a,b"),
         Event.queue_put { cmd_id := 1, serial := 1 }] := by
  decide

/-- C20 (as stated, refuted): the well-framed requests `AT+00007;NOPE` (implicit
mode) and `AT+00047;NOPE;` (explicit mode) carry the serial 7 and name a command
that is not registered, and `AT+00007;PING` names a registered command whose
callback returns NULL.  The response sent for each is `+S0013,0;1,Invalid cmd;`
with serial 0, not the response with serial 7. -/
theorem C20_error_response_does_not_carry_serial :
    (feed env_ok demo_state [bytes "AT+00007;NOPE\r"]).1.trace
      = [Event.dispatch 7 4 (bytes "NOPE"), Event.write (bytes "+S0013,0;1,Invalid cmd;\r\n")]
    ∧ (feed env_ok demo_state [bytes "AT+00047;NOPE;"]).1.trace
      = [Event.dispatch 7 4 (bytes "NOPE"), Event.write (bytes "+S0013,0;1,Invalid cmd;\r\n")]
    ∧ (feed env_null demo_state [bytes "AT+00007;PING\r"]).1.trace
      = [Event.dispatch 7 4 (bytes "PING"), Event.callback 200 2 7 0 [],
         Event.write (bytes "+S0013,0;1,Invalid cmd;\r\n")]
    ∧ response_frame 83 0 (sync_payload 1 (some (bytes "Invalid cmd")))
      = bytes "+S0013,0;1,Invalid cmd;\r\n"
    ∧ response_frame 83 7 (sync_payload 1 (some (bytes "Invalid cmd")))
      = bytes "+S0013,7;1,Invalid cmd;\r\n"
    ∧ bytes "+S0013,0;1,Invalid cmd;\r\n" ≠ bytes "+S0013,7;1,Invalid cmd;\r\n" := by
  decide

/-- C20 (amended): the error response carries serial 0.  For a well-framed request
with serial digits `s`, after noise without a full prefix and fed in any chunks
from a fresh state with the output mutex obtained, whose command is unknown to the
registry or whose callback returns NULL (the dispatcher returns no message): after
the echo, the hand-over and the call of the callback if the command is known,
exactly one response is written, the synchronous response with serial 0, status 1
and the text `Invalid cmd`, whatever the serial of the request, and the call
returns `CY_AT_CMD_PARSER_ERROR`.  This holds for the explicit-mode frame with the
body `b` and for the implicit-mode frame with the body `b`. -/
theorem C20_error_response_serial_zero (env : Env) (st0 : at_cmd_parser_t) (h : Fresh st0)
    (hm : env.mutex_get = cy_rslt_t.CY_RSLT_SUCCESS)
    (ho : st0.output_buffer.length = AT_CMD_PARSER_BUFFER_SIZE)
    (g s b : List Nat) (chunks : List (List Nat))
    (hg : ¬ AT_CMD_PREFIX <:+: g ++ [65, 84]) (hs : s ≠ []) (hsd : all_digits s)
    (hne : ∀ ch ∈ chunks, ch ≠ []) :
    (chunks.flatten = g ++ explicit_frame s b → 1 ≤ b.length → b.length ≤ AT_CMD_MAX_SIZE →
      (g ++ explicit_frame s b).length < AT_CMD_PARSER_BUFFER_SIZE →
      handler_result env st0.cmd_tables (decimal_value s % 4294967296) b.length b = none →
      (feed env st0 chunks).1.trace
        = st0.trace ++ echo_events st0.echo_cmd (explicit_frame s b)
            ++ Event.dispatch (decimal_value s % 4294967296) b.length b
            :: (handler_call st0.cmd_tables (decimal_value s % 4294967296) b.length b
                ++ [Event.write
                      (response_frame 83 0 (sync_payload 1 (some (bytes "Invalid cmd"))))])
      ∧ (feed env st0 chunks).2 = cy_rslt_t.CY_AT_CMD_PARSER_ERROR)
    ∧ (chunks.flatten = g ++ implicit_frame s b → 13 ∉ b →
      (g ++ implicit_frame s b).length < AT_CMD_PARSER_BUFFER_SIZE →
      handler_result env st0.cmd_tables (decimal_value s % 4294967296)
        (frame_cmd_len (b.filter (fun c => c != 10)))
        (frame_body (b.filter (fun c => c != 10))) = none →
      ∃ payload : List Nat,
        (feed env st0 chunks).1.trace
          = st0.trace ++ echo_events st0.echo_cmd
              (AT_CMD_PREFIX ++ [48, 48, 48, 48] ++ s ++ [59] ++ b.filter (fun c => c != 10))
              ++ Event.dispatch (decimal_value s % 4294967296)
                  (frame_cmd_len (b.filter (fun c => c != 10))) payload
              :: (handler_call st0.cmd_tables (decimal_value s % 4294967296)
                    (frame_cmd_len (b.filter (fun c => c != 10)))
                    (frame_body (b.filter (fun c => c != 10)))
                  ++ [Event.write
                        (response_frame 83 0 (sync_payload 1 (some (bytes "Invalid cmd"))))])
        ∧ (b.filter (fun c => c != 10) ≠ [] →
            payload = frame_body (b.filter (fun c => c != 10)))
        ∧ (feed env st0 chunks).2 = cy_rslt_t.CY_AT_CMD_PARSER_ERROR) := by
  constructor
  · intro hj hb1 hb2 hcap hnone
    obtain ⟨h1, h2, _⟩ := feed_explicit_spec env st0 h hm ho g s b chunks hg hs hsd hb1 hb2
      hne hj hcap
    rw [h1, h2, dispatch_events, hnone]
    exact ⟨rfl, rfl⟩
  · intro hj hb hcap hnone
    obtain ⟨payload, h1, h2, h3, _⟩ := feed_implicit_spec env st0 h hm ho g s b chunks hg hs hsd
      hb hne hj hcap
    refine ⟨payload, ?_, h2, ?_⟩
    · rw [h1, dispatch_events, hnone]
      rfl
    · rw [h3, hnone]
      rfl

/-- C20 (amended) at the registry with `ECHO` and `PING`: the explicit-mode frame
`AT+00047;NOPE;` fed in two chunks, and the implicit-mode frame `AT+00007;PING`
with callbacks returning NULL. -/
theorem C20_error_response_serial_zero_witness :
    Fresh demo_state
    ∧ ((feed env_ok demo_state [bytes "AT+0004", bytes "7;NOPE;"]).1.trace
        = demo_state.trace ++ echo_events demo_state.echo_cmd (explicit_frame [55] (bytes "NOPE"))
            ++ Event.dispatch (decimal_value [55] % 4294967296) (bytes "NOPE").length
                (bytes "NOPE")
            :: (handler_call demo_state.cmd_tables (decimal_value [55] % 4294967296)
                  (bytes "NOPE").length (bytes "NOPE")
                ++ [Event.write
                      (response_frame 83 0 (sync_payload 1 (some (bytes "Invalid cmd"))))])
      ∧ (feed env_ok demo_state [bytes "AT+0004", bytes "7;NOPE;"]).2
          = cy_rslt_t.CY_AT_CMD_PARSER_ERROR)
    ∧ (∃ payload : List Nat,
        (feed env_null demo_state [bytes "AT+00007;PING\r"]).1.trace
          = demo_state.trace ++ echo_events demo_state.echo_cmd
              (AT_CMD_PREFIX ++ [48, 48, 48, 48] ++ [55] ++ [59]
                ++ (bytes "PING").filter (fun c => c != 10))
              ++ Event.dispatch (decimal_value [55] % 4294967296)
                  (frame_cmd_len ((bytes "PING").filter (fun c => c != 10))) payload
              :: (handler_call demo_state.cmd_tables (decimal_value [55] % 4294967296)
                    (frame_cmd_len ((bytes "PING").filter (fun c => c != 10)))
                    (frame_body ((bytes "PING").filter (fun c => c != 10)))
                  ++ [Event.write
                        (response_frame 83 0 (sync_payload 1 (some (bytes "Invalid cmd"))))])
        ∧ ((bytes "PING").filter (fun c => c != 10) ≠ [] →
            payload = frame_body ((bytes "PING").filter (fun c => c != 10)))
        ∧ (feed env_null demo_state [bytes "AT+00007;PING\r"]).2
            = cy_rslt_t.CY_AT_CMD_PARSER_ERROR) :=
  ⟨demo_state_fresh,
    (C20_error_response_serial_zero env_ok demo_state demo_state_fresh rfl
      (g_cmd_parser_0_sound demo_tables false).out_len
      [] [55] (bytes "NOPE") [bytes "AT+0004", bytes "7;NOPE;"] (by decide) (by decide)
      (by decide) (by decide)).1 (by decide) (by decide) (by decide) (by decide) (by decide),
    (C20_error_response_serial_zero env_null demo_state demo_state_fresh rfl
      (g_cmd_parser_0_sound demo_tables false).out_len
      [] [55] (bytes "PING") [bytes "AT+00007;PING\r"] (by decide) (by decide)
      (by decide) (by decide)).2 (by decide) (by decide) (by decide) (by decide)⟩

/-! ## Completion of a frame: the claims -/

/-- A frame fed from a fresh state in any chunks, after noise without a full
prefix, the last chunk ending on the last byte of the frame (the closing `;` of an
explicit-mode frame, the carriage return of an implicit-mode frame): when the last
call returns, `reading_cmd` and `cmd_header` are false and `cmd_widx`, `cmd_size`
and `at_cmd_prefix_idx` are 0.  The environment is arbitrary, so this holds whether
the dispatch succeeds, the command is unknown, the callback returns NULL or the
queue put fails. -/
theorem reset_on_completion_from_fresh (env : Env) (st0 : at_cmd_parser_t) (h : Fresh st0)
    (g s b : List Nat) (chunks : List (List Nat))
    (hg : ¬ AT_CMD_PREFIX <:+: g ++ [65, 84]) (hs : s ≠ []) (hsd : all_digits s)
    (hne : ∀ ch ∈ chunks, ch ≠ []) :
    (chunks.flatten = g ++ explicit_frame s b → 1 ≤ b.length → b.length ≤ 9999 →
      (g ++ explicit_frame s b).length < AT_CMD_PARSER_BUFFER_SIZE →
      is_reset (feed env st0 chunks).1)
    ∧ (chunks.flatten = g ++ implicit_frame s b → 13 ∉ b →
      (g ++ implicit_frame s b).length < AT_CMD_PARSER_BUFFER_SIZE →
      is_reset (feed env st0 chunks).1) := by
  constructor
  · intro hj hb1 hb2 hcap
    rw [feed_explicit env st0 h g s b chunks hg hs hsd hb1 hb2 hne hj hcap]
    exact ⟨rfl, rfl, rfl, rfl, rfl⟩
  · intro hj hb hcap
    rw [feed_implicit env st0 h g s b chunks hg hs hsd hb hne hj hcap]
    exact ⟨rfl, rfl, rfl, rfl, rfl⟩

/-- C21 (the code evaluated at the failing input): the chunk
`AT+00047;PING;AT+00048;PING;`, two explicit-mode frames, ends exactly on the
closing `;` of the complete frame `AT+00048;PING;`.  Only the first frame is
handed over: after it the main loop stores the 14 bytes of the second frame
without any prefix or header scan, so the call returns with `reading_cmd` and
`cmd_header` false and `cmd_size` and `at_cmd_prefix_idx` 0, but with `cmd_widx`
14.  It is the same when the first frame is the implicit-mode frame
`AT+00007;PING` with its carriage return.  When the frame `AT+00048;PING;` is a
chunk of its own, after the chunk `AT+00047;PING;`, it is handed over and the call
returns with `cmd_widx` 0, whether the dispatch succeeds, the callback returns
NULL or the queue put fails; and an implicit-mode frame that follows a frame in
the same chunk is handed over and leaves `cmd_widx` 0. -/
theorem C21_frame_after_frame_not_reset :
    (at_cmd_add_command_chars env_ok demo_state
        (bytes "AT+00047;PING;AT+00048;PING;")).1.trace
      = [Event.dispatch 7 4 (bytes "PING"), Event.callback 200 2 7 0 [],
         Event.queue_put { cmd_id := 2, serial := 7 }]
    ∧ (at_cmd_add_command_chars env_ok demo_state
        (bytes "AT+00047;PING;AT+00048;PING;")).1.reading_cmd = false
    ∧ (at_cmd_add_command_chars env_ok demo_state
        (bytes "AT+00047;PING;AT+00048;PING;")).1.cmd_header = false
    ∧ (at_cmd_add_command_chars env_ok demo_state
        (bytes "AT+00047;PING;AT+00048;PING;")).1.cmd_size = 0
    ∧ (at_cmd_add_command_chars env_ok demo_state
        (bytes "AT+00047;PING;AT+00048;PING;")).1.at_cmd_prefix_idx = 0
    ∧ (at_cmd_add_command_chars env_ok demo_state
        (bytes "AT+00047;PING;AT+00048;PING;")).1.cmd_widx = 14
    ∧ (at_cmd_add_command_chars env_ok demo_state
        (bytes "AT+00047;PING;AT+00048;PING;")).1.command_buffer.take 14
      = bytes "AT+00048;PING;"
    ∧ (at_cmd_add_command_chars env_ok demo_state
        (bytes "AT+00007;PING\rAT+00048;PING;")).1.cmd_widx = 14
    ∧ (feed env_ok demo_state [bytes "AT+00047;PING;", bytes "AT+00048;PING;"]).1.trace
      = [Event.dispatch 7 4 (bytes "PING"), Event.callback 200 2 7 0 [],
         Event.queue_put { cmd_id := 2, serial := 7 },
         Event.dispatch 8 4 (bytes "PING"), Event.callback 200 2 8 0 [],
         Event.queue_put { cmd_id := 2, serial := 8 }]
    ∧ (feed env_ok demo_state [bytes "AT+00047;PING;", bytes "AT+00048;PING;"]).1.cmd_widx = 0
    ∧ (feed env_null demo_state [bytes "AT+00047;PING;", bytes "AT+00048;PING;"]).1.cmd_widx
      = 0
    ∧ (feed env_queue_full demo_state
        [bytes "AT+00047;PING;", bytes "AT+00048;PING;"]).1.cmd_widx = 0
    ∧ (at_cmd_add_command_chars env_ok demo_state
        (bytes "AT+00047;PING;AT+00008;PING\r")).1.trace
      = [Event.dispatch 7 4 (bytes "PING"), Event.callback 200 2 7 0 [],
         Event.queue_put { cmd_id := 2, serial := 7 },
         Event.dispatch 8 4 (bytes "PING"), Event.callback 200 2 8 0 [],
         Event.queue_put { cmd_id := 2, serial := 8 }]
    ∧ (at_cmd_add_command_chars env_ok demo_state
        (bytes "AT+00047;PING;AT+00008;PING\r")).1.cmd_widx = 0 := by
  decide

/-! ## Registration: the claims -/

/-- C22: registration is all-or-nothing and append-only.  With a non-NULL table,
`num_cmds > 0` and a node allocated, `at_cmd_parser_register_commands` returns
success and the registry is the previous list of tables followed by the new
`(table, num_cmds)`, nothing else being changed; with a NULL table or with
`num_cmds = 0` it returns `CY_AT_CMD_PARSER_BAD_PARAM`, whether a node could be
allocated or not, and with a failed allocation `CY_AT_CMD_PARSER_NO_MEMORY`, the
state being unchanged in these cases. -/
theorem C22_registration (st : at_cmd_parser_t) (alloc_ok : Bool)
    (table : List at_cmd_def_t) (num_cmds : Nat) (hn : num_cmds ≠ 0) :
    at_cmd_parser_register_commands st true (some table) num_cmds
      = ({ st with cmd_tables := st.cmd_tables
                      ++ [{ cmd_table := table, num_cmds := num_cmds }] },
         cy_rslt_t.CY_RSLT_SUCCESS)
    ∧ at_cmd_parser_register_commands st alloc_ok none num_cmds
      = (st, cy_rslt_t.CY_AT_CMD_PARSER_BAD_PARAM)
    ∧ at_cmd_parser_register_commands st alloc_ok none 0
      = (st, cy_rslt_t.CY_AT_CMD_PARSER_BAD_PARAM)
    ∧ at_cmd_parser_register_commands st alloc_ok (some table) 0
      = (st, cy_rslt_t.CY_AT_CMD_PARSER_BAD_PARAM)
    ∧ at_cmd_parser_register_commands st false (some table) num_cmds
      = (st, cy_rslt_t.CY_AT_CMD_PARSER_NO_MEMORY) := by
  refine ⟨?_, rfl, rfl, rfl, ?_⟩
  · simp [at_cmd_parser_register_commands, hn]
  · simp [at_cmd_parser_register_commands, hn]

/-- C22 at the registry with `ECHO` and `PING` and a table with one entry named
`X`: registered, it follows the table already there. -/
theorem C22_registration_witness :
    (1 : Nat) ≠ 0
    ∧ (at_cmd_parser_register_commands demo_state true (some table_X1.cmd_table) 1).1.cmd_tables
        = demo_tables ++ [table_X1]
    ∧ (at_cmd_parser_register_commands demo_state true (some table_X1.cmd_table) 1).2
        = cy_rslt_t.CY_RSLT_SUCCESS
    ∧ at_cmd_parser_register_commands demo_state false (some table_X1.cmd_table) 1
        = (demo_state, cy_rslt_t.CY_AT_CMD_PARSER_NO_MEMORY) :=
  have h := C22_registration demo_state true table_X1.cmd_table 1 (by decide)
  ⟨by decide, by rw [h.1]; rfl, by rw [h.1], h.2.2.2.2⟩

/-- C23: queue hand-off failure.  For a frame fed from a fresh state in any chunks
with the output mutex obtained, whose callback returns the message `msg`: the
message is put on the queue once; when the put fails, exactly one response is then
written, the synchronous response with serial 0, status 1 and the text
`queue error`, the message is released, no second put is made and the call returns
the status of the failed put; when the put succeeds, no response is written and the
call returns success.  This holds for the explicit-mode frame with the body `b` and
for the implicit-mode frame with the body `b`. -/
theorem C23_queue_hand_off (env : Env) (st0 : at_cmd_parser_t) (h : Fresh st0)
    (hm : env.mutex_get = cy_rslt_t.CY_RSLT_SUCCESS)
    (ho : st0.output_buffer.length = AT_CMD_PARSER_BUFFER_SIZE)
    (g s b : List Nat) (chunks : List (List Nat)) (msg : at_cmd_msg_base_t)
    (hg : ¬ AT_CMD_PREFIX <:+: g ++ [65, 84]) (hs : s ≠ []) (hsd : all_digits s)
    (hne : ∀ ch ∈ chunks, ch ≠ []) :
    (chunks.flatten = g ++ explicit_frame s b → 1 ≤ b.length → b.length ≤ AT_CMD_MAX_SIZE →
      (g ++ explicit_frame s b).length < AT_CMD_PARSER_BUFFER_SIZE →
      handler_result env st0.cmd_tables (decimal_value s % 4294967296) b.length b = some msg →
      (feed env st0 chunks).1.trace
        = st0.trace ++ echo_events st0.echo_cmd (explicit_frame s b)
            ++ Event.dispatch (decimal_value s % 4294967296) b.length b
            :: (handler_call st0.cmd_tables (decimal_value s % 4294967296) b.length b
                ++ (if env.queue_put msg ≠ cy_rslt_t.CY_RSLT_SUCCESS then
                      [Event.queue_put msg,
                       Event.write
                         (response_frame 83 0 (sync_payload 1 (some (bytes "queue error")))),
                       Event.free msg]
                    else [Event.queue_put msg]))
      ∧ (feed env st0 chunks).2 = env.queue_put msg)
    ∧ (chunks.flatten = g ++ implicit_frame s b → 13 ∉ b →
      (g ++ implicit_frame s b).length < AT_CMD_PARSER_BUFFER_SIZE →
      handler_result env st0.cmd_tables (decimal_value s % 4294967296)
        (frame_cmd_len (b.filter (fun c => c != 10)))
        (frame_body (b.filter (fun c => c != 10))) = some msg →
      ∃ payload : List Nat,
        (feed env st0 chunks).1.trace
          = st0.trace ++ echo_events st0.echo_cmd
              (AT_CMD_PREFIX ++ [48, 48, 48, 48] ++ s ++ [59] ++ b.filter (fun c => c != 10))
              ++ Event.dispatch (decimal_value s % 4294967296)
                  (frame_cmd_len (b.filter (fun c => c != 10))) payload
              :: (handler_call st0.cmd_tables (decimal_value s % 4294967296)
                    (frame_cmd_len (b.filter (fun c => c != 10)))
                    (frame_body (b.filter (fun c => c != 10)))
                  ++ (if env.queue_put msg ≠ cy_rslt_t.CY_RSLT_SUCCESS then
                        [Event.queue_put msg,
                         Event.write
                           (response_frame 83 0 (sync_payload 1 (some (bytes "queue error")))),
                         Event.free msg]
                      else [Event.queue_put msg]))
        ∧ (b.filter (fun c => c != 10) ≠ [] →
            payload = frame_body (b.filter (fun c => c != 10)))
        ∧ (feed env st0 chunks).2 = env.queue_put msg) := by
  constructor
  · intro hj hb1 hb2 hcap hsome
    obtain ⟨h1, h2, _⟩ := feed_explicit_spec env st0 h hm ho g s b chunks hg hs hsd hb1 hb2
      hne hj hcap
    rw [h1, h2, dispatch_events, hsome]
    exact ⟨rfl, rfl⟩
  · intro hj hb hcap hsome
    obtain ⟨payload, h1, h2, h3, _⟩ := feed_implicit_spec env st0 h hm ho g s b chunks hg hs hsd
      hb hne hj hcap
    refine ⟨payload, ?_, h2, ?_⟩
    · rw [h1, dispatch_events, hsome]
      rfl
    · rw [h3, hsome]
      rfl

/-- C23 at the registry with `ECHO` and `PING`: the explicit-mode frame
`AT+00047;PING;` in two chunks with a failing queue put, and the implicit-mode
frame `AT+00007;PING` with a queue put that succeeds. -/
theorem C23_queue_hand_off_witness :
    Fresh demo_state
    ∧ ((feed env_queue_full demo_state [bytes "AT+0004", bytes "7;PING;"]).1.trace
        = [Event.dispatch 7 4 (bytes "PING"), Event.callback 200 2 7 0 [],
           Event.queue_put { cmd_id := 2, serial := 7 },
           Event.write (bytes "+S0013,0;1,queue error;\r\n"),
           Event.free { cmd_id := 2, serial := 7 }]
      ∧ (feed env_queue_full demo_state [bytes "AT+0004", bytes "7;PING;"]).2
          = cy_rslt_t.external 7)
    ∧ (∃ payload : List Nat,
        (feed env_ok demo_state [bytes "AT+00007;PING\r"]).1.trace
          = [Event.dispatch 7 4 payload, Event.callback 200 2 7 0 [],
             Event.queue_put { cmd_id := 2, serial := 7 }]
        ∧ payload = bytes "PING"
        ∧ (feed env_ok demo_state [bytes "AT+00007;PING\r"]).2 = cy_rslt_t.CY_RSLT_SUCCESS) :=
  ⟨demo_state_fresh,
    (C23_queue_hand_off env_queue_full demo_state demo_state_fresh rfl
      (g_cmd_parser_0_sound demo_tables false).out_len
      [] [55] (bytes "PING") [bytes "AT+0004", bytes "7;PING;"] { cmd_id := 2, serial := 7 }
      (by decide) (by decide) (by decide) (by decide)).1
      (by decide) (by decide) (by decide) (by decide) (by decide),
    (C23_queue_hand_off env_ok demo_state demo_state_fresh rfl
      (g_cmd_parser_0_sound demo_tables false).out_len
      [] [55] (bytes "PING") [bytes "AT+00007;PING\r"] { cmd_id := 2, serial := 7 }
      (by decide) (by decide) (by decide) (by decide)).2
      (by decide) (by decide) (by decide) (by decide)
      |>.imp fun _ hp => ⟨hp.1, hp.2.1 (by decide), hp.2.2⟩⟩

/-! ## Line feeds and echo: the claims -/

/-- C25 (as stated, refuted): with the echo flag set, the chunk `xx` is accepted and
nothing is written; the chunk `AT+0000`, a partial frame, is accepted and nothing
is written; and for the chunk holding `xx`, the frame `AT+00001;PI`, a line feed,
`NG` and the carriage return, the writes that precede the hand-over are the
finalized frame `AT+00001;PING` and the two bytes line feed, carriage return: not
the chunk. -/
theorem C25_echo_is_not_the_raw_chunk :
    (feed env_ok (g_cmd_parser_0 demo_tables true) [bytes "xx"]).2 = cy_rslt_t.CY_RSLT_SUCCESS
    ∧ (feed env_ok (g_cmd_parser_0 demo_tables true) [bytes "xx"]).1.trace = []
    ∧ (feed env_ok (g_cmd_parser_0 demo_tables true) [bytes "AT+0000"]).2
        = cy_rslt_t.CY_RSLT_SUCCESS
    ∧ (feed env_ok (g_cmd_parser_0 demo_tables true) [bytes "AT+0000"]).1.trace = []
    ∧ (feed env_ok (g_cmd_parser_0 demo_tables true) [bytes "xxAT+00001;PI\nNG\r"]).1.trace
        = [Event.write (bytes "AT+00001;PING"), Event.write (bytes "\n\r"),
           Event.dispatch 1 4 (bytes "PING"), Event.callback 200 2 1 0 [],
           Event.queue_put { cmd_id := 2, serial := 1 }]
    ∧ bytes "AT+00001;PING" ++ bytes "\n\r" ≠ bytes "xxAT+00001;PI\nNG\r" := by
  decide

/-- C25 (amended): the echo is that of the completed frame.  With the echo flag
set, for a frame fed from a fresh state in any chunks after noise without a full
prefix, the output mutex obtained: input that stops short of the last byte of the
frame (noise, a partial frame) is accepted and nothing is written; when the frame
is completed, the first writes are the finalized frame as buffered, from its
prefix on (without the noise, and in implicit mode without line feeds and without
the carriage return), and the two bytes line feed, carriage return; the hand-over
to the dispatcher follows. -/
theorem C25_echo_of_completed_frame (env : Env) (st0 : at_cmd_parser_t) (h : Fresh st0)
    (hecho : st0.echo_cmd = true)
    (hm : env.mutex_get = cy_rslt_t.CY_RSLT_SUCCESS)
    (ho : st0.output_buffer.length = AT_CMD_PARSER_BUFFER_SIZE)
    (g s b : List Nat) (chunks : List (List Nat))
    (hg : ¬ AT_CMD_PREFIX <:+: g ++ [65, 84]) (hs : s ≠ []) (hsd : all_digits s)
    (hne : ∀ ch ∈ chunks, ch ≠ []) :
    (1 ≤ b.length → b.length ≤ AT_CMD_MAX_SIZE →
      (g ++ explicit_frame s b).length < AT_CMD_PARSER_BUFFER_SIZE →
      (∀ w : List Nat, chunks.flatten = w → w ≠ [] → w <+: g ++ explicit_frame s b →
        w ≠ g ++ explicit_frame s b →
        (feed env st0 chunks).2 = cy_rslt_t.CY_RSLT_SUCCESS
        ∧ (feed env st0 chunks).1.trace = st0.trace)
      ∧ (chunks.flatten = g ++ explicit_frame s b →
        (feed env st0 chunks).1.trace
          = st0.trace ++ [Event.write (explicit_frame s b), Event.write [10, 13]]
              ++ Event.dispatch (decimal_value s % 4294967296) b.length b
              :: dispatch_events env st0.cmd_tables (decimal_value s % 4294967296)
                  b.length b))
    ∧ (13 ∉ b → (g ++ implicit_frame s b).length < AT_CMD_PARSER_BUFFER_SIZE →
      (∀ w : List Nat, chunks.flatten = w → w ≠ [] → w <+: g ++ implicit_frame s b →
        w ≠ g ++ implicit_frame s b →
        (feed env st0 chunks).2 = cy_rslt_t.CY_RSLT_SUCCESS
        ∧ (feed env st0 chunks).1.trace = st0.trace)
      ∧ (chunks.flatten = g ++ implicit_frame s b →
        ∃ payload : List Nat,
          (feed env st0 chunks).1.trace
            = st0.trace
              ++ [Event.write (AT_CMD_PREFIX ++ [48, 48, 48, 48] ++ s ++ [59]
                    ++ b.filter (fun c => c != 10)),
                  Event.write [10, 13]]
              ++ Event.dispatch (decimal_value s % 4294967296)
                  (frame_cmd_len (b.filter (fun c => c != 10))) payload
              :: dispatch_events env st0.cmd_tables (decimal_value s % 4294967296)
                  (frame_cmd_len (b.filter (fun c => c != 10)))
                  (frame_body (b.filter (fun c => c != 10))))) := by
  have hM : AT_CMD_MAX_SIZE = 6000 := rfl
  constructor
  · intro hb1 hb2 hcap
    have hcap' : (explicit_frame s b).length < AT_CMD_PARSER_BUFFER_SIZE := by
      simp only [List.length_append] at hcap; omega
    obtain ⟨_, c⟩ := run_explicit env st0 h g s b hg hs hsd hb1 (by omega) hcap'
    have e : g ++ explicit_frame s b
        = (g ++ AT_CMD_PREFIX ++ pad4 b.length ++ s ++ [59] ++ b) ++ [59] := by
      simp [explicit_frame]
    constructor
    · intro w hcj hw hpre hneq
      rw [e] at hpre hneq
      obtain ⟨f1, f2, _⟩ := feed_proper_prefix env st0 _ 59 c
        (by rw [← e, h.widx]; omega) chunks w hne hcj hw hpre hneq
      rw [f1]
      exact ⟨rfl, f2⟩
    · intro hj
      have h1 := (feed_explicit_spec env st0 h hm ho g s b chunks hg hs hsd hb1 hb2 hne hj
        hcap).1
      rw [h1, hecho]
      rfl
  · intro hb hcap
    have hcap' : (implicit_frame s b).length < AT_CMD_PARSER_BUFFER_SIZE := by
      simp only [List.length_append] at hcap; omega
    obtain ⟨_, c⟩ := run_implicit env st0 h g s b hg hs hsd hb hcap'
    have e : g ++ implicit_frame s b
        = (g ++ AT_CMD_PREFIX ++ [48, 48, 48, 48] ++ s ++ [59] ++ b) ++ [13] := by
      simp [implicit_frame]
    constructor
    · intro w hcj hw hpre hneq
      rw [e] at hpre hneq
      obtain ⟨f1, f2, _⟩ := feed_proper_prefix env st0 _ 13 c
        (by rw [← e, h.widx]; omega) chunks w hne hcj hw hpre hneq
      rw [f1]
      exact ⟨rfl, f2⟩
    · intro hj
      obtain ⟨payload, h1, _⟩ := feed_implicit_spec env st0 h hm ho g s b chunks hg hs hsd hb
        hne hj hcap
      refine ⟨payload, ?_⟩
      rw [h1, hecho]
      rfl

/-- C25 (amended) at the registry with `ECHO` and `PING` and the echo flag set:
the frame `AT+00047;PING;` after the noise `xx` in two chunks, and the partial
input `xxAT+0004`. -/
theorem C25_echo_of_completed_frame_witness :
    Fresh (g_cmd_parser_0 demo_tables true)
    ∧ (g_cmd_parser_0 demo_tables true).echo_cmd = true
    ∧ (feed env_ok (g_cmd_parser_0 demo_tables true) [bytes "xxAT+0004", bytes "7;PING;"]).1.trace
        = [Event.write (bytes "AT+00047;PING;"), Event.write [10, 13],
           Event.dispatch 7 4 (bytes "PING"), Event.callback 200 2 7 0 [],
           Event.queue_put { cmd_id := 2, serial := 7 }]
    ∧ ((feed env_ok (g_cmd_parser_0 demo_tables true) [bytes "xxAT+0004"]).2
          = cy_rslt_t.CY_RSLT_SUCCESS
      ∧ (feed env_ok (g_cmd_parser_0 demo_tables true) [bytes "xxAT+0004"]).1.trace
          = (g_cmd_parser_0 demo_tables true).trace) :=
  have hf : Fresh (g_cmd_parser_0 demo_tables true) := ⟨rfl, rfl, rfl, rfl, rfl,
    (g_cmd_parser_0_sound demo_tables true).cmd_len⟩
  ⟨hf, rfl,
    ((C25_echo_of_completed_frame env_ok (g_cmd_parser_0 demo_tables true) hf rfl rfl
      (g_cmd_parser_0_sound demo_tables true).out_len (bytes "xx") [55] (bytes "PING")
      [bytes "xxAT+0004", bytes "7;PING;"] (by decide) (by decide) (by decide) (by decide)).1
      (by decide) (by decide) (by decide)).2 (by decide),
    ((C25_echo_of_completed_frame env_ok (g_cmd_parser_0 demo_tables true) hf rfl rfl
      (g_cmd_parser_0_sound demo_tables true).out_len (bytes "xx") [55] (bytes "PING")
      [bytes "xxAT+0004"] (by decide) (by decide) (by decide) (by decide)).1
      (by decide) (by decide) (by decide)).1 (bytes "xxAT+0004") (by decide) (by decide)
      (by decide) (by decide)⟩

/-! ## Scanner state between calls: the claims -/

/-- C26 (the code evaluated at the failing input): the chunk `AT+00011;A;xyz`, an
explicit-mode frame followed by three bytes.  The frame is handed over; the bytes
`xyz` are then stored by the main loop without any prefix scan, so the call returns
with `reading_cmd` false, `at_cmd_prefix_idx` 0 and `cmd_widx` 3, the buffer
beginning with `xyz`.  The frame `AT+00048;PING;` fed next is then not handed over
(its prefix is stored at index 3 and its size field is read from index 6), while
after the chunk `AT+00011;A;` alone the state is the reset one and the next frame
is handed over. -/
theorem C26_bytes_after_a_frame_break_the_invariant :
    (at_cmd_add_command_chars env_ok demo_state (bytes "AT+00011;A;xyz")).1.reading_cmd = false
    ∧ (at_cmd_add_command_chars env_ok demo_state (bytes "AT+00011;A;xyz")).1.cmd_header = false
    ∧ (at_cmd_add_command_chars env_ok demo_state (bytes "AT+00011;A;xyz")).1.cmd_size = 0
    ∧ (at_cmd_add_command_chars env_ok demo_state (bytes "AT+00011;A;xyz")).1.at_cmd_prefix_idx
        = 0
    ∧ (at_cmd_add_command_chars env_ok demo_state (bytes "AT+00011;A;xyz")).1.cmd_widx = 3
    ∧ (at_cmd_add_command_chars env_ok demo_state
        (bytes "AT+00011;A;xyz")).1.command_buffer.take 3 = bytes "xyz"
    ∧ (feed env_ok demo_state [bytes "AT+00011;A;xyz", bytes "AT+00048;PING;"]).1.trace
        = [Event.dispatch 1 1 (bytes "A"), Event.write (bytes "+S0013,0;1,Invalid cmd;\r\n")]
    ∧ (feed env_ok demo_state [bytes "AT+00011;A;xyz", bytes "AT+00048;PING;"]).1.reading_cmd
        = true
    ∧ (feed env_ok demo_state [bytes "AT+00011;A;xyz", bytes "AT+00048;PING;"]).1.cmd_size = 0
    ∧ (feed env_ok demo_state [bytes "AT+00011;A;xyz", bytes "AT+00048;PING;"]).1.cmd_widx = 17
    ∧ (at_cmd_add_command_chars env_ok demo_state (bytes "AT+00011;A;")).1.cmd_widx = 0
    ∧ (feed env_ok demo_state [bytes "AT+00011;A;", bytes "AT+00048;PING;"]).1.trace
        = [Event.dispatch 1 1 (bytes "A"), Event.write (bytes "+S0013,0;1,Invalid cmd;\r\n"),
           Event.dispatch 8 4 (bytes "PING"), Event.callback 200 2 8 0 [],
           Event.queue_put { cmd_id := 2, serial := 8 }] := by
  decide

/-! ## One outcome per completed frame: the claims -/

/-- C27: exactly one outcome per completed frame.  With the output mutex obtained,
every call of `at_cmd_process_command_buffer`, in any state with buffers of the
declared size and for any `count`, adds to the trace the echo of the `count` bytes
and then events that show exactly one outcome (`one_outcome`): one message put on
the queue, the put succeeding, and no response; or exactly one synchronous response
with serial 0 and status 1, every queue put made having failed; and at most one
callback is called.  The scanner makes one such call for a frame it completes: for
a frame fed from a fresh state in any chunks, after noise without a full prefix,
the trace is that of the fresh state, the echo of the frame and events that show
exactly one outcome, both for the explicit-mode frame with a body `b` of 1 to 9999
bytes and for the implicit-mode frame with the body `b`. -/
theorem C27_one_outcome_per_frame (env : Env) (st0 : at_cmd_parser_t) (h : Fresh st0)
    (hm : env.mutex_get = cy_rslt_t.CY_RSLT_SUCCESS)
    (ho : st0.output_buffer.length = AT_CMD_PARSER_BUFFER_SIZE)
    (g s b : List Nat) (chunks : List (List Nat))
    (hg : ¬ AT_CMD_PREFIX <:+: g ++ [65, 84]) (hs : s ≠ []) (hsd : all_digits s)
    (hne : ∀ ch ∈ chunks, ch ≠ []) :
    (∀ (st : at_cmd_parser_t) (count : Nat),
      st.output_buffer.length = AT_CMD_PARSER_BUFFER_SIZE →
      st.command_buffer.length ≤ AT_CMD_PARSER_BUFFER_SIZE →
      ∃ evs : List Event,
        (at_cmd_process_command_buffer env st count).1.trace
          = st.trace ++ echo_events st.echo_cmd (st.command_buffer.take count) ++ evs
        ∧ one_outcome env evs)
    ∧ (chunks.flatten = g ++ explicit_frame s b → 1 ≤ b.length → b.length ≤ 9999 →
      (g ++ explicit_frame s b).length < AT_CMD_PARSER_BUFFER_SIZE →
      ∃ evs : List Event,
        (feed env st0 chunks).1.trace
          = st0.trace ++ echo_events st0.echo_cmd (explicit_frame s b) ++ evs
        ∧ one_outcome env evs)
    ∧ (chunks.flatten = g ++ implicit_frame s b → 13 ∉ b →
      (g ++ implicit_frame s b).length < AT_CMD_PARSER_BUFFER_SIZE →
      ∃ evs : List Event,
        (feed env st0 chunks).1.trace
          = st0.trace ++ echo_events st0.echo_cmd
              (AT_CMD_PREFIX ++ [48, 48, 48, 48] ++ s ++ [59] ++ b.filter (fun c => c != 10))
            ++ evs
        ∧ one_outcome env evs) := by
  refine ⟨fun st count ho2 hl2 => process_command_buffer_one_outcome env st count hm ho2 hl2,
    ?_, ?_⟩
  · intro hj hb1 hb2 hcap
    by_cases hsz : b.length ≤ AT_CMD_MAX_SIZE
    · obtain ⟨h1, _, _⟩ := feed_explicit_spec env st0 h hm ho g s b chunks hg hs hsd hb1 hsz
        hne hj hcap
      exact ⟨_, h1, one_outcome_dispatch env _ _ _ _ _⟩
    · obtain ⟨h1, _, _⟩ := feed_explicit_invalid_size env st0 h hm ho g s b chunks hg hs hsd
        (by omega) hb2 hne hj hcap
      exact ⟨_, h1, one_outcome_response env _⟩
  · intro hj hb hcap
    obtain ⟨payload, h1, _, _, _⟩ := feed_implicit_spec env st0 h hm ho g s b chunks hg hs hsd
      hb hne hj hcap
    exact ⟨_, h1, one_outcome_dispatch env _ _ _ _ _⟩

/-- C27 at the registry with `ECHO` and `PING`: the explicit-mode frame
`AT+00047;PING;` in two chunks with a failing queue put, and the implicit-mode
frame `AT+00007;NOPE`; and, evaluated, the events of the four outcomes. -/
theorem C27_one_outcome_per_frame_witness :
    Fresh demo_state
    ∧ (∃ evs : List Event,
        (feed env_queue_full demo_state [bytes "AT+0004", bytes "7;PING;"]).1.trace
          = demo_state.trace ++ echo_events demo_state.echo_cmd (explicit_frame [55] (bytes "PING"))
              ++ evs
        ∧ one_outcome env_queue_full evs)
    ∧ (∃ evs : List Event,
        (feed env_ok demo_state [bytes "AT+00007;NOPE\r"]).1.trace
          = demo_state.trace ++ echo_events demo_state.echo_cmd
              (AT_CMD_PREFIX ++ [48, 48, 48, 48] ++ [55] ++ [59]
                ++ (bytes "NOPE").filter (fun c => c != 10))
            ++ evs
        ∧ one_outcome env_ok evs)
    ∧ (feed env_ok demo_state [bytes "AT+00047;PING;"]).1.trace
        = [Event.dispatch 7 4 (bytes "PING"), Event.callback 200 2 7 0 [],
           Event.queue_put { cmd_id := 2, serial := 7 }]
    ∧ (feed env_queue_full demo_state [bytes "AT+00047;PING;"]).1.trace
        = [Event.dispatch 7 4 (bytes "PING"), Event.callback 200 2 7 0 [],
           Event.queue_put { cmd_id := 2, serial := 7 },
           Event.write (bytes "+S0013,0;1,queue error;\r\n"),
           Event.free { cmd_id := 2, serial := 7 }]
    ∧ (feed env_null demo_state [bytes "AT+00047;PING;"]).1.trace
        = [Event.dispatch 7 4 (bytes "PING"), Event.callback 200 2 7 0 [],
           Event.write (bytes "+S0013,0;1,Invalid cmd;\r\n")]
    ∧ (feed env_ok demo_state [bytes "AT+00047;NOPE;"]).1.trace
        = [Event.dispatch 7 4 (bytes "NOPE"),
           Event.write (bytes "+S0013,0;1,Invalid cmd;\r\n")] :=
  ⟨demo_state_fresh,
    (C27_one_outcome_per_frame env_queue_full demo_state demo_state_fresh rfl
      (g_cmd_parser_0_sound demo_tables false).out_len [] [55] (bytes "PING")
      [bytes "AT+0004", bytes "7;PING;"] (by decide) (by decide) (by decide) (by decide)).2.1
      (by decide) (by decide) (by decide) (by decide),
    (C27_one_outcome_per_frame env_ok demo_state demo_state_fresh rfl
      (g_cmd_parser_0_sound demo_tables false).out_len [] [55] (bytes "NOPE")
      [bytes "AT+00007;NOPE\r"] (by decide) (by decide) (by decide) (by decide)).2.2
      (by decide) (by decide) (by decide),
    by decide, by decide, by decide, by decide⟩

/-! ## The second size limit: the claims -/

/-- C28: second size limit.  For an explicit-mode frame with a body `b` of 1 to
9999 bytes, its size field the number of those bytes, shorter than the buffer and
fed in any chunks from a fresh state with the output mutex obtained.  The header is
accepted with the total of the frame as `cmd_size`.  When the size field is greater
than `AT_CMD_MAX_SIZE`, the completed frame is not handed to the dispatcher and no
callback is called: after the echo the only event is the response `Invalid size`
with serial 0 and status 1, and the call returns `CY_AT_CMD_PARSER_ERROR`.  When
the size field is at most `AT_CMD_MAX_SIZE`, the frame is handed to the
dispatcher. -/
theorem C28_second_size_limit (env : Env) (st0 : at_cmd_parser_t) (h : Fresh st0)
    (hm : env.mutex_get = cy_rslt_t.CY_RSLT_SUCCESS)
    (ho : st0.output_buffer.length = AT_CMD_PARSER_BUFFER_SIZE)
    (g s b : List Nat) (chunks : List (List Nat))
    (hg : ¬ AT_CMD_PREFIX <:+: g ++ [65, 84]) (hs : s ≠ []) (hsd : all_digits s)
    (hb1 : 1 ≤ b.length) (hb2 : b.length ≤ 9999)
    (hne : ∀ ch ∈ chunks, ch ≠ []) (hj : chunks.flatten = g ++ explicit_frame s b)
    (hcap : (g ++ explicit_frame s b).length < AT_CMD_PARSER_BUFFER_SIZE) :
    ((run env st0 (g ++ AT_CMD_PREFIX ++ pad4 b.length ++ s ++ [59])).reading_cmd = true
      ∧ (run env st0 (g ++ AT_CMD_PREFIX ++ pad4 b.length ++ s ++ [59])).cmd_size
          = (explicit_frame s b).length)
    ∧ (AT_CMD_MAX_SIZE < b.length →
        (feed env st0 chunks).1.trace
          = st0.trace ++ echo_events st0.echo_cmd (explicit_frame s b)
              ++ [Event.write
                    (response_frame 83 0 (sync_payload 1 (some (bytes "Invalid size"))))]
        ∧ (feed env st0 chunks).2 = cy_rslt_t.CY_AT_CMD_PARSER_ERROR)
    ∧ (b.length ≤ AT_CMD_MAX_SIZE →
        (feed env st0 chunks).1.trace
          = st0.trace ++ echo_events st0.echo_cmd (explicit_frame s b)
              ++ Event.dispatch (decimal_value s % 4294967296) b.length b
              :: dispatch_events env st0.cmd_tables (decimal_value s % 4294967296)
                  b.length b) := by
  have hB := bufsize_eq
  have hP : AT_CMD_PREFIX.length = 3 := rfl
  have hfl : (explicit_frame s b).length = b.length + (8 + s.length) + 1 := by
    simp [explicit_frame, hP, pad4_length]; omega
  have hcap' : (explicit_frame s b).length < AT_CMD_PARSER_BUFFER_SIZE := by
    simp only [List.length_append] at hcap; omega
  refine ⟨?_, ?_, ?_⟩
  · have hv := digits_value_pad4 b.length hb2
    obtain ⟨r1, _⟩ := run_header env st0 h g (pad4 b.length) s hg (pad4_length _)
      (all_digits_pad4 _) hs hsd (by omega) (by rw [hv]; omega)
    rw [hv, if_neg (by omega)] at r1
    rw [r1, hfl]
    exact ⟨rfl, rfl⟩
  · intro hbig
    obtain ⟨h1, h2, _⟩ := feed_explicit_invalid_size env st0 h hm ho g s b chunks hg hs hsd
      hbig hb2 hne hj hcap
    exact ⟨h1, h2⟩
  · intro hsmall
    exact (feed_explicit_spec env st0 h hm ho g s b chunks hg hs hsd hb1 hsmall hne hj hcap).1

/-- C28 at the registry with `ECHO` and `PING`: the frame with the size field 6001
and a body of 6001 bytes, 6011 bytes in all, fed in one call, is answered
`Invalid size`; the frame `AT+00047;PING;` is handed over. -/
theorem C28_second_size_limit_witness :
    Fresh demo_state
    ∧ ([explicit_frame [49] body_6001].flatten = [] ++ explicit_frame [49] body_6001)
    ∧ ([] ++ explicit_frame [49] body_6001).length < AT_CMD_PARSER_BUFFER_SIZE
    ∧ AT_CMD_MAX_SIZE < body_6001.length
    ∧ ((feed env_ok demo_state [explicit_frame [49] body_6001]).1.trace
          = demo_state.trace ++ echo_events demo_state.echo_cmd (explicit_frame [49] body_6001)
              ++ [Event.write
                    (response_frame 83 0 (sync_payload 1 (some (bytes "Invalid size"))))]
        ∧ (feed env_ok demo_state [explicit_frame [49] body_6001]).2
            = cy_rslt_t.CY_AT_CMD_PARSER_ERROR)
    ∧ (feed env_ok demo_state [bytes "AT+00047;PING;"]).1.trace
        = [Event.dispatch 7 4 (bytes "PING"), Event.callback 200 2 7 0 [],
           Event.queue_put { cmd_id := 2, serial := 7 }] :=
  have hj : [explicit_frame [49] body_6001].flatten = [] ++ explicit_frame [49] body_6001 := by
    simp only [List.flatten_cons, List.flatten_nil, List.append_nil, List.nil_append]
  have hcap : ([] ++ explicit_frame [49] body_6001).length < AT_CMD_PARSER_BUFFER_SIZE := by
    rw [List.nil_append, explicit_frame_length, body_6001_length]; decide
  have hbig : AT_CMD_MAX_SIZE < body_6001.length := by rw [body_6001_length]; decide
  ⟨demo_state_fresh, hj, hcap, hbig,
    (C28_second_size_limit env_ok demo_state demo_state_fresh rfl
      (g_cmd_parser_0_sound demo_tables false).out_len [] [49] body_6001
      [explicit_frame [49] body_6001] no_prefix_nil (by decide) (by decide)
      (by rw [body_6001_length]; decide) (by rw [body_6001_length]; decide)
      (by
        intro ch hch
        simp only [List.mem_singleton] at hch
        subst hch
        exact explicit_frame_ne_nil _ _)
      hj hcap).2.1 hbig,
    (C28_second_size_limit env_ok demo_state demo_state_fresh rfl
      (g_cmd_parser_0_sound demo_tables false).out_len [] [55] (bytes "PING")
      [bytes "AT+00047;PING;"] no_prefix_nil (by decide) (by decide) (by decide) (by decide)
      (by decide) (by decide) (by decide)).2.2 (by decide)⟩

/-! ## The optional trailing terminator: the claims -/

/-- C29 (the code evaluated at the failing input): with a command of empty name
registered, the implicit-mode header `AT+00005;` and the empty body `b`.  The frame
`h ++ b ++ CR` has the `;` of its header stripped and its callback is called with
the argument length `2 ^ 32 - 1`; the frame `h ++ b ++ ";" ++ CR` has its callback
called with the argument length 0.  With a body that is not empty, here `ECHO,a`,
the two frames are dispatched alike. -/
theorem C29_empty_body_differs_with_trailing_terminator :
    (feed env_ok (g_cmd_parser_0 tables_empty_name false)
        [bytes "AT+00005;" ++ [] ++ bytes "\r"]).1.trace.filter is_callback
      = [Event.callback 900 9 5 4294967295 []]
    ∧ (feed env_ok (g_cmd_parser_0 tables_empty_name false)
        [bytes "AT+00005;" ++ [] ++ bytes ";" ++ bytes "\r"]).1.trace.filter is_callback
      = [Event.callback 900 9 5 0 []]
    ∧ (feed env_ok (g_cmd_parser_0 tables_empty_name false)
        [bytes "AT+00005;" ++ bytes "ECHO,a" ++ bytes "\r"]).1.trace
      = [Event.dispatch 5 6 (bytes "ECHO,a"), Event.callback 100 1 5 1 (bytes "a"),
         Event.queue_put { cmd_id := 1, serial := 5 }]
    ∧ (feed env_ok (g_cmd_parser_0 tables_empty_name false)
        [bytes "AT+00005;" ++ bytes "ECHO,a" ++ bytes ";" ++ bytes "\r"]).1.trace
      = [Event.dispatch 5 6 (bytes "ECHO,a"), Event.callback 100 1 5 1 (bytes "a"),
         Event.queue_put { cmd_id := 1, serial := 5 }] := by
  decide

/-! ## The largest frame: the claims -/

/-- C30: largest completable frame.  From a fresh state without a store outside the
buffers so far, for calls on chunks of at most `2 ^ 32 - AT_CMD_PARSER_BUFFER_SIZE`
bytes: every call of `at_cmd_process_command_buffer` made by the scanner has a
`count` below `AT_CMD_PARSER_BUFFER_SIZE`.  (The scanner with a ghost check of that
argument in place, `feed_with` on `process_checked`, ends with the flag `fault`
unset, while a call failing the check sets the flag for good; without the check
`feed_with` is `feed`.)  In particular, for an explicit-mode header whose computed
total, size field plus header bytes plus 1, is exactly `AT_CMD_PARSER_BUFFER_SIZE`:
the header is accepted with that total as `cmd_size`; and however the header and
the bytes `r0` after it are chunked, the call that carries the remaining bytes `r1`
of the frame (and any bytes `extra` after them) returns
`CY_AT_CMD_PARSER_BUFFER_OVERFLOW`, the only event since the fresh state being the
response `Input buffer size exceeded`: the frame is not completed. -/
theorem C30_largest_completable_frame (env : Env) (st0 : at_cmd_parser_t) (h : Fresh st0)
    (hm : env.mutex_get = cy_rslt_t.CY_RSLT_SUCCESS)
    (ho : st0.output_buffer.length = AT_CMD_PARSER_BUFFER_SIZE)
    (hfault : st0.fault = false)
    (chunks : List (List Nat))
    (hl : ∀ ch ∈ chunks, ch.length + AT_CMD_PARSER_BUFFER_SIZE ≤ 4294967296) :
    feed_with env (at_cmd_process_command_buffer env) st0 chunks = feed env st0 chunks
    ∧ (feed_with env (process_checked env) st0 chunks).1.fault = false
    ∧ (∀ (st : at_cmd_parser_t) (count : Nat),
        st.fault = true ∨ AT_CMD_PARSER_BUFFER_SIZE ≤ count →
        (process_checked env st count).1.fault = true)
    ∧ (∀ (st : at_cmd_parser_t) (cs : List (List Nat)), st.fault = true →
        (feed_with env (process_checked env) st cs).1.fault = true)
    ∧ (∀ (g ds s r0 r1 extra : List Nat) (cs : List (List Nat)),
        ¬ AT_CMD_PREFIX <:+: g ++ [65, 84] → ds.length = 4 → all_digits ds → s ≠ [] →
        all_digits s → 0 < digits_value 0 ds →
        digits_value 0 ds + (8 + s.length) + 1 = AT_CMD_PARSER_BUFFER_SIZE →
        (r0 ++ r1).length = digits_value 0 ds + 1 → r1 ≠ [] → (∀ ch ∈ cs, ch ≠ []) →
        cs.flatten = g ++ AT_CMD_PREFIX ++ ds ++ s ++ [59] ++ r0 →
        (g ++ AT_CMD_PREFIX ++ ds ++ s ++ [59] ++ r0).length < AT_CMD_PARSER_BUFFER_SIZE →
        (r1 ++ extra).length + AT_CMD_PARSER_BUFFER_SIZE ≤ 4294967296 →
        ((run env st0 (g ++ AT_CMD_PREFIX ++ ds ++ s ++ [59])).reading_cmd = true
          ∧ (run env st0 (g ++ AT_CMD_PREFIX ++ ds ++ s ++ [59])).cmd_header = false
          ∧ (run env st0 (g ++ AT_CMD_PREFIX ++ ds ++ s ++ [59])).cmd_size
              = AT_CMD_PARSER_BUFFER_SIZE
          ∧ (run env st0 (g ++ AT_CMD_PREFIX ++ ds ++ s ++ [59])).trace = st0.trace)
        ∧ (feed env st0 (cs ++ [r1 ++ extra])).2 = cy_rslt_t.CY_AT_CMD_PARSER_BUFFER_OVERFLOW
        ∧ (feed env st0 (cs ++ [r1 ++ extra])).1.trace
            = st0.trace ++ [Event.write (response_frame 83 0
                (sync_payload 1 (some (bytes "Input buffer size exceeded"))))]
        ∧ is_reset (feed env st0 (cs ++ [r1 ++ extra])).1) := by
  have hB := bufsize_eq
  have hsound : Sound st0 := ⟨h.len, ho, hfault⟩
  refine ⟨feed_with_eq env chunks st0, ?_, ?_, ?_, ?_⟩
  · exact (feed_with_sound env (process_checked env) (process_checked_sound env) chunks st0
      hsound (by rw [h.widx]; omega) hl).1.no_fault
  · exact fun st count hc => process_checked_fault env st count hc
  · exact fun st cs hf => feed_with_fault env (process_checked env)
      (fun s c hs => process_checked_fault env s c (Or.inl hs)) cs st hf
  · intro g ds s r0 r1 extra cs hg hds hdd hs hsd hpos htotal hr hr1 hne hj hcap hx
    obtain ⟨e1, e2⟩ := feed_total_equals_capacity env st0 h g ds s r0 r1 extra cs hg hds hdd
      hs hsd hpos htotal hr hr1 hne hj hcap hx
    rw [e1, e2]
    refine ⟨⟨rfl, rfl, rfl, rfl⟩, rfl, ?_, ⟨rfl, rfl, rfl, rfl, rfl⟩⟩
    exact (rejected_spec env _ (bytes "Input buffer size exceeded") hm
      (by simpa [mid] using ho) (by decide)).1

/-- C30 at the registry with `ECHO` and `PING`: the frame `AT+00047;PING;` in two
chunks, and the frame with the header `AT+61741;`, whose total is 6184: fed as the
header, the 6174 body bytes and the closing `;` in three calls, the third call
returns the overflow status and the frame is not handed over. -/
theorem C30_largest_completable_frame_witness :
    Fresh demo_state
    ∧ (∀ ch ∈ [bytes "AT+0004", bytes "7;PING;"],
        ch.length + AT_CMD_PARSER_BUFFER_SIZE ≤ 4294967296)
    ∧ (feed_with env_ok (process_checked env_ok) demo_state
        [bytes "AT+0004", bytes "7;PING;"]).1.fault = false
    ∧ (feed env_ok demo_state ([bytes "AT+61741;", body_6174] ++ [[59] ++ []])).2
        = cy_rslt_t.CY_AT_CMD_PARSER_BUFFER_OVERFLOW
    ∧ (feed env_ok demo_state ([bytes "AT+61741;", body_6174] ++ [[59] ++ []])).1.trace
        = demo_state.trace ++ [Event.write (response_frame 83 0
            (sync_payload 1 (some (bytes "Input buffer size exceeded"))))] :=
  have hl : ∀ ch ∈ [bytes "AT+0004", bytes "7;PING;"],
      ch.length + AT_CMD_PARSER_BUFFER_SIZE ≤ 4294967296 := by decide
  have ht := C30_largest_completable_frame env_ok demo_state demo_state_fresh rfl
    (g_cmd_parser_0_sound demo_tables false).out_len rfl
    [bytes "AT+0004", bytes "7;PING;"] hl
  have hb : ([] : List Nat) ++ AT_CMD_PREFIX ++ bytes "6174" ++ bytes "1" ++ [59] ++ body_6174
      = bytes "AT+61741;" ++ body_6174 := rfl
  have hp := ht.2.2.2.2 [] (bytes "6174") (bytes "1") body_6174 [59] []
    [bytes "AT+61741;", body_6174] (by decide) (by decide) (by decide) (by decide) (by decide)
    (by decide) (by decide)
    (by rw [List.length_append, body_6174_length]; decide)
    (by decide)
    (by
      intro ch hch
      simp only [List.mem_cons, List.mem_singleton, List.not_mem_nil, or_false] at hch
      rcases hch with rfl | rfl
      · decide
      · intro e
        have := congrArg List.length e
        rw [body_6174_length] at this
        exact absurd this (by decide))
    (by rw [hb]; simp [List.flatten])
    (by rw [hb, List.length_append, body_6174_length]; decide)
    (by decide)
  ⟨demo_state_fresh, hl, ht.2.1, hp.2.1, hp.2.2.1⟩

/-! ## Header re-validation: the claims -/

/-- C31: header re-validation is redundant on the clean path.  For a frame scanned
from a fresh state, after noise without a full prefix and in any chunks, and
completed: `at_cmd_process_command_buffer` is called on the buffer holding the
finalized frame `f`, with `count` its length (`completed`), and in the state in
which it makes its header tests (`processed`) the tests guarding `Invalid command`,
`Invalid size digit` and `Invalid format` are false (`revalidates`): `count` is at
least `AT_CMD_MIN_HEADER_SIZE`, the buffer begins with the prefix, the size field
is four digits, read back as the size the scanner read, and the digit run after it
is the serial digits `s` followed by `;`.  So the call goes past these branches,
to `Invalid size` for a size field above `AT_CMD_MAX_SIZE` and else on to the
dispatch with the serial number denoted by `s` modulo `2 ^ 32`; and, the output
mutex obtained, none of the three responses is among the events since the fresh
state.  This holds for the explicit-mode frame with a body `b` of 1 to 9999 bytes
and for the implicit-mode frame with the body `b`. -/
theorem C31_header_revalidation_redundant (env : Env) (st0 : at_cmd_parser_t)
    (h : Fresh st0) (g s b : List Nat) (chunks : List (List Nat))
    (hg : ¬ AT_CMD_PREFIX <:+: g ++ [65, 84]) (hs : s ≠ []) (hsd : all_digits s)
    (hne : ∀ ch ∈ chunks, ch ≠ []) :
    (chunks.flatten = g ++ explicit_frame s b → 1 ≤ b.length → b.length ≤ 9999 →
      (g ++ explicit_frame s b).length < AT_CMD_PARSER_BUFFER_SIZE →
      feed env st0 chunks
        = completed env st0 (explicit_frame s b) (explicit_frame s b).length
      ∧ revalidates (processed st0 (explicit_frame s b) (explicit_frame s b).length)
          (explicit_frame s b).length s
      ∧ process_size (processed st0 (explicit_frame s b) (explicit_frame s b).length)
          AT_CMD_SIZE_CHARS 0 0 = some b.length
      ∧ at_cmd_process_command_buffer env
            (full st0 (explicit_frame s b) (explicit_frame s b).length)
            (explicit_frame s b).length
          = (if b.length > AT_CMD_MAX_SIZE then
              ((at_cmd_parser_send_cmd_response env
                  (processed st0 (explicit_frame s b) (explicit_frame s b).length) 0 1
                  (some (bytes "Invalid size"))).1,
               cy_rslt_t.CY_AT_CMD_PARSER_ERROR)
            else
              process_dispatch env
                (processed st0 (explicit_frame s b) (explicit_frame s b).length)
                (decimal_value s % 4294967296)
                (AT_CMD_PREFIX_CHARS + AT_CMD_SIZE_CHARS + s.length + 1)
                (explicit_frame s b).length)
      ∧ (env.mutex_get = cy_rslt_t.CY_RSLT_SUCCESS →
          st0.output_buffer.length = AT_CMD_PARSER_BUFFER_SIZE →
          ∃ evs : List Event, (feed env st0 chunks).1.trace = st0.trace ++ evs
            ∧ ∀ text ∈ revalidation_texts,
                Event.write (response_frame 83 0 (sync_payload 1 (some text))) ∉ evs))
    ∧ (chunks.flatten = g ++ implicit_frame s b → 13 ∉ b →
      (g ++ implicit_frame s b).length < AT_CMD_PARSER_BUFFER_SIZE →
      feed env st0 chunks
        = completed env st0
            (AT_CMD_PREFIX ++ [48, 48, 48, 48] ++ s ++ [59] ++ b.filter (fun c => c != 10)) 0
      ∧ revalidates
          (processed st0
            (AT_CMD_PREFIX ++ [48, 48, 48, 48] ++ s ++ [59] ++ b.filter (fun c => c != 10)) 0)
          (AT_CMD_PREFIX ++ [48, 48, 48, 48] ++ s ++ [59]
            ++ b.filter (fun c => c != 10)).length s
      ∧ process_size
          (processed st0
            (AT_CMD_PREFIX ++ [48, 48, 48, 48] ++ s ++ [59] ++ b.filter (fun c => c != 10)) 0)
          AT_CMD_SIZE_CHARS 0 0 = some 0
      ∧ at_cmd_process_command_buffer env
            (full st0
              (AT_CMD_PREFIX ++ [48, 48, 48, 48] ++ s ++ [59] ++ b.filter (fun c => c != 10)) 0)
            (AT_CMD_PREFIX ++ [48, 48, 48, 48] ++ s ++ [59]
              ++ b.filter (fun c => c != 10)).length
          = process_dispatch env
              (processed st0
                (AT_CMD_PREFIX ++ [48, 48, 48, 48] ++ s ++ [59]
                  ++ b.filter (fun c => c != 10)) 0)
              (decimal_value s % 4294967296)
              (AT_CMD_PREFIX_CHARS + AT_CMD_SIZE_CHARS + s.length + 1)
              (AT_CMD_PREFIX ++ [48, 48, 48, 48] ++ s ++ [59]
                ++ b.filter (fun c => c != 10)).length
      ∧ (env.mutex_get = cy_rslt_t.CY_RSLT_SUCCESS →
          st0.output_buffer.length = AT_CMD_PARSER_BUFFER_SIZE →
          ∃ evs : List Event, (feed env st0 chunks).1.trace = st0.trace ++ evs
            ∧ ∀ text ∈ revalidation_texts,
                Event.write (response_frame 83 0 (sync_payload 1 (some text))) ∉ evs)) := by
  have hM : AT_CMD_MAX_SIZE = 6000 := rfl
  constructor
  · intro hj hb1 hb2 hcap
    have hfeed := feed_explicit env st0 h g s b chunks hg hs hsd hb1 hb2 hne hj hcap
    have hv := digits_value_pad4 b.length hb2
    have hF : (explicit_frame s b).head? = some 65 := by simp [explicit_frame, AT_CMD_PREFIX]
    obtain ⟨r1, r2⟩ := full_revalidates st0 (b.length / 1000 % 10 + 48)
      (b.length / 100 % 10 + 48) (b.length / 10 % 10 + 48) (b.length % 10 + 48) s (b ++ [59])
      (explicit_frame s b).length (all_digits_pad4 b.length) hsd
    rw [← explicit_frame_eq] at r1 r2
    rw [← pad4, hv] at r2
    refine ⟨hfeed, r1, r2, ?_, ?_⟩
    · rw [process_of_revalidates env _ _ b.length s r1 r2, digits_value_eq s hsd]
      rfl
    · intro hm ho
      by_cases hsz : b.length ≤ AT_CMD_MAX_SIZE
      · obtain ⟨t1, _, _⟩ := feed_explicit_spec env st0 h hm ho g s b chunks hg hs hsd hb1 hsz
          hne hj hcap
        refine ⟨_, by rw [t1, List.append_assoc], ?_⟩
        exact no_revalidation_response_dispatch env _ _ _ _ _ _ _ hF
      · obtain ⟨t1, _, _⟩ := feed_explicit_invalid_size env st0 h hm ho g s b chunks hg hs hsd
          (by omega) hb2 hne hj hcap
        refine ⟨_, by rw [t1, List.append_assoc], ?_⟩
        exact no_revalidation_response_size _ _ hF
  · intro hj hb hcap
    have hfeed := feed_implicit env st0 h g s b chunks hg hs hsd hb hne hj hcap
    have hE : AT_CMD_PREFIX ++ [48, 48, 48, 48] ++ s ++ [59] ++ b.filter (fun c => c != 10)
        = [65, 84, 43, 48, 48, 48, 48] ++ s ++ 59 :: b.filter (fun c => c != 10) := by
      simp [AT_CMD_PREFIX]
    have hF : (AT_CMD_PREFIX ++ [48, 48, 48, 48] ++ s ++ [59]
        ++ b.filter (fun c => c != 10)).head? = some 65 := by simp [AT_CMD_PREFIX]
    obtain ⟨r1, r2⟩ := full_revalidates st0 48 48 48 48 s (b.filter (fun c => c != 10)) 0
      (by intro c hc; simp at hc; subst hc; decide) hsd
    rw [← hE] at r1 r2
    have hz : digits_value 0 [48, 48, 48, 48] = 0 := by decide
    rw [hz] at r2
    refine ⟨hfeed, r1, r2, ?_, ?_⟩
    · rw [process_of_revalidates env _ _ 0 s r1 r2, digits_value_eq s hsd,
        if_neg (by omega)]
      rfl
    · intro hm ho
      obtain ⟨payload, t1, _⟩ := feed_implicit_spec env st0 h hm ho g s b chunks hg hs hsd hb
        hne hj hcap
      refine ⟨_, by rw [t1, List.append_assoc], ?_⟩
      exact no_revalidation_response_dispatch env _ _ _ _ _ _ _ hF

/-- C31 at the registry with `ECHO` and `PING`: the explicit-mode frame
`AT+00047;PING;` after the noise `xx` in two chunks, and the implicit-mode frame
`AT+00007;PING`. -/
theorem C31_header_revalidation_redundant_witness :
    Fresh demo_state
    ∧ (revalidates
          (processed demo_state (explicit_frame [55] (bytes "PING"))
            (explicit_frame [55] (bytes "PING")).length)
          (explicit_frame [55] (bytes "PING")).length [55]
      ∧ process_size
          (processed demo_state (explicit_frame [55] (bytes "PING"))
            (explicit_frame [55] (bytes "PING")).length)
          AT_CMD_SIZE_CHARS 0 0 = some (bytes "PING").length)
    ∧ (∃ evs : List Event,
        (feed env_ok demo_state [bytes "xxAT+0004", bytes "7;PING;"]).1.trace
          = demo_state.trace ++ evs
        ∧ ∀ text ∈ revalidation_texts,
            Event.write (response_frame 83 0 (sync_payload 1 (some text))) ∉ evs)
    ∧ (feed env_ok demo_state [bytes "AT+00007;PING\r"]
        = completed env_ok demo_state
            (AT_CMD_PREFIX ++ [48, 48, 48, 48] ++ [55] ++ [59]
              ++ (bytes "PING").filter (fun c => c != 10)) 0)
    ∧ (feed env_ok demo_state [bytes "xxAT+0004", bytes "7;PING;"]).1.trace
        = [Event.dispatch 7 4 (bytes "PING"), Event.callback 200 2 7 0 [],
           Event.queue_put { cmd_id := 2, serial := 7 }] :=
  have ht := (C31_header_revalidation_redundant env_ok demo_state demo_state_fresh (bytes "xx")
    [55] (bytes "PING") [bytes "xxAT+0004", bytes "7;PING;"] (by decide) (by decide)
    (by decide) (by decide)).1 (by decide) (by decide) (by decide) (by decide)
  ⟨demo_state_fresh, ⟨ht.2.1, ht.2.2.1⟩,
    ht.2.2.2.2 rfl (g_cmd_parser_0_sound demo_tables false).out_len,
    ((C31_header_revalidation_redundant env_ok demo_state demo_state_fresh []
      [55] (bytes "PING") [bytes "AT+00007;PING\r"] (by decide) (by decide)
      (by decide) (by decide)).2 (by decide) (by decide) (by decide)).1,
    by decide⟩

end AtCmdParser
